import Mathlib

/-!
# Onyx semantic pass: type checker

A shallow embedding of `src/src/onyxchecker.c` and theorems about it.

The C code works on a mutable AST reached through pointers.  The embedding keeps
that shape: AST nodes live in a store (`SemState.nodes`), a node pointer is an
index into the store (`none` is `NULL`), and every C function becomes a function
from a store to a new store.  A result of `none` means that the C function does
not return normally from that store (a null or dangling pointer is dereferenced,
an `assert` fires, or the recursion budget `fuel` is used up).  Return values of
`b32` functions are kept as numbers: `0` is success, `1` is failure.
-/

namespace Onyx

/-! ## Data model -/

/-- Modelled from the spec: the `AstKind` enumeration is declared in a header that is
not among the sources.  The kinds are the ones the sources name; the type-expression
kinds are the ones bracketed by `Type_Start` and `Type_End`, which is all that
`check_expression` uses of the numbering. -/
inductive AstKind where
  | Error | Package | Use_Package | Function | Overloaded_Function | Block
  | Local | Global | Symbol | Unary_Op | Binary_Op
  | Type_Start | Basic_Type | Pointer_Type | Function_Type | Array_Type | Struct_Type | Type_End
  | Param | Argument | Call | Intrinsic_Call | Return
  | Address_Of | Dereference | Array_Access | Field_Access | Size_Of
  | NumLit | StrLit | If | For | While | Break | Continue
  deriving DecidableEq, Repr

/-- Modelled from the spec: the `BinaryOp` enumeration is declared in a header that is
not among the sources.  Arithmetic operators come first, then the comparison operators
`Equal` .. `Greater_Equal`, then the assignment operators. -/
inductive BinaryOp where
  | Add | Minus | Multiply | Divide | Modulus
  | Equal | Not_Equal | Less | Less_Equal | Greater | Greater_Equal
  | Assign | Assign_Add | Assign_Minus | Assign_Multiply | Assign_Divide | Assign_Modulus
  deriving DecidableEq, Repr

/-- Modelled from the spec: the `UnaryOp` enumeration (only `Unary_Op_Cast` is named in
the sources). -/
inductive UnaryOp where
  | Negate | Not | Cast
  deriving DecidableEq, Repr

/-- Modelled from the spec: kinds of the `Type` union (header not among the sources). -/
inductive TypeKind where
  | Invalid | Basic | Pointer | Function | Struct | Array
  deriving DecidableEq, Repr

/-- Modelled from the spec: indices of the `basic_types` table. -/
inductive BasicKind where
  | Void | Bool | I8 | U8 | I16 | U16 | I32 | U32 | I64 | U64 | F32 | F64 | Rawptr
  deriving DecidableEq, Repr

/-- The `OnyxIntrinsic` enumerators that `check_call` assigns. -/
inductive OnyxIntrinsic where
  | UNDEFINED
  | MEMORY_SIZE | MEMORY_GROW
  | I32_CLZ | I32_CTZ | I32_POPCNT | I32_AND | I32_OR | I32_XOR
  | I32_SHL | I32_SLR | I32_SAR | I32_ROTL | I32_ROTR
  | I64_CLZ | I64_CTZ | I64_POPCNT | I64_AND | I64_OR | I64_XOR
  | I64_SHL | I64_SLR | I64_SAR | I64_ROTL | I64_ROTR
  | F32_ABS | F32_CEIL | F32_FLOOR | F32_TRUNC | F32_NEAREST | F32_SQRT
  | F32_MIN | F32_MAX | F32_COPYSIGN
  | F64_ABS | F64_CEIL | F64_FLOOR | F64_TRUNC | F64_NEAREST | F64_SQRT
  | F64_MIN | F64_MAX | F64_COPYSIGN
  deriving DecidableEq, Repr

/-- Message kinds passed to `onyx_message_add`. -/
inductive MsgType where
  | Literal | Unresolved_Symbol | Unresolved_Type | Call_Non_Function
  | Function_Param_Mismatch | Function_Return_Mismatch | Binop_Mismatch
  | Not_Lval | Assign_Const
  deriving DecidableEq, Repr

/-- Entity kinds of the program's entity list. -/
inductive EntityType where
  | Unknown | Use_Package | Function | Overloaded_Function | Global | Expression
  | Struct | String_Literal
  deriving DecidableEq, Repr

/-- A pointer to an AST node: an index into the node store, `none` for `NULL`. -/
abbrev Ptr := Option Nat

/-- A pointer to a `Type`: the address of the type, `none` for `NULL`. -/
abbrev TypePtr := Option Nat

/-- A source token: `text` is the token's text (its `length` characters), `pos` its
file position. -/
structure OnyxToken where
  text : String := ""
  pos : Nat := 0
  deriving DecidableEq, Repr

/-- One entry of the message log: the arguments of one `onyx_message_add` call. -/
structure OnyxMessage where
  type : MsgType
  pos : Nat
  args : List String
  deriving DecidableEq, Repr

/-- An AST node.  The C sources cast between node structs that share a header
(`kind`, `flags`, `token`, `next`, and for typed nodes `type_node`, `type`); the
record holds the header and the fields of every node struct that the checker and
symbol resolution read or write (`end_` and `alias_` are the C fields `end` and
`alias`).  A freshly allocated node is all zero, which is the default value of every
field. -/
structure AstNode where
  kind : AstKind := AstKind.Error
  flags : Nat := 0
  token : OnyxToken := {}
  next : Ptr := none
  type_node : Ptr := none
  type : TypePtr := none
  -- AstBinaryOp
  operation : BinaryOp := BinaryOp.Add
  left : Ptr := none
  right : Ptr := none
  -- AstUnaryOp (operation), AstAddressOf, AstDereference, AstReturn, AstArrayAccess (expr)
  unary_operation : UnaryOp := UnaryOp.Negate
  expr : Ptr := none
  -- AstArrayAccess
  addr : Ptr := none
  elem_size : Nat := 0
  -- AstArgument
  value : Ptr := none
  -- AstCall, AstIntrinsicCall
  arguments : Ptr := none
  arg_count : Nat := 0
  callee : Ptr := none
  intrinsic : OnyxIntrinsic := OnyxIntrinsic.UNDEFINED
  -- AstIf, AstWhile, AstFor
  cond : Ptr := none
  true_stmt : Ptr := none
  false_stmt : Ptr := none
  stmt : Ptr := none
  start : Ptr := none
  end_ : Ptr := none
  step : Ptr := none
  -- AstBlock
  body : Ptr := none
  scope : Option Nat := none
  -- AstFunction, AstGlobal
  params : Ptr := none
  exported_name : Option OnyxToken := none
  intrinsic_name : Option OnyxToken := none
  -- AstOverloadedFunction
  overloads : List Ptr := []
  -- AstFunction (the `locals` array), AstFor
  locals : List Ptr := []
  var : Ptr := none
  -- AstSizeOf
  so_type : Ptr := none
  -- AstPointerType, AstArrayType
  elem : Ptr := none
  count_expr : Ptr := none
  -- AstFunctionType (`param_types` is the array `params`)
  return_type : Ptr := none
  param_count : Nat := 0
  param_types : List Ptr := []
  -- AstStructType
  members : List Ptr := []
  -- AstPackage (a `Package`), AstUsePackage (an `AstPackage` node)
  package : Option Nat := none
  alias_ : Option OnyxToken := none
  only : Option (List OnyxToken) := none
  deriving DecidableEq, Repr

/-- A scope: the values of its symbol table in iteration order, and its parent. -/
structure Scope where
  parent : Option Nat := none
  symbols : List (String × Ptr) := []
  deriving DecidableEq, Repr

/-- One entity of the program.  The C union members `function`,
`overloaded_function`, `global` and `expr` share storage: `node`. -/
structure Entity where
  type : EntityType
  node : Ptr
  deriving DecidableEq, Repr

/-- The counters of `ProgramInfo` that the checker updates, and the entity list. -/
structure ProgramInfo where
  entities : List Entity := []
  foreign_func_count : Nat := 0
  foreign_global_count : Nat := 0
  deriving DecidableEq, Repr

/-- The state the checker runs on: the node store, the scope store, the message
log (oldest message first) and `semstate.expected_return_type`. -/
structure SemState where
  nodes : List AstNode := []
  scopes : List Scope := []
  msgs : List OnyxMessage := []
  expected_return_type : TypePtr := none
  deriving DecidableEq, Repr

/-- What the checker uses from the rest of the compiler (type builder, type table,
utilities, flag constants), none of which is among the sources.  Types are
addressed by number; the accessors `Type_kind` .. `Function_return_type` read the
fields of the `Type` stored at an address (`Function_params t i` is `params[i]`).
The checker never writes to a type expression, so the type that
`type_build_from_ast` builds is taken as a function of the `type_node` handle. -/
structure Env where
  types_are_compatible : TypePtr → TypePtr → Bool
  type_build_from_ast : Ptr → TypePtr
  type_is_pointer : TypePtr → Bool
  type_is_bool : TypePtr → Bool
  type_make_pointer : TypePtr → TypePtr
  type_get_name : TypePtr → String
  is_lval : AstNode → Bool
  Type_kind : Nat → TypeKind
  Basic_size : Nat → Nat
  Basic_flags : Nat → Nat
  Pointer_elem : Nat → TypePtr
  Function_params : Nat → Nat → TypePtr
  Function_param_count : Nat → Nat
  Function_return_type : Nat → TypePtr
  basic_types : BasicKind → Nat
  Ast_Flag_Const : Nat
  Ast_Flag_Intrinsic : Nat
  Ast_Flag_Exported : Nat
  Ast_Flag_Foreign : Nat
  Ast_Flag_Inline : Nat
  Ast_Flag_Expr_Ignored : Nat
  Ast_Kind_Foreign : Nat
  Basic_Flag_Integer : Nat

/-- Read the node at an address. -/
def SemState.node (s : SemState) (p : Nat) : Option AstNode := s.nodes[p]?

/-- Write the node at an address. -/
def SemState.setNode (s : SemState) (p : Nat) (n : AstNode) : SemState :=
  { s with nodes := s.nodes.set p n }

/-- Read the scope at an address. -/
def SemState.getScope (s : SemState) (p : Nat) : Option Scope := s.scopes[p]?

/-- The effect of `onyx_message_add`: the message is appended to the log. -/
def onyx_message_add (s : SemState) (type : MsgType) (pos : Nat) (args : List String) :
    SemState :=
  { s with msgs := s.msgs ++ [⟨type, pos, args⟩] }

/-- The effect of `onyx_ast_node_new`: a zeroed node of the given kind is allocated at
a fresh address. -/
def onyx_ast_node_new (s : SemState) (kind : AstKind) : Nat × SemState :=
  (s.nodes.length, { s with nodes := s.nodes ++ [{ kind := kind }] })

/-- Modelled from the spec: `binop_is_assignment` is defined outside the sources; the
assignment operators are plain `Assign` and the compound `Assign_Add` ..
`Assign_Modulus`. -/
def binop_is_assignment (op : BinaryOp) : Bool :=
  decide (BinaryOp.Assign.toCtorIdx ≤ op.toCtorIdx ∧
    op.toCtorIdx ≤ BinaryOp.Assign_Modulus.toCtorIdx)

/-! ## The checker -/

/-- C `fill_in_type`. -/
def fill_in_type (E : Env) (node : Nat) (s : SemState) : Option SemState :=
  match s.node node with
  | none => none
  | some n =>
    if n.type = none then
      some (s.setNode node { n with type := E.type_build_from_ast n.type_node })
    else some s

/-- The `while (arg != NULL)` loop of `match_overloaded_function`: `true` when the
loop runs to the end of the argument chain, `false` on `goto no_match`.  `i` is how
far `param_type` has been advanced. -/
def match_overload_arguments (E : Env) (ol_type : Nat) :
    Nat → Ptr → Nat → SemState → Option (Bool × SemState)
  | 0, _, _, _ => none
  | _ + 1, none, _, s => some (true, s)
  | fuel + 1, some arg, i, s =>
    match fill_in_type E arg s with
    | none => none
    | some s1 =>
      match s1.node arg with
      | none => none
      | some a =>
        if !E.types_are_compatible (E.Function_params ol_type i) a.type then
          some (false, s1)
        else match_overload_arguments E ol_type fuel a.next (i + 1) s1

/-- The `bh_arr_each` loop of `match_overloaded_function` over the overloads not yet
tried, and the code after the loop. -/
def match_overloads (E : Env) (fuel : Nat) (call : Nat) :
    List Ptr → SemState → Option (Ptr × SemState)
  | [], s =>
    match s.node call with
    | none => none
    | some c =>
      some (none, onyx_message_add s MsgType.Literal c.token.pos
        ["unable to match overloaded function"])
  | none :: _, _ => none
  | some overload :: rest, s =>
    match fill_in_type E overload s with
    | none => none
    | some s1 =>
      match s1.node overload, s1.node call with
      | some o, some c =>
        match o.type with
        | none => none
        | some ol_type =>
          if E.Function_param_count ol_type ≠ c.arg_count then
            match_overloads E fuel call rest s1
          else
            match match_overload_arguments E ol_type fuel c.arguments 0 s1 with
            | none => none
            | some (true, s2) => some (some overload, s2)
            | some (false, s2) => match_overloads E fuel call rest s2
      | _, _ => none

/-- C `match_overloaded_function`. -/
def match_overloaded_function (E : Env) (fuel : Nat) (call ofunc : Nat) (s : SemState) :
    Option (Ptr × SemState) :=
  match s.node ofunc with
  | none => none
  | some f => match_overloads E fuel call f.overloads s

/-- The chain of `strcmp` tests of `check_call` on the intrinsic name. -/
def intrinsic_of_name (intr_name : String) : OnyxIntrinsic :=
  if intr_name = "memory_size" then OnyxIntrinsic.MEMORY_SIZE
  else if intr_name = "memory_grow" then OnyxIntrinsic.MEMORY_GROW
  else if intr_name = "clz_i32" then OnyxIntrinsic.I32_CLZ
  else if intr_name = "ctz_i32" then OnyxIntrinsic.I32_CTZ
  else if intr_name = "popcnt_i32" then OnyxIntrinsic.I32_POPCNT
  else if intr_name = "and_i32" then OnyxIntrinsic.I32_AND
  else if intr_name = "or_i32" then OnyxIntrinsic.I32_OR
  else if intr_name = "xor_i32" then OnyxIntrinsic.I32_XOR
  else if intr_name = "shl_i32" then OnyxIntrinsic.I32_SHL
  else if intr_name = "slr_i32" then OnyxIntrinsic.I32_SLR
  else if intr_name = "sar_i32" then OnyxIntrinsic.I32_SAR
  else if intr_name = "rotl_i32" then OnyxIntrinsic.I32_ROTL
  else if intr_name = "rotr_i32" then OnyxIntrinsic.I32_ROTR
  else if intr_name = "clz_i64" then OnyxIntrinsic.I64_CLZ
  else if intr_name = "ctz_i64" then OnyxIntrinsic.I64_CTZ
  else if intr_name = "popcnt_i64" then OnyxIntrinsic.I64_POPCNT
  else if intr_name = "and_i64" then OnyxIntrinsic.I64_AND
  else if intr_name = "or_i64" then OnyxIntrinsic.I64_OR
  else if intr_name = "xor_i64" then OnyxIntrinsic.I64_XOR
  else if intr_name = "shl_i64" then OnyxIntrinsic.I64_SHL
  else if intr_name = "slr_i64" then OnyxIntrinsic.I64_SLR
  else if intr_name = "sar_i64" then OnyxIntrinsic.I64_SAR
  else if intr_name = "rotl_i64" then OnyxIntrinsic.I64_ROTL
  else if intr_name = "rotr_i64" then OnyxIntrinsic.I64_ROTR
  else if intr_name = "abs_f32" then OnyxIntrinsic.F32_ABS
  else if intr_name = "ceil_f32" then OnyxIntrinsic.F32_CEIL
  else if intr_name = "floor_f32" then OnyxIntrinsic.F32_FLOOR
  else if intr_name = "trunc_f32" then OnyxIntrinsic.F32_TRUNC
  else if intr_name = "nearest_f32" then OnyxIntrinsic.F32_NEAREST
  else if intr_name = "sqrt_f32" then OnyxIntrinsic.F32_SQRT
  else if intr_name = "min_f32" then OnyxIntrinsic.F32_MIN
  else if intr_name = "max_f32" then OnyxIntrinsic.F32_MAX
  else if intr_name = "copysign_f32" then OnyxIntrinsic.F32_COPYSIGN
  else if intr_name = "abs_f64" then OnyxIntrinsic.F64_ABS
  else if intr_name = "ceil_f64" then OnyxIntrinsic.F64_CEIL
  else if intr_name = "floor_f64" then OnyxIntrinsic.F64_FLOOR
  else if intr_name = "trunc_f64" then OnyxIntrinsic.F64_TRUNC
  else if intr_name = "nearest_f64" then OnyxIntrinsic.F64_NEAREST
  else if intr_name = "sqrt_f64" then OnyxIntrinsic.F64_SQRT
  else if intr_name = "min_f64" then OnyxIntrinsic.F64_MIN
  else if intr_name = "max_f64" then OnyxIntrinsic.F64_MAX
  else if intr_name = "copysign_f64" then OnyxIntrinsic.F64_COPYSIGN
  else OnyxIntrinsic.UNDEFINED

/-- The type of `check_expression` and `check_statement`: a node address and a state
go to a return value and a new state. -/
abbrev Checker := Nat → SemState → Option (Nat × SemState)

/-- The C idiom `if (check(...)) return 1;` followed by the rest of the function:
when the check returns non-zero the function returns `1`, otherwise it goes on with
`rest` in the state the check left. -/
def orReturn (check : Option (Nat × SemState)) (rest : SemState → Option (Nat × SemState)) :
    Option (Nat × SemState) :=
  match check with
  | none => none
  | some (rv, s1) => if rv ≠ 0 then some (1, s1) else rest s1

/-- The C idiom `if (p) check(p)`: a `NULL` child is not checked. -/
def check_optional (check : Checker) (p : Ptr) (s : SemState) : Option (Nat × SemState) :=
  match p with
  | some a => check a s
  | none => some (0, s)

/-- Read through a node pointer (`NULL` cannot be read). -/
def SemState.deref (s : SemState) (p : Ptr) : Option AstNode :=
  match p with
  | none => none
  | some a => s.node a

/-- The `kind > Ast_Kind_Type_Start && kind < Ast_Kind_Type_End` test. -/
def kind_is_type (k : AstKind) : Bool :=
  decide (AstKind.Type_Start.toCtorIdx < k.toCtorIdx ∧
    k.toCtorIdx < AstKind.Type_End.toCtorIdx)

/-- The `operation >= Binary_Op_Equal && operation <= Binary_Op_Greater_Equal` test. -/
def binop_is_compare (op : BinaryOp) : Bool :=
  decide (BinaryOp.Equal.toCtorIdx ≤ op.toCtorIdx ∧
    op.toCtorIdx ≤ BinaryOp.Greater_Equal.toCtorIdx)

/-- The operation given to the node that `check_binaryop` builds for a compound
assignment.  The node is allocated zeroed, so an operation that matches none of the
five tests is left at the zero enumerator. -/
def compound_operation (op : BinaryOp) : BinaryOp :=
  if op = BinaryOp.Assign_Add then BinaryOp.Add
  else if op = BinaryOp.Assign_Minus then BinaryOp.Minus
  else if op = BinaryOp.Assign_Multiply then BinaryOp.Multiply
  else if op = BinaryOp.Assign_Divide then BinaryOp.Divide
  else if op = BinaryOp.Assign_Modulus then BinaryOp.Modulus
  else BinaryOp.Add

/-- Lines 292-344 of `check_binaryop`: the assignment branch and the pointer test.
The result is `1` with the state at an early `return 1`, and `0` with the state in
which the function goes on to line 346. -/
def check_binaryop_assignment (E : Env) (binop : Nat) (s : SemState) :
    Option (Nat × SemState) := do
  let b ← s.node binop
  if binop_is_assignment b.operation then
    let lp ← b.left
    let l ← s.node lp
    if !E.is_lval l then
      some (1, onyx_message_add s MsgType.Not_Lval l.token.pos [l.token.text])
    else if (l.flags &&& E.Ast_Flag_Const) ≠ 0 ∧ l.type ≠ none then
      some (1, onyx_message_add s MsgType.Assign_Const b.token.pos [l.token.text])
    else if b.operation = BinaryOp.Assign then
      if l.type = none then
        let r ← s.deref b.right
        some (0, s.setNode lp { l with type := r.type })
      else some (0, s)
    else
      let r ← s.deref b.right
      let (binop_node, s1) := onyx_ast_node_new s AstKind.Binary_Op
      let n ← s1.node binop_node
      let s2 := s1.setNode binop_node
        { n with token := b.token, left := b.left, right := b.right, type := r.type,
                 operation := compound_operation b.operation }
      some (0, s2.setNode binop { b with right := some binop_node,
                                         operation := BinaryOp.Assign })
  else
    let l ← s.deref b.left
    let r ← s.deref b.right
    if E.type_is_pointer l.type || E.type_is_pointer r.type then
      some (1, onyx_message_add s MsgType.Literal b.token.pos
        ["binary operations are not supported for pointers (yet)."])
    else some (0, s)

/-- Lines 346-376 of `check_binaryop`: the operand types are known and compatible,
and the node receives its type. -/
def check_binaryop_types (E : Env) (binop : Nat) (s : SemState) :
    Option (Nat × SemState) := do
  let b ← s.node binop
  let l ← s.deref b.left
  if l.type = none then
    some (1, onyx_message_add s MsgType.Unresolved_Type b.token.pos [l.token.text])
  else
  let r ← s.deref b.right
  if r.type = none then
    some (1, onyx_message_add s MsgType.Unresolved_Type b.token.pos [r.token.text])
  else
  if !E.types_are_compatible l.type r.type then
    some (1, onyx_message_add s MsgType.Binop_Mismatch b.token.pos
      [E.type_get_name l.type, E.type_get_name r.type])
  else
  if binop_is_compare b.operation then
    some (0, s.setNode binop { b with type := some (E.basic_types BasicKind.Bool) })
  else
    some (0, s.setNode binop { b with type := l.type })

/-- Lines 292-376 of `check_binaryop`: everything after the two operand checks. -/
def check_binaryop_rest (E : Env) (binop : Nat) (s : SemState) :
    Option (Nat × SemState) := do
  orReturn (check_binaryop_assignment E binop s) fun s1 => do
  check_binaryop_types E binop s1

/-- The formal/actual `while` loop of `check_call` (lines 253-269) and the two arity
tests after it. -/
def check_call_params (E : Env) (call callee : Nat) :
    Nat → Ptr → Ptr → Nat → SemState → Option (Nat × SemState)
  | 0, _, _, _, _ => none
  | fuel + 1, some formal_param, some actual_param, arg_pos, s =>
    match fill_in_type E formal_param s with
    | none => none
    | some s1 =>
      match s1.node formal_param, s1.node actual_param with
      | some f, some a =>
        if !E.types_are_compatible f.type a.type then
          match s1.node callee with
          | none => none
          | some cn =>
            some (1, onyx_message_add s1 MsgType.Function_Param_Mismatch a.token.pos
              [cn.token.text, E.type_get_name f.type, toString arg_pos,
               E.type_get_name a.type])
        else check_call_params E call callee fuel f.next a.next (arg_pos + 1) s1
      | _, _ => none
  | _ + 1, some _, none, _, s =>
    match s.node call with
    | none => none
    | some c =>
      some (1, onyx_message_add s MsgType.Literal c.token.pos
        ["too few arguments to function call"])
  | _ + 1, none, some _, _, s =>
    match s.node call with
    | none => none
    | some c =>
      some (1, onyx_message_add s MsgType.Literal c.token.pos
        ["too many arguments to function call"])
  | _ + 1, none, none, _, s => some (0, s)

/-- Lines 186-245 of `check_call`: the call node becomes an intrinsic call.  The two
`token_toggle_end` calls terminate the name token's text at its length and undo that
again; `OnyxToken.text` is the text of that length. -/
def check_call_intrinsic (call callee : Nat) (s : SemState) : Option SemState := do
  let c ← s.node call
  let s1 := s.setNode call { c with kind := AstKind.Intrinsic_Call, callee := none }
  let cn ← s1.node callee
  let name ← cn.intrinsic_name
  let c1 ← s1.node call
  some (s1.setNode call { c1 with intrinsic := intrinsic_of_name name.text })

/-- Lines 174-285 of `check_call`: the callee is a single declaration. -/
def check_call_callee (E : Env) (fuel : Nat) (call callee : Nat) (s : SemState) :
    Option (Nat × SemState) := do
  let s1 ← fill_in_type E callee s
  let cn ← s1.node callee
  let ct ← cn.type
  if E.Type_kind ct ≠ TypeKind.Function then
    let c ← s1.node call
    some (1, onyx_message_add s1 MsgType.Call_Non_Function c.token.pos [cn.token.text])
  else
  let s2 ← if (cn.flags &&& E.Ast_Flag_Intrinsic) ≠ 0 then check_call_intrinsic call callee s1
           else some s1
  let cn2 ← s2.node callee
  let ct2 ← cn2.type
  let c2 ← s2.node call
  let s3 := s2.setNode call { c2 with type := E.Function_return_type ct2 }
  let cn3 ← s3.node callee
  let c3 ← s3.node call
  check_call_params E call callee fuel cn3.params c3.arguments 0 s3

/-- Lines 167-172 of `check_call`: an overload set as callee is replaced by the overload
that `match_overloaded_function` returns.  The result is the callee the function goes
on with (`NULL` when no overload matches). -/
def check_call_overload (E : Env) (fuel : Nat) (call callee : Nat) (s : SemState) :
    Option (Ptr × SemState) := do
  let cn ← s.node callee
  if cn.kind = AstKind.Overloaded_Function then
    let (m, s1) ← match_overloaded_function E fuel call callee s
    let c ← s1.node call
    some (m, s1.setNode call { c with callee := m })
  else some (some callee, s)

/-- Lines 167-285 of `check_call`: everything after the arguments were checked. -/
def check_call_rest (E : Env) (fuel : Nat) (call callee : Nat) (s : SemState) :
    Option (Nat × SemState) := do
  let (m, s1) ← check_call_overload E fuel call callee s
  match m with
  | none => some (1, s1)
  | some callee1 => check_call_callee E fuel call callee1 s1

/-- The `bh_table_each` loop of `check_block` over the values of the scope's symbol
table. -/
def check_block_symbols : List (String × Ptr) → SemState → Option (Nat × SemState)
  | [], s => some (0, s)
  | (_, value) :: rest, s =>
    match s.deref value with
    | none => none
    | some v =>
      if v.type = none then
        some (1, onyx_message_add s MsgType.Unresolved_Type v.token.pos [v.token.text])
      else check_block_symbols rest s


/-- C `check_return`. -/
def check_return (E : Env) (check_expression : Checker)
    (retnode : Nat) (s : SemState) : Option (Nat × SemState) := do
  let r ← s.node retnode
  match r.expr with
  | some e =>
    orReturn (check_expression e s) fun s1 => do
    let r1 ← s1.node retnode
    let e1 ← s1.deref r1.expr
    if !E.types_are_compatible e1.type s1.expected_return_type then
      some (1, onyx_message_add s1 MsgType.Function_Return_Mismatch e1.token.pos
        [E.type_get_name e1.type, E.type_get_name s1.expected_return_type])
    else some (0, s1)
  | none =>
    let t ← s.expected_return_type
    if E.Basic_size t > 0 then
      some (1, onyx_message_add s MsgType.Literal r.token.pos
        ["returning from non-void function without value"])
    else some (0, s)

/-- C `check_if`. -/
def check_if (E : Env) (check_expression : Checker) (check_statement : Checker)
    (ifnode : Nat) (s : SemState) : Option (Nat × SemState) := do
  let i ← s.node ifnode
  let c ← i.cond
  orReturn (check_expression c s) fun s1 => do
  let i1 ← s1.node ifnode
  let c1 ← s1.deref i1.cond
  if !E.type_is_bool c1.type then
    some (1, onyx_message_add s1 MsgType.Literal c1.token.pos
      ["expected boolean type for condition"])
  else
  orReturn (check_optional check_statement i1.true_stmt s1) fun s2 => do
  let i2 ← s2.node ifnode
  orReturn (check_optional check_statement i2.false_stmt s2) fun s3 => do
  some (0, s3)

/-- C `check_while`. -/
def check_while (E : Env) (check_expression : Checker) (check_statement : Checker)
    (whilenode : Nat) (s : SemState) : Option (Nat × SemState) := do
  let w ← s.node whilenode
  let c ← w.cond
  orReturn (check_expression c s) fun s1 => do
  let w1 ← s1.node whilenode
  let c1 ← s1.deref w1.cond
  if !E.type_is_bool c1.type then
    some (1, onyx_message_add s1 MsgType.Literal c1.token.pos
      ["expected boolean type for condition"])
  else
  let st ← w1.stmt
  check_statement st s1

/-- C `check_for`. -/
def check_for (E : Env) (check_expression : Checker) (check_statement : Checker)
    (fornode : Nat) (s : SemState) : Option (Nat × SemState) := do
  let f ← s.node fornode
  let st ← f.start
  orReturn (check_expression st s) fun s1 => do
  let f1 ← s1.node fornode
  let en ← f1.end_
  orReturn (check_expression en s1) fun s2 => do
  let f2 ← s2.node fornode
  orReturn (check_optional check_expression f2.step s2) fun s3 => do
  let f3 ← s3.node fornode
  let start ← s3.deref f3.start
  if !E.types_are_compatible start.type (some (E.basic_types BasicKind.I32)) then
    some (1, onyx_message_add s3 MsgType.Literal start.token.pos
      ["expected expression of type i32 for start"])
  else
  let end_ ← s3.deref f3.end_
  if !E.types_are_compatible end_.type (some (E.basic_types BasicKind.I32)) then
    some (1, onyx_message_add s3 MsgType.Literal end_.token.pos
      ["expected expression of type i32 for end"])
  else
  let stepBad ← match f3.step with
    | some sp =>
      match s3.node sp with
      | none => none
      | some step =>
        some (!E.types_are_compatible step.type (some (E.basic_types BasicKind.I32)))
    | none => some false
  if stepBad then
    some (1, onyx_message_add s3 MsgType.Literal start.token.pos
      ["expected expression of type i32 for step"])
  else
  let body ← f3.stmt
  orReturn (check_statement body s3) fun s4 => do
  some (0, s4)

/-- The argument loop of `check_call` (lines 161-165). -/
def check_call_arguments (check_expression : Checker) :
    Nat → Ptr → SemState → Option (Nat × SemState)
  | 0, _, _ => none
  | _ + 1, none, s => some (0, s)
  | fuel + 1, some actual_param, s => do
    orReturn (check_expression actual_param s) fun s1 => do
    let a ← s1.node actual_param
    check_call_arguments check_expression fuel a.next s1

/-- C `check_call`. -/
def check_call (E : Env) (fuel : Nat) (check_expression : Checker)
    (call : Nat) (s : SemState) : Option (Nat × SemState) := do
  let c ← s.node call
  let callee ← c.callee
  let cn ← s.node callee
  if cn.kind = AstKind.Symbol then
    some (1, onyx_message_add s MsgType.Unresolved_Symbol cn.token.pos [cn.token.text])
  else
  orReturn (check_call_arguments check_expression fuel c.arguments s) fun s1 => do
  check_call_rest E fuel call callee s1

/-- C `check_binaryop`. -/
def check_binaryop (E : Env) (check_expression : Checker)
    (binop : Nat) (s : SemState) : Option (Nat × SemState) := do
  let b ← s.node binop
  let l ← b.left
  orReturn (check_expression l s) fun s1 => do
  let b1 ← s1.node binop
  let r ← b1.right
  orReturn (check_expression r s1) fun s2 => do
  check_binaryop_rest E binop s2

/-- C `check_address_of`. -/
def check_address_of (E : Env) (check_expression : Checker)
    (aof : Nat) (s : SemState) : Option (Nat × SemState) := do
  let a ← s.node aof
  let e ← a.expr
  orReturn (check_expression e s) fun s1 => do
  let a1 ← s1.node aof
  let e1 ← s1.deref a1.expr
  if e1.kind ≠ AstKind.Array_Access ∧ e1.kind ≠ AstKind.Dereference then
    some (1, onyx_message_add s1 MsgType.Literal a1.token.pos
      ["cannot take the address of this"])
  else
  some (0, s1.setNode aof { a1 with type := E.type_make_pointer e1.type })

/-- C `check_dereference`. -/
def check_dereference (E : Env) (check_expression : Checker)
    (deref : Nat) (s : SemState) : Option (Nat × SemState) := do
  let d ← s.node deref
  let e ← d.expr
  orReturn (check_expression e s) fun s1 => do
  let d1 ← s1.node deref
  let e1 ← s1.deref d1.expr
  if !E.type_is_pointer e1.type then
    some (1, onyx_message_add s1 MsgType.Literal d1.token.pos
      ["cannot dereference non-pointer"])
  else
  if e1.type = some (E.basic_types BasicKind.Rawptr) then
    some (1, onyx_message_add s1 MsgType.Literal d1.token.pos
      ["cannot dereference rawptr"])
  else
  let t ← e1.type
  some (0, s1.setNode deref { d1 with type := E.Pointer_elem t })

/-- C `check_array_access`. -/
def check_array_access (E : Env) (check_expression : Checker)
    (aa : Nat) (s : SemState) : Option (Nat × SemState) := do
  let a ← s.node aa
  let ad ← a.addr
  orReturn (check_expression ad s) fun s1 => do
  let a1 ← s1.node aa
  let e ← a1.expr
  orReturn (check_expression e s1) fun s2 => do
  let a2 ← s2.node aa
  let addr ← s2.deref a2.addr
  if !E.type_is_pointer addr.type then
    some (1, onyx_message_add s2 MsgType.Literal a2.token.pos
      ["expected pointer type for left of array access"])
  else
  let idx ← s2.deref a2.expr
  let it ← idx.type
  if E.Type_kind it ≠ TypeKind.Basic ∨ (E.Basic_flags it &&& E.Basic_Flag_Integer) = 0 then
    some (1, onyx_message_add s2 MsgType.Literal a2.token.pos
      ["expected integer type for index"])
  else
  let at_ ← addr.type
  let elem ← E.Pointer_elem at_
  some (0, s2.setNode aa { a2 with type := some elem, elem_size := E.Basic_size elem })

/-- C `check_statement_chain`. -/
def check_statement_chain (check_statement : Checker) :
    Nat → Ptr → SemState → Option (Nat × SemState)
  | 0, _, _ => none
  | _ + 1, none, s => some (0, s)
  | fuel + 1, some start, s => do
    orReturn (check_statement start s) fun s1 => do
    let n ← s1.node start
    check_statement_chain check_statement fuel n.next s1

/-- C `check_block`. -/
def check_block (fuel : Nat) (check_statement : Checker)
    (block : Nat) (s : SemState) : Option (Nat × SemState) := do
  let b ← s.node block
  orReturn (check_statement_chain check_statement fuel b.body s) fun s1 => do
  let b1 ← s1.node block
  let sp ← b1.scope
  let scope ← s1.getScope sp
  check_block_symbols scope.symbols s1

/-- C `check_expression`.  `DEBUG_HERE` in the default case is a debugger breakpoint
and changes nothing. -/
def check_expression_step (E : Env) (fuel : Nat) (check_expression : Checker) (check_statement : Checker)
    (expr : Nat) (s : SemState) : Option (Nat × SemState) := do
  let e ← s.node expr
  if kind_is_type e.kind then
    some (1, onyx_message_add s MsgType.Literal 0 ["type used as part of an expression"])
  else
  let s1 ← fill_in_type E expr s
  let e1 ← s1.node expr
  match e1.kind with
  | AstKind.Binary_Op => check_binaryop E check_expression expr s1
  | AstKind.Unary_Op =>
    let operand ← e1.expr
    let (retval, s2) ← check_expression operand s1
    let u ← s2.node expr
    if u.unary_operation ≠ UnaryOp.Cast then
      let o ← s2.deref u.expr
      some (retval, s2.setNode expr { u with type := o.type })
    else some (retval, s2)
  | AstKind.Call => check_call E fuel check_expression expr s1
  | AstKind.Block => check_block fuel check_statement expr s1
  | AstKind.Symbol =>
    some (1, onyx_message_add s1 MsgType.Unresolved_Symbol e1.token.pos [e1.token.text])
  | AstKind.Param =>
    if e1.type = none then
      some (1, onyx_message_add s1 MsgType.Literal e1.token.pos
        ["local variable with unknown type"])
    else some (0, s1)
  | AstKind.Local => some (0, s1)
  | AstKind.Address_Of => check_address_of E check_expression expr s1
  | AstKind.Dereference => check_dereference E check_expression expr s1
  | AstKind.Array_Access => check_array_access E check_expression expr s1
  | AstKind.Global =>
    if e1.type = none then
      some (1, onyx_message_add s1 MsgType.Literal e1.token.pos
        ["global with unknown type"])
    else some (0, s1)
  | AstKind.Argument =>
    let v ← e1.value
    let (retval, s2) ← check_expression v s1
    let a ← s2.node expr
    let v2 ← s2.deref a.value
    some (retval, s2.setNode expr { a with type := v2.type })
  | AstKind.NumLit =>
    if e1.type = none then none else some (0, s1)
  | AstKind.StrLit => some (0, s1)
  | AstKind.Function => some (0, s1)
  | AstKind.Overloaded_Function => some (0, s1)
  | _ => some (1, s1)

/-- C `check_statement`. -/
def check_statement_step (E : Env) (fuel : Nat) (check_expression : Checker) (check_statement : Checker)
    (stmt : Nat) (s : SemState) : Option (Nat × SemState) := do
  let n ← s.node stmt
  match n.kind with
  | AstKind.Return => check_return E check_expression stmt s
  | AstKind.If => check_if E check_expression check_statement stmt s
  | AstKind.While => check_while E check_expression check_statement stmt s
  | AstKind.For => check_for E check_expression check_statement stmt s
  | AstKind.Call => check_call E fuel check_expression stmt s
  | AstKind.Block => check_block fuel check_statement stmt s
  | AstKind.Break => some (0, s)
  | AstKind.Continue => some (0, s)
  | _ =>
    check_expression stmt
      (s.setNode stmt { n with flags := n.flags ||| E.Ast_Flag_Expr_Ignored })

/-- The two mutually recursive entry points `check_expression` and `check_statement`,
with at most `fuel` nested calls. -/
def checkers (E : Env) : Nat → Checker × Checker
  | 0 => (fun _ _ => none, fun _ _ => none)
  | fuel + 1 =>
    (check_expression_step E fuel (checkers E fuel).1 (checkers E fuel).2,
     check_statement_step E fuel (checkers E fuel).1 (checkers E fuel).2)

/-- C `check_expression`, with at most `fuel` nested calls. -/
def check_expression (E : Env) (fuel : Nat) : Checker := (checkers E fuel).1

/-- C `check_statement`, with at most `fuel` nested calls. -/
def check_statement (E : Env) (fuel : Nat) : Checker := (checkers E fuel).2

/-- C `check_global`. -/
def check_global (E : Env) (global : Nat) (s : SemState) : Option (Nat × SemState) := do
  let s1 ← fill_in_type E global s
  let g ← s1.node global
  if g.type = none then
    let name ← g.exported_name
    some (1, onyx_message_add s1 MsgType.Unresolved_Type g.token.pos [name.text])
  else some (0, s1)

/-- The parameter loop of `check_function` (lines 580-596). -/
def check_function_params (E : Env) : Nat → Ptr → SemState → Option (Nat × SemState)
  | 0, _, _ => none
  | _ + 1, none, s => some (0, s)
  | fuel + 1, some param, s =>
    match fill_in_type E param s with
    | none => none
    | some s1 =>
      match s1.node param with
      | none => none
      | some p =>
        match p.type with
        | none =>
          some (1, onyx_message_add s1 MsgType.Literal p.token.pos
            ["function parameter types must be known"])
        | some t =>
          if E.Basic_size t = 0 then
            some (1, onyx_message_add s1 MsgType.Literal p.token.pos
              ["function parameters must have non-void types"])
          else check_function_params E fuel p.next s1

/-- Lines 630-635 of `check_function`: the expected return type is set and the body,
if there is one, is checked. -/
def check_function_body (E : Env) (fuel : Nat) (func : Nat) (s : SemState) :
    Option (Nat × SemState) := do
  let f ← s.node func
  let t ← f.type
  let s1 := { s with expected_return_type := E.Function_return_type t }
  match f.body with
  | some body => check_block fuel (check_statement E fuel) body s1
  | none => some (0, s1)

/-- C `check_function`. -/
def check_function (E : Env) (fuel : Nat) (func : Nat) (s : SemState) :
    Option (Nat × SemState) := do
  let f ← s.node func
  orReturn (check_function_params E fuel f.params s) fun s1 => do
  let s2 ← fill_in_type E func s1
  let f2 ← s2.node func
  if (f2.flags &&& E.Ast_Flag_Exported) ≠ 0 then
    if (f2.flags &&& E.Ast_Flag_Foreign) ≠ 0 then
      some (1, onyx_message_add s2 MsgType.Literal f2.token.pos
        ["exporting a foreign function"])
    else if (f2.flags &&& E.Ast_Flag_Intrinsic) ≠ 0 then
      some (1, onyx_message_add s2 MsgType.Literal f2.token.pos
        ["exporting a intrinsic function"])
    else if (f2.flags &&& E.Ast_Flag_Inline) ≠ 0 then
      some (1, onyx_message_add s2 MsgType.Literal f2.token.pos
        ["exporting a inlined function"])
    else if f2.exported_name = none then
      some (1, onyx_message_add s2 MsgType.Literal f2.token.pos
        ["exporting function without a name"])
    else check_function_body E fuel func s2
  else check_function_body E fuel func s2

/-- C `check_overloaded_function`: the loop over the overloads. -/
def check_overloads : List Ptr → SemState → Option (Nat × SemState)
  | [], s => some (0, s)
  | node :: rest, s =>
    match s.deref node with
    | none => none
    | some n =>
      if n.kind = AstKind.Overloaded_Function then
        some (1, onyx_message_add s MsgType.Literal n.token.pos
          ["overload option can not be another overloaded function (yet)"])
      else if n.kind ≠ AstKind.Function then
        some (1, onyx_message_add s MsgType.Literal n.token.pos
          ["overload option not function"])
      else check_overloads rest s

/-- C `check_overloaded_function`. -/
def check_overloaded_function (func : Nat) (s : SemState) : Option (Nat × SemState) :=
  match s.node func with
  | none => none
  | some f => check_overloads f.overloads s

/-- The body of the entity loop of `onyx_type_check` for one entity: the result is
`1` when the loop body executes `return`, `0` when it reaches `break`. -/
def check_entity (E : Env) (fuel : Nat) (entity : Entity) (p : ProgramInfo) (s : SemState) :
    Option (Nat × ProgramInfo × SemState) :=
  match entity.type with
  | EntityType.Function => do
    let fp ← entity.node
    let f ← s.node fp
    let p1 := if (f.flags &&& E.Ast_Kind_Foreign) ≠ 0 then
      { p with foreign_func_count := p.foreign_func_count + 1 } else p
    let (rv, s1) ← check_function E fuel fp s
    some (if rv ≠ 0 then 1 else 0, p1, s1)
  | EntityType.Overloaded_Function => do
    let fp ← entity.node
    let (rv, s1) ← check_overloaded_function fp s
    some (if rv ≠ 0 then 1 else 0, p, s1)
  | EntityType.Global => do
    let gp ← entity.node
    let g ← s.node gp
    let p1 := if (g.flags &&& E.Ast_Kind_Foreign) ≠ 0 then
      { p with foreign_global_count := p.foreign_global_count + 1 } else p
    let (rv, s1) ← check_global E gp s
    some (if rv ≠ 0 then 1 else 0, p1, s1)
  | EntityType.Expression => do
    let ep ← entity.node
    let (rv, s1) ← check_expression E fuel ep s
    some (if rv ≠ 0 then 1 else 0, p, s1)
  | EntityType.String_Literal => some (0, p, s)
  | _ => some (0, p, s)

/-- The entity loop of `onyx_type_check` over the entities not yet visited. -/
def onyx_type_check_entities (E : Env) (fuel : Nat) :
    List Entity → ProgramInfo → SemState → Option (ProgramInfo × SemState)
  | [], p, s => some (p, s)
  | entity :: rest, p, s =>
    match check_entity E fuel entity p s with
    | none => none
    | some (rv, p1, s1) =>
      if rv ≠ 0 then some (p1, s1) else onyx_type_check_entities E fuel rest p1 s1

/-- C `onyx_type_check`. -/
def onyx_type_check (E : Env) (fuel : Nat) (program : ProgramInfo) (s : SemState) :
    Option (ProgramInfo × SemState) :=
  onyx_type_check_entities E fuel program.entities program s

/-! ## Well-formedness predicates used in the statements -/

/-- `isChain s p l`: following `next` from `p` in the store of `s` visits exactly the
addresses `l`, in order, and then reaches `NULL`. -/
def isChain (s : SemState) : Ptr → List Nat → Bool
  | none, [] => true
  | some a, b :: rest =>
    a == b &&
      match s.node a with
      | some n => isChain s n.next rest
      | none => false
  | _, _ => false

/-- The node as `fill_in_type` leaves it. -/
def fillNode (E : Env) (n : AstNode) : AstNode :=
  if n.type = none then { n with type := E.type_build_from_ast n.type_node } else n

/-- The type a node has once `fill_in_type` has run on it. -/
def filledType (E : Env) (s : SemState) (p : Nat) : TypePtr :=
  match s.node p with
  | some n => (fillNode E n).type
  | none => none

/-! ## A sample environment and sample programs -/

/-- A small type table: the basic type of kind `k` lives at address `k.toCtorIdx + 1`,
addresses 21 .. 33 hold the pointer types to the basic types, and addresses 100 .. 103
hold the function types `(i32, i32) -> i32`, `(f32, f32) -> f32`, `(i32) -> i32` and
`() -> void`.  Two types are compatible when they are the same type, a type expression
handle `n` builds the type at address `n`, and l-values are locals, parameters,
globals, dereferences and array accesses. -/
def sampleEnv : Env where
  types_are_compatible := fun a b => decide (a = b)
  type_build_from_ast := fun p => p
  type_is_pointer := fun t =>
    match t with
    | some a => decide (a = 13 ∨ (21 ≤ a ∧ a ≤ 33))
    | none => false
  type_is_bool := fun t => decide (t = some 2)
  type_make_pointer := fun t => t.map (fun a => a + 20)
  type_get_name := fun t =>
    match t with
    | some a => toString a
    | none => "unknown"
  is_lval := fun n =>
    decide (n.kind = AstKind.Local ∨ n.kind = AstKind.Param ∨ n.kind = AstKind.Global ∨
      n.kind = AstKind.Dereference ∨ n.kind = AstKind.Array_Access)
  Type_kind := fun a =>
    if a = 0 then TypeKind.Invalid
    else if a ≤ 13 then TypeKind.Basic
    else if a < 100 then TypeKind.Pointer
    else TypeKind.Function
  Basic_size := fun a =>
    if a = 1 then 0 else if a ≤ 4 then 1 else if a ≤ 6 then 2 else if a ≤ 8 then 4
    else if a ≤ 10 then 8 else if a = 11 then 4 else 8
  Basic_flags := fun a => if 3 ≤ a ∧ a ≤ 10 then 2 else if a = 2 then 1 else 4
  Pointer_elem := fun a => if 21 ≤ a ∧ a ≤ 33 then some (a - 20) else none
  Function_params := fun a i =>
    if a = 100 ∧ i < 2 then some 7
    else if a = 101 ∧ i < 2 then some 11
    else if a = 102 ∧ i < 1 then some 7
    else none
  Function_param_count := fun a =>
    if a = 100 ∨ a = 101 then 2 else if a = 102 then 1 else 0
  Function_return_type := fun a =>
    if a = 100 ∨ a = 102 then some 7 else if a = 101 then some 11 else some 1
  basic_types := fun k => k.toCtorIdx + 1
  Ast_Flag_Exported := 1
  Ast_Flag_Foreign := 2
  Ast_Flag_Const := 4
  Ast_Flag_Inline := 256
  Ast_Flag_Intrinsic := 512
  Ast_Flag_Expr_Ignored := 1024
  Ast_Kind_Foreign := 2
  Basic_Flag_Integer := 2

/-- The address of `i32` in the sample type table. -/
def ty_i32 : Nat := 7

/-- The address of `f32` in the sample type table. -/
def ty_f32 : Nat := 11

/-- The binary operation node of the sample stores: operator `op`, operands at
addresses 1 and 2, token at position 10. -/
def sampleBinop (op : BinaryOp) : AstNode :=
  { kind := AstKind.Binary_Op, operation := op, left := some 1, right := some 2,
    token := { text := "op", pos := 10 } }

/-- The local `x` of the sample stores. -/
def sampleX (xflags : Nat) (xtype : TypePtr) : AstNode :=
  { kind := AstKind.Local, flags := xflags, type := xtype, token := { text := "x", pos := 8 } }

/-- The local `y` of the sample stores. -/
def sampleY (ytype : TypePtr) : AstNode :=
  { kind := AstKind.Local, type := ytype, token := { text := "y", pos := 12 } }

/-- A store holding the binary operation `x op y`: the operation node at address 0,
`x` at address 1 and `y` at address 2. -/
def binopState (op : BinaryOp) (xflags : Nat) (xtype ytype : TypePtr) : SemState :=
  { nodes := [sampleBinop op, sampleX xflags xtype, sampleY ytype] }

/-- `paramsMatch E s t args i`: the parameter types of the function type `t`, from
position `i` on, are compatible with the types of the arguments `args`. -/
def paramsMatch (E : Env) (s : SemState) (t : Nat) : List Nat → Nat → Bool
  | [], _ => true
  | a :: rest, i =>
    E.types_are_compatible (E.Function_params t i) (filledType E s a) &&
      paramsMatch E s t rest (i + 1)

/-- `overloadMatches E s argc args ov`: the overload `ov` has a function type whose
parameter count is `argc` and whose parameter types are compatible, position by
position, with the types of the arguments `args`. -/
def overloadMatches (E : Env) (s : SemState) (argc : Nat) (args : List Nat) (ov : Ptr) : Bool :=
  match ov with
  | none => false
  | some o =>
    match filledType E s o with
    | none => false
    | some t => E.Function_param_count t == argc && paramsMatch E s t args 0

/-- `FillEq E s0 s`: the store of `s` is the store of `s0` except that some nodes
have had their type filled in (`fill_in_type`): every address holds what it held in
`s0`, or that node after `fill_in_type`. -/
def FillEq (E : Env) (s0 s : SemState) : Prop :=
  ∀ p, s.node p = s0.node p ∨ s.node p = (s0.node p).map (fillNode E)

/-- The call `add(1.0, 2.0)` against the overload set `add :: (a: i32, b: i32) -> i32`,
`add :: (a: f32, b: f32) -> f32`.  Address 0 is the call, 1 the overload set, 2 and 3
the two functions, 4 and 5 the arguments (of type `argtype`), 6 .. 9 the parameters
and 10, 11 the two `f32` literals. -/
def addCallState (argtype : TypePtr) : SemState :=
  { nodes := [
      { kind := AstKind.Call, callee := some 1, arguments := some 4, arg_count := 2,
        token := { text := "add", pos := 20 } },
      { kind := AstKind.Overloaded_Function, overloads := [some 2, some 3],
        token := { text := "add", pos := 1 } },
      { kind := AstKind.Function, type_node := some 100, params := some 6,
        token := { text := "add", pos := 2 } },
      { kind := AstKind.Function, type_node := some 101, params := some 8,
        token := { text := "add", pos := 3 } },
      { kind := AstKind.Argument, value := some 10, next := some 5, type := argtype,
        token := { text := "1.0", pos := 21 } },
      { kind := AstKind.Argument, value := some 11, type := argtype,
        token := { text := "2.0", pos := 22 } },
      { kind := AstKind.Param, type_node := some 7, next := some 7,
        token := { text := "a", pos := 2 } },
      { kind := AstKind.Param, type_node := some 7, token := { text := "b", pos := 2 } },
      { kind := AstKind.Param, type_node := some 11, next := some 9,
        token := { text := "a", pos := 3 } },
      { kind := AstKind.Param, type_node := some 11, token := { text := "b", pos := 3 } },
      { kind := AstKind.NumLit, type := some 11, token := { text := "1.0", pos := 21 } },
      { kind := AstKind.NumLit, type := some 11, token := { text := "2.0", pos := 22 } }] }

/-- `SameShape s0 s`: the two stores hold nodes at the same addresses, with the same
`next` links. -/
def SameShape (s0 s : SemState) : Prop :=
  ∀ p, (s.node p).map AstNode.next = (s0.node p).map AstNode.next

/-- The pairs of intrinsic name and enumerator that `check_call` tests for (lines
195-240). -/
def intrinsic_names : List (String × OnyxIntrinsic) :=
  [("memory_size", OnyxIntrinsic.MEMORY_SIZE), ("memory_grow", OnyxIntrinsic.MEMORY_GROW),
   ("clz_i32", OnyxIntrinsic.I32_CLZ), ("ctz_i32", OnyxIntrinsic.I32_CTZ),
   ("popcnt_i32", OnyxIntrinsic.I32_POPCNT), ("and_i32", OnyxIntrinsic.I32_AND),
   ("or_i32", OnyxIntrinsic.I32_OR), ("xor_i32", OnyxIntrinsic.I32_XOR),
   ("shl_i32", OnyxIntrinsic.I32_SHL), ("slr_i32", OnyxIntrinsic.I32_SLR),
   ("sar_i32", OnyxIntrinsic.I32_SAR), ("rotl_i32", OnyxIntrinsic.I32_ROTL),
   ("rotr_i32", OnyxIntrinsic.I32_ROTR),
   ("clz_i64", OnyxIntrinsic.I64_CLZ), ("ctz_i64", OnyxIntrinsic.I64_CTZ),
   ("popcnt_i64", OnyxIntrinsic.I64_POPCNT), ("and_i64", OnyxIntrinsic.I64_AND),
   ("or_i64", OnyxIntrinsic.I64_OR), ("xor_i64", OnyxIntrinsic.I64_XOR),
   ("shl_i64", OnyxIntrinsic.I64_SHL), ("slr_i64", OnyxIntrinsic.I64_SLR),
   ("sar_i64", OnyxIntrinsic.I64_SAR), ("rotl_i64", OnyxIntrinsic.I64_ROTL),
   ("rotr_i64", OnyxIntrinsic.I64_ROTR),
   ("abs_f32", OnyxIntrinsic.F32_ABS), ("ceil_f32", OnyxIntrinsic.F32_CEIL),
   ("floor_f32", OnyxIntrinsic.F32_FLOOR), ("trunc_f32", OnyxIntrinsic.F32_TRUNC),
   ("nearest_f32", OnyxIntrinsic.F32_NEAREST), ("sqrt_f32", OnyxIntrinsic.F32_SQRT),
   ("min_f32", OnyxIntrinsic.F32_MIN), ("max_f32", OnyxIntrinsic.F32_MAX),
   ("copysign_f32", OnyxIntrinsic.F32_COPYSIGN),
   ("abs_f64", OnyxIntrinsic.F64_ABS), ("ceil_f64", OnyxIntrinsic.F64_CEIL),
   ("floor_f64", OnyxIntrinsic.F64_FLOOR), ("trunc_f64", OnyxIntrinsic.F64_TRUNC),
   ("nearest_f64", OnyxIntrinsic.F64_NEAREST), ("sqrt_f64", OnyxIntrinsic.F64_SQRT),
   ("min_f64", OnyxIntrinsic.F64_MIN), ("max_f64", OnyxIntrinsic.F64_MAX),
   ("copysign_f64", OnyxIntrinsic.F64_COPYSIGN)]

/-- The call node as `check_call` leaves it before the parameter loop. -/
def call_rewritten (E : Env) (c cn : AstNode) (t : Nat) : AstNode :=
  if (cn.flags &&& E.Ast_Flag_Intrinsic) ≠ 0 then
    { c with kind := AstKind.Intrinsic_Call, callee := none,
             intrinsic := intrinsic_of_name ((cn.intrinsic_name.getD {}).text),
             type := E.Function_return_type t }
  else { c with type := E.Function_return_type t }

/-- A call `clz(1)` of the intrinsic function `clz :: (a: i32) -> i32` whose intrinsic
name token is `name`.  Address 0 is the call, with callee `callee`; address 1 is an
overload set holding just the function; address 2 is the function, flagged intrinsic;
3 is the argument (of type `argtype`), 4 the `i32` literal and 5 the parameter. -/
def intrinsicCallState (callee : Nat) (name : String) (argtype : TypePtr) : SemState :=
  { nodes := [
      { kind := AstKind.Call, callee := some callee, arguments := some 3, arg_count := 1,
        token := { text := "clz", pos := 30 } },
      { kind := AstKind.Overloaded_Function, overloads := [some 2],
        token := { text := "clz", pos := 1 } },
      { kind := AstKind.Function, flags := 512, type_node := some 102, params := some 5,
        intrinsic_name := some { text := name, pos := 2 },
        token := { text := "clz", pos := 2 } },
      { kind := AstKind.Argument, value := some 4, type := argtype,
        token := { text := "1", pos := 31 } },
      { kind := AstKind.NumLit, type := some 7, token := { text := "1", pos := 31 } },
      { kind := AstKind.Param, type_node := some 7, token := { text := "a", pos := 2 } }] }

/-- The store after overload resolution for the call `clz(1)` through the overload
set, the intrinsic being named `ctz_i64`. -/
def intrinsicOverloadResolved : SemState :=
  ((check_call_overload sampleEnv 3 0 1
    (intrinsicCallState 1 "ctz_i64" (some ty_i32))).getD (none, {})).2

/-- The result of overload resolution for `add(1.0, 2.0)` after its arguments were
checked. -/
def addCallResolved : Ptr × SemState :=
  (match_overloaded_function sampleEnv 3 0 1 (addCallState (some ty_f32))).getD
    (none, addCallState none)

/-- The result of `check_call` for `add(1.0, 2.0)`. -/
def addCallChecked : Nat × SemState :=
  (check_call sampleEnv 3 (check_expression sampleEnv 2) 0 (addCallState none)).getD
    (1, addCallState none)

/-- Every entity of the list checks successfully, one after the other: the states
after the last one. -/
def entities_pass (E : Env) (fuel : Nat) :
    List Entity → ProgramInfo → SemState → Option (ProgramInfo × SemState)
  | [], p, s => some (p, s)
  | entity :: rest, p, s =>
    match check_entity E fuel entity p s with
    | some (0, p1, s1) => entities_pass E fuel rest p1 s1
    | _ => none

/-- A store with two unresolved symbols `a` and `b`, each an expression entity. -/
def twoSymbolsState : SemState :=
  { nodes := [
      { kind := AstKind.Symbol, token := { text := "a", pos := 1 } },
      { kind := AstKind.Symbol, token := { text := "b", pos := 2 } }] }

/-- The program whose entities are the two expressions of `twoSymbolsState`. -/
def twoSymbolsProgram : ProgramInfo :=
  { entities := [⟨EntityType.Expression, some 0⟩, ⟨EntityType.Expression, some 1⟩] }

/-- A global `g : i32` at address 0 followed by the unresolved symbols `a` and `b`. -/
def globalThenSymbolsState : SemState :=
  { nodes := [
      { kind := AstKind.Global, type_node := some 7, token := { text := "g", pos := 1 } },
      { kind := AstKind.Symbol, token := { text := "a", pos := 2 } },
      { kind := AstKind.Symbol, token := { text := "b", pos := 3 } }] }

/-- A store with the expression `sizeof i32` (address 0), a kind of expression that
symbol resolution handles and `check_expression` has no case for. -/
def sizeofState : SemState :=
  { nodes := [{ kind := AstKind.Size_Of, token := { text := "sizeof", pos := 40 } }] }

/-- The call `add(1)` of `add :: (a: i32, b: i32) -> i32`: address 0 is the call, 1 the
function, 2 the argument, 3 the literal, 4 and 5 the parameters. -/
def shortCallState : SemState :=
  { nodes := [
      { kind := AstKind.Call, callee := some 1, arguments := some 2, arg_count := 1,
        token := { text := "add", pos := 20 } },
      { kind := AstKind.Function, type_node := some 100, params := some 4,
        token := { text := "add", pos := 2 } },
      { kind := AstKind.Argument, value := some 3, token := { text := "1", pos := 21 } },
      { kind := AstKind.NumLit, type := some 7, token := { text := "1", pos := 21 } },
      { kind := AstKind.Param, type_node := some 7, next := some 5,
        token := { text := "a", pos := 2 } },
      { kind := AstKind.Param, type_node := some 7, token := { text := "b", pos := 2 } }] }

/-- The store after `check_expression` has checked `x + y` with `x, y : i32`. -/
def binopAddChecked : SemState :=
  ((check_expression sampleEnv 2 0
    (binopState BinaryOp.Add 0 (some ty_i32) (some ty_i32))).getD (1, {})).2

/-- The type pointer stored in the node at address `p` (`NULL` when nothing is stored
there). -/
def nodeType (s : SemState) (p : Nat) : TypePtr :=
  match s.node p with
  | some n => n.type
  | none => none

/-- `formalsAccept E s formals actuals`: position by position, as far as both lists go,
the type of the formal parameter (once filled in) is compatible with the type of the
argument. -/
def formalsAccept (E : Env) (s : SemState) : List Nat → List Nat → Bool
  | f :: fs, a :: as =>
    E.types_are_compatible (filledType E s f) (nodeType s a) && formalsAccept E s fs as
  | _, _ => true

/-- Lines 271-285 of `check_call`, for `n` formal parameters and `m` arguments: what is
returned once the parameter loop has run through the shorter chain. -/
def arityOutcome (s : SemState) (pos n m : Nat) : Nat × SemState :=
  if m < n then
    (1, onyx_message_add s MsgType.Literal pos ["too few arguments to function call"])
  else if n < m then
    (1, onyx_message_add s MsgType.Literal pos ["too many arguments to function call"])
  else (0, s)

/-- The store of `shortCallState` after the argument of `add(1)` has been checked. -/
def shortCallChecked : SemState :=
  ((check_call_arguments (check_expression sampleEnv 2) 3 (some 2) shortCallState).getD
    (1, {})).2

/-- `paramsKnown E s params`: every parameter has, once its type is filled in, a
non-null type whose `Basic.size` is not zero (lines 583-595 of `check_function`). -/
def paramsKnown (E : Env) (s : SemState) (params : List Nat) : Bool :=
  params.all fun p =>
    match filledType E s p with
    | some t => E.Basic_size t != 0
    | none => false

/-- A function without a body, `puts :: (a: i32) -> i32`, with the given flags and
exported name: address 0 is the function, address 1 its parameter. -/
def bodilessFunctionState (flags : Nat) (exported_name : Option OnyxToken) : SemState :=
  { nodes := [
      { kind := AstKind.Function, flags := flags, type_node := some 102, params := some 1,
        exported_name := exported_name, token := { text := "puts", pos := 50 } },
      { kind := AstKind.Param, type_node := some 7, token := { text := "a", pos := 51 } }] }

/-- A block with an empty body whose scope binds `x` to the local at address 1, of type
`xtype`, and `y` to the local at address 2, of type `i32`. -/
def blockState (xtype : TypePtr) : SemState :=
  { nodes := [
      { kind := AstKind.Block, scope := some 0, token := { text := "do", pos := 60 } },
      { kind := AstKind.Local, type := xtype, token := { text := "x", pos := 61 } },
      { kind := AstKind.Local, type := some 7, token := { text := "y", pos := 62 } }],
    scopes := [{ symbols := [("y", some 2), ("x", some 1)] }] }

/-- The expressions `p[i]` (address 0) and `*p` (address 3) for the locals `p` (address
1, of type `ptype`) and `i : i32` (address 2). -/
def arrayAccessState (ptype : TypePtr) : SemState :=
  { nodes := [
      { kind := AstKind.Array_Access, addr := some 1, expr := some 2,
        token := { text := "[", pos := 70 } },
      { kind := AstKind.Local, type := ptype, token := { text := "p", pos := 71 } },
      { kind := AstKind.Local, type := some 7, token := { text := "i", pos := 72 } },
      { kind := AstKind.Dereference, expr := some 1, token := { text := "*", pos := 73 } }] }

/-! ## `collapse_scopes` (onyxsempass.c)

`collapse_scopes` only reads the syntax tree and rewrites the local lists of the
scopes, so the tree is an inductive value here and the lists live in a store. -/

/-- What `collapse_scopes` reads of an `OnyxAstNode`: a block with its scope and its
body (the statements linked through `next`, in order), a while node with its body, an
if node with its `true_block` and `false_block` (`none` for `NULL`; the false block of
an else-if chain is again an if node), or a node of any other kind. -/
inductive OnyxAstNode where
  | Block (scope : Nat) (body : List OnyxAstNode)
  | While (body : OnyxAstNode)
  | If (true_block false_block : Option OnyxAstNode)
  | Other
  deriving Repr

/-- The local lists: `last_local` of every scope and `prev_local` of every local
(`none` for `NULL`), scopes and locals being addressed by number. -/
structure LocalStore where
  last_local : Nat → Option Nat
  prev_local : Nat → Option Nat

/-- The assignment `scope->last_local = v`. -/
def LocalStore.set_last_local (st : LocalStore) (scope : Nat) (v : Option Nat) : LocalStore :=
  { st with last_local := fun x => if x = scope then v else st.last_local x }

/-- The assignment `local->prev_local = v`. -/
def LocalStore.set_prev_local (st : LocalStore) (loc : Nat) (v : Option Nat) : LocalStore :=
  { st with prev_local := fun x => if x = loc then v else st.prev_local x }

/-- Line 50: `while (last_local && last_local->prev_local != NULL) last_local =
last_local->prev_local;` started at a non-null local. -/
def first_local (st : LocalStore) : Nat → Nat → Option Nat
  | 0, _ => none
  | fuel + 1, last_local =>
    match st.prev_local last_local with
    | none => some last_local
    | some prev => first_local st fuel prev

/-- Lines 48-55: the locals of the block's scope are moved in front of the locals of
the function's top scope. -/
def collapse_block_scope (lfuel top_scope scope : Nat) (st : LocalStore) :
    Option LocalStore :=
  if scope = top_scope then some st
  else
    match st.last_local scope with
    | none => some st
    | some last_local =>
      match first_local st lfuel last_local with
      | none => none
      | some first =>
        some (((st.set_prev_local first (st.last_local top_scope)).set_last_local
          top_scope (some last_local)).set_last_local scope none)

/-- Lines 57-74: the walk over the body of a block, which pushes nested blocks, while
bodies and the branches of if statements on the traversal queue. -/
def push_children : List OnyxAstNode → List OnyxAstNode → List OnyxAstNode
  | [], queue => queue
  | walker :: next, queue =>
    match walker with
    | .Block _ _ => push_children next (queue ++ [walker])
    | .While body => push_children next (queue ++ [body])
    | .If true_block false_block =>
      push_children next (queue ++ true_block.toList ++ false_block.toList)
    | .Other => push_children next queue

/-- Lines 35-78: the loop over the traversal queue.  An entry that is not an if node is
used as a block (line 36 casts it); for an entry of another kind the fields read are
not those of a block, and the model gives no result. -/
def collapse_scopes_queue (top_scope lfuel : Nat) :
    Nat → List OnyxAstNode → LocalStore → Option LocalStore
  | 0, _, _ => none
  | _ + 1, [], st => some st
  | fuel + 1, block :: rest, st =>
    match block with
    | .If true_block false_block =>
      collapse_scopes_queue top_scope lfuel fuel
        (rest ++ true_block.toList ++ false_block.toList) st
    | .Block scope body =>
      match collapse_block_scope lfuel top_scope scope st with
      | none => none
      | some st1 => collapse_scopes_queue top_scope lfuel fuel (push_children body rest) st1
    | _ => none

/-- Lines 32-78 for one function, given by its body. -/
def collapse_scopes_function (fuel lfuel : Nat) (body : OnyxAstNode) (st : LocalStore) :
    Option LocalStore :=
  match body with
  | .Block top_scope _ => collapse_scopes_queue top_scope lfuel fuel [body] st
  | _ => none

/-- C `collapse_scopes`: the functions of the program, one after the other. -/
def collapse_scopes (fuel lfuel : Nat) : List OnyxAstNode → LocalStore → Option LocalStore
  | [], st => some st
  | body :: rest, st =>
    match collapse_scopes_function fuel lfuel body st with
    | none => none
    | some st1 => collapse_scopes fuel lfuel rest st1

mutual

/-- The scopes of the blocks reachable from a node through nested blocks, while bodies
and the branches of if nodes (the node itself included when it is a block). -/
def nodeScopes : OnyxAstNode → List Nat
  | .Block scope body => scope :: chainScopes body
  | .While body => nodeScopes body
  | .If true_block false_block => optScopes true_block ++ optScopes false_block
  | .Other => []

/-- The scopes of the blocks reachable from the nodes of a list. -/
def chainScopes : List OnyxAstNode → List Nat
  | [] => []
  | n :: rest => nodeScopes n ++ chainScopes rest

/-- The scopes of the blocks reachable from a node that may be `NULL`. -/
def optScopes : Option OnyxAstNode → List Nat
  | none => []
  | some n => nodeScopes n
end

mutual

/-- The number of nodes of a tree. -/
def nodeSize : OnyxAstNode → Nat
  | .Block _ body => 1 + chainSize body
  | .While body => 1 + nodeSize body
  | .If true_block false_block => 1 + optSize true_block + optSize false_block
  | .Other => 1

/-- The number of nodes of the trees of a list. -/
def chainSize : List OnyxAstNode → Nat
  | [] => 0
  | n :: rest => nodeSize n + chainSize rest

/-- The number of nodes of a tree that may be `NULL`. -/
def optSize : Option OnyxAstNode → Nat
  | none => 0
  | some n => nodeSize n
end

mutual

/-- `entryOk n`: the node can stand in the traversal queue, that is, it is a block or
an if node, and so are the while bodies and the branches below it. -/
def entryOk : OnyxAstNode → Bool
  | .Block _ body => bodyOk body
  | .If true_block false_block => branchOk true_block && branchOk false_block
  | _ => false

/-- `stmtOk n`: what the statement pushes on the queue can stand there. -/
def stmtOk : OnyxAstNode → Bool
  | .Block _ body => bodyOk body
  | .While body => entryOk body
  | .If true_block false_block => branchOk true_block && branchOk false_block
  | .Other => true

/-- `bodyOk body`: every statement of the body is `stmtOk`. -/
def bodyOk : List OnyxAstNode → Bool
  | [] => true
  | n :: rest => stmtOk n && bodyOk rest

/-- `branchOk b`: the branch is `NULL` or can stand in the queue. -/
def branchOk : Option OnyxAstNode → Bool
  | none => true
  | some n => entryOk n
end

/-- `isLocalChain prev p l`: following `prev_local` from `p` visits the locals `l`, in
this order, and ends at `NULL`. -/
def isLocalChain (prev : Nat → Option Nat) : Option Nat → List Nat → Bool
  | none, [] => true
  | some a, b :: rest => a == b && isLocalChain prev (prev a) rest
  | _, _ => false

/-- The state of the local lists while `collapse_scopes` works on the function with top
scope `top`: `l sc` is the local list scope `sc` had at the start, `U` lists the scopes
concerned and `V` the scopes moved so far.  The top scope lists, without repetition,
its own locals and those of the scopes of `V`; the scopes of `V` are empty; every other
scope of `U` still has its list. -/
def CollapseInv (l : Nat → List Nat) (U : List Nat) (top : Nat) (V : List Nat)
    (st : LocalStore) : Prop :=
  (∃ lt, isLocalChain st.prev_local (st.last_local top) lt = true ∧ lt.Nodup ∧
    ∀ x, x ∈ lt ↔ (x ∈ l top ∨ ∃ sc ∈ V, x ∈ l sc)) ∧
  (∀ sc ∈ V, st.last_local sc = none ∧ sc ≠ top ∧ sc ∈ U) ∧
  (∀ sc ∈ U, sc ∉ V → sc ≠ top →
    isLocalChain st.prev_local (st.last_local sc) (l sc) = true)

/-- Whether the node is a block. -/
def isBlock : OnyxAstNode → Bool
  | .Block _ _ => true
  | _ => false

/-- Two functions.  The body of the first has scope 0 and holds a nested block (scope
1) with a while loop (scope 2), and an if statement with an else-if chain (scopes 3, 4
and 5); the body of the second has scope 6 and holds a while loop (scope 7). -/
def sampleFunctions : List OnyxAstNode :=
  [.Block 0 [.Other, .Block 1 [.While (.Block 2 [])],
      .If (some (.Block 3 [])) (some (.If (some (.Block 4 [])) (some (.Block 5 []))))],
   .Block 6 [.While (.Block 7 [.Other])]]

/-- The local lists of the scopes of `sampleFunctions` before `collapse_scopes`: locals
are numbered from 10, and scope 1 lists two locals. -/
def sampleLists (scope : Nat) : List Nat :=
  if scope = 0 then [10] else if scope = 1 then [12, 11] else if scope = 2 then [13]
  else if scope = 4 then [14] else if scope = 5 then [15] else if scope = 7 then [17]
  else []

/-- The store that holds the lists of `sampleLists`. -/
def sampleLocals : LocalStore :=
  { last_local := fun scope => (sampleLists scope).head?
    prev_local := fun loc => if loc = 12 then some 11 else none }

/-! ## Symbol resolution (onyxsymres.c) -/

/-- A `Package`: its scope and its include scope. -/
structure Package where
  scope : Option Nat := none
  include_scope : Option Nat := none
  deriving DecidableEq, Repr

/-- What symbol resolution uses of the utilities (`onyxutils`), which are not among the
sources.  The symbol-table functions read and write scopes and may report a message;
they do not touch the syntax tree, so they are functions of the scope store. -/
structure SymEnv where
  symbol_resolve : List Scope → Option Nat → OnyxToken → Ptr × List OnyxMessage
  symbol_introduce : List Scope → Option Nat → OnyxToken → Ptr → List Scope × List OnyxMessage
  symbol_builtin_introduce : List Scope → Option Nat → String → Ptr → List Scope
  scope_include : List Scope → Option Nat → Option Nat → List Scope
  program_info_package_lookup : String → Option Nat
  node_is_type : AstNode → Bool
  Ast_Flag_Type_Is_Resolved : Nat
  builtin_node : String → Ptr

/-- The state symbol resolution runs on: the stores and message log of `SemState`, and
of `semstate` the current scope, function and package, and the packages of the
program. -/
structure SymresState where
  sem : SemState := {}
  curr_scope : Option Nat := none
  curr_function : Ptr := none
  curr_package : Option Nat := none
  packages : List Package := []
  global_scope : Option Nat := none
  deriving DecidableEq, Repr

/-- Read the node at an address. -/
def SymresState.node (s : SymresState) (p : Nat) : Option AstNode := s.sem.node p

/-- Read through a node pointer. -/
def SymresState.deref (s : SymresState) (p : Ptr) : Option AstNode := s.sem.deref p

/-- Write the node at an address. -/
def SymresState.setNode (s : SymresState) (p : Nat) (n : AstNode) : SymresState :=
  { s with sem := s.sem.setNode p n }

/-- Write the scope at an address. -/
def SymresState.setScope (s : SymresState) (p : Nat) (sc : Scope) : SymresState :=
  { s with sem := { s.sem with scopes := s.sem.scopes.set p sc } }

/-- Append messages to the log. -/
def SymresState.addMsgs (s : SymresState) (m : List OnyxMessage) : SymresState :=
  { s with sem := { s.sem with msgs := s.sem.msgs ++ m } }

/-- `onyx_message_add` on the state of symbol resolution. -/
def SymresState.message (s : SymresState) (type : MsgType) (pos : Nat) (args : List String) :
    SymresState :=
  { s with sem := onyx_message_add s.sem type pos args }

/-- `onyx_ast_node_new` on the state of symbol resolution. -/
def SymresState.new_node (s : SymresState) (kind : AstKind) : Nat × SymresState :=
  ((onyx_ast_node_new s.sem kind).1, { s with sem := (onyx_ast_node_new s.sem kind).2 })

/-- The call `symbol_resolve(scope, token)`. -/
def symbol_resolve (E : SymEnv) (scope : Option Nat) (tkn : OnyxToken) (s : SymresState) :
    Ptr × SymresState :=
  ((E.symbol_resolve s.sem.scopes scope tkn).1,
   s.addMsgs (E.symbol_resolve s.sem.scopes scope tkn).2)

/-- The call `symbol_introduce(scope, token, node)`. -/
def symbol_introduce (E : SymEnv) (scope : Option Nat) (tkn : OnyxToken) (node : Ptr)
    (s : SymresState) : SymresState :=
  { s with sem := { s.sem with
      scopes := (E.symbol_introduce s.sem.scopes scope tkn node).1
      msgs := s.sem.msgs ++ (E.symbol_introduce s.sem.scopes scope tkn node).2 } }

/-- Modelled from the spec: `scope_create` is defined outside the sources; a fresh
scope without symbols, with the given parent, is allocated at a new address. -/
def scope_create (parent : Option Nat) (s : SymresState) : Nat × SymresState :=
  (s.sem.scopes.length,
   { s with sem := { s.sem with scopes := s.sem.scopes ++ [{ parent := parent }] } })

/-- C `scope_enter`. -/
def scope_enter (new_scope : Option Nat) (s : SymresState) : Option SymresState := do
  let sp ← new_scope
  let sc ← s.sem.getScope sp
  let s1 := if sc.parent = none then s.setScope sp { sc with parent := s.curr_scope } else s
  some { s1 with curr_scope := some sp }

/-- C `scope_leave`. -/
def scope_leave (s : SymresState) : Option SymresState := do
  let sp ← s.curr_scope
  let sc ← s.sem.getScope sp
  some { s with curr_scope := sc.parent }

/-- A function that resolves a type expression: C `AstType* f(AstType* type)`. -/
abbrev TypeResolver := Ptr → SymresState → Option (Ptr × SymresState)

/-- A function that resolves the expression a location points to: C `void f(AstTyped**
expr)`.  The argument is the pointer stored in the location, the result is the pointer
the location holds afterwards; the caller writes it back. -/
abbrev Resolver := Nat → SymresState → Option (Ptr × SymresState)

/-- A function that resolves a statement: C `b32 f(AstNode* stmt)`. -/
abbrev StmtResolver := Nat → SymresState → Option (Nat × SymresState)

/-- The locations a `trailer` of `symres_statement_chain` points to: `&call->arguments`,
`&block->body`, or `&node->next`. -/
inductive Trailer where
  | arguments (call : Nat)
  | body (block : Nat)
  | next (node : Nat)
  deriving DecidableEq, Repr

/-- The assignment `*trailer = v`. -/
def Trailer.store (t : Trailer) (v : Ptr) (s : SymresState) : Option SymresState :=
  match t with
  | .arguments call => do
    let c ← s.node call
    some (s.setNode call { c with arguments := v })
  | .body block => do
    let b ← s.node block
    some (s.setNode block { b with body := v })
  | .next node => do
    let n ← s.node node
    some (s.setNode node { n with next := v })

/-- C `symres_field_access`. -/
def symres_field_access (E : SymEnv) (symres_expression : Resolver) (fa : Nat)
    (s : SymresState) : Option (Ptr × SymresState) := do
  let f ← s.node fa
  match f.expr with
  | none => some (some fa, s)
  | some e => do
    let (r, s1) ← symres_expression e s
    let f1 ← s1.node fa
    let s2 := s1.setNode fa { f1 with expr := r }
    match r with
    | none => some (some fa, s2)
    | some e2 => do
      let en ← s2.node e2
      if en.kind = AstKind.Package then do
        let pk ← en.package
        let package ← s2.packages[pk]?
        let f2 ← s2.node fa
        let (n, s3) := symbol_resolve E package.scope f2.token s2
        match n with
        | some _ => some (n, s3)
        | none => some (some fa, s3)
      else some (some fa, s2)

/-- The loop of `symres_type` over the parameter types of a function type: `n` more
rounds, starting at index `i`. -/
def symres_type_params (symres_type : TypeResolver) (ftype : Nat) :
    Nat → Nat → SymresState → Option SymresState
  | 0, _, s => some s
  | n + 1, i, s => do
    let f ← s.node ftype
    let p ← f.param_types[i]?
    let (r, s1) ← symres_type p s
    let f1 ← s1.node ftype
    symres_type_params symres_type ftype n (i + 1)
      (s1.setNode ftype { f1 with param_types := f1.param_types.set i r })

/-- The loop of `symres_type` over the members of a struct type. -/
def symres_type_members (symres_type : TypeResolver) :
    List Ptr → SymresState → Option SymresState
  | [], s => some s
  | member :: rest, s => do
    let m ← member
    let mn ← s.node m
    let (r, s1) ← symres_type mn.type_node s
    let mn1 ← s1.node m
    symres_type_members symres_type rest (s1.setNode m { mn1 with type_node := r })

/-- C `symres_type`.  The macro `fori` is defined outside the sources; with the guard
`param_count > 0` and the bound `param_count - 1` it is taken to run over all the
parameter types.  The final `assert` gives no result. -/
def symres_type_step (E : SymEnv) (symres_type : TypeResolver) (symres_expression : Resolver)
    (type : Ptr) (s : SymresState) : Option (Ptr × SymresState) :=
  match type with
  | none => some (none, s)
  | some t => do
    let n ← s.node t
    match n.kind with
    | AstKind.Symbol => some (symbol_resolve E s.curr_scope n.token s)
    | AstKind.Field_Access => do
      let (field, s1) ← symres_field_access E symres_expression t s
      let fnode ← s1.deref field
      let n1 ← s1.node t
      if !E.node_is_type fnode then
        some (field, s1.message MsgType.Literal n1.token.pos
          ["field access did not result in a type"])
      else some (field, s1)
    | AstKind.Basic_Type => some (type, s)
    | AstKind.Pointer_Type => do
      let (r, s1) ← symres_type n.elem s
      let n1 ← s1.node t
      some (type, s1.setNode t { n1 with elem := r })
    | AstKind.Function_Type => do
      let (r, s1) ← symres_type n.return_type s
      let n1 ← s1.node t
      let s2 := s1.setNode t { n1 with return_type := r }
      if n1.param_count > 0 then do
        let s3 ← symres_type_params symres_type t n1.param_count 0 s2
        some (type, s3)
      else some (type, s2)
    | AstKind.Struct_Type =>
      if (n.flags &&& E.Ast_Flag_Type_Is_Resolved) ≠ 0 then some (type, s)
      else do
        let s1 := s.setNode t { n with flags := n.flags ||| E.Ast_Flag_Type_Is_Resolved }
        let s2 ← symres_type_members symres_type n.members s1
        some (type, s2)
    | AstKind.Array_Type => do
      let s1 ←
        match n.count_expr with
        | some ce => do
          let (r, s1) ← symres_expression ce s
          let n1 ← s1.node t
          some (s1.setNode t { n1 with count_expr := r })
        | none => some s
      let n2 ← s1.node t
      let (r, s2) ← symres_type n2.elem s1
      let n3 ← s2.node t
      some (type, s2.setNode t { n3 with elem := r })
    | _ => none

/-- C `symres_local`. -/
def symres_local (E : SymEnv) (symres_type : TypeResolver) (loc : Nat) (s : SymresState) :
    Option SymresState := do
  let n ← s.node loc
  let (r, s1) ← symres_type n.type_node s
  let n1 ← s1.node loc
  let s2 := s1.setNode loc { n1 with type_node := r }
  let func ← s2.curr_function
  let f ← s2.node func
  let s3 := s2.setNode func { f with locals := f.locals ++ [some loc] }
  let n3 ← s3.node loc
  some (symbol_introduce E s3.curr_scope n3.token (some loc) s3)

/-- C `symres_statement_chain`. -/
def symres_statement_chain (symres_statement : StmtResolver) :
    Nat → Ptr → Trailer → SymresState → Option SymresState
  | 0, _, _, _ => none
  | _ + 1, none, _, s => some s
  | fuel + 1, some walker, trailer, s => do
    let (remove, s1) ← symres_statement walker s
    let w ← s1.node walker
    if remove ≠ 0 then do
      let s2 ← trailer.store w.next s1
      let w2 ← s2.node walker
      symres_statement_chain symres_statement fuel w2.next trailer
        (s2.setNode walker { w2 with next := none })
    else symres_statement_chain symres_statement fuel w.next (Trailer.next walker) s1

/-- The C idiom `symres_expression(&node->field)` for a field that may be read and
written with `get` and `set`. -/
def symres_field (symres_expression : Resolver) (node : Nat) (get : AstNode → Ptr)
    (set : AstNode → Ptr → AstNode) (s : SymresState) : Option SymresState := do
  let n ← s.node node
  let e ← get n
  let (r, s1) ← symres_expression e s
  let n1 ← s1.node node
  some (s1.setNode node (set n1 r))

/-- Lines 157-164 of `symres_call`, for the callee `fa`, a field access on `recv`: the
implicit argument is allocated and put in front of the arguments, and the callee is
replaced by what the field's token resolves to in the current scope. -/
def symres_call_implicit (E : SymEnv) (call : Nat) (fa : AstNode) (recv : Nat)
    (s : SymresState) : Option (Nat × SymresState) := do
  let rn ← s.node recv
  let s1 := (s.new_node AstKind.Argument).2
  let implicit_arg := (s.new_node AstKind.Argument).1
  let ia ← s1.node implicit_arg
  let c1 ← s1.node call
  let s2 := s1.setNode implicit_arg
    { ia with value := some recv, token := rn.token, next := c1.arguments }
  let s3 := (symbol_resolve E s2.curr_scope fa.token s2).2
  let c3 ← s3.node call
  some (implicit_arg, s3.setNode call
    { c3 with callee := (symbol_resolve E s2.curr_scope fa.token s2).1,
              arguments := some implicit_arg, arg_count := c3.arg_count + 1 })

/-- Lines 151-167 of `symres_call`, after the callee was resolved. -/
def symres_call_rest (E : SymEnv) (symres_statement : StmtResolver) (fuel : Nat) (call : Nat)
    (s : SymresState) : Option SymresState := do
  let c ← s.node call
  match c.callee with
  | none => some s
  | some cp => do
    let fa ← s.node cp
    if fa.kind = AstKind.Field_Access then
      match fa.expr with
      | none => some s
      | some recv => do
        let r ← symres_call_implicit E call fa recv s
        symres_statement_chain symres_statement fuel (some r.1) (Trailer.arguments call) r.2
    else symres_statement_chain symres_statement fuel c.arguments (Trailer.arguments call) s

/-- C `symres_call`. -/
def symres_call (E : SymEnv) (symres_expression : Resolver) (symres_statement : StmtResolver)
    (fuel : Nat) (call : Nat) (s : SymresState) : Option SymresState := do
  let s1 ← symres_field symres_expression call AstNode.callee
    (fun n r => { n with callee := r }) s
  symres_call_rest E symres_statement fuel call s1

/-- C `symres_size_of`. -/
def symres_size_of (symres_type : TypeResolver) (so : Nat) (s : SymresState) :
    Option SymresState := do
  let n ← s.node so
  let (r, s1) ← symres_type n.type_node s
  let n1 ← s1.node so
  let s2 := s1.setNode so { n1 with type_node := r }
  let (r2, s3) ← symres_type n1.so_type s2
  let n3 ← s3.node so
  some (s3.setNode so { n3 with so_type := r2 })

/-- C `symres_unaryop`. -/
def symres_unaryop (symres_type : TypeResolver) (symres_expression : Resolver) (unaryop : Nat)
    (s : SymresState) : Option SymresState := do
  let n ← s.node unaryop
  let s1 ←
    if n.unary_operation = UnaryOp.Cast then do
      let (r, s1) ← symres_type n.type_node s
      let n1 ← s1.node unaryop
      some (s1.setNode unaryop { n1 with type_node := r })
    else some s
  let n2 ← s1.node unaryop
  let e ← n2.expr
  let (r, s2) ← symres_expression e s1
  let n3 ← s2.node unaryop
  some (s2.setNode unaryop { n3 with expr := r })

/-- C `symres_block`. -/
def symres_block (symres_statement : StmtResolver) (fuel : Nat) (block : Nat)
    (s : SymresState) : Option SymresState := do
  let b ← s.node block
  let s1 :=
    if b.scope = none then
      (scope_create s.curr_scope s).2.setNode block
        { b with scope := some (scope_create s.curr_scope s).1 }
    else s
  let b1 ← s1.node block
  let s2 ← scope_enter b1.scope s1
  let b2 ← s2.node block
  let s3 ←
    match b2.body with
    | some body => symres_statement_chain symres_statement fuel (some body) (Trailer.body block) s2
    | none => some s2
  scope_leave s3

/-- C `symres_expression`. -/
def symres_expression_step (E : SymEnv) (symres_type : TypeResolver)
    (symres_expression : Resolver) (symres_statement : StmtResolver) (fuel : Nat)
    (expr : Nat) (s : SymresState) : Option (Ptr × SymresState) := do
  let n ← s.node expr
  match n.kind with
  | AstKind.Binary_Op => do
    let l ← n.left
    let (r, s1) ← symres_expression l s
    let n1 ← s1.node expr
    let s2 := s1.setNode expr { n1 with left := r }
    let rt ← n1.right
    let (r2, s3) ← symres_expression rt s2
    let n3 ← s3.node expr
    some (some expr, s3.setNode expr { n3 with right := r2 })
  | AstKind.Unary_Op => do
    let s1 ← symres_unaryop symres_type symres_expression expr s
    some (some expr, s1)
  | AstKind.Call => do
    let s1 ← symres_call E symres_expression symres_statement fuel expr s
    some (some expr, s1)
  | AstKind.Block => do
    let s1 ← symres_block symres_statement fuel expr s
    some (some expr, s1)
  | AstKind.Symbol => some (symbol_resolve E s.curr_scope n.token s)
  | AstKind.Function | AstKind.NumLit | AstKind.StrLit => do
    let (r, s1) ← symres_type n.type_node s
    let n1 ← s1.node expr
    some (some expr, s1.setNode expr { n1 with type_node := r })
  | AstKind.Address_Of | AstKind.Dereference => do
    let e ← n.expr
    let (r, s1) ← symres_expression e s
    let n1 ← s1.node expr
    some (some expr, s1.setNode expr { n1 with expr := r })
  | AstKind.Field_Access => symres_field_access E symres_expression expr s
  | AstKind.Size_Of => do
    let s1 ← symres_size_of symres_type expr s
    some (some expr, s1)
  | AstKind.Array_Access => do
    let a ← n.addr
    let (r, s1) ← symres_expression a s
    let n1 ← s1.node expr
    let s2 := s1.setNode expr { n1 with addr := r }
    let e ← n1.expr
    let (r2, s3) ← symres_expression e s2
    let n3 ← s3.node expr
    some (some expr, s3.setNode expr { n3 with expr := r2 })
  | _ => some (some expr, s)

/-- C `symres_return`. -/
def symres_return (symres_expression : Resolver) (ret : Nat) (s : SymresState) :
    Option SymresState := do
  let n ← s.node ret
  match n.expr with
  | some e => do
    let (r, s1) ← symres_expression e s
    let n1 ← s1.node ret
    some (s1.setNode ret { n1 with expr := r })
  | none => some s

/-- C `symres_if`. -/
def symres_if (symres_expression : Resolver) (symres_statement : StmtResolver) (ifnode : Nat)
    (s : SymresState) : Option SymresState := do
  let n ← s.node ifnode
  let c ← n.cond
  let (r, s1) ← symres_expression c s
  let n1 ← s1.node ifnode
  let s2 := s1.setNode ifnode { n1 with cond := r }
  let s3 ←
    match n1.true_stmt with
    | some t => (symres_statement t s2).map Prod.snd
    | none => some s2
  let n3 ← s3.node ifnode
  match n3.false_stmt with
  | some f => (symres_statement f s3).map Prod.snd
  | none => some s3

/-- C `symres_while`. -/
def symres_while (symres_expression : Resolver) (symres_statement : StmtResolver)
    (whilenode : Nat) (s : SymresState) : Option SymresState := do
  let n ← s.node whilenode
  let c ← n.cond
  let (r, s1) ← symres_expression c s
  let n1 ← s1.node whilenode
  let s2 := s1.setNode whilenode { n1 with cond := r }
  let st ← n1.stmt
  (symres_statement st s2).map Prod.snd

/-- Lines 260-264 of `symres_for`: the scope of the loop is created and entered, and
the loop variable is pushed on the locals of the current function and introduced. -/
def symres_for_enter (E : SymEnv) (fornode : Nat) (s : SymresState) : Option SymresState := do
  let n ← s.node fornode
  let s1 := (scope_create s.curr_scope s).2.setNode fornode
    { n with scope := some (scope_create s.curr_scope s).1 }
  let s2 ← scope_enter (some (scope_create s.curr_scope s).1) s1
  let func ← s2.curr_function
  let f ← s2.node func
  let n2 ← s2.node fornode
  let s3 := s2.setNode func { f with locals := f.locals ++ [n2.var] }
  let var ← s3.deref n2.var
  some (symbol_introduce E s3.curr_scope var.token n2.var s3)

/-- Lines 266-268 of `symres_for`: `start`, `end` and, if there is one, `step`. -/
def symres_for_bounds (symres_expression : Resolver) (fornode : Nat) (s : SymresState) :
    Option SymresState := do
  let s1 ← symres_field symres_expression fornode AstNode.start
    (fun n r => { n with start := r }) s
  let s2 ← symres_field symres_expression fornode AstNode.end_
    (fun n r => { n with end_ := r }) s1
  let n2 ← s2.node fornode
  if n2.step ≠ none then
    symres_field symres_expression fornode AstNode.step (fun n r => { n with step := r }) s2
  else some s2

/-- C `symres_for`. -/
def symres_for (E : SymEnv) (symres_expression : Resolver) (symres_statement : StmtResolver)
    (fornode : Nat) (s : SymresState) : Option SymresState := do
  let s1 ← symres_for_enter E fornode s
  let s2 ← symres_for_bounds symres_expression fornode s1
  let n ← s2.node fornode
  let st ← n.stmt
  let r ← symres_statement st s2
  scope_leave r.2

/-- C `symres_statement`: the result is 1 if the statement should be removed. -/
def symres_statement_step (E : SymEnv) (symres_type : TypeResolver)
    (symres_expression : Resolver) (symres_statement : StmtResolver) (fuel : Nat)
    (stmt : Nat) (s : SymresState) : Option (Nat × SymresState) := do
  let n ← s.node stmt
  match n.kind with
  | AstKind.Local => (symres_local E symres_type stmt s).map fun s1 => (1, s1)
  | AstKind.Return => (symres_return symres_expression stmt s).map fun s1 => (0, s1)
  | AstKind.If => (symres_if symres_expression symres_statement stmt s).map fun s1 => (0, s1)
  | AstKind.While =>
    (symres_while symres_expression symres_statement stmt s).map fun s1 => (0, s1)
  | AstKind.For =>
    (symres_for E symres_expression symres_statement stmt s).map fun s1 => (0, s1)
  | AstKind.Call =>
    (symres_call E symres_expression symres_statement fuel stmt s).map fun s1 => (0, s1)
  | AstKind.Argument =>
    (symres_field symres_expression stmt AstNode.value (fun n r => { n with value := r })
      s).map fun s1 => (0, s1)
  | AstKind.Block => (symres_block symres_statement fuel stmt s).map fun s1 => (0, s1)
  | AstKind.Break => some (0, s)
  | AstKind.Continue => some (0, s)
  | _ => (symres_expression stmt s).map fun r => (0, r.2)

/-- The three mutually recursive entry points `symres_type`, `symres_expression` and
`symres_statement`, with at most `fuel` nested calls. -/
def symres (E : SymEnv) : Nat → TypeResolver × Resolver × StmtResolver
  | 0 => (fun _ _ => none, fun _ _ => none, fun _ _ => none)
  | fuel + 1 =>
    (symres_type_step E (symres E fuel).1 (symres E fuel).2.1,
     symres_expression_step E (symres E fuel).1 (symres E fuel).2.1 (symres E fuel).2.2 fuel,
     symres_statement_step E (symres E fuel).1 (symres E fuel).2.1 (symres E fuel).2.2 fuel)

/-- C `symres_type`, with at most `fuel` nested calls. -/
def symres_type (E : SymEnv) (fuel : Nat) : TypeResolver := (symres E fuel).1

/-- C `symres_expression`, with at most `fuel` nested calls. -/
def symres_expression (E : SymEnv) (fuel : Nat) : Resolver := (symres E fuel).2.1

/-- C `symres_statement`, with at most `fuel` nested calls. -/
def symres_statement (E : SymEnv) (fuel : Nat) : StmtResolver := (symres E fuel).2.2

/-- The loop of `symres_function` over the parameters (lines 327-331). -/
def symres_function_params (E : SymEnv) (symres_type : TypeResolver) :
    Nat → Ptr → SymresState → Option SymresState
  | 0, _, _ => none
  | _ + 1, none, s => some s
  | fuel + 1, some param, s => do
    let p ← s.node param
    let r ← symres_type p.type_node s
    let p1 ← r.2.node param
    let s2 := r.2.setNode param { p1 with type_node := r.1 }
    symres_function_params E symres_type fuel p1.next
      (symbol_introduce E s2.curr_scope p1.token (some param) s2)

/-- Lines 322-335 of `symres_function`: the scope of the function is created if there is
none, and entered; the parameters are introduced and the type expression is resolved. -/
def symres_function_head (E : SymEnv) (symres_type : TypeResolver) (fuel : Nat) (func : Nat)
    (s : SymresState) : Option SymresState := do
  let f ← s.node func
  let s1 :=
    if f.scope = none then
      (scope_create s.curr_scope s).2.setNode func
        { f with scope := some (scope_create s.curr_scope s).1 }
    else s
  let f1 ← s1.node func
  let s2 ← scope_enter f1.scope s1
  let s3 ← symres_function_params E symres_type fuel f1.params s2
  let f3 ← s3.node func
  if f3.type_node ≠ none then do
    let r ← symres_type f3.type_node s3
    let f4 ← r.2.node func
    some (r.2.setNode func { f4 with type_node := r.1 })
  else some s3

/-- C `symres_function`. -/
def symres_function (E : SymEnv) (fuel : Nat) (func : Nat) (s : SymresState) :
    Option SymresState := do
  let s1 ← symres_function_head E (symres_type E fuel) fuel func s
  let s2 := { s1 with curr_function := some func }
  let f ← s2.node func
  let body ← f.body
  let s3 ← symres_block (symres_statement E fuel) fuel body s2
  scope_leave s3

/-- C `symres_global`. -/
def symres_global (E : SymEnv) (fuel : Nat) (global : Nat) (s : SymresState) :
    Option SymresState := do
  let g ← s.node global
  let r ← symres_type E fuel g.type_node s
  let g1 ← r.2.node global
  some (r.2.setNode global { g1 with type_node := r.1 })

/-- The loop of `symres_overloaded_function`: `i` is the index of the overload. -/
def symres_overloads (E : SymEnv) (ofunc : Nat) :
    Nat → Nat → SymresState → Option SymresState
  | 0, _, s => some s
  | n + 1, i, s => do
    let o ← s.node ofunc
    let node ← o.overloads[i]?
    let nd ← s.deref node
    if nd.kind = AstKind.Symbol then do
      let r := symbol_resolve E s.curr_scope nd.token s
      let o1 ← r.2.node ofunc
      symres_overloads E ofunc n (i + 1)
        (r.2.setNode ofunc { o1 with overloads := o1.overloads.set i r.1 })
    else symres_overloads E ofunc n (i + 1) s

/-- C `symres_overloaded_function`. -/
def symres_overloaded_function (E : SymEnv) (ofunc : Nat) (s : SymresState) :
    Option SymresState := do
  let o ← s.node ofunc
  symres_overloads E ofunc o.overloads.length 0 s

/-- The loop of `symres_use_package` over the tokens of `only` (lines 378-388), which
ends at the first token that is not found in the package. -/
def symres_use_package_only (E : SymEnv) (p : Package) (include_scope : Option Nat) :
    List OnyxToken → SymresState → SymresState
  | [], s => s
  | tkn :: rest, s =>
    match (symbol_resolve E p.scope tkn s).1 with
    | none =>
      (symbol_resolve E p.scope tkn s).2.message MsgType.Literal tkn.pos
        ["not found in package"]
    | some thing =>
      symres_use_package_only E p include_scope rest
        (symbol_introduce E include_scope tkn (some thing) (symbol_resolve E p.scope tkn s).2)

/-- Lines 369-375 of `symres_use_package`: the package node for the alias. -/
def symres_use_package_alias (E : SymEnv) (pk : Nat) (include_scope : Option Nat)
    (alias_token : Option OnyxToken) (s : SymresState) : SymresState :=
  match alias_token with
  | some tkn =>
    symbol_introduce E include_scope tkn (some (s.new_node AstKind.Package).1)
      ((s.new_node AstKind.Package).2.setNode (s.new_node AstKind.Package).1
        { kind := AstKind.Package, package := some pk, token := tkn })
  | none => s

/-- C `symres_use_package`.  `token_toggle_end` terminates the token text for the lookup
and restores it, which leaves the state as it was.  The include scope of the current
package is read once, before the three cases that use it. -/
def symres_use_package (E : SymEnv) (package : Nat) (s : SymresState) :
    Option SymresState := do
  let u ← s.node package
  let pn ← s.deref u.package
  match E.program_info_package_lookup pn.token.text with
  | none =>
    some (s.message MsgType.Literal u.token.pos ["package not found in included source files"])
  | some pk => do
    let p ← s.packages[pk]?
    if p.scope = s.curr_scope then some s
    else do
      let cp ← s.curr_package
      let curr ← s.packages[cp]?
      let s1 := symres_use_package_alias E pk curr.include_scope u.alias_ s
      match u.only with
      | some tokens => some (symres_use_package_only E p curr.include_scope tokens s1)
      | none =>
        if u.alias_ = none then
          some { s1 with sem := { s1.sem with
            scopes := E.scope_include s1.sem.scopes curr.include_scope p.scope } }
        else some s1

/-- The names of the table `builtin_symbols`, in order. -/
def builtin_symbols : List String :=
  ["void", "bool", "i8", "u8", "i16", "u16", "i32", "u32", "i64", "u64", "f32", "f64",
   "rawptr", "__heap_start"]

/-- The loop of `onyx_resolve_symbols` over `builtin_symbols` (lines 400-404);
`E.builtin_node` gives the address of the node of each entry. -/
def introduce_builtins (E : SymEnv) : List String → SymresState → SymresState
  | [], s => s
  | sym :: rest, s =>
    introduce_builtins E rest { s with sem := { s.sem with
      scopes := E.symbol_builtin_introduce s.sem.scopes s.curr_scope sym (E.builtin_node sym) } }

/-- The `switch` of `onyx_resolve_symbols` (lines 410-419); for an expression entity the
pointer `entity->expr` is written, so the entity is returned as well. -/
def symres_entity (E : SymEnv) (fuel : Nat) (entity : Entity) (s : SymresState) :
    Option (Entity × SymresState) :=
  match entity.type with
  | EntityType.Use_Package => do
    let n ← entity.node
    (symres_use_package E n s).map fun s1 => (entity, s1)
  | EntityType.Function => do
    let n ← entity.node
    (symres_function E fuel n s).map fun s1 => (entity, s1)
  | EntityType.Overloaded_Function => do
    let n ← entity.node
    (symres_overloaded_function E n s).map fun s1 => (entity, s1)
  | EntityType.Global => do
    let n ← entity.node
    (symres_global E fuel n s).map fun s1 => (entity, s1)
  | EntityType.Expression => do
    let n ← entity.node
    (symres_expression E fuel n s).map fun r => ({ entity with node := r.1 }, r.2)
  | EntityType.Struct => (symres_type E fuel entity.node s).map fun r => (entity, r.2)
  | _ => some (entity, s)

/-- The loop of `onyx_resolve_symbols` over the entities (lines 406-422); each entity
comes with its `package`. -/
def symres_entities (E : SymEnv) (fuel : Nat) :
    List (Entity × Option Nat) → SymresState → Option (List (Entity × Option Nat) × SymresState)
  | [], s => some ([], s)
  | (entity, package) :: rest, s => do
    let pk ← package
    let p ← s.packages[pk]?
    let s1 ← scope_enter p.scope s
    let r ← symres_entity E fuel entity { s1 with curr_package := package }
    let s3 ← scope_leave r.2
    let rs ← symres_entities E fuel rest s3
    some ((r.1, package) :: rs.1, rs.2)

/-- C `onyx_resolve_symbols`. -/
def onyx_resolve_symbols (E : SymEnv) (fuel : Nat) (entities : List (Entity × Option Nat))
    (s : SymresState) : Option (List (Entity × Option Nat) × SymresState) :=
  symres_entities E fuel entities
    (introduce_builtins E builtin_symbols { s with curr_scope := s.global_scope })

/-- Look a name up in a scope and then in its parents, at most `fuel` scopes from the
first. -/
def scope_lookup (scopes : List Scope) : Nat → Option Nat → String → Ptr
  | 0, _, _ => none
  | _, none, _ => none
  | fuel + 1, some sp, name =>
    match scopes[sp]? with
    | none => none
    | some sc =>
      match sc.symbols.find? (fun kv => kv.1 == name) with
      | some kv => kv.2
      | none => scope_lookup scopes fuel sc.parent name

/-- Add a binding to a scope of the scope store, unless the scope already binds the
name. -/
def scope_bind (scopes : List Scope) (scope : Option Nat) (name : String) (node : Ptr) :
    List Scope :=
  match scope with
  | none => scopes
  | some sp =>
    match scopes[sp]? with
    | none => scopes
    | some sc =>
      if sc.symbols.any (fun kv => kv.1 == name) then scopes
      else scopes.set sp { sc with symbols := sc.symbols ++ [(name, node)] }

/-- Sample utilities: `symbol_resolve` looks the token up through the parent scopes and
reports an unresolved symbol when there is no binding; `symbol_introduce` adds a
binding to the scope unless the name is bound there already; the nodes of the builtin
symbols lie outside the sample stores. -/
def sampleSymEnv : SymEnv where
  symbol_resolve := fun scopes scope tkn =>
    match scope_lookup scopes (scopes.length + 1) scope tkn.text with
    | some n => (some n, [])
    | none => (none, [⟨MsgType.Unresolved_Symbol, tkn.pos, [tkn.text]⟩])
  symbol_introduce := fun scopes scope tkn node => (scope_bind scopes scope tkn.text node, [])
  symbol_builtin_introduce := fun scopes scope sym node => scope_bind scopes scope sym node
  scope_include := fun scopes target source =>
    match source with
    | none => scopes
    | some sp =>
      match scopes[sp]? with
      | none => scopes
      | some sc => sc.symbols.foldl (fun acc kv => scope_bind acc target kv.1 kv.2) scopes
  program_info_package_lookup := fun _ => none
  node_is_type := fun n => kind_is_type n.kind
  Ast_Flag_Type_Is_Resolved := 2048
  builtin_node := fun sym => some (1000 + builtin_symbols.indexOf sym)

/-- The method call `p.len(1)`: address 0 is the call, 1 the field access `p.len`, 2 the
symbol `p`, 3 the local `p` it resolves to, 4 the argument, 5 the literal `1`, and 6 the
function `len`.  Scope 0, the current scope, binds `p` and `len`. -/
def methodCallState : SymresState :=
  { sem :=
      { nodes := [
          { kind := AstKind.Call, callee := some 1, arguments := some 4, arg_count := 1,
            token := { text := "(", pos := 80 } },
          { kind := AstKind.Field_Access, expr := some 2, token := { text := "len", pos := 81 } },
          { kind := AstKind.Symbol, token := { text := "p", pos := 82 } },
          { kind := AstKind.Local, token := { text := "p", pos := 10 } },
          { kind := AstKind.Argument, value := some 5, token := { text := "1", pos := 83 } },
          { kind := AstKind.NumLit, token := { text := "1", pos := 83 } },
          { kind := AstKind.Function, token := { text := "len", pos := 11 } }],
        scopes := [{ symbols := [("p", some 3), ("len", some 6)] }] },
    curr_scope := some 0 }

/-- The function `f :: () { for i: 0, 10 { } }` as the only entity of package 0.
Address 0 is the function, 1 its body, 2 the for loop, 3 the loop variable `i`, 4 and 5
the bounds and 6 the block of the loop.  Scope 0 is the global scope, scope 1 the scope
of the package and scope 2 its include scope. -/
def forLoopState : SymresState :=
  { sem :=
      { nodes := [
          { kind := AstKind.Function, body := some 1, token := { text := "f", pos := 90 } },
          { kind := AstKind.Block, body := some 2, token := { text := "do", pos := 91 } },
          { kind := AstKind.For, var := some 3, start := some 4, end_ := some 5,
            stmt := some 6, token := { text := "for", pos := 92 } },
          { kind := AstKind.Local, token := { text := "i", pos := 93 } },
          { kind := AstKind.NumLit, token := { text := "0", pos := 94 } },
          { kind := AstKind.NumLit, token := { text := "10", pos := 95 } },
          { kind := AstKind.Block, token := { text := "do", pos := 96 } }],
        scopes := [{}, { parent := some 0 }, {}] },
    packages := [{ scope := some 1, include_scope := some 2 }],
    global_scope := some 0 }

/-- The entity list of `forLoopState`. -/
def forLoopEntities : List (Entity × Option Nat) := [(⟨EntityType.Function, some 0⟩, some 0)]

/-- All the bindings of all the scopes, scope by scope. -/
def all_bindings (s : SymresState) : List (List (String × Ptr)) :=
  s.sem.scopes.map Scope.symbols

/-- The path of `symres_call` for a callee `fa` that is still a field access once its
receiver has been resolved to `recv` (store `s`): `symres_field_access` writes the receiver
back, `symres_call` writes the callee back (line 150) and prepends the implicit argument
(lines 153-165).  The result is the address of the implicit argument and the store. -/
def symres_call_prepend (E : SymEnv) (call fa recv : Nat) (s : SymresState) :
    Option (Nat × SymresState) := do
  let f ← s.node fa
  let s1 := s.setNode fa { f with expr := some recv }
  let c1 ← s1.node call
  let s2 := s1.setNode call { c1 with callee := some fa }
  let f2 ← s2.node fa
  symres_call_implicit E call f2 recv s2

/-- The walk of `symres_statement_chain` over the argument nodes `l`, each value being
resolved by `R` and written back, provided that resolving a value leaves the nodes of
`P` (the call and its arguments) as they are; no result otherwise. -/
def resolve_arguments (R : Resolver) (P : List Nat) :
    List Nat → SymresState → Option SymresState
  | [], s => some s
  | a :: rest, s =>
    match s.node a with
    | none => none
    | some n =>
      if n.kind ≠ AstKind.Argument then none
      else
        match n.value with
        | none => none
        | some v =>
          match R v s with
          | none => none
          | some r =>
            if P.all (fun p => r.2.node p == s.node p) then
              resolve_arguments R P rest (r.2.setNode a { n with value := r.1 })
            else none

/-- The implicit argument and the store of `methodCallState` after lines 150-165 of
`symres_call`. -/
def methodCallPrepended : Nat × SymresState :=
  (symres_call_prepend sampleSymEnv 0 1 3 methodCallState).getD (0, {})

/-- The store of `methodCallState` after `symres_call`. -/
def methodCallResolved : SymresState :=
  (symres_call sampleSymEnv (symres_expression sampleSymEnv 3) (symres_statement sampleSymEnv 3)
    5 0 methodCallState).getD {}

/-- The plain call `len(1)`: address 0 is the call, 1 the symbol `len`, 2 the argument,
3 the literal `1` and 4 the function `len`, which scope 0, the current scope, binds. -/
def plainCallState : SymresState :=
  { sem :=
      { nodes := [
          { kind := AstKind.Call, callee := some 1, arguments := some 2, arg_count := 1,
            token := { text := "(", pos := 80 } },
          { kind := AstKind.Symbol, token := { text := "len", pos := 81 } },
          { kind := AstKind.Argument, value := some 3, token := { text := "1", pos := 83 } },
          { kind := AstKind.NumLit, token := { text := "1", pos := 83 } },
          { kind := AstKind.Function, token := { text := "len", pos := 11 } }],
        scopes := [{ symbols := [("len", some 4)] }] },
    curr_scope := some 0 }

/-- The store of `plainCallState` after `symres_call`. -/
def plainCallResolved : SymresState :=
  (symres_call sampleSymEnv (symres_expression sampleSymEnv 3) (symres_statement sampleSymEnv 3)
    5 0 plainCallState).getD {}

/-! ## The type-info table (compiler/src/wasm_type_table.h)

`build_type_table` serialises every `Type` of the type map into a byte buffer.
Bytes are natural numbers below 256, a buffer is the list of its first `length`
bytes, and the `u32` arrays of locations are lists indexed by position. -/

/-- Modelled from the spec: the twelve variants of `Type`, whose enumeration
`Type_Kind_Basic` .. `Type_Kind_Distinct` is declared in a header outside the
sources. -/
inductive Type_Kind where
  | Basic | Pointer | Array | Slice | DynArray | VarArgs
  | Compound | Function | Enum | Struct | PolyStruct | Distinct
  deriving DecidableEq, Repr

/-- What is read through the `Type*` of a value: `->id`, `type_size_of` and
`type_alignment_of`.  Modelled from the spec: the two functions are defined
outside the sources, so their results are fields here. -/
structure TypeRef where
  id : Nat
  size : Nat
  alignment : Nat
  deriving DecidableEq, Repr

/-- What the table builder reads of an `AstTyped*`: the flag
`Ast_Flag_Comptime`, the `type` (`none` for `NULL`) and the outcome of
`emit_constexpr_`.  Modelled from the spec: `emit_constexpr_` is defined
outside the sources; `constexpr` holds the bytes it writes, `none` when it
returns false. -/
structure AstTyped where
  comptime : Bool := true
  type_ : Option TypeRef := none
  constexpr : Option (List Nat) := none
  deriving DecidableEq, Repr

/-- The kinds of a polymorphic solution that `build_type_table` tells apart;
`PSK_Undefined` stands for every kind that reaches `default:`. -/
inductive PolySolutionKind where
  | PSK_Undefined | PSK_Type | PSK_Value
  deriving DecidableEq, Repr

/-- An `AstPolySolution`: `type_id` is `sln->type->id`, `value` is
`sln->value` (`none` for `NULL`). -/
structure AstPolySolution where
  kind : PolySolutionKind
  type_id : Nat := 0
  value : Option AstTyped := none
  deriving DecidableEq, Repr

/-- A `StructMember`: `name` holds the `strlen(mem->name)` bytes of the C
string, `type_id` is `mem->type->id`, `initial_value` is `none` when
`mem->initial_value == NULL || *mem->initial_value == NULL`, and `meta_tags`
is `none` for a `NULL` array. -/
structure StructMember where
  name : List Nat
  offset : Nat
  type_id : Nat
  used : Bool := true
  initial_value : Option AstTyped := none
  meta_tags : Option (List AstTyped) := none
  deriving DecidableEq, Repr

/-- An `AstEnumValue`: the text of its token, whether `value->kind` is
`Ast_Kind_NumLit`, and `value.l` of that literal. -/
structure AstEnumValue where
  token_text : List Nat
  is_numlit : Bool := true
  value_l : Nat := 0
  deriving DecidableEq, Repr

/-- One entry of `struct_scope->symbols` as the method loop reads it: the key,
whether `strip_aliases(value)->kind` is `Ast_Kind_Function`, whether the two
asserts on `node->entity` hold, `get_element_idx(module, node)` and
`node->type->id`. -/
structure MethodSymbol where
  key : List Nat
  is_function : Bool := true
  entity_ok : Bool := true
  func_idx : Nat := 0
  type_id : Nat := 0
  deriving DecidableEq, Repr

/-- The fields of `Type` that `build_type_table` reads, over all variants.
`size` and `alignment` are `type_size_of(type)` and `type_alignment_of(type)`;
referenced types appear by their `id`; `types` and `params` carry
`Compound.count` and `Function.param_count` as their lengths; `name` is the
name of an Enum, Struct, PolyStruct or Distinct (`none` for `NULL`); `values`
is `ast_enum->values`; `methods` is `struct_scope->symbols`, `none` when
`ast_type` is not a struct type or has no scope. -/
structure OnyxType where
  kind : Type_Kind
  id : Nat
  size : Nat := 0
  alignment : Nat := 0
  basic_kind : Nat := 0
  elem_id : Nat := 0
  count : Nat := 0
  types : List Nat := []
  params : List Nat := []
  return_type_id : Nat := 0
  vararg_arg_pos : Int := -1
  name : Option (List Nat) := none
  values : List AstEnumValue := []
  backing_id : Nat := 0
  is_flags : Bool := false
  memarr : List StructMember := []
  mem_count : Nat := 0
  poly_sln : List AstPolySolution := []
  meta_tags : List AstTyped := []
  constructed_from : Option Nat := none
  methods : Option (List MethodSymbol) := none
  base_type_id : Nat := 0
  deriving DecidableEq, Repr

/-- Constants of the build that are declared outside the sources:
`POINTER_SIZE`, the numeric value of each `Type_Kind` enumerator, and
`basic_types[Basic_Kind_Type_Index].id`. -/
structure TableEnv where
  POINTER_SIZE : Nat
  Type_Kind_value : Type_Kind → Nat
  Type_Index_id : Nat

/-- The `n` low bytes of `v`, least significant first. -/
def le_bytes : Nat → Nat → List Nat
  | 0, _ => []
  | n + 1, v => v % 256 :: le_bytes n (v / 256)

/-- Conversion to `u32`. -/
def u32 (n : Nat) : Nat := n % 4294967296

/-- The buffer under construction with the two arrays written beside it:
`buffer` is `table_buffer` (its first `length` bytes), `info` is `table_info`. -/
structure TableBuffer where
  buffer : List Nat
  base_patch_locations : List Nat := []
  info : List Nat := []
  deriving DecidableEq, Repr

/-- Modelled from the spec: `bh_buffer_append` is defined outside the
sources; it adds the given bytes at the end. -/
def bh_buffer_append (st : TableBuffer) (bytes : List Nat) : TableBuffer :=
  { st with buffer := st.buffer ++ bytes }

/-- Modelled from the spec: `bh_buffer_write_u32`, defined outside the
sources, appends the four bytes of the value (little endian, as line 220 of
the source assumes). -/
def bh_buffer_write_u32 (st : TableBuffer) (v : Nat) : TableBuffer :=
  bh_buffer_append st (le_bytes 4 v)

/-- Modelled from the spec: `bh_buffer_write_u64`, defined outside the
sources, appends the eight bytes of the value. -/
def bh_buffer_write_u64 (st : TableBuffer) (v : Nat) : TableBuffer :=
  bh_buffer_append st (le_bytes 8 v)

/-- Modelled from the spec: `bh_buffer_write_byte`, defined outside the
sources, appends one byte. -/
def bh_buffer_write_byte (st : TableBuffer) (v : Nat) : TableBuffer :=
  bh_buffer_append st [v % 256]

/-- Modelled from the spec: `bh_buffer_align`, defined outside the sources,
pads the buffer until its length is a multiple of the alignment (the padding
bytes are taken to be zero). -/
def bh_buffer_align (st : TableBuffer) (alignment : Nat) : TableBuffer :=
  bh_buffer_append st
    (List.replicate ((alignment - st.buffer.length % alignment) % alignment) 0)

/-- The definition of `PATCH` (line 16). -/
def PATCH (st : TableBuffer) : TableBuffer :=
  { st with base_patch_locations := st.base_patch_locations ++ [u32 st.buffer.length] }

/-- The definition of `WRITE_PTR(val)` (lines 17–21). -/
def WRITE_PTR (E : TableEnv) (st : TableBuffer) (val : Nat) : TableBuffer :=
  let st := bh_buffer_align st E.POINTER_SIZE
  let st := PATCH st
  let st := if E.POINTER_SIZE = 4 then bh_buffer_write_u32 st val else st
  if E.POINTER_SIZE = 8 then bh_buffer_write_u64 st val else st

/-- The definition of `WRITE_SLICE(ptr, count)` (lines 22–25). -/
def WRITE_SLICE (E : TableEnv) (st : TableBuffer) (ptr count : Nat) : TableBuffer :=
  let st := WRITE_PTR E st ptr
  let st := if E.POINTER_SIZE = 4 then bh_buffer_write_u32 st count else st
  if E.POINTER_SIZE = 8 then bh_buffer_write_u64 st count else st

/-- Conversion to `Table_Info_Type`: `u32` when `POINTER_SIZE == 4`, `u64`
otherwise. -/
def Table_Info_Type (E : TableEnv) (n : Nat) : Nat :=
  if E.POINTER_SIZE = 4 then n % 4294967296 else n % 18446744073709551616

/-- The state after the four statements that open a record, for an index
inside `table_info`: the slot `type_idx` holds the length of the buffer, and
the three words kind, size and alignment follow in the buffer. -/
def table_info_stored (E : TableEnv) (st : TableBuffer) (type_idx kind size alignment : Nat) :
    TableBuffer :=
  let st := { st with info := st.info.set type_idx (Table_Info_Type E st.buffer.length) }
  let st := bh_buffer_write_u32 st kind
  let st := bh_buffer_write_u32 st size
  bh_buffer_write_u32 st alignment

/-- The four statements that open every record:
`table_info[type_idx] = table_buffer.length;` followed by the three
`bh_buffer_write_u32` of kind, size and alignment.  The array `table_info` is
allocated with `type_count` slots (lines 33–35), which `st.info` holds; a
store at an index that is not below that count lies outside the allocation
and has no result. -/
def table_info_record (E : TableEnv) (st : TableBuffer) (type_idx kind size alignment : Nat) :
    Option TableBuffer :=
  if type_idx < st.info.length then some (table_info_stored E st type_idx kind size alignment)
  else none

/-- The `size` bytes of the buffer that a successful `emit_constexpr_` leaves
at the end: `bh_buffer_grow`, the call, and `table_buffer.length += size`. -/
def emit_constexpr_ (st : TableBuffer) (size : Nat) (bytes : List Nat) : TableBuffer :=
  bh_buffer_append st ((bytes ++ List.replicate size 0).take size)

/-- Conversion to `u64`. -/
def u64 (n : Nat) : Nat := n % 18446744073709551616

/-- The loops of lines 113–116 and 131–134: one `u32` per component or
parameter type. -/
def write_type_ids : List Nat → TableBuffer → TableBuffer
  | [], st => st
  | type_idx :: rest, st => write_type_ids rest (bh_buffer_write_u32 st type_idx)

/-- Lines 154–158: the names of the enum values, `i` counting the entries of
`name_locations`. -/
def enum_value_names : List AstEnumValue → Nat → List Nat → TableBuffer → List Nat × TableBuffer
  | [], _, name_locations, st => (name_locations, st)
  | value :: rest, i, name_locations, st =>
    let name_locations := name_locations.set i (u32 st.buffer.length)
    enum_value_names rest (i + 1) name_locations (bh_buffer_append st value.token_text)

/-- Lines 163–172: one record per enum value; the assert on the kind of the
value aborts. -/
def enum_value_records (E : TableEnv) :
    List AstEnumValue → Nat → List Nat → TableBuffer → Option TableBuffer
  | [], _, _, st => some st
  | value :: rest, i, name_locations, st =>
    let name_loc := name_locations.getD i 0
    let st := bh_buffer_align st 8
    let st := WRITE_SLICE E st name_loc value.token_text.length
    if value.is_numlit then
      enum_value_records E rest (i + 1) name_locations (bh_buffer_write_u64 st value.value_l)
    else none

/-- Lines 302–317 and 366–381: the payload of every tag of a member or of a
struct, each at the alignment of its type; `conv` is the conversion to the
element type of the array of locations (`u64` for `meta_tag_locations`, `u32`
for `struct_tag_locations`).  A failing assert aborts. -/
def tag_payloads (conv : Nat → Nat) :
    List AstTyped → Nat → List Nat → TableBuffer → Option (List Nat × TableBuffer)
  | [], _, locations, st => some (locations, st)
  | value :: rest, j, locations, st =>
    if value.comptime then
      match value.type_ with
      | none => none
      | some t =>
        let st := bh_buffer_align st t.alignment
        let locations := locations.set j (conv st.buffer.length)
        match value.constexpr with
        | none => none
        | some bytes => tag_payloads conv rest (j + 1) locations (emit_constexpr_ st t.size bytes)
    else none

/-- The loops of lines 322–324, 434–436 and 508–510:
`fori (k, lo, lo + n) WRITE_SLICE(locations[k], tags[k]->type->id)`; reading
past the tags or through a `NULL` type aborts. -/
def tag_slices (E : TableEnv) (tags : List AstTyped) (locations : List Nat) :
    Nat → Nat → TableBuffer → Option TableBuffer
  | _, 0, st => some st
  | k, n + 1, st =>
    match tags.get? k with
    | none => none
    | some tag =>
      match tag.type_ with
      | none => none
      | some t => tag_slices E tags locations (k + 1) n (WRITE_SLICE E st (locations.getD k 0) t.id)

/-- Lines 479–503: the payloads of the tags of a polymorphic struct; a tag
that is not compile-time known is skipped and `tags_count` decremented. -/
def polystruct_tag_payloads :
    List AstTyped → Nat → Nat → List Nat → TableBuffer → Option (Nat × List Nat × TableBuffer)
  | [], _, tags_count, tag_locations, st => some (tags_count, tag_locations, st)
  | value :: rest, i, tags_count, tag_locations, st =>
    if value.comptime then
      match value.type_ with
      | none => none
      | some t =>
        let st := bh_buffer_align st t.alignment
        let tag_locations := tag_locations.set i (u32 st.buffer.length)
        match value.constexpr with
        | none => none
        | some bytes =>
          polystruct_tag_payloads rest (i + 1) tags_count tag_locations
            (emit_constexpr_ st t.size bytes)
    else polystruct_tag_payloads rest i (tags_count - 1) tag_locations st

/-- The cases `Type_Kind_Basic` .. `Type_Kind_VarArgs` (lines 54–107): the
record and one word, two for an array. -/
def type_table_simple (E : TableEnv) (type : OnyxType) (type_idx : Nat) (st : TableBuffer) :
    Option TableBuffer :=
  match table_info_record E st type_idx (E.Type_Kind_value type.kind) type.size
      type.alignment with
  | none => none
  | some st =>
    match type.kind with
    | .Basic => some (bh_buffer_write_u32 st type.basic_kind)
    | .Array => some (bh_buffer_write_u32 (bh_buffer_write_u32 st type.elem_id) type.count)
    | _ => some (bh_buffer_write_u32 st type.elem_id)

/-- The case `Type_Kind_Compound` (lines 109–125). -/
def type_table_compound (E : TableEnv) (type : OnyxType) (type_idx : Nat) (st : TableBuffer) :
    Option TableBuffer :=
  let components_base := u32 st.buffer.length
  let components_count := u32 type.types.length
  let st := write_type_ids type.types st
  let st := bh_buffer_align st 8
  match table_info_record E st type_idx (E.Type_Kind_value type.kind) type.size
      type.alignment with
  | none => none
  | some st => some (WRITE_SLICE E st components_base components_count)

/-- The case `Type_Kind_Function` (lines 127–146). -/
def type_table_function (E : TableEnv) (type : OnyxType) (type_idx : Nat) (st : TableBuffer) :
    Option TableBuffer :=
  let parameters_base := u32 st.buffer.length
  let parameters_count := u32 type.params.length
  let st := write_type_ids type.params st
  match table_info_record E st type_idx (E.Type_Kind_value type.kind) type.size
      type.alignment with
  | none => none
  | some st =>
    let st := bh_buffer_write_u32 st type.return_type_id
    let st := WRITE_SLICE E st parameters_base parameters_count
    some (bh_buffer_write_u32 st (if type.vararg_arg_pos > 0 then 1 else 0))

/-- The case `Type_Kind_Enum` (lines 148–188); `strlen` of a `NULL` name
aborts. -/
def type_table_enum (E : TableEnv) (type : OnyxType) (type_idx : Nat) (st : TableBuffer) :
    Option TableBuffer :=
  let member_count := u32 type.values.length
  let r := enum_value_names type.values 0 (List.replicate member_count 0) st
  let st := bh_buffer_align r.2 8
  let member_base := u32 st.buffer.length
  match enum_value_records E type.values 0 r.1 st with
  | none => none
  | some st =>
    match type.name with
    | none => none
    | some name =>
      let name_base := u32 st.buffer.length
      let name_length := u32 name.length
      let st := bh_buffer_append st name
      let st := bh_buffer_align st 8
      match table_info_record E st type_idx (E.Type_Kind_value type.kind) type.size
          type.alignment with
      | none => none
      | some st =>
        let st := bh_buffer_write_u32 st type.backing_id
        let st := WRITE_SLICE E st name_base name_length
        let st := WRITE_SLICE E st member_base member_count
        some (bh_buffer_write_u32 st (if type.is_flags then 1 else 0))

/-- The case `Type_Kind_PolyStruct` (lines 469–521). -/
def type_table_polystruct (E : TableEnv) (type : OnyxType) (type_idx : Nat) (st : TableBuffer) :
    Option TableBuffer :=
  match type.name with
  | none => none
  | some name =>
    let tag_locations := List.replicate type.meta_tags.length 0
    let name_base := u32 st.buffer.length
    let name_length := u32 name.length
    let st := bh_buffer_append st name
    let tags_count := u32 type.meta_tags.length
    match polystruct_tag_payloads type.meta_tags 0 tags_count tag_locations st with
    | none => none
    | some r =>
      let tags_count := r.1
      let st := bh_buffer_align r.2.2 8
      let tags_base := u32 st.buffer.length
      match tag_slices E type.meta_tags r.2.1 0 tags_count st with
      | none => none
      | some st =>
        let st := bh_buffer_align st 8
        match table_info_record E st type_idx (E.Type_Kind_value type.kind) 0 0 with
        | none => none
        | some st =>
          let st := WRITE_SLICE E st name_base name_length
          some (WRITE_SLICE E st tags_base tags_count)

/-- The case `Type_Kind_Distinct` (lines 523–536). -/
def type_table_distinct (E : TableEnv) (type : OnyxType) (type_idx : Nat) (st : TableBuffer) :
    Option TableBuffer :=
  match type.name with
  | none => none
  | some name =>
    let name_base := u32 st.buffer.length
    let name_length := u32 name.length
    let st := bh_buffer_append st name
    let st := bh_buffer_align st 8
    match table_info_record E st type_idx (E.Type_Kind_value type.kind) type.size
        type.alignment with
    | none => none
    | some st =>
      let st := bh_buffer_write_u32 st type.base_type_id
      some (WRITE_SLICE E st name_base name_length)

/-- Lines 203–208: the names of the members, `i` counting the entries of
`name_locations`. -/
def struct_member_names :
    List StructMember → Nat → List Nat → TableBuffer → List Nat × TableBuffer
  | [], _, name_locations, st => (name_locations, st)
  | mem :: rest, i, name_locations, st =>
    let name_locations := name_locations.set i (u32 st.buffer.length)
    struct_member_names rest (i + 1) name_locations (bh_buffer_append st mem.name)

/-- Lines 214–245: the payload of every polymorphic solution; the four bytes
of the type id for a type, the encoded value for a value, and location 0 when
the value cannot be encoded or the kind is another one. -/
def struct_poly_solutions :
    List AstPolySolution → Nat → List Nat → TableBuffer → Option (List Nat × TableBuffer)
  | [], _, param_locations, st => some (param_locations, st)
  | sln :: rest, i, param_locations, st =>
    let st := bh_buffer_align st 8
    let param_locations := param_locations.set i (u32 st.buffer.length)
    match sln.kind with
    | .PSK_Type =>
      struct_poly_solutions rest (i + 1) param_locations
        (bh_buffer_append st (le_bytes 4 sln.type_id))
    | .PSK_Value =>
      match sln.value with
      | none => none
      | some value =>
        match value.type_ with
        | none => none
        | some t =>
          match value.constexpr with
          | some bytes =>
            struct_poly_solutions rest (i + 1) param_locations (emit_constexpr_ st t.size bytes)
          | none => struct_poly_solutions rest (i + 1) (param_locations.set i 0) st
    | .PSK_Undefined => struct_poly_solutions rest (i + 1) (param_locations.set i 0) st

/-- Lines 251–283: the default value of every member that has one known at
compile time. -/
def struct_default_values :
    List StructMember → Nat → List Nat → TableBuffer → Option (List Nat × TableBuffer)
  | [], _, value_locations, st => some (value_locations, st)
  | mem :: rest, i, value_locations, st =>
    match mem.initial_value with
    | none => struct_default_values rest (i + 1) value_locations st
    | some value =>
      match value.type_ with
      | none => none
      | some t =>
        if value.comptime then
          let st := bh_buffer_align st t.alignment
          match value.constexpr with
          | none => struct_default_values rest (i + 1) (value_locations.set i 0) st
          | some bytes =>
            struct_default_values rest (i + 1) (value_locations.set i (u32 st.buffer.length))
              (emit_constexpr_ st t.size bytes)
        else struct_default_values rest (i + 1) value_locations st

/-- Lines 287–328: the tags of every member: their payloads, then the array
of slices that `meta_locations[i]` points to. -/
def struct_member_tags (E : TableEnv) :
    List StructMember → Nat → List Nat → TableBuffer → Option (List Nat × TableBuffer)
  | [], _, meta_locations, st => some (meta_locations, st)
  | mem :: rest, i, meta_locations, st =>
    match mem.meta_tags with
    | none => struct_member_tags E rest (i + 1) meta_locations st
    | some meta_tags =>
      match tag_payloads u64 meta_tags 0 (List.replicate meta_tags.length 0) st with
      | none => none
      | some r =>
        let st := bh_buffer_align r.2 8
        let meta_locations := meta_locations.set i (u32 st.buffer.length)
        match tag_slices E meta_tags r.1 0 meta_tags.length st with
        | none => none
        | some st => struct_member_tags E rest (i + 1) meta_locations st

/-- Lines 335–350: the member array, one record per member of `memarr`. -/
def struct_member_array (E : TableEnv) (name_locations value_locations meta_locations : List Nat) :
    List StructMember → Nat → TableBuffer → TableBuffer
  | [], _, st => st
  | mem :: rest, i, st =>
    let name_loc := name_locations.getD i 0
    let value_loc := value_locations.getD i 0
    let meta_loc := meta_locations.getD i 0
    let st := WRITE_SLICE E st name_loc mem.name.length
    let st := bh_buffer_write_u32 st mem.offset
    let st := bh_buffer_write_u32 st mem.type_id
    let st := bh_buffer_write_byte st (if mem.used then 1 else 0)
    let st := WRITE_PTR E st value_loc
    let st := WRITE_SLICE E st meta_loc (mem.meta_tags.getD []).length
    struct_member_array E name_locations value_locations meta_locations rest (i + 1) st

/-- Lines 357–362: the array of polymorphic solutions; reading the type of an
absent value aborts. -/
def struct_poly_array (E : TableEnv) (param_locations : List Nat) :
    List AstPolySolution → Nat → TableBuffer → Option TableBuffer
  | [], _, st => some st
  | sln :: rest, i, st =>
    let st := WRITE_PTR E st (param_locations.getD i 0)
    if sln.kind = .PSK_Type then
      struct_poly_array E param_locations rest (i + 1) (bh_buffer_write_u32 st E.Type_Index_id)
    else
      match sln.value.bind (fun value => value.type_) with
      | none => none
      | some t => struct_poly_array E param_locations rest (i + 1) (bh_buffer_write_u32 st t.id)

/-- The struct `StructMethodData` (lines 4–9). -/
structure StructMethodData where
  name_loc : Nat
  name_len : Nat
  type : Nat
  data_loc : Nat
  deriving DecidableEq, Repr

/-- Lines 392–416: the name and the function index of every method. -/
def struct_methods :
    List MethodSymbol → List StructMethodData → TableBuffer →
      Option (List StructMethodData × TableBuffer)
  | [], method_data, st => some (method_data, st)
  | symbol :: rest, method_data, st =>
    if symbol.is_function then
      if symbol.entity_ok then
        let name_loc := u32 st.buffer.length
        let name_len := u32 symbol.key.length
        let st := bh_buffer_append st symbol.key
        let st := bh_buffer_align st 4
        let data_loc := u32 st.buffer.length
        let st := bh_buffer_write_u32 st symbol.func_idx
        struct_methods rest (method_data ++ [⟨name_loc, name_len, symbol.type_id, data_loc⟩]) st
      else none
    else struct_methods rest method_data st

/-- Lines 384–417: the methods of the struct; there are none when the type
has no struct scope (`methods` is `none`). -/
def struct_method_data (methods : Option (List MethodSymbol)) (st : TableBuffer) :
    Option (List StructMethodData × TableBuffer) :=
  match methods with
  | none => some ([], st)
  | some symbols => struct_methods symbols [] st

/-- Lines 425–429: the array of methods. -/
def struct_method_array (E : TableEnv) : List StructMethodData → TableBuffer → TableBuffer
  | [], st => st
  | method :: rest, st =>
    let st := WRITE_SLICE E st method.name_loc method.name_len
    let st := WRITE_PTR E st method.data_loc
    struct_method_array E rest (bh_buffer_write_u32 st method.type)

/-- The locations that the first half of the struct case hands to the second. -/
structure StructLocations where
  name_locations : List Nat
  param_locations : List Nat
  value_locations : List Nat
  meta_locations : List Nat
  deriving DecidableEq, Repr

/-- Lines 192–330 of the case `Type_Kind_Struct`: member names, payloads of
the polymorphic solutions, default values and member tags, up to the
alignment that precedes `members_base`. -/
def struct_payloads (E : TableEnv) (type : OnyxType) (st : TableBuffer) :
    Option (StructLocations × TableBuffer) :=
  let r1 := struct_member_names type.memarr 0 (List.replicate type.mem_count 0) st
  let st := bh_buffer_align r1.2 8
  match struct_poly_solutions type.poly_sln 0 (List.replicate type.poly_sln.length 0) st with
  | none => none
  | some r2 =>
    let st := bh_buffer_align r2.2 8
    match struct_default_values type.memarr 0 (List.replicate type.mem_count 0) st with
    | none => none
    | some r3 =>
      match struct_member_tags E type.memarr 0 (List.replicate type.mem_count 0) r3.2 with
      | none => none
      | some r4 => some (⟨r1.1, r2.1, r3.1, r4.1⟩, bh_buffer_align r4.2 8)

/-- The bases that the record of a struct points to. -/
structure StructBases where
  members_base : Nat
  params_base : Nat
  struct_tag_base : Nat
  method_data_base : Nat
  method_count : Nat
  deriving DecidableEq, Repr

/-- Lines 331–436 of the case `Type_Kind_Struct`: the member array, the array
of polymorphic solutions, the payloads of the struct tags, the methods and
the array of struct tags. -/
def struct_arrays (E : TableEnv) (type : OnyxType) (l : StructLocations) (st : TableBuffer) :
    Option (StructBases × TableBuffer) :=
  let members_base := u32 st.buffer.length
  let st := struct_member_array E l.name_locations l.value_locations l.meta_locations
    type.memarr 0 st
  let st := bh_buffer_align st 8
  let params_base := u32 st.buffer.length
  match struct_poly_array E l.param_locations type.poly_sln 0 st with
  | none => none
  | some st =>
    match tag_payloads u32 type.meta_tags 0 (List.replicate type.meta_tags.length 0) st with
    | none => none
    | some r5 =>
      match struct_method_data type.methods r5.2 with
      | none => none
      | some r6 =>
        let st := bh_buffer_align r6.2 4
        let method_data_base := u32 st.buffer.length
        let st := struct_method_array E r6.1 st
        let st := bh_buffer_align st 8
        let struct_tag_base := u32 st.buffer.length
        match tag_slices E type.meta_tags r5.1 0 type.meta_tags.length st with
        | none => none
        | some st =>
          some (⟨members_base, params_base, struct_tag_base, method_data_base, r6.1.length⟩, st)

/-- Lines 439–463 of the case `Type_Kind_Struct`: the name and the record. -/
def struct_record (E : TableEnv) (type : OnyxType) (type_idx : Nat) (b : StructBases)
    (st : TableBuffer) : Option TableBuffer :=
  let name_length := match type.name with
    | some name => u32 name.length
    | none => 0
  let name_base := match type.name with
    | some _ => u32 st.buffer.length
    | none => 0
  let st := match type.name with
    | some name => bh_buffer_append st name
    | none => st
  let st := bh_buffer_align st 8
  match table_info_record E st type_idx (E.Type_Kind_value type.kind) type.size
      type.alignment with
  | none => none
  | some st =>
    let st := bh_buffer_write_u32 st (type.constructed_from.getD 0)
    let st := WRITE_SLICE E st name_base name_length
    let st := WRITE_SLICE E st b.members_base type.mem_count
    let st := WRITE_SLICE E st b.params_base type.poly_sln.length
    let st := WRITE_SLICE E st b.struct_tag_base type.meta_tags.length
    some (WRITE_SLICE E st b.method_data_base b.method_count)

/-- The case `Type_Kind_Struct` (lines 190–467). -/
def type_table_struct (E : TableEnv) (type : OnyxType) (type_idx : Nat) (st : TableBuffer) :
    Option TableBuffer :=
  match struct_payloads E type st with
  | none => none
  | some r =>
    match struct_arrays E type r.1 r.2 with
    | none => none
    | some q => struct_record E type type_idx q.1 q.2

/-- The body of the loop over the type map (lines 50–537): the switch on the
kind of the type. -/
def type_table_entry (E : TableEnv) (type_idx : Nat) (type : OnyxType) (st : TableBuffer) :
    Option TableBuffer :=
  match type.kind with
  | .Compound => type_table_compound E type type_idx st
  | .Function => type_table_function E type type_idx st
  | .Enum => type_table_enum E type type_idx st
  | .Struct => type_table_struct E type type_idx st
  | .PolyStruct => type_table_polystruct E type type_idx st
  | .Distinct => type_table_distinct E type type_idx st
  | _ => type_table_simple E type type_idx st

/-- The loop over `type_map.entries` (line 49); an entry is a key with the
type it maps to. -/
def type_table_entries (E : TableEnv) : List (Nat × OnyxType) → TableBuffer → Option TableBuffer
  | [], st => some st
  | type_entry :: rest, st =>
    match type_table_entry E type_entry.1 type_entry.2 st with
    | none => none
    | some st => type_table_entries E rest st

/-- The two kinds of `DatumPatchInfo`. -/
inductive DatumPatchInfoKind where
  | Datum_Patch_Relative | Datum_Patch_Data
  deriving DecidableEq, Repr

/-- A `DatumPatchInfo`. -/
structure DatumPatchInfo where
  kind : DatumPatchInfoKind
  data_id : Nat
  offset : Nat
  index : Nat
  location : Nat
  deriving DecidableEq, Repr

/-- A `WasmDatum`; `data` holds its `length` bytes. -/
structure WasmDatum where
  alignment : Nat
  length : Nat
  data : List Nat
  id : Nat := 0
  deriving DecidableEq, Repr

/-- The part of `OnyxWasmModule` that the builders of the tables write. -/
structure OnyxWasmModule where
  data : List WasmDatum := []
  data_patches : List DatumPatchInfo := []
  next_data_id : Nat := 1
  deriving DecidableEq, Repr

/-- Modelled from the spec: `emit_data_entry` and `NEXT_DATA_ID` are
defined outside the sources; the datum receives the next id and is
registered with the module. -/
def emit_data_entry (module : OnyxWasmModule) (datum : WasmDatum) : WasmDatum × OnyxWasmModule :=
  let datum := { datum with id := module.next_data_id }
  (datum, { module with data := module.data ++ [datum], next_data_id := module.next_data_id + 1 })

/-- The Relative patches of lines 552–560 (and of the same loop in the other
two builders). -/
def relative_patches (data_id : Nat) (base_patch_locations : List Nat) : List DatumPatchInfo :=
  base_patch_locations.map (fun patch_loc =>
    ⟨.Datum_Patch_Relative, data_id, 0, data_id, patch_loc⟩)

/-- The Data patches of lines 569–577: one per slot of the pointer table. -/
def data_patches (E : TableEnv) (data_id index : Nat) (info : List Nat) (count : Nat) :
    List DatumPatchInfo :=
  (List.range count).map (fun i =>
    ⟨.Datum_Patch_Data, data_id, info.getD i 0, index, i * E.POINTER_SIZE⟩)

/-- The bytes of an array of `Table_Info_Type`. -/
def info_bytes (E : TableEnv) (info : List Nat) : List Nat :=
  (info.map (le_bytes (if E.POINTER_SIZE = 4 then 4 else 8))).flatten

/-- The state of `build_type_table` when the loop over the type map starts
(lines 33–47): `table_info` zeroed, and eight zero bytes in the buffer. -/
def type_table_init (type_count : Nat) : TableBuffer :=
  bh_buffer_write_u64
    { buffer := [], base_patch_locations := [], info := List.replicate type_count 0 } 0

/-- The function `build_type_table` (lines 11–604) on the entries of the type
map: the id of the descriptor and the module with the three data entries and
their patches.  The assert of line 550 holds by the reading of `NEXT_DATA_ID`. -/
def build_type_table (E : TableEnv) (entries : List (Nat × OnyxType)) (module : OnyxWasmModule) :
    Option (Nat × OnyxWasmModule) :=
  let type_count := u32 (entries.length + 1)
  match type_table_entries E entries (type_table_init type_count) with
  | none => none
  | some st =>
    let r := emit_data_entry module ⟨8, st.buffer.length, st.buffer, 0⟩
    let type_info_data := r.1
    let module := { r.2 with data_patches :=
      r.2.data_patches ++ relative_patches type_info_data.id st.base_patch_locations }
    let r := emit_data_entry module
      ⟨E.POINTER_SIZE, type_count * E.POINTER_SIZE, info_bytes E st.info, 0⟩
    let type_table_data := r.1
    let module := { r.2 with data_patches :=
      r.2.data_patches ++ data_patches E type_info_data.id type_table_data.id st.info type_count }
    let r := emit_data_entry module
      ⟨E.POINTER_SIZE, 2 * E.POINTER_SIZE, info_bytes E [0, Table_Info_Type E type_count], 0⟩
    let type_table_global_data := r.1
    let module := { r.2 with data_patches :=
      r.2.data_patches ++ [⟨.Datum_Patch_Data, type_table_data.id, 0, type_table_global_data.id, 0⟩] }
    some (type_table_global_data.id, module)

/-- The conditions under which no assert of `build_type_table` fails and no
`NULL` is read for a tag: the value is known at compile time, has a type, and
`emit_constexpr_` succeeds on it. -/
def tagOk (value : AstTyped) : Bool :=
  value.comptime && value.type_.isSome && value.constexpr.isSome

/-- The conditions on one type under which its case of the switch runs to
`break`: names that `strlen` reads are present, enum values are numeric
literals, values that are encoded have a type, tags satisfy `tagOk` (those of
a polymorphic struct only when they are known at compile time), a solution
that is not a type has a typed value, and methods have their entity. -/
def assertsHold (type : OnyxType) : Bool :=
  match type.kind with
  | .Enum => type.name.isSome && type.values.all (fun v => v.is_numlit)
  | .Distinct => type.name.isSome
  | .PolyStruct =>
    type.name.isSome &&
      type.meta_tags.all (fun v => v.type_.isSome && (!v.comptime || v.constexpr.isSome))
  | .Struct =>
    type.memarr.all (fun mem =>
        (match mem.initial_value with
         | some value => value.type_.isSome
         | none => true) &&
        (match mem.meta_tags with
         | some tags => tags.all tagOk
         | none => true)) &&
      type.poly_sln.all (fun sln =>
        sln.kind = .PSK_Type || (sln.value.bind (fun value => value.type_)).isSome) &&
      type.meta_tags.all tagOk &&
      (match type.methods with
       | some symbols => symbols.all (fun s => !s.is_function || s.entity_ok)
       | none => true)
  | _ => true

/-- The second buffer extends the first, and the array of record offsets is
the same. -/
def Grows (st st' : TableBuffer) : Prop :=
  (∃ suffix, st'.buffer = st.buffer ++ suffix) ∧ st'.info = st.info

/-- The number that a list of bytes denotes, least significant byte first. -/
def from_le : List Nat → Nat
  | [] => 0
  | b :: bs => b + 256 * from_le bs

/-- The `n` bytes of a segment at a position, when they lie inside it. -/
def read_bytes (data : List Nat) (pos n : Nat) : Option (List Nat) :=
  if pos + n ≤ data.length then some ((data.drop pos).take n) else none

/-- The 32-bit word of a segment at a position. -/
def read_u32 (data : List Nat) (pos : Nat) : Option Nat :=
  (read_bytes data pos 4).map from_le

/-- The pointer-sized word of a segment at a position. -/
def read_ptr (E : TableEnv) (data : List Nat) (pos : Nat) : Option Nat :=
  (read_bytes data pos E.POINTER_SIZE).map from_le

/-- The three words that open the record of a type: kind, size and alignment,
the last two being 0 for a polymorphic struct. -/
def record_header (E : TableEnv) (type : OnyxType) : List Nat :=
  le_bytes 4 (E.Type_Kind_value type.kind) ++
    le_bytes 4 (if type.kind = .PolyStruct then 0 else type.size) ++
    le_bytes 4 (if type.kind = .PolyStruct then 0 else type.alignment)

/-- The size of a member record as the reader of the table lays it out: a
slice, two 32-bit words and a byte, padded to the alignment of a pointer, then
a pointer and a slice. -/
def member_record_size (E : TableEnv) : Nat :=
  if E.POINTER_SIZE = 4 then 32 else 56

/-- Decoding of the `i`-th member record of a member array at `members_base`,
following the layout of the specification: the name slice comes first, the
offset and the type id follow it; the result is the bytes of the name, the
offset and the type id. -/
def decode_member (E : TableEnv) (data : List Nat) (members_base i : Nat) :
    Option (List Nat × Nat × Nat) :=
  let record := members_base + i * member_record_size E
  match read_ptr E data record, read_ptr E data (record + E.POINTER_SIZE) with
  | some name_ptr, some name_len =>
    match read_bytes data name_ptr name_len, read_u32 data (record + 2 * E.POINTER_SIZE),
        read_u32 data (record + 2 * E.POINTER_SIZE + 4) with
    | some name, some offset, some type_id => some (name, offset, type_id)
    | _, _, _ => none
  | _, _ => none

/-- The members slice of the record of a struct at `record`: it follows the
three header words, the word of `constructed_from` and the name slice. -/
def read_members_slice (E : TableEnv) (data : List Nat) (record : Nat) : Option (Nat × Nat) :=
  match read_ptr E data (record + 16 + 2 * E.POINTER_SIZE),
      read_ptr E data (record + 16 + 3 * E.POINTER_SIZE) with
  | some members_base, some count => some (members_base, count)
  | _, _ => none

/-- The member array of a struct can be read back from the record at `pos`:
the members slice of the record points to an array inside the segment whose
`j`-th record, at the stride `member_record_size`, holds a slice to the bytes
of the name of the `j`-th member, its offset and the id of its type.  The
words are stated as they are written, before any bound on the sizes is
assumed. -/
def MembersAt (E : TableEnv) (type : OnyxType) (data : List Nat) (pos : Nat) : Prop :=
  ∃ members_base,
    members_base + type.memarr.length * member_record_size E ≤ data.length ∧
    read_ptr E data (pos + 16 + 2 * E.POINTER_SIZE) = some (u32 members_base) ∧
    read_ptr E data (pos + 16 + 3 * E.POINTER_SIZE) =
      some (type.mem_count % 256 ^ E.POINTER_SIZE) ∧
    ∀ j (hj : j < type.memarr.length), ∃ p,
      read_ptr E data (members_base + j * member_record_size E) = some (u32 p) ∧
      read_ptr E data (members_base + j * member_record_size E + E.POINTER_SIZE) =
        some ((type.memarr.get ⟨j, hj⟩).name.length % 256 ^ E.POINTER_SIZE) ∧
      read_bytes data p (type.memarr.get ⟨j, hj⟩).name.length =
        some (type.memarr.get ⟨j, hj⟩).name ∧
      read_u32 data (members_base + j * member_record_size E + 2 * E.POINTER_SIZE) =
        some (u32 (type.memarr.get ⟨j, hj⟩).offset) ∧
      read_u32 data (members_base + j * member_record_size E + 2 * E.POINTER_SIZE + 4) =
        some (u32 (type.memarr.get ⟨j, hj⟩).type_id)

/-- The record of a type starts at `pos` in a segment: the three header words
are there and, for a struct whose `mem_count` covers `memarr`, its member
array can be read back. -/
def RecordAt (E : TableEnv) (type : OnyxType) (data : List Nat) (pos : Nat) : Prop :=
  read_bytes data pos 12 = some (record_header E type) ∧
    (type.kind = .Struct → type.memarr.length ≤ type.mem_count → MembersAt E type data pos)

/-- A sample build for 4-byte pointers: the kinds are numbered from 1 in the
order of their declaration and the type `type_expr` has id 9. -/
def sampleTable4 : TableEnv := ⟨4, fun k => k.toCtorIdx + 1, 9⟩

/-- The same build for 8-byte pointers. -/
def sampleTable8 : TableEnv := ⟨8, fun k => k.toCtorIdx + 1, 9⟩

/-- A sample type map: `i32`, `&i32`, the struct `Pt` with the members `x` and
`yz` (the second with a default value and a tag), the polymorphic struct `Q`
and the function type `(i32) -> i32`. -/
def sampleTypes : List (Nat × OnyxType) :=
  [(1, { kind := .Basic, id := 1, size := 4, alignment := 4, basic_kind := 7 }),
   (2, { kind := .Pointer, id := 2, size := 4, alignment := 4, elem_id := 1 }),
   (3, { kind := .Struct, id := 3, size := 8, alignment := 4, name := some [80, 116],
         memarr := [{ name := [120], offset := 0, type_id := 1 },
                    { name := [121, 122], offset := 4, type_id := 2,
                      initial_value := some ⟨true, some ⟨1, 4, 4⟩, some [5, 0, 0, 0]⟩,
                      meta_tags := some [⟨true, some ⟨1, 4, 4⟩, some [1, 2, 3, 4]⟩] }],
         mem_count := 2 }),
   (4, { kind := .PolyStruct, id := 4, size := 16, alignment := 8, name := some [81] }),
   (5, { kind := .Function, id := 5, size := 4, alignment := 4, params := [1],
         return_type_id := 1 })]

/-- A type map with one entry, a struct with the member `x` at offset 0,
whose key and id are 3. -/
def sampleGapStruct : List (Nat × OnyxType) :=
  [(3, { kind := .Struct, id := 3, size := 4, alignment := 4, name := some [83],
         memarr := [{ name := [120], offset := 0, type_id := 1 }], mem_count := 1 })]

/-- One entry of `fb->scope->symbols` as `build_foreign_blocks` reads it:
whether `func->kind` is `Ast_Kind_Function`, the text of
`func->foreign_name` and `func->type->id`. -/
structure ForeignSymbol where
  is_function : Bool := true
  foreign_name : List Nat
  type_id : Nat
  deriving DecidableEq, Repr

/-- An `AstForeignBlock`: the text of `module_name` and the symbols of its
scope. -/
structure AstForeignBlock where
  module_name : List Nat
  symbols : List ForeignSymbol
  deriving DecidableEq, Repr

/-- The arrays `name_offsets`, `name_lengths` and `func_types` with the
counter `funcs_length` (lines 646–650). -/
structure ForeignFunctions where
  name_offsets : List Nat
  name_lengths : List Nat
  func_types : List Nat
  funcs_length : Nat
  deriving DecidableEq, Repr

/-- Lines 652–664: the foreign name of every function of the scope. -/
def foreign_function_names :
    List ForeignSymbol → ForeignFunctions → TableBuffer → ForeignFunctions × TableBuffer
  | [], a, st => (a, st)
  | func :: rest, a, st =>
    if func.is_function then
      let func_name_base := u32 st.buffer.length
      let func_name_length := u32 func.foreign_name.length
      let st := bh_buffer_append st func.foreign_name
      foreign_function_names rest
        ⟨a.name_offsets.set a.funcs_length func_name_base,
          a.name_lengths.set a.funcs_length func_name_length,
          a.func_types.set a.funcs_length (u32 func.type_id),
          u32 (a.funcs_length + 1)⟩ st
    else foreign_function_names rest a st

/-- Lines 669–673: `fori (i, lo, lo + n)`, one entry per function. -/
def foreign_function_entries (E : TableEnv) (a : ForeignFunctions) :
    Nat → Nat → TableBuffer → TableBuffer
  | _, 0, st => st
  | i, n + 1, st =>
    let st := bh_buffer_align st E.POINTER_SIZE
    let st := WRITE_SLICE E st (a.name_offsets.getD i 0) (a.name_lengths.getD i 0)
    foreign_function_entries E a (i + 1) n (bh_buffer_write_u32 st (a.func_types.getD i 0))

/-- The statement `foreign_info[index] = foreign_buffer.length;` (line 680)
and `tag_proc_info[index++] = tag_proc_buffer.length;` (line 830): the offset
of a record is stored in the array beside the buffer.  The index is the
counter of the loop over the elements that the array has a slot for, so it
stays below the number of slots. -/
def set_info (E : TableEnv) (st : TableBuffer) (index : Nat) : TableBuffer :=
  { st with info := st.info.set index (Table_Info_Type E st.buffer.length) }

/-- Lines 675–682: the module name and the header of a foreign block. -/
def foreign_block_record (E : TableEnv) (fb : AstForeignBlock)
    (index funcs_base funcs_length : Nat) (st : TableBuffer) : TableBuffer :=
  let name_base := u32 st.buffer.length
  let name_length := u32 fb.module_name.length
  let st := bh_buffer_append st fb.module_name
  let st := bh_buffer_align st 8
  let st := set_info E st index
  let st := WRITE_SLICE E st name_base name_length
  WRITE_SLICE E st funcs_base funcs_length

/-- Lines 644–683: the body of the loop over the foreign blocks. -/
def foreign_block (E : TableEnv) (fb : AstForeignBlock) (index : Nat) (st : TableBuffer) :
    TableBuffer :=
  let n := fb.symbols.length
  let r := foreign_function_names fb.symbols
    ⟨List.replicate n 0, List.replicate n 0, List.replicate n 0, 0⟩ st
  let st := bh_buffer_align r.2 8
  let funcs_base := u32 st.buffer.length
  let st := foreign_function_entries E r.1 0 r.1.funcs_length st
  foreign_block_record E fb index funcs_base r.1.funcs_length st

/-- The loop over `module->foreign_blocks` (line 643) with its counter
`index`. -/
def foreign_blocks_loop (E : TableEnv) : List AstForeignBlock → Nat → TableBuffer → TableBuffer
  | [], _, st => st
  | fb :: rest, index, st => foreign_blocks_loop E rest (u32 (index + 1)) (foreign_block E fb index st)

/-- The state of a builder when its loop starts: the array of record offsets
zeroed, and eight zero bytes in the buffer (lines 629–640 and 774–791). -/
def table_init (count : Nat) : TableBuffer :=
  bh_buffer_write_u64 { buffer := [], base_patch_locations := [], info := List.replicate count 0 } 0

/-- The function `build_foreign_blocks` (lines 608–750): the id of the
descriptor and the module with the three data entries and their patches. -/
def build_foreign_blocks (E : TableEnv) (foreign_blocks : List AstForeignBlock)
    (module : OnyxWasmModule) : Nat × OnyxWasmModule :=
  let block_count := u32 foreign_blocks.length
  let st := foreign_blocks_loop E foreign_blocks 0 (table_init block_count)
  let r := emit_data_entry module ⟨8, st.buffer.length, st.buffer, 0⟩
  let foreign_info_data := r.1
  let module := { r.2 with data_patches :=
    r.2.data_patches ++ relative_patches foreign_info_data.id st.base_patch_locations }
  let r := emit_data_entry module
    ⟨E.POINTER_SIZE, block_count * E.POINTER_SIZE, info_bytes E st.info, 0⟩
  let foreign_table_data := r.1
  let module := { r.2 with data_patches :=
    r.2.data_patches ++
      (data_patches E foreign_info_data.id foreign_table_data.id st.info block_count) }
  let r := emit_data_entry module
    ⟨E.POINTER_SIZE, 2 * E.POINTER_SIZE, info_bytes E [0, Table_Info_Type E block_count], 0⟩
  let foreign_table_global_data := r.1
  let module := { r.2 with data_patches :=
    r.2.data_patches ++
      [⟨.Datum_Patch_Data, foreign_table_data.id, 0, foreign_table_global_data.id, 0⟩] }
  (foreign_table_global_data.id, module)

/-! ## The tagged-procedure table (compiler/src/wasm_type_table.h, lines 754–904) -/

/-- An `AstFunction` of `module->procedures_with_tags` as
`build_tagged_procedures` reads it: its tags, whether the assert on
`func->entity` and its package holds, `get_element_idx(module, func)`,
`func->type->id` and `func->entity->package->id`. -/
structure TaggedProcedure where
  tags : List AstTyped
  entity_ok : Bool := true
  func_idx : Nat
  type_id : Nat
  package_id : Nat
  deriving DecidableEq, Repr

/-- Lines 813–818: `bh_buffer_grow`, the call of `emit_constexpr` and
`tag_proc_buffer.length += size`.  Modelled from the spec: `emit_constexpr`
is defined outside the sources; the bytes it leaves are those of `constexpr`,
zero where it wrote none. -/
def emit_constexpr (st : TableBuffer) (size : Nat) (value : AstTyped) : TableBuffer :=
  emit_constexpr_ st size (value.constexpr.getD [])

/-- Lines 806–819: the payload of every tag of a procedure; reading the type
of a tag through `NULL` aborts. -/
def tagged_procedure_tags :
    List AstTyped → Nat → List Nat → List Nat → TableBuffer →
      Option (List Nat × List Nat × TableBuffer)
  | [], _, tag_data_offsets, tag_data_types, st => some (tag_data_offsets, tag_data_types, st)
  | tag :: rest, tag_index, tag_data_offsets, tag_data_types, st =>
    match tag.type_ with
    | none => none
    | some t =>
      let st := bh_buffer_align st t.alignment
      let tag_data_offsets := tag_data_offsets.set tag_index (u32 st.buffer.length)
      let tag_data_types := tag_data_types.set tag_index (u32 t.id)
      tagged_procedure_tags rest (tag_index + 1) tag_data_offsets tag_data_types
        (emit_constexpr st t.size tag)

/-- Lines 823–827: `fori (i, lo, lo + n)`, the array of tags; every offset is
a patch site. -/
def tagged_procedure_tag_array (tag_data_offsets tag_data_types : List Nat) :
    Nat → Nat → TableBuffer → TableBuffer
  | _, 0, st => st
  | i, n + 1, st =>
    let st := PATCH st
    let st := bh_buffer_write_u32 st (tag_data_offsets.getD i 0)
    tagged_procedure_tag_array tag_data_offsets tag_data_types (i + 1) n
      (bh_buffer_write_u32 st (tag_data_types.getD i 0))

/-- Lines 829–837: the record of a procedure; `info` is `tag_proc_info`, and
the assert of line 832 aborts. -/
def tagged_procedure_record (E : TableEnv) (func : TaggedProcedure)
    (index tag_array_base tag_count : Nat) (st : TableBuffer) : Option TableBuffer :=
  let st := bh_buffer_align st 4
  let st := set_info E st index
  if func.entity_ok then
    let st := bh_buffer_write_u32 st func.func_idx
    let st := bh_buffer_write_u32 st func.type_id
    let st := WRITE_SLICE E st tag_array_base tag_count
    some (bh_buffer_write_u32 st func.package_id)
  else none

/-- Lines 801–837: what the loop does for a procedure that is emitted. -/
def tagged_procedure (E : TableEnv) (func : TaggedProcedure) (index : Nat) (st : TableBuffer) :
    Option TableBuffer :=
  let tag_count := u32 func.tags.length
  match tagged_procedure_tags func.tags 0 (List.replicate tag_count 0)
      (List.replicate tag_count 0) st with
  | none => none
  | some r =>
    let st := bh_buffer_align r.2.2 4
    let tag_array_base := u32 st.buffer.length
    let st := tagged_procedure_tag_array r.1 r.2.1 0 tag_count st
    tagged_procedure_record E func index tag_array_base tag_count st

/-- The loop over `module->procedures_with_tags` (lines 794–838) with its
counters `index` and `proc_count`.  The predicate `should_emit_function` is
defined outside the sources and is a parameter. -/
def tagged_procedures_loop (E : TableEnv) (should_emit_function : TaggedProcedure → Bool) :
    List TaggedProcedure → Nat → Nat → TableBuffer → Option (Nat × TableBuffer)
  | [], _, proc_count, st => some (proc_count, st)
  | func :: rest, index, proc_count, st =>
    if should_emit_function func then
      match tagged_procedure E func index st with
      | none => none
      | some st =>
        tagged_procedures_loop E should_emit_function rest (u32 (index + 1)) proc_count st
    else tagged_procedures_loop E should_emit_function rest index (u32 (proc_count - 1)) st

/-- The function `build_tagged_procedures` (lines 754–904).  The pointer table
holds the first `proc_count` entries of `tag_proc_info`; the assert of line
850 holds by the reading of `NEXT_DATA_ID`. -/
def build_tagged_procedures (E : TableEnv) (should_emit_function : TaggedProcedure → Bool)
    (procedures_with_tags : List TaggedProcedure) (module : OnyxWasmModule) :
    Option (Nat × OnyxWasmModule) :=
  let proc_count := u32 procedures_with_tags.length
  match tagged_procedures_loop E should_emit_function procedures_with_tags 0 proc_count
      (table_init proc_count) with
  | none => none
  | some q =>
    let proc_count := q.1
    let st := q.2
    let r := emit_data_entry module ⟨8, st.buffer.length, st.buffer, 0⟩
    let proc_info_data := r.1
    let module := { r.2 with data_patches :=
      r.2.data_patches ++ relative_patches proc_info_data.id st.base_patch_locations }
    let r := emit_data_entry module
      ⟨E.POINTER_SIZE, proc_count * E.POINTER_SIZE, info_bytes E (st.info.take proc_count), 0⟩
    let proc_table_data := r.1
    let module := { r.2 with data_patches :=
      r.2.data_patches ++ data_patches E proc_info_data.id proc_table_data.id st.info proc_count }
    let r := emit_data_entry module
      ⟨E.POINTER_SIZE, 2 * E.POINTER_SIZE, info_bytes E [0, Table_Info_Type E proc_count], 0⟩
    let proc_table_global_data := r.1
    let module := { r.2 with data_patches :=
      r.2.data_patches ++
        [⟨.Datum_Patch_Data, proc_table_data.id, 0, proc_table_global_data.id, 0⟩] }
    some (proc_table_global_data.id, module)

/-- The size of a function entry of a foreign block as the reader of the
table lays it out: a slice and a 32-bit word, padded to the alignment of a
pointer. -/
def foreign_function_size (E : TableEnv) : Nat :=
  if E.POINTER_SIZE = 4 then 12 else 24

/-- Decoding of the `j`-th function entry of a foreign block, following the
layout of the specification `{SLICE(name), u32 function-type-id}`: the bytes
of the name and the type id. -/
def decode_foreign_function (E : TableEnv) (data : List Nat) (funcs_base j : Nat) :
    Option (List Nat × Nat) :=
  let entry := funcs_base + j * foreign_function_size E
  match read_ptr E data entry, read_ptr E data (entry + E.POINTER_SIZE),
      read_u32 data (entry + 2 * E.POINTER_SIZE) with
  | some name_ptr, some name_len, some type_id =>
    match read_bytes data name_ptr name_len with
    | some name => some (name, type_id)
    | none => none
  | _, _, _ => none

/-- Decoding of the header of a foreign block, following the layout of the
specification `{SLICE(module-name), SLICE(functions)}`: the bytes of the module
name, the base of the function entries and their count. -/
def decode_foreign_block (E : TableEnv) (data : List Nat) (record : Nat) :
    Option (List Nat × Nat × Nat) :=
  match read_ptr E data record, read_ptr E data (record + E.POINTER_SIZE),
      read_ptr E data (record + 2 * E.POINTER_SIZE),
      read_ptr E data (record + 3 * E.POINTER_SIZE) with
  | some name_ptr, some name_len, some funcs_base, some count =>
    match read_bytes data name_ptr name_len with
    | some name => some (name, funcs_base, count)
    | none => none
  | _, _, _, _ => none

/-- The function-kind symbols of a foreign block, in the order of its scope. -/
def foreign_functions (fb : AstForeignBlock) : List ForeignSymbol :=
  fb.symbols.filter (fun func => func.is_function)

/-- The header of a foreign block can be read back at `pos`: the module name,
and every function entry at the stride `foreign_function_size`.  The words
are stated as they are written, before any bound on the sizes is assumed. -/
def ForeignBlockAt (E : TableEnv) (fb : AstForeignBlock) (data : List Nat) (pos : Nat) : Prop :=
  ∃ name_base funcs_base,
    funcs_base + (foreign_functions fb).length * foreign_function_size E ≤ data.length ∧
    read_ptr E data pos = some (u32 name_base) ∧
    read_ptr E data (pos + E.POINTER_SIZE) = some (u32 fb.module_name.length) ∧
    read_bytes data name_base fb.module_name.length = some fb.module_name ∧
    read_ptr E data (pos + 2 * E.POINTER_SIZE) = some (u32 funcs_base) ∧
    read_ptr E data (pos + 3 * E.POINTER_SIZE) = some (foreign_functions fb).length ∧
    ∀ j (hj : j < (foreign_functions fb).length), ∃ p,
      read_ptr E data (funcs_base + j * foreign_function_size E) = some (u32 p) ∧
      read_ptr E data (funcs_base + j * foreign_function_size E + E.POINTER_SIZE) =
        some (u32 ((foreign_functions fb).get ⟨j, hj⟩).foreign_name.length) ∧
      read_bytes data p ((foreign_functions fb).get ⟨j, hj⟩).foreign_name.length =
        some ((foreign_functions fb).get ⟨j, hj⟩).foreign_name ∧
      read_u32 data (funcs_base + j * foreign_function_size E + 2 * E.POINTER_SIZE) =
        some (u32 ((foreign_functions fb).get ⟨j, hj⟩).type_id)

/-- A sample list of foreign blocks: the block `host` with the function `puts`
of type 5, and the block `env` with a symbol that is no function between the
functions `a` and `bc`. -/
def sampleForeignBlocks : List AstForeignBlock :=
  [{ module_name := [104, 111, 115, 116],
     symbols := [{ foreign_name := [112, 117, 116, 115], type_id := 5 }] },
   { module_name := [101, 110, 118],
     symbols := [{ foreign_name := [97], type_id := 6 },
                 { is_function := false, foreign_name := [120], type_id := 0 },
                 { foreign_name := [98, 99], type_id := 7 }] }]

/-- A sample list of tagged procedures: one with two tags, one that the
sample predicate rejects, and one without tags. -/
def sampleProcedures : List TaggedProcedure :=
  [{ tags := [⟨true, some ⟨1, 4, 4⟩, some [1, 2, 3, 4]⟩, ⟨true, some ⟨2, 2, 2⟩, some [9, 8]⟩],
     func_idx := 3, type_id := 5, package_id := 1 },
   { tags := [], func_idx := 4, type_id := 5, package_id := 0 },
   { tags := [], func_idx := 6, type_id := 8, package_id := 2 }]

/-- A sample `should_emit_function`: procedures of package 0 are not
emitted. -/
def sampleShouldEmit (func : TaggedProcedure) : Bool := func.package_id != 0

/-! ## Validity of the offsets of the reflection tables -/

/-- The second state has the buffer of the first with bytes added at the end,
and the same patch sites and record offsets. -/
def Extends (st st1 : TableBuffer) : Prop :=
  (∃ suffix, st1.buffer = st.buffer ++ suffix) ∧
    st1.base_patch_locations = st.base_patch_locations ∧ st1.info = st.info

/-- Conversion to `i32`: the value modulo 2^32 in the range of a signed
32-bit integer. -/
def i32 (x : Int) : Int := (x + 2147483648) % 4294967296 - 2147483648

/-- Modelled from the spec: `bh_min` is defined outside the sources; the
smaller of two numbers. -/
def bh_min (a b : Nat) : Nat := if a < b then a else b

/-- The characters of a C string: the bytes before the first NUL. -/
def c_string (s : List Nat) : List Nat := s.takeWhile (fun c => c != 0)

/-- Modelled from the spec: `strlen` of the C library, which the sources call
and do not define. -/
def strlen (s : List Nat) : Nat := (c_string s).length

/-- Modelled from the spec: `strncmp(s1, s2, n)` of the C library, which the
sources call and do not define.  At most `n` characters are compared, and the
comparison stops after a NUL; the result is the difference of the first two
characters that differ, 0 when there are none.  The list `s1` is the part of
a buffer that starts at the first pointer, and a read past its end has no
result; `s2` is a C string or a buffer of at least `n` bytes. -/
def strncmp : List Nat → List Nat → Nat → Option Int
  | _, _, 0 => some 0
  | [], _, _ + 1 => none
  | c1 :: s1, s2, n + 1 =>
    if c1 != s2.headD 0 then some ((c1 : Int) - (s2.headD 0 : Int))
    else if c1 = 0 then some 0
    else strncmp s1 s2.tail n

/-- Modelled from the spec: `strncpy(dst, src, n)` of the C library followed
by `dst[n] = 0` (lines 146–147 and 161–162): the characters of the C string
that `dst` holds afterwards, those of the first `n` bytes of `src` that stand
before a NUL.  A read past the end of the buffer has no result.  The write of
the terminator is not tracked by this model. -/
def strncpy : List Nat → Nat → Option (List Nat)
  | _, 0 => some []
  | [], _ + 1 => none
  | c :: src, n + 1 =>
    if c = 0 then some [] else (strncpy src n).map (fun rest => c :: rest)

/-- The struct `wasm_name_t`: `size` bytes at `data`. -/
abbrev wasm_name_t := List Nat

/-- The function `wasm_name_equals` (lines 29–32); both names are buffers of
their size. -/
def wasm_name_equals (name1 name2 : wasm_name_t) : Option Bool :=
  if name1.length != name2.length then some false
  else (strncmp name1 name2 name1.length).map (fun r => r == 0)

/-- The function `wasm_name_equals_string` (lines 34–38); `name2` is a C
string. -/
def wasm_name_equals_string (name1 : wasm_name_t) (name2 : List Nat) : Option Bool :=
  let name2_size := u32 (strlen name2)
  if name1.length != name2_size then some false
  else (strncmp name1 (c_string name2) name1.length).map (fun r => r == 0)

/-- The decoding of an unsigned LEB128 number from the bytes that follow the
cursor: the value modulo 2^64 and the number of bytes read. -/
def uleb128 : List Nat → Nat → Option (Nat × Nat)
  | [], _ => none
  | b :: rest, shift =>
    if b < 128 then some ((b * 2 ^ shift) % 18446744073709551616, 1)
    else (uleb128 rest (shift + 7)).map (fun r =>
      (((b % 128) * 2 ^ shift + r.1) % 18446744073709551616, r.2 + 1))

/-- Modelled from the spec: `uleb128_to_uint(bytes, &cursor)` is defined
outside the sources; it decodes the unsigned LEB128 number (§6 of the
specification) at the cursor and moves the cursor past it.  A cursor outside
the buffer has no result. -/
def uleb128_to_uint (bytes : List Nat) (cursor : Int) : Option (Nat × Int) :=
  if cursor < 0 then none
  else (uleb128 (bytes.drop cursor.toNat) 0).map (fun r => (r.1, i32 (cursor + r.2)))

/-- The C string `"ONYX"`. -/
def str_ONYX : List Nat := [79, 78, 89, 88]

/-- The C string `"_onyx_libs"`. -/
def str_onyx_libs : List Nat := [95, 111, 110, 121, 120, 95, 108, 105, 98, 115]

/-- The C string `"_onyx_func_offsets"`. -/
def str_onyx_func_offsets : List Nat :=
  [95, 111, 110, 121, 120, 95, 102, 117, 110, 99, 95, 111, 102, 102, 115, 101, 116, 115]

/-- The C string `"onyx"`. -/
def str_onyx : List Nat := [111, 110, 121, 120]

/-- The C string `"memory"`. -/
def str_memory : List Nat := [109, 101, 109, 111, 114, 121]

/-- The C string `"_start"`. -/
def str_start : List Nat := [95, 115, 116, 97, 114, 116]

/-- The C string `"onyx_library_"`. -/
def str_onyx_library : List Nat := [111, 110, 121, 120, 95, 108, 105, 98, 114, 97, 114, 121, 95]

/-- The struct `WasmFuncDefinition` of `onyx_library.h` as `link_wasm_imports`
reads it: two C strings, the kinds of the parameters and of the results, and
the callback. -/
structure WasmFuncDefinition where
  module_name : List Nat
  import_name : List Nat
  params : List Nat := []
  results : List Nat := []
  func : Nat := 0
  deriving DecidableEq, Repr

/-- A `wasm_importtype_t` as `link_wasm_imports` reads it. -/
structure wasm_importtype_t where
  module : wasm_name_t
  name : wasm_name_t
  deriving DecidableEq, Repr

/-- A `wasm_extern_t` of the import vector: the memory, or a host function
made by `wasm_func_new` from a definition. -/
inductive wasm_extern_t where
  | memory
  | func (params results : List Nat) (callback : Nat)
  deriving DecidableEq, Repr

/-- A `wasm_module_t` as the loader reads it: its imports
(`wasm_module_imports`) and the names of its exports (`wasm_module_exports`),
both in declaration order. -/
structure wasm_module_t where
  imports : List wasm_importtype_t := []
  exports : List wasm_name_t := []
  deriving DecidableEq, Repr

/-- A `wasm_frame_t` as `onyx_print_trap` reads it. -/
structure wasm_frame_t where
  func_index : Nat
  module_offset : Nat := 0
  deriving DecidableEq, Repr

/-- A `wasm_trap_t` as `onyx_print_trap` reads it: `wasm_trap_message` and
`wasm_trap_trace`. -/
structure wasm_trap_t where
  message : List Nat := []
  frames : List wasm_frame_t := []
  deriving DecidableEq, Repr

/-- What the loader does that can be observed from outside: the text it
prints and the calls of the engine that create, run and delete objects.  A
line of the trace is kept with the arguments of its format
`"    func[%d]:%p at %s\n"`, and the two messages of `onyx_load_library`
with the name they show. -/
inductive RuntimeEvent where
  | print (text : List Nat)
  | print_frame (func_idx mod_offset : Int) (func_name : List Nat)
  | print_error_loading (name : List Nat)
  | print_error_resolving (library_load_name : List Nat)
  | wasm_module_new (bytes : List Nat)
  | wasm_memory_new
  | wasm_func_new (definition : WasmFuncDefinition)
  | wasm_instance_new (imports : List wasm_extern_t)
  | wasm_func_call (export_index : Nat)
  | wasm_instance_delete
  | wasm_module_delete
  | wasm_store_delete
  | wasm_engine_delete
  deriving DecidableEq, Repr

/-- The text of `printf("Bad magic bytes for Onyx binary.\n")` (line 352). -/
def bad_magic_message : List Nat :=
  [66, 97, 100, 32, 109, 97, 103, 105, 99, 32, 98, 121, 116, 101, 115, 32, 102, 111, 114, 32,
    79, 110, 121, 120, 32, 98, 105, 110, 97, 114, 121, 46, 10]

/-- The text of `bh_printf("Couldn't find import %b.%b.\n", ...)` (line 289):
the words `Couldn't find import `, the module name, a dot, the import name, a
dot and a line feed. -/
def missing_import_message (module_name import_name : List Nat) : List Nat :=
  [67, 111, 117, 108, 100, 110, 39, 116, 32, 102, 105, 110, 100, 32, 105, 109, 112, 111, 114,
    116, 32] ++ module_name ++ [46] ++ import_name ++ [46, 10]

/-- The text of `bh_printf("TRAP: %b\n", msg.data, msg.size)` (line 183). -/
def trap_message (msg : List Nat) : List Nat :=
  [84, 82, 65, 80, 58, 32] ++ msg ++ [10]

/-- The text of `bh_printf("TRACE:\n")` (line 207). -/
def trace_message : List Nat := [84, 82, 65, 67, 69, 58, 10]

/-- The globals of the file that the loader reads and writes (lines 18–25):
whether `wasm_engine`, `wasm_store`, `wasm_instance` and `wasm_memory` are
set, the module when `wasm_module` is set, and what has been observed so
far. -/
structure RuntimeState where
  wasm_engine : Bool := true
  wasm_store : Bool := true
  wasm_instance : Bool := false
  wasm_module : Option wasm_module_t := none
  wasm_memory : Bool := false
  events : List RuntimeEvent := []
  deriving DecidableEq, Repr

/-- One more observed event. -/
def RuntimeState.emit (st : RuntimeState) (e : RuntimeEvent) : RuntimeState :=
  { st with events := st.events ++ [e] }

/-- What lies outside the sources and is a parameter of the loader: the
separator of directories, `bh_path_convert_separators`, `bh_lookup_file`,
`dlopen` (the handle, if any), `dlsym` followed by the call of the linker
function it finds (the table the library returns, which may be `NULL`), and
of the engine `wasm_module_new` (the module, if the bytes are accepted),
`wasm_instance_new` (whether an instance is made) and `wasm_func_call` (the
trap, if any, of the export called). -/
structure RuntimeEnv where
  DIR_SEPARATOR : Nat := 47
  bh_path_convert_separators : List Nat → List Nat := fun path => path
  bh_lookup_file : List Nat → List (List Nat) → List Nat := fun name _ => name
  dlopen : List Nat → Option Nat := fun _ => none
  dlsym : Nat → List Nat → Option (Option (List WasmFuncDefinition)) := fun _ _ => none
  wasm_module_new : List Nat → Option wasm_module_t := fun _ => none
  wasm_instance_new : wasm_module_t → List wasm_extern_t → Bool := fun _ _ => true
  wasm_func_call : wasm_module_t → Nat → Option wasm_trap_t := fun _ _ => none

/-- Lines 81–84: the part of the name after the last separator. -/
def library_basename (separator : Nat) : List Nat → List Nat → List Nat
  | [], library => library
  | c :: rest, library =>
    if c = separator then library_basename separator rest rest
    else library_basename separator rest library

/-- The function `onyx_load_library` (lines 73–122) with the paths of the
link context: the table of the library, if it is loaded and resolved. -/
def onyx_load_library (R : RuntimeEnv) (library_paths : List (List Nat)) (name : List Nat)
    (st : RuntimeState) : Option (List WasmFuncDefinition) × RuntimeState :=
  let library := library_basename R.DIR_SEPARATOR name name
  let library_load_name := str_onyx_library ++ library
  let library_name := R.bh_lookup_file name library_paths
  match R.dlopen library_name with
  | none => (none, st.emit (.print_error_loading name))
  | some handle =>
    match R.dlsym handle library_load_name with
    | none => (none, st.emit (.print_error_resolving library_load_name))
    | some table => (table, st)

/-- The number of iterations of `fori (i, 0, (i64) count)` for a `u64`
count. -/
def fori_count (count : Nat) : Nat :=
  if count < 9223372036854775808 then count else 0

/-- Lines 141–152: the loop over the library paths; the cursor moves by the
clamped length. -/
def read_library_paths (R : RuntimeEnv) (bytes : List Nat) :
    Nat → Int → List (List Nat) → Option (Int × List (List Nat))
  | 0, cursor, library_paths => some (cursor, library_paths)
  | n + 1, cursor, library_paths =>
    match uleb128_to_uint bytes cursor with
    | none => none
    | some (lib_path_length, cursor) =>
      let lib_path_length := bh_min lib_path_length 512
      match strncpy (bytes.drop cursor.toNat) lib_path_length with
      | none => none
      | some lib_path =>
        read_library_paths R bytes n (i32 (cursor + lib_path_length))
          (library_paths ++ [R.bh_path_convert_separators lib_path])

/-- Lines 156–169: the loop over the library names; every library that loads
is pushed on `out`. -/
def read_library_names (R : RuntimeEnv) (bytes : List Nat) (library_paths : List (List Nat)) :
    Nat → Int → List (List WasmFuncDefinition) → RuntimeState →
      Option (Int × List (List WasmFuncDefinition) × RuntimeState)
  | 0, cursor, out, st => some (cursor, out, st)
  | n + 1, cursor, out, st =>
    match uleb128_to_uint bytes cursor with
    | none => none
    | some (lib_name_length, cursor) =>
      let lib_name_length := bh_min lib_name_length 256
      match strncpy (bytes.drop cursor.toNat) lib_name_length with
      | none => none
      | some library_name =>
        let cursor := i32 (cursor + lib_name_length)
        match onyx_load_library R library_paths library_name st with
        | (some lib, st) => read_library_names R bytes library_paths n cursor (out ++ [lib]) st
        | (none, st) => read_library_names R bytes library_paths n cursor out st

/-- What one turn of the scan of the sections does: the section is the
custom section looked for, and the cursor stands after its name, or the
cursor has moved to `section_start + section_size`. -/
inductive SectionStep where
  | found (cursor : Int)
  | skip (cursor : Int)
  deriving DecidableEq, Repr

/-- The body of the loop over the sections (lines 131–174 and 189–202) up to
the test of the name: the two numbers of the section are read, and for a
custom section the length of its name, which `strncmp` compares with the
name looked for over that length. -/
def section_step (bytes : List Nat) (name : List Nat) (cursor : Int) : Option SectionStep :=
  match uleb128_to_uint bytes cursor with
  | none => none
  | some (section_number, cursor) =>
    match uleb128_to_uint bytes cursor with
    | none => none
    | some (section_size, cursor) =>
      let section_start := cursor
      if section_number = 0 then
        match uleb128_to_uint bytes cursor with
        | none => none
        | some (name_len, cursor) =>
          match strncmp (bytes.drop cursor.toNat) name name_len with
          | none => none
          | some r =>
            if r = 0 then some (.found (i32 (cursor + name_len)))
            else some (.skip (i32 (section_start + section_size)))
      else some (.skip (i32 (section_start + section_size)))

/-- The loop `while (cursor < wasm_bytes.length)` of lines 130–175 and
188–203: the cursor after the name of the first section that the test of
the name accepts, if there is one.  The fuel bounds the number of turns. -/
def section_scan (bytes : List Nat) (name : List Nat) : Nat → Int → Option (Option Int)
  | 0, _ => none
  | fuel + 1, cursor =>
    if cursor < bytes.length then
      match section_step bytes name cursor with
      | none => none
      | some (.found cursor) => some (some cursor)
      | some (.skip cursor) => section_scan bytes name fuel cursor
    else some none

/-- What `lookup_and_load_custom_libraries` leaves: `ctx->library_paths`,
`*p_out` and the state. -/
structure LoadedLibraries where
  library_paths : List (List Nat) := []
  out : List (List WasmFuncDefinition) := []
  st : RuntimeState
  deriving DecidableEq, Repr

/-- The function `lookup_and_load_custom_libraries` (lines 124–178). -/
def lookup_and_load_custom_libraries (R : RuntimeEnv) (fuel : Nat) (wasm_bytes : List Nat)
    (st : RuntimeState) : Option LoadedLibraries :=
  match section_scan wasm_bytes str_onyx_libs fuel 8 with
  | none => none
  | some none => some ⟨[], [], st⟩
  | some (some cursor) =>
    match uleb128_to_uint wasm_bytes cursor with
    | none => none
    | some (lib_count, cursor) =>
      match read_library_paths R wasm_bytes (fori_count lib_count) cursor [] with
      | none => none
      | some (cursor, library_paths) =>
        match uleb128_to_uint wasm_bytes cursor with
        | none => none
        | some (lib_count, cursor) =>
          match read_library_names R wasm_bytes library_paths (fori_count lib_count) cursor []
              st with
          | none => none
          | some (_, out, st) => some ⟨library_paths, out, st⟩

/-- The 32-bit word `*(i32 *) (data + cursor)`, least significant byte
first. -/
def read_i32 (bytes : List Nat) (cursor : Int) : Option Int :=
  if cursor < 0 then none
  else (read_u32 bytes cursor.toNat).map (fun w => i32 (w : Int))

/-- The C string that `%s` prints for `data + cursor`; it has to end inside
the buffer. -/
def read_c_string (bytes : List Nat) (cursor : Int) : Option (List Nat) :=
  if cursor < 0 then none
  else if (bytes.drop cursor.toNat).contains 0 then some (c_string (bytes.drop cursor.toNat))
  else none

/-- Lines 210–219: one line per frame of the trap. -/
def print_frames (wasm_raw_bytes : List Nat) (func_name_section : Int) :
    List wasm_frame_t → RuntimeState → Option RuntimeState
  | [], st => some st
  | frame :: rest, st =>
    let func_idx := i32 frame.func_index
    let mod_offset := i32 frame.module_offset
    let cursor := i32 (func_name_section + 4 * func_idx)
    match read_i32 wasm_raw_bytes cursor with
    | none => none
    | some func_offset =>
      match read_c_string wasm_raw_bytes (func_name_section + func_offset) with
      | none => none
      | some func_name =>
        print_frames wasm_raw_bytes func_name_section rest
          (st.emit (.print_frame func_idx mod_offset func_name))

/-- The function `onyx_print_trap` (lines 180–220) on the bytes that
`wasm_raw_bytes` holds. -/
def onyx_print_trap (fuel : Nat) (wasm_raw_bytes : List Nat) (trap : wasm_trap_t)
    (st : RuntimeState) : Option RuntimeState :=
  let st := st.emit (.print (trap_message trap.message))
  match section_scan wasm_raw_bytes str_onyx_func_offsets fuel 8 with
  | none => none
  | some found =>
    let func_name_section := found.getD 0
    if func_name_section = 0 then some st
    else
      let st := st.emit (.print trace_message)
      print_frames wasm_raw_bytes func_name_section
        (trap.frames.take (i32 trap.frames.length).toNat) st

/-- The function `cleanup_wasm_objects` (lines 222–227). -/
def cleanup_wasm_objects (st : RuntimeState) : RuntimeState :=
  let st := if st.wasm_instance then st.emit .wasm_instance_delete else st
  let st := if st.wasm_module.isSome then st.emit .wasm_module_delete else st
  let st := if st.wasm_store then st.emit .wasm_store_delete else st
  if st.wasm_engine then st.emit .wasm_engine_delete else st

/-- Lines 259–278: the walk over the definitions of one library up to its
`NULL`; the first definition whose two names equal those of the import. -/
def find_definition (module_name import_name : wasm_name_t) :
    List WasmFuncDefinition → Option (Option WasmFuncDefinition)
  | [] => some none
  | cf :: rest =>
    match wasm_name_equals_string module_name cf.module_name with
    | none => none
    | some false => find_definition module_name import_name rest
    | some true =>
      match wasm_name_equals_string import_name cf.import_name with
      | none => none
      | some true => some (some cf)
      | some false => find_definition module_name import_name rest

/-- Lines 257–279: the loop over the loaded libraries. -/
def find_linkable (module_name import_name : wasm_name_t) :
    List (List WasmFuncDefinition) → Option (Option WasmFuncDefinition)
  | [] => some none
  | library_funcs :: rest =>
    match find_definition module_name import_name library_funcs with
    | none => none
    | some (some cf) => some (some cf)
    | some none => find_linkable module_name import_name rest

/-- Lines 244–255: whether the import is `onyx.memory`. -/
def is_onyx_memory (module_name import_name : wasm_name_t) : Option Bool :=
  match wasm_name_equals_string module_name str_onyx with
  | none => none
  | some false => some false
  | some true => wasm_name_equals_string import_name str_memory

/-- The loop of `link_wasm_imports` (lines 238–291) with the import vector
built so far. -/
def link_wasm_imports_loop (linkable_functions : List (List WasmFuncDefinition)) :
    List wasm_importtype_t → List wasm_extern_t → RuntimeState →
      Option (Bool × List wasm_extern_t × RuntimeState)
  | [], wasm_imports, st => some (true, wasm_imports, st)
  | imp :: rest, wasm_imports, st =>
    match is_onyx_memory imp.module imp.name with
    | none => none
    | some true =>
      let st := if st.wasm_memory then st
        else { st.emit .wasm_memory_new with wasm_memory := true }
      link_wasm_imports_loop linkable_functions rest (wasm_imports ++ [.memory]) st
    | some false =>
      match find_linkable imp.module imp.name linkable_functions with
      | none => none
      | some (some cf) =>
        link_wasm_imports_loop linkable_functions rest
          (wasm_imports ++ [.func cf.params cf.results cf.func]) (st.emit (.wasm_func_new cf))
      | some none =>
        some (false, wasm_imports,
          st.emit (.print (missing_import_message imp.module imp.name)))

/-- The function `link_wasm_imports` (lines 232–294): its result, the global
`wasm_imports` and the state. -/
def link_wasm_imports (linkable_functions : List (List WasmFuncDefinition))
    (wasm_module : wasm_module_t) (st : RuntimeState) :
    Option (Bool × List wasm_extern_t × RuntimeState) :=
  link_wasm_imports_loop linkable_functions wasm_module.imports [] st

/-- The loop of `wasm_extern_lookup_by_name` (lines 46–54): the index of the
first export that `strncmp` accepts over the length of the name. -/
def lookup_export (name : List Nat) : List wasm_name_t → Nat → Option (Option Nat)
  | [], _ => some none
  | export_name :: rest, i =>
    match strncmp export_name name (strlen name) with
    | none => none
    | some r => if r = 0 then some (some i) else lookup_export name rest (i + 1)

/-- The function `wasm_extern_lookup_by_name` (lines 40–62): the index of the
export of the instance that it returns, if it does not return `NULL`. -/
def wasm_extern_lookup_by_name (module : wasm_module_t) (name : List Nat) :
    Option (Option Nat) :=
  lookup_export name module.exports 0

/-- Lines 356–359: the first four bytes become those of `\0asm`. -/
def rewrite_magic (wasm_bytes : List Nat) : List Nat :=
  (((wasm_bytes.set 0 0).set 1 97).set 2 115).set 3 109

/-- Lines 389–433 of `onyx_run_wasm`: the instance, the call of `_start`, the
trap and the cleanup.  A call through a `NULL` export has no result. -/
def onyx_run_instance (R : RuntimeEnv) (fuel : Nat) (wasm_bytes : List Nat)
    (module : wasm_module_t) (wasm_imports : List wasm_extern_t) (st : RuntimeState) :
    Option (Bool × RuntimeState) :=
  let st := st.emit (.wasm_instance_new wasm_imports)
  if R.wasm_instance_new module wasm_imports then
    let st := { st with wasm_instance := true }
    match wasm_extern_lookup_by_name module str_start with
    | none => none
    | some none => none
    | some (some start_func) =>
      let st := st.emit (.wasm_func_call start_func)
      match R.wasm_func_call module start_func with
      | none => some (true, cleanup_wasm_objects st)
      | some run_trap =>
        match onyx_print_trap fuel wasm_bytes run_trap st with
        | none => none
        | some st => some (false, cleanup_wasm_objects st)
  else some (false, cleanup_wasm_objects st)

/-- Lines 374–433 of `onyx_run_wasm`: from `wasm_module_new` on, with the
libraries that have been loaded. -/
def onyx_run_module (R : RuntimeEnv) (fuel : Nat) (wasm_bytes : List Nat)
    (linkable_functions : List (List WasmFuncDefinition)) (st : RuntimeState) :
    Option (Bool × RuntimeState) :=
  let st := st.emit (.wasm_module_new wasm_bytes)
  match R.wasm_module_new wasm_bytes with
  | none => some (false, cleanup_wasm_objects { st with wasm_module := none })
  | some module =>
    let st := { st with wasm_module := some module }
    match link_wasm_imports linkable_functions module st with
    | none => none
    | some (false, _, st) => some (false, st)
    | some (true, wasm_imports, st) => onyx_run_instance R fuel wasm_bytes module wasm_imports st

/-- The function `onyx_run_wasm` (lines 348–434): its result, the bytes of the
buffer when it returns, and the state. -/
def onyx_run_wasm (R : RuntimeEnv) (fuel : Nat) (wasm_bytes : List Nat) (st : RuntimeState) :
    Option (Bool × List Nat × RuntimeState) :=
  match strncmp wasm_bytes str_ONYX 4 with
  | none => none
  | some r =>
    if r != 0 then some (false, wasm_bytes, st.emit (.print bad_magic_message))
    else
      let wasm_bytes := rewrite_magic wasm_bytes
      match lookup_and_load_custom_libraries R fuel wasm_bytes st with
      | none => none
      | some libs =>
        (onyx_run_module R fuel wasm_bytes libs.out libs.st).map
          (fun r => (r.1, wasm_bytes, r.2))

/-- A module of eight bytes with the magic bytes of the compiler. -/
def sampleOnyxBytes : List Nat := [79, 78, 89, 88, 1, 0, 0, 0]

/-- A module that imports `onyx.memory` and `env.missing` and exports
`_start`. -/
def sampleMissingImport : wasm_module_t :=
  ⟨[⟨str_onyx, str_memory⟩, ⟨[101, 110, 118], [109, 105, 115, 115, 105, 110, 103]⟩],
    [str_start]⟩

/-- An engine that reads every buffer as `sampleMissingImport`; no library
can be loaded. -/
def sampleEngine : RuntimeEnv := { wasm_module_new := fun _ => some sampleMissingImport }

/-- A module, its magic bytes rewritten, whose only section is a custom
section with the empty name; its five bytes are the name length 0, then the
bytes 1, 1, 112, 0. -/
def sampleEmptyNameModule : List Nat :=
  [0, 97, 115, 109, 1, 0, 0, 0] ++ [0, 5, 0, 1, 1, 112, 0]

/-- A module, its magic bytes rewritten, whose only section is a custom
section named `_onyx`; after the name come the bytes 1, 1, 112, 0. -/
def sampleShortNameModule : List Nat :=
  [0, 97, 115, 109, 1, 0, 0, 0] ++ [0, 10, 5, 95, 111, 110, 121, 120, 1, 1, 112, 0]

/-- A module, its magic bytes rewritten, with the section `_onyx_libs` (530
bytes: two paths, the first of 513 bytes `a` and the second `b`, and no name)
followed by a custom section `pad` of 100 zero bytes. -/
def sampleLongPathModule : List Nat :=
  [0, 97, 115, 109, 1, 0, 0, 0] ++
    ([0, 146, 4, 10] ++ str_onyx_libs ++ [2, 129, 4] ++ List.replicate 513 97 ++ [1, 98] ++ [0]) ++
    ([0, 104, 3, 112, 97, 100] ++ List.replicate 100 0)

/-- A module, its magic bytes rewritten, whose only section is a custom
section with the empty name: after the name length 0 come the word 4 and the
C string `f`. -/
def sampleTrapModule : List Nat :=
  [0, 97, 115, 109, 1, 0, 0, 0] ++ [0, 7, 0, 4, 0, 0, 0, 102, 0]

/-- A trap with the message `x` and one frame, in the function of index 0. -/
def sampleTrap : wasm_trap_t := ⟨[120], [⟨0, 0⟩]⟩

/-- A write of a terminator: the size in bytes of the buffer written to and
the index of the byte written. -/
structure TerminatorWrite where
  size : Nat
  index : Nat
  deriving DecidableEq, Repr

/-- Lines 143–147: `lib_path_length = bh_min(lib_path_length, 512)`, then
`malloc(lib_path_length)` and `lib_path[lib_path_length] = 0`. -/
def lib_path_terminator (lib_path_length : Nat) : TerminatorWrite :=
  let lib_path_length := bh_min lib_path_length 512
  ⟨lib_path_length, lib_path_length⟩

/-- Lines 158–162: `lib_name_length = bh_min(lib_name_length, 256)`, then
`char library_name[256]` and `library_name[lib_name_length] = 0`. -/
def library_name_terminator (lib_name_length : Nat) : TerminatorWrite :=
  let lib_name_length := bh_min lib_name_length 256
  ⟨256, lib_name_length⟩

/-- A module, its magic bytes rewritten, with one section: its number is 1
and its size is encoded in the five bytes fa ff ff ff 0f, which is
4294967290. -/
def sampleLoopModule : List Nat :=
  [0, 97, 115, 109, 1, 0, 0, 0] ++ [1, 250, 255, 255, 255, 15]

/-- A module that exports `_start2` and then `_start`. -/
def sampleExports : wasm_module_t :=
  ⟨[], [[95, 115, 116, 97, 114, 116, 50], str_start]⟩

/-- A module whose only export is `_start2`. -/
def sampleExportsOther : wasm_module_t :=
  ⟨[], [[95, 115, 116, 97, 114, 116, 50]]⟩

/-- The polymorphic struct `P` with two tags: the first, of type 5, is not
known at compile time; the second, of type 6, is, and its payload is the four
bytes 1, 0, 0, 0. -/
def samplePolyStruct : OnyxType :=
  { kind := .PolyStruct, id := 1, name := some [80],
    meta_tags := [⟨false, some ⟨5, 4, 4⟩, none⟩, ⟨true, some ⟨6, 4, 4⟩, some [1, 0, 0, 0]⟩] }

/-- Every patch site recorded so far is a multiple of `k`. -/
def PatchesAligned (k : Nat) (st : TableBuffer) : Prop :=
  ∀ L ∈ st.base_patch_locations, L % k = 0

/-- A tagged procedure with one tag of four bytes. -/
def sampleOneTagProcedure : List TaggedProcedure :=
  [{ tags := [⟨true, some ⟨1, 4, 4⟩, some [1, 2, 3, 4]⟩], func_idx := 3, type_id := 5,
     package_id := 1 }]

/-- A type map with one entry, whose key and id are 5. -/
def sampleGapTypes : List (Nat × OnyxType) :=
  [(5, { kind := .Basic, id := 5, size := 4, alignment := 4, basic_kind := 7 })]

/-- The store of `forLoopState` with scope 2 as the current scope; scope 1 has
scope 0 as its parent. -/
def scopeStackState : SymresState := { forLoopState with curr_scope := some 2 }

/-- The store of `forLoopState` where the scope of the package has scope 2 as
its parent, not the global scope. -/
def packageScopeState : SymresState :=
  { forLoopState with sem := { forLoopState.sem with
      scopes := [{}, { parent := some 2 }, {}] } }

/-- The store of `forLoopState` when the loop of `onyx_resolve_symbols` over
the entities starts. -/
def forLoopStart : SymresState :=
  introduce_builtins sampleSymEnv builtin_symbols
    { forLoopState with curr_scope := forLoopState.global_scope }

/-- The value `*trailer`, when the node of the location is in the store. -/
def Trailer.read (t : Trailer) (s : SymresState) : Option Ptr :=
  match t with
  | .arguments call => (s.node call).map AstNode.arguments
  | .body block => (s.node block).map AstNode.body
  | .next node => (s.node node).map AstNode.next

/-- The pointer `*trailer`: the head of the chain that starts at the location. -/
def Trailer.load (t : Trailer) (s : SymresState) : Ptr := (t.read s).join

/-- The array `semstate.curr_function->locals`. -/
def function_locals (s : SymresState) : List Ptr :=
  ((s.deref s.curr_function).map AstNode.locals).getD []

/-- Whether the node at an address is a local declaration. -/
def is_local (s : SymresState) (a : Nat) : Bool :=
  (s.node a).map AstNode.kind == some AstKind.Local

/-- Whether the store `s1` has the links and the kinds of `s` at the statements `P`
of a chain, the same pointer at the location `T0` of its head, and the same current
function and current scope. -/
def chain_frame (P : List Nat) (T0 : Trailer) (s s1 : SymresState) : Bool :=
  (T0 :: P.map Trailer.next).all (fun t => t.read s1 == t.read s) &&
    P.all (fun q => (s1.node q).map AstNode.kind == (s.node q).map AstNode.kind) &&
    (s1.curr_function == s.curr_function && s1.curr_scope == s.curr_scope)

/-- The walk over a statement chain as the specification words it, over the list of
the statements: a local declaration has its type resolved, is appended to the local
list of the current function and introduced into the current scope, and is then taken
out of the chain, its `next` link cleared; any other statement is resolved and kept.
The result holds, with the store, the scope and the address of every declaration that
was introduced, in order.  There is no result when a resolver has none, or when
resolving a statement changes a link or the kind of a statement of the chain `P`, the
pointer at the location `T0` of the head, the current function or scope, or takes
from the local list. -/
def statement_chain_spec (E : SymEnv) (symres_type : TypeResolver)
    (symres_statement : StmtResolver) (P : List Nat) (T0 : Trailer) :
    List Nat → Trailer → SymresState → Option (List (Option Nat × Nat) × SymresState)
  | [], _, s => some ([], s)
  | a :: rest, trailer, s =>
    match s.node a with
    | none => none
    | some n =>
      if n.kind = AstKind.Local then
        match symres_type n.type_node s with
        | none => none
        | some r =>
          if chain_frame P T0 s r.2 && function_locals r.2 == function_locals s then
            match r.2.node a with
            | none => none
            | some n1 =>
              match (r.2.setNode a { n1 with type_node := r.1 }).deref r.2.curr_function with
              | none => none
              | some f =>
                let s3 := (r.2.setNode a { n1 with type_node := r.1 }).setNode
                  (r.2.curr_function.getD 0) { f with locals := f.locals ++ [some a] }
                match s3.node a with
                | none => none
                | some n3 =>
                  match trailer.store n3.next
                    (symbol_introduce E s3.curr_scope n3.token (some a) s3) with
                  | none => none
                  | some s5 =>
                    match (Trailer.next a).store none s5 with
                    | none => none
                    | some s6 =>
                      match statement_chain_spec E symres_type symres_statement P T0 rest
                        trailer s6 with
                      | none => none
                      | some q => some ((s3.curr_scope, a) :: q.1, q.2)
          else none
      else
        match symres_statement a s with
        | none => none
        | some r =>
          if r.1 = 0 && chain_frame P T0 s r.2 &&
              (function_locals s).isPrefixOf (function_locals r.2) then
            statement_chain_spec E symres_type symres_statement P T0 rest (Trailer.next a) r.2
          else none

/-- A chain of four statements in the body of a function: the declaration of `x`,
a `break`, and the declarations of `y` and `z`.  Address 0 is the function, 1 its body,
2 to 5 the statements; scope 0 is the current scope. -/
def localChainState : SymresState :=
  { sem :=
      { nodes := [
          { kind := AstKind.Function, body := some 1, token := { text := "f", pos := 60 } },
          { kind := AstKind.Block, body := some 2, token := { text := "do", pos := 61 } },
          { kind := AstKind.Local, next := some 3, token := { text := "x", pos := 62 } },
          { kind := AstKind.Break, next := some 4, token := { text := "break", pos := 63 } },
          { kind := AstKind.Local, next := some 5, token := { text := "y", pos := 64 } },
          { kind := AstKind.Local, token := { text := "z", pos := 65 } }],
        scopes := [{}] },
    curr_scope := some 0,
    curr_function := some 0 }

/-- The introduced declarations and the store of `localChainState` after the walk over
the chain of the body. -/
def localChainResolved : List (Option Nat × Nat) × SymresState :=
  (statement_chain_spec sampleSymEnv (symres_type sampleSymEnv 1)
    (symres_statement sampleSymEnv 2) [2, 3, 4, 5] (Trailer.body 1) [2, 3, 4, 5]
    (Trailer.body 1) localChainState).getD ([], {})

/-! ## Theorems -/

/-! ### Store lemmas -/

/-- Writing a node and reading it back. -/
theorem node_setNode_self {s : SemState} {p : Nat} {n : AstNode} (m : AstNode)
    (h : s.node p = some n) : (s.setNode p m).node p = some m := by
  have hlt : p < s.nodes.length := by
    unfold SemState.node at h
    exact (List.getElem?_eq_some.mp h).1
  simp [SemState.node, SemState.setNode, List.getElem?_set, hlt]

/-- Writing a node leaves the other addresses as they were. -/
theorem node_setNode_ne {s : SemState} {p q : Nat} (m : AstNode) (h : p ≠ q) :
    (s.setNode p m).node q = s.node q := by
  simp [SemState.node, SemState.setNode, List.getElem?_set, h]

/-- An address that can be read lies inside the store. -/
theorem node_lt_length {s : SemState} {p : Nat} {n : AstNode} (h : s.node p = some n) :
    p < s.nodes.length := by
  unfold SemState.node at h
  exact (List.getElem?_eq_some.mp h).1

/-- Allocation leaves the nodes that exist as they were. -/
theorem node_new_old {s : SemState} {p : Nat} {n : AstNode} (k : AstKind)
    (h : s.node p = some n) : (onyx_ast_node_new s k).2.node p = some n := by
  have hlt := node_lt_length h
  unfold SemState.node at h
  simp [SemState.node, onyx_ast_node_new, List.getElem?_append_left hlt, h]

/-- The freshly allocated node is zeroed but for its kind. -/
theorem node_new_fresh (s : SemState) (k : AstKind) :
    (onyx_ast_node_new s k).2.node s.nodes.length = some { kind := k } := by
  simp [SemState.node, onyx_ast_node_new]

/-- The fresh address is the first one past the store. -/
theorem onyx_ast_node_new_fst (s : SemState) (k : AstKind) :
    (onyx_ast_node_new s k).1 = s.nodes.length := rfl

/-! ### `check_binaryop` -/

/-- When both operand checks succeed, `check_binaryop` is the code after them. -/
theorem check_binaryop_eq_rest (E : Env) (check_expression : Checker)
    (binop lp rp : Nat) (s s1 s2 : SemState) (b b1 : AstNode)
    (hb : s.node binop = some b) (hl : b.left = some lp)
    (hL : check_expression lp s = some (0, s1))
    (hb1 : s1.node binop = some b1) (hr : b1.right = some rp)
    (hR : check_expression rp s1 = some (0, s2)) :
    check_binaryop E check_expression binop s = check_binaryop_rest E binop s2 := by
  simp [check_binaryop, hb, hl, hL, orReturn, hb1, hr, hR]

/-- The type tests of `check_binaryop` (lines 346-376) as one case distinction on the
operand nodes. -/
theorem check_binaryop_types_eq (E : Env) (binop lp2 rp2 : Nat) (s2 : SemState)
    (b2 l r : AstNode) (hb2 : s2.node binop = some b2)
    (hl2 : b2.left = some lp2) (hln : s2.node lp2 = some l)
    (hr2 : b2.right = some rp2) (hrn : s2.node rp2 = some r) :
    check_binaryop_types E binop s2 =
      if l.type = none then
        some (1, onyx_message_add s2 MsgType.Unresolved_Type b2.token.pos [l.token.text])
      else if r.type = none then
        some (1, onyx_message_add s2 MsgType.Unresolved_Type b2.token.pos [r.token.text])
      else if E.types_are_compatible l.type r.type = false then
        some (1, onyx_message_add s2 MsgType.Binop_Mismatch b2.token.pos
          [E.type_get_name l.type, E.type_get_name r.type])
      else
        some (0, s2.setNode binop
          { b2 with type := if binop_is_compare b2.operation = true
                            then some (E.basic_types BasicKind.Bool) else l.type }) := by
  by_cases htl : l.type = none
  · simp [check_binaryop_types, hb2, hl2, hln, SemState.deref, htl]
  · by_cases htr : r.type = none
    · simp [check_binaryop_types, hb2, hl2, hln, hr2, hrn, SemState.deref, htl, htr]
    · by_cases hc : E.types_are_compatible l.type r.type = true
      · by_cases hcmp : binop_is_compare b2.operation = true <;>
          simp [check_binaryop_types, hb2, hl2, hln, hr2, hrn, SemState.deref, htl, htr, hc,
            hcmp]
      · simp [check_binaryop_types, hb2, hl2, hln, hr2, hrn, SemState.deref, htl, htr, hc]

/-- C3, as amended: a compound assignment `lhs op= rhs` (op one of `+ - * / %`) whose
operands check successfully, whose left operand is an l-value that does not carry the
const flag, and whose operand types are known and compatible, is desugared in place.
`check_binaryop` succeeds without a diagnostic; the original node is a plain
assignment with the same left operand, its right operand is a node allocated at the
first free address whose operation is `op`, whose operands are the original left and
right operands, whose token is the original node's token and whose type is the
(non-null) type of the right operand; the assignment node has the left operand's
type. -/
theorem check_binaryop_compound (E : Env) (check_expression : Checker)
    (binop lp rp lp2 rp2 : Nat) (s s1 s2 : SemState) (b b1 b2 l r : AstNode) (op : BinaryOp)
    (hb : s.node binop = some b) (hl : b.left = some lp)
    (hL : check_expression lp s = some (0, s1))
    (hb1 : s1.node binop = some b1) (hr : b1.right = some rp)
    (hR : check_expression rp s1 = some (0, s2))
    (hb2 : s2.node binop = some b2)
    (hop : (b2.operation, op) ∈ [(BinaryOp.Assign_Add, BinaryOp.Add),
      (BinaryOp.Assign_Minus, BinaryOp.Minus), (BinaryOp.Assign_Multiply, BinaryOp.Multiply),
      (BinaryOp.Assign_Divide, BinaryOp.Divide), (BinaryOp.Assign_Modulus, BinaryOp.Modulus)])
    (hl2 : b2.left = some lp2) (hln : s2.node lp2 = some l)
    (hr2 : b2.right = some rp2) (hrn : s2.node rp2 = some r)
    (hlval : E.is_lval l = true)
    (hnc : (l.flags &&& E.Ast_Flag_Const) = 0)
    (htl : l.type ≠ none) (htr : r.type ≠ none)
    (hcompat : E.types_are_compatible l.type r.type = true) :
    ∃ s3, check_binaryop E check_expression binop s = some (0, s3) ∧
      s3.node binop = some { b2 with operation := BinaryOp.Assign,
                                     right := some s2.nodes.length, type := l.type } ∧
      s3.node s2.nodes.length =
        some { kind := AstKind.Binary_Op, token := b2.token, type := r.type,
               operation := op, left := some lp2, right := some rp2 } ∧
      r.type ≠ none ∧ s3.msgs = s2.msgs := by
  have hbl := node_lt_length hb2
  have hne : binop ≠ s2.nodes.length := Nat.ne_of_lt hbl
  have hlne : lp2 ≠ s2.nodes.length := Nat.ne_of_lt (node_lt_length hln)
  have hasg : binop_is_assignment b2.operation = true ∧ b2.operation ≠ BinaryOp.Assign ∧
      compound_operation b2.operation = op := by
    simp only [List.mem_cons, Prod.mk.injEq, List.mem_singleton, List.not_mem_nil, or_false] at hop
    rcases hop with ⟨h1, h2⟩ | ⟨h1, h2⟩ | ⟨h1, h2⟩ | ⟨h1, h2⟩ | ⟨h1, h2⟩ <;>
      (rw [h1, h2]; decide)
  obtain ⟨ha1, ha2, ha3⟩ := hasg
  have hcmp : binop_is_compare BinaryOp.Assign = false := by decide
  have hn1 := node_new_old AstKind.Binary_Op hb2
  have hn2 := node_new_old AstKind.Binary_Op hln
  have hn3 := node_new_old AstKind.Binary_Op hrn
  have hn4 := node_new_fresh s2 AstKind.Binary_Op
  have hA : check_binaryop_assignment E binop s2 = some (0,
      ((onyx_ast_node_new s2 AstKind.Binary_Op).2.setNode s2.nodes.length
        { kind := AstKind.Binary_Op, token := b2.token, type := r.type,
          operation := op, left := some lp2, right := some rp2 }).setNode binop
        { b2 with right := some s2.nodes.length, operation := BinaryOp.Assign }) := by
    simp [check_binaryop_assignment, hb2, ha1, ha2, ha3, hl2, hln, hlval, hnc, hr2, hrn,
      SemState.deref, onyx_ast_node_new_fst, hn4]
  generalize hs' : (onyx_ast_node_new s2 AstKind.Binary_Op).2.setNode s2.nodes.length
        { kind := AstKind.Binary_Op, token := b2.token, type := r.type,
          operation := op, left := some lp2, right := some rp2 } = sa at hA
  have hsa_new : sa.node s2.nodes.length = some
      { kind := AstKind.Binary_Op, token := b2.token, type := r.type, operation := op,
        left := some lp2, right := some rp2 } := by
    rw [← hs']; exact node_setNode_self _ hn4
  have hsa_b : sa.node binop = some b2 := by
    rw [← hs', node_setNode_ne _ (Ne.symm hne)]; exact hn1
  have hsa_l : sa.node lp2 = some l := by
    rw [← hs', node_setNode_ne _ (Ne.symm hlne)]; exact hn2
  have hsa_m : sa.msgs = s2.msgs := by
    rw [← hs']; rfl
  have hsb_b := node_setNode_self
    { b2 with right := some s2.nodes.length, operation := BinaryOp.Assign } hsa_b
  have hsb_new : (sa.setNode binop
      { b2 with right := some s2.nodes.length, operation := BinaryOp.Assign }).node
        s2.nodes.length = some
      { kind := AstKind.Binary_Op, token := b2.token, type := r.type, operation := op,
        left := some lp2, right := some rp2 } := by
    rw [node_setNode_ne _ hne]; exact hsa_new
  have hsb_l : ∃ l', (sa.setNode binop
      { b2 with right := some s2.nodes.length, operation := BinaryOp.Assign }).node lp2 =
        some l' ∧ l'.type = l.type ∧ l'.token = l.token := by
    by_cases hlb : binop = lp2
    · subst hlb
      refine ⟨_, hsb_b, ?_, ?_⟩ <;> (rw [hb2] at hln; cases hln; rfl)
    · exact ⟨l, by rw [node_setNode_ne _ hlb]; exact hsa_l, rfl, rfl⟩
  obtain ⟨l', hl', hlt', _⟩ := hsb_l
  generalize hsb : sa.setNode binop
    { b2 with right := some s2.nodes.length, operation := BinaryOp.Assign } = sb
    at hA hsb_b hsb_new hl'
  have hsb_m : sb.msgs = s2.msgs := by
    rw [← hsb, ← hsa_m]; rfl
  have hB : check_binaryop_types E binop sb = some (0, sb.setNode binop
      { b2 with right := some s2.nodes.length, operation := BinaryOp.Assign,
                type := l.type }) := by
    simp [check_binaryop_types, hsb_b, SemState.deref, hl2, hl', hlt', htl, hsb_new, htr,
      hcompat, hcmp]
  refine ⟨_, ?_, node_setNode_self _ hsb_b, ?_, htr, ?_⟩
  · simp [check_binaryop, hb, hl, hL, orReturn, hb1, hr, hR, check_binaryop_rest, hA, hB]
  · rw [node_setNode_ne _ hne]; exact hsb_new
  · exact hsb_m

/-- C3, witness: `x += y` with `x, y : i32` becomes `x = (x + y)`, the inner node
typed `i32`. -/
theorem check_binaryop_compound_witness :
    ∃ s3, check_binaryop sampleEnv (check_expression sampleEnv 1) 0
        (binopState BinaryOp.Assign_Add 0 (some ty_i32) (some ty_i32)) = some (0, s3) ∧
      s3.node 0 = some { sampleBinop BinaryOp.Assign_Add with
                           operation := BinaryOp.Assign, right := some 3,
                           type := some ty_i32 } ∧
      s3.node 3 =
        some { kind := AstKind.Binary_Op, token := (sampleBinop BinaryOp.Assign_Add).token,
               type := some ty_i32, operation := BinaryOp.Add, left := some 1,
               right := some 2 } ∧
      some ty_i32 ≠ none ∧ s3.msgs = [] :=
  check_binaryop_compound sampleEnv (check_expression sampleEnv 1) 0 1 2 1 2
    (binopState BinaryOp.Assign_Add 0 (some ty_i32) (some ty_i32))
    (binopState BinaryOp.Assign_Add 0 (some ty_i32) (some ty_i32))
    (binopState BinaryOp.Assign_Add 0 (some ty_i32) (some ty_i32))
    (sampleBinop BinaryOp.Assign_Add) (sampleBinop BinaryOp.Assign_Add)
    (sampleBinop BinaryOp.Assign_Add) (sampleX 0 (some ty_i32)) (sampleY (some ty_i32))
    BinaryOp.Add
    (by rfl) (by rfl) (by rfl) (by rfl) (by rfl) (by rfl) (by rfl) (by decide) (by rfl)
    (by rfl) (by rfl) (by rfl) (by rfl) (by rfl) (by decide) (by decide) (by rfl)

/-- C3, counterexample: `x += y` with `x, y : i32`, both operands checking
successfully, `x` an l-value and the types compatible, but `x` flagged const:
`check_binaryop` returns failure and the node is still the compound assignment (no
node is allocated). -/
theorem check_binaryop_compound_const_not_desugared :
    check_expression sampleEnv 1 1 (binopState BinaryOp.Assign_Add 4 (some ty_i32) (some ty_i32)) =
      some (0, binopState BinaryOp.Assign_Add 4 (some ty_i32) (some ty_i32)) ∧
    check_expression sampleEnv 1 2 (binopState BinaryOp.Assign_Add 4 (some ty_i32) (some ty_i32)) =
      some (0, binopState BinaryOp.Assign_Add 4 (some ty_i32) (some ty_i32)) ∧
    sampleEnv.is_lval (sampleX 4 (some ty_i32)) = true ∧
    sampleEnv.types_are_compatible (some ty_i32) (some ty_i32) = true ∧
    (check_binaryop sampleEnv (check_expression sampleEnv 1) 0
      (binopState BinaryOp.Assign_Add 4 (some ty_i32) (some ty_i32))).map
        (fun r => (r.1, r.2.node 0, r.2.nodes.length)) =
      some (1, some (sampleBinop BinaryOp.Assign_Add), 3) := by
  decide

/-- C4, as amended: an assignment (plain or compound) whose operands check
successfully and whose left operand is an l-value that carries the const flag and
already has a type fails with an `Assign_Const` diagnostic, the only one added after
the operand checks. -/
theorem check_binaryop_assign_const (E : Env) (check_expression : Checker)
    (binop lp rp lp2 : Nat) (s s1 s2 : SemState) (b b1 b2 l : AstNode)
    (hb : s.node binop = some b) (hl : b.left = some lp)
    (hL : check_expression lp s = some (0, s1))
    (hb1 : s1.node binop = some b1) (hr : b1.right = some rp)
    (hR : check_expression rp s1 = some (0, s2))
    (hb2 : s2.node binop = some b2) (hasg : binop_is_assignment b2.operation = true)
    (hl2 : b2.left = some lp2) (hln : s2.node lp2 = some l)
    (hlval : E.is_lval l = true)
    (hconst : (l.flags &&& E.Ast_Flag_Const) ≠ 0) (htype : l.type ≠ none) :
    check_binaryop E check_expression binop s =
      some (1, onyx_message_add s2 MsgType.Assign_Const b2.token.pos [l.token.text]) := by
  simp [check_binaryop, hb, hl, hL, orReturn, hb1, hr, hR, check_binaryop_rest,
    check_binaryop_assignment, hb2, hasg, hl2, hln, hlval, hconst, htype]

/-- C4, witness: `x -= y` with a const `x : i32`. -/
theorem check_binaryop_assign_const_witness :
    check_binaryop sampleEnv (check_expression sampleEnv 1) 0
        (binopState BinaryOp.Assign_Minus 4 (some ty_i32) (some ty_i32)) =
      some (1, onyx_message_add (binopState BinaryOp.Assign_Minus 4 (some ty_i32) (some ty_i32))
        MsgType.Assign_Const 10 ["x"]) :=
  check_binaryop_assign_const sampleEnv (check_expression sampleEnv 1) 0 1 2 1
    (binopState BinaryOp.Assign_Minus 4 (some ty_i32) (some ty_i32))
    (binopState BinaryOp.Assign_Minus 4 (some ty_i32) (some ty_i32))
    (binopState BinaryOp.Assign_Minus 4 (some ty_i32) (some ty_i32))
    (sampleBinop BinaryOp.Assign_Minus) (sampleBinop BinaryOp.Assign_Minus)
    (sampleBinop BinaryOp.Assign_Minus) (sampleX 4 (some ty_i32))
    (by rfl) (by rfl) (by rfl) (by rfl) (by rfl) (by rfl) (by rfl) (by rfl) (by rfl) (by rfl)
    (by rfl) (by decide) (by decide)

/-- C4, counterexample: `x = y` where `x` is an l-value carrying the const flag whose
type has not been determined yet and `y : i32`.  Both operands check successfully,
and `check_binaryop` returns success without any diagnostic. -/
theorem check_binaryop_untyped_const_accepted :
    sampleEnv.is_lval (sampleX 4 none) = true ∧
    ((sampleX 4 none).flags &&& sampleEnv.Ast_Flag_Const) ≠ 0 ∧
    binop_is_assignment BinaryOp.Assign = true ∧
    check_expression sampleEnv 1 1 (binopState BinaryOp.Assign 4 none (some ty_i32)) =
      some (0, binopState BinaryOp.Assign 4 none (some ty_i32)) ∧
    check_expression sampleEnv 1 2 (binopState BinaryOp.Assign 4 none (some ty_i32)) =
      some (0, binopState BinaryOp.Assign 4 none (some ty_i32)) ∧
    (check_binaryop sampleEnv (check_expression sampleEnv 1) 0
      (binopState BinaryOp.Assign 4 none (some ty_i32))).map (fun r => (r.1, r.2.msgs)) =
      some (0, []) := by
  decide

/-- C5, as amended: a binary operation that is not an assignment (an arithmetic or
comparison operator, equality included) whose operands check successfully and at
least one of whose operand types is a pointer fails with the diagnostic `binary
operations are not supported for pointers (yet).`, the only one added after the
operand checks. -/
theorem check_binaryop_pointer_rejected (E : Env) (check_expression : Checker)
    (binop lp rp lp2 rp2 : Nat) (s s1 s2 : SemState) (b b1 b2 l r : AstNode)
    (hb : s.node binop = some b) (hl : b.left = some lp)
    (hL : check_expression lp s = some (0, s1))
    (hb1 : s1.node binop = some b1) (hr : b1.right = some rp)
    (hR : check_expression rp s1 = some (0, s2))
    (hb2 : s2.node binop = some b2) (hop : binop_is_assignment b2.operation = false)
    (hl2 : b2.left = some lp2) (hln : s2.node lp2 = some l)
    (hr2 : b2.right = some rp2) (hrn : s2.node rp2 = some r)
    (hptr : E.type_is_pointer l.type = true ∨ E.type_is_pointer r.type = true) :
    check_binaryop E check_expression binop s =
      some (1, onyx_message_add s2 MsgType.Literal b2.token.pos
        ["binary operations are not supported for pointers (yet)."]) := by
  simp [check_binaryop, hb, hl, hL, orReturn, hb1, hr, hR, check_binaryop_rest,
    check_binaryop_assignment, hb2, hop, hl2, hln, hr2, hrn, SemState.deref, hptr]

/-- C5, witness: `x == y` on two pointers to `i32` (type address 27). -/
theorem check_binaryop_pointer_rejected_witness :
    check_binaryop sampleEnv (check_expression sampleEnv 1) 0
        (binopState BinaryOp.Equal 0 (some 27) (some 27)) =
      some (1, onyx_message_add (binopState BinaryOp.Equal 0 (some 27) (some 27))
        MsgType.Literal 10 ["binary operations are not supported for pointers (yet)."]) :=
  check_binaryop_pointer_rejected sampleEnv (check_expression sampleEnv 1) 0 1 2 1 2
    (binopState BinaryOp.Equal 0 (some 27) (some 27))
    (binopState BinaryOp.Equal 0 (some 27) (some 27))
    (binopState BinaryOp.Equal 0 (some 27) (some 27))
    (sampleBinop BinaryOp.Equal) (sampleBinop BinaryOp.Equal) (sampleBinop BinaryOp.Equal)
    (sampleX 0 (some 27)) (sampleY (some 27))
    (by rfl) (by rfl) (by rfl) (by rfl) (by rfl) (by rfl) (by rfl) (by rfl) (by rfl) (by rfl)
    (by rfl) (by rfl) (Or.inl (by rfl))

/-- C5, counterexample: the plain assignment `x = y` of two pointers to `i32`.  Both
operand types are pointers, both operands check successfully, and `check_binaryop`
returns success without any diagnostic. -/
theorem check_binaryop_pointer_assignment_accepted :
    sampleEnv.type_is_pointer (sampleX 0 (some 27)).type = true ∧
    sampleEnv.type_is_pointer (sampleY (some 27)).type = true ∧
    check_expression sampleEnv 1 1 (binopState BinaryOp.Assign 0 (some 27) (some 27)) =
      some (0, binopState BinaryOp.Assign 0 (some 27) (some 27)) ∧
    check_expression sampleEnv 1 2 (binopState BinaryOp.Assign 0 (some 27) (some 27)) =
      some (0, binopState BinaryOp.Assign 0 (some 27) (some 27)) ∧
    (check_binaryop sampleEnv (check_expression sampleEnv 1) 0
      (binopState BinaryOp.Assign 0 (some 27) (some 27))).map (fun r => (r.1, r.2.msgs)) =
      some (0, []) := by
  decide

/-- C6: for a binary operation that is not an assignment, on operands whose types are
not pointers, `check_binaryop` returns, and it succeeds exactly when both operand
checks succeed (`r1`, `r2` are their results; the right operand is only checked when
the left one succeeded), both operands have a type, and the two types are compatible.
On success no diagnostic is added and the node's type is bool for a comparison
operator (`Equal` .. `Greater_Equal`) and the left operand's type otherwise.  When
both operands check and have types that are not compatible, it fails with a
`Binop_Mismatch` diagnostic. -/
theorem check_binaryop_plain (E : Env) (check_expression : Checker)
    (binop lp rp lp2 rp2 r1 r2 : Nat) (s s1 s2 : SemState) (b b1 b2 l r : AstNode)
    (hb : s.node binop = some b) (hl : b.left = some lp)
    (hL : check_expression lp s = some (r1, s1))
    (hb1 : s1.node binop = some b1) (hr : b1.right = some rp)
    (hR : r1 = 0 → check_expression rp s1 = some (r2, s2))
    (hb2 : s2.node binop = some b2) (hop : binop_is_assignment b2.operation = false)
    (hl2 : b2.left = some lp2) (hln : s2.node lp2 = some l)
    (hr2 : b2.right = some rp2) (hrn : s2.node rp2 = some r)
    (hlp : E.type_is_pointer l.type = false) (hrp : E.type_is_pointer r.type = false) :
    ∃ rv s3, check_binaryop E check_expression binop s = some (rv, s3) ∧
      (rv = 0 ↔ r1 = 0 ∧ r2 = 0 ∧ l.type ≠ none ∧ r.type ≠ none ∧
        E.types_are_compatible l.type r.type = true) ∧
      (rv = 0 → s3.msgs = s2.msgs ∧ s3.node binop = some
        { b2 with type := if binop_is_compare b2.operation = true
                          then some (E.basic_types BasicKind.Bool) else l.type }) ∧
      (r1 = 0 → r2 = 0 → l.type ≠ none → r.type ≠ none →
        E.types_are_compatible l.type r.type = false →
        rv = 1 ∧ s3 = onyx_message_add s2 MsgType.Binop_Mismatch b2.token.pos
          [E.type_get_name l.type, E.type_get_name r.type]) := by
  by_cases h1 : r1 = 0
  · subst h1
    have hR := hR rfl
    by_cases h2 : r2 = 0
    · subst h2
      have hrest : check_binaryop_rest E binop s2 = check_binaryop_types E binop s2 := by
        simp [check_binaryop_rest, check_binaryop_assignment, hb2, hop, hl2, hln, hr2, hrn,
          SemState.deref, hlp, hrp, orReturn]
      rw [check_binaryop_eq_rest E check_expression binop lp rp s s1 s2 b b1 hb hl hL hb1 hr hR,
        hrest, check_binaryop_types_eq E binop lp2 rp2 s2 b2 l r hb2 hl2 hln hr2 hrn]
      by_cases htl : l.type = none
      · rw [if_pos htl]
        exact ⟨_, _, rfl, by simp [htl], by simp, by simp [htl]⟩
      · rw [if_neg htl]
        by_cases htr : r.type = none
        · rw [if_pos htr]
          exact ⟨_, _, rfl, by simp [htr], by simp, by simp [htr]⟩
        · rw [if_neg htr]
          by_cases hc : E.types_are_compatible l.type r.type = false
          · rw [if_pos hc]
            exact ⟨_, _, rfl, by simp [hc], by simp, by simp⟩
          · rw [if_neg hc]
            simp only [Bool.not_eq_false] at hc
            exact ⟨_, _, rfl, by simp [htl, htr, hc],
              fun _ => ⟨rfl, node_setNode_self _ hb2⟩, by simp [hc]⟩
    · exact ⟨1, s2, by simp [check_binaryop, hb, hl, hL, orReturn, hb1, hr, hR, h2],
        by simp [h2], by simp, by simp [h2]⟩
  · exact ⟨1, s1, by simp [check_binaryop, hb, hl, hL, orReturn, h1], by simp [h1], by simp,
      by simp [h1]⟩

/-- C6, witness: `x < y` with `x, y : i32` succeeds with type bool. -/
theorem check_binaryop_plain_witness :
    ∃ rv s3, check_binaryop sampleEnv (check_expression sampleEnv 1) 0
        (binopState BinaryOp.Less 0 (some ty_i32) (some ty_i32)) = some (rv, s3) ∧
      (rv = 0 ↔ 0 = 0 ∧ 0 = 0 ∧ some ty_i32 ≠ none ∧ some ty_i32 ≠ none ∧
        sampleEnv.types_are_compatible (some ty_i32) (some ty_i32) = true) ∧
      (rv = 0 → s3.msgs = [] ∧ s3.node 0 = some
        { sampleBinop BinaryOp.Less with type := some (sampleEnv.basic_types BasicKind.Bool) }) ∧
      (0 = 0 → 0 = 0 → some ty_i32 ≠ none → some ty_i32 ≠ none →
        sampleEnv.types_are_compatible (some ty_i32) (some ty_i32) = false →
        rv = 1 ∧ s3 = onyx_message_add (binopState BinaryOp.Less 0 (some ty_i32) (some ty_i32))
          MsgType.Binop_Mismatch 10
          [sampleEnv.type_get_name (some ty_i32), sampleEnv.type_get_name (some ty_i32)]) :=
  check_binaryop_plain sampleEnv (check_expression sampleEnv 1) 0 1 2 1 2 0 0
    (binopState BinaryOp.Less 0 (some ty_i32) (some ty_i32))
    (binopState BinaryOp.Less 0 (some ty_i32) (some ty_i32))
    (binopState BinaryOp.Less 0 (some ty_i32) (some ty_i32))
    (sampleBinop BinaryOp.Less) (sampleBinop BinaryOp.Less) (sampleBinop BinaryOp.Less)
    (sampleX 0 (some ty_i32)) (sampleY (some ty_i32))
    (by rfl) (by rfl) (by rfl) (by rfl) (by rfl) (fun _ => by rfl) (by rfl) (by rfl) (by rfl)
    (by rfl) (by rfl) (by rfl) (by rfl) (by rfl)

/-! ### Filling in types -/

/-- Filling in a type twice is the same as filling it in once. -/
theorem fillNode_idem (E : Env) (n : AstNode) : fillNode E (fillNode E n) = fillNode E n := by
  unfold fillNode
  by_cases h : n.type = none
  · by_cases h2 : E.type_build_from_ast n.type_node = none <;> simp [h, h2]
  · simp [h]

/-- `fill_in_type` does not touch `next`. -/
theorem fillNode_next (E : Env) (n : AstNode) : (fillNode E n).next = n.next := by
  unfold fillNode; split <;> rfl

/-- `fill_in_type` does not touch `token`. -/
theorem fillNode_token (E : Env) (n : AstNode) : (fillNode E n).token = n.token := by
  unfold fillNode; split <;> rfl

/-- `fill_in_type` does not touch `arg_count`. -/
theorem fillNode_arg_count (E : Env) (n : AstNode) : (fillNode E n).arg_count = n.arg_count := by
  unfold fillNode; split <;> rfl

/-- `fill_in_type` does not touch `arguments`. -/
theorem fillNode_arguments (E : Env) (n : AstNode) : (fillNode E n).arguments = n.arguments := by
  unfold fillNode; split <;> rfl

/-- A state is related to itself. -/
theorem fillEq_refl (E : Env) (s : SemState) : FillEq E s s := fun _ => Or.inl rfl

/-- A node of the earlier state is still there, as it was or with its type filled
in. -/
theorem fillEq_node {E : Env} {s0 s : SemState} (h : FillEq E s0 s) {p : Nat} {n0 : AstNode}
    (h0 : s0.node p = some n0) :
    ∃ n, s.node p = some n ∧ fillNode E n = fillNode E n0 ∧ (n = n0 ∨ n = fillNode E n0) := by
  rcases h p with hp | hp
  · rw [h0] at hp; exact ⟨n0, hp, rfl, Or.inl rfl⟩
  · rw [h0] at hp; exact ⟨fillNode E n0, hp, fillNode_idem E n0, Or.inr rfl⟩

/-- The relation is transitive. -/
theorem fillEq_trans {E : Env} {s0 s1 s2 : SemState} (h1 : FillEq E s0 s1)
    (h2 : FillEq E s1 s2) : FillEq E s0 s2 := by
  intro p
  rcases h1 p with a | a <;> rcases h2 p with b | b
  · exact Or.inl (b.trans a)
  · exact Or.inr (by rw [b, a])
  · exact Or.inr (b.trans a)
  · refine Or.inr ?_
    rw [b, a]
    cases s0.node p <;> simp [fillNode_idem]

/-- `fill_in_type` on a node that exists returns, keeps the messages, leaves the node
with its filled-in type and changes nothing else. -/
theorem fill_in_type_spec (E : Env) {s0 s : SemState} (h : FillEq E s0 s) {p : Nat}
    {n0 : AstNode} (h0 : s0.node p = some n0) :
    ∃ s1, fill_in_type E p s = some s1 ∧ FillEq E s0 s1 ∧ FillEq E s s1 ∧
      s1.msgs = s.msgs ∧ s1.node p = some (fillNode E n0) := by
  obtain ⟨n, hn, hfn, hcase⟩ := fillEq_node h h0
  by_cases ht : n.type = none
  · have hstep : FillEq E s (s.setNode p (fillNode E n)) := by
      intro q
      by_cases hq : p = q
      · subst hq
        rw [node_setNode_self _ hn, hn]
        exact Or.inr rfl
      · rw [node_setNode_ne _ hq]; exact Or.inl rfl
    refine ⟨s.setNode p (fillNode E n), ?_, fillEq_trans h hstep, hstep, rfl, ?_⟩
    · simp [fill_in_type, hn, ht, fillNode]
    · rw [node_setNode_self _ hn, hfn]
  · refine ⟨s, ?_, h, fillEq_refl E s, rfl, ?_⟩
    · simp [fill_in_type, hn, ht]
    · rw [hn, ← hfn]; simp [fillNode, ht]

/-- The filled-in type of a node that exists. -/
theorem filledType_eq {E : Env} {s : SemState} {p : Nat} {n : AstNode}
    (h : s.node p = some n) : filledType E s p = (fillNode E n).type := by
  simp [filledType, h]

/-! ### `match_overloaded_function` -/

/-- The argument loop of `match_overloaded_function` on a proper argument chain, with
enough fuel: it returns whether every parameter type from position `i` on is compatible
with the type of the argument at that position. -/
theorem match_overload_arguments_spec (E : Env) (s0 : SemState) (t : Nat) (args : List Nat) :
    ∀ (fuel : Nat) (p : Ptr) (i : Nat) (s : SemState), FillEq E s0 s →
      isChain s0 p args = true → args.length < fuel →
      ∃ s1, match_overload_arguments E t fuel p i s = some (paramsMatch E s0 t args i, s1) ∧
        FillEq E s0 s1 ∧ s1.msgs = s.msgs := by
  induction args with
  | nil =>
    intro fuel p i s hs hch hfuel
    cases p with
    | none =>
      cases fuel with
      | zero => simp at hfuel
      | succ k => exact ⟨s, by simp [match_overload_arguments, paramsMatch], hs, rfl⟩
    | some a => simp [isChain] at hch
  | cons a rest ih =>
    intro fuel p i s hs hch hfuel
    cases p with
    | none => simp [isChain] at hch
    | some a' =>
      cases fuel with
      | zero => simp at hfuel
      | succ k =>
        simp only [isChain, Bool.and_eq_true, beq_iff_eq] at hch
        obtain ⟨haa, hrest⟩ := hch
        subst haa
        cases hn0 : s0.node a' with
        | none => rw [hn0] at hrest; simp at hrest
        | some n0 =>
          rw [hn0] at hrest
          simp only at hrest
          obtain ⟨s1, hf, hs1, _, hm1, hn1⟩ := fill_in_type_spec E hs hn0
          have hft : filledType E s0 a' = (fillNode E n0).type := filledType_eq hn0
          by_cases hc : E.types_are_compatible (E.Function_params t i) (fillNode E n0).type = true
          · obtain ⟨s2, hm, hs2, hm2⟩ := ih k n0.next (i + 1) s1 hs1 hrest
              (by simp at hfuel; omega)
            refine ⟨s2, ?_, hs2, hm2.trans hm1⟩
            simp [match_overload_arguments, hf, hn1, hc, paramsMatch, hft, fillNode_next, hm]
          · refine ⟨s1, ?_, hs1, hm1⟩
            simp [match_overload_arguments, hf, hn1, hc, paramsMatch, hft]

/-- The overload loop of `match_overloaded_function`: it returns the first overload
that matches, and adds the diagnostic exactly when there is none. -/
theorem match_overloads_spec (E : Env) (s0 : SemState) (call : Nat) (c0 : AstNode)
    (args : List Nat) (fuel : Nat)
    (hc : s0.node call = some c0) (hch : isChain s0 c0.arguments args = true)
    (hfuel : args.length < fuel) (ovs : List Ptr) :
    ∀ (s : SemState), FillEq E s0 s → s.msgs = s0.msgs →
      (∀ ov ∈ ovs, ∃ o, ov = some o ∧ filledType E s0 o ≠ none) →
      ∃ s1 : SemState, match_overloads E fuel call ovs s =
          some ((ovs.find? (overloadMatches E s0 c0.arg_count args)).join, s1) ∧
        s1.msgs = (if ovs.find? (overloadMatches E s0 c0.arg_count args) = none then
          (onyx_message_add s0 MsgType.Literal c0.token.pos
            ["unable to match overloaded function"]).msgs
          else s0.msgs) ∧
        FillEq E s0 s1 := by
  induction ovs with
  | nil =>
    intro s hs hmsgs _
    obtain ⟨c, hcn, hcf, _⟩ := fillEq_node hs hc
    have htok : c.token = c0.token := by
      rw [← fillNode_token E c, hcf, fillNode_token]
    refine ⟨_, by simp [match_overloads, hcn]; rfl, ?_, ?_⟩
    · simp [onyx_message_add, hmsgs, htok]
    · intro p; exact hs p
  | cons ov rest ih =>
    intro s hs hmsgs hwf
    obtain ⟨o, hov, hty⟩ := hwf ov (List.mem_cons_self _ _)
    subst hov
    have hwf' : ∀ ov ∈ rest, ∃ o, ov = some o ∧ filledType E s0 o ≠ none :=
      fun ov h => hwf ov (List.mem_cons_of_mem _ h)
    cases hon0 : s0.node o with
    | none => simp [filledType, hon0] at hty
    | some on0 =>
      obtain ⟨s1, hf, hs1, _, hm1, hn1⟩ := fill_in_type_spec E hs hon0
      obtain ⟨c1, hc1, hcf, _⟩ := fillEq_node hs1 hc
      have hac : c1.arg_count = c0.arg_count := by
        rw [← fillNode_arg_count E c1, hcf, fillNode_arg_count]
      have har : c1.arguments = c0.arguments := by
        rw [← fillNode_arguments E c1, hcf, fillNode_arguments]
      have hft : filledType E s0 o = (fillNode E on0).type := filledType_eq hon0
      cases htt : (fillNode E on0).type with
      | none => rw [hft, htt] at hty; exact absurd rfl hty
      | some t =>
        by_cases hpc : E.Function_param_count t = c0.arg_count
        · obtain ⟨s2, hm, hs2, hm2⟩ := match_overload_arguments_spec E s0 t args fuel
            c0.arguments 0 s1 hs1 hch hfuel
          cases hpm : paramsMatch E s0 t args 0 with
          | true =>
            rw [hpm] at hm
            refine ⟨s2, ?_, ?_, hs2⟩
            · simp [match_overloads, hf, hn1, hc1, htt, hac, har, hpc, hm, List.find?_cons,
                overloadMatches, hft, hpm]
            · simp [List.find?_cons, overloadMatches, hft, htt, hpc, hpm, hm2, hm1, hmsgs]
          | false =>
            rw [hpm] at hm
            obtain ⟨s3, hm3, hmsg, hfr⟩ := ih s2 hs2 (by rw [hm2, hm1, hmsgs]) hwf'
            refine ⟨s3, ?_, ?_, hfr⟩
            · simp [match_overloads, hf, hn1, hc1, htt, hac, har, hpc, hm, List.find?_cons,
                overloadMatches, hft, hpm, hm3]
            · simpa [List.find?_cons, overloadMatches, hft, htt, hpc, hpm] using hmsg
        · obtain ⟨s3, hm3, hmsg, hfr⟩ := ih s1 hs1 (by rw [hm1, hmsgs]) hwf'
          refine ⟨s3, ?_, ?_, hfr⟩
          · simp [match_overloads, hf, hn1, hc1, htt, hac, hpc, List.find?_cons,
              overloadMatches, hft, hm3]
          · simpa [List.find?_cons, overloadMatches, hft, htt, hpc] using hmsg

/-- C1: for a call whose argument chain holds the `arg_count` arguments `args` and an
overload set whose overloads are nodes with a (buildable) type,
`match_overloaded_function` returns, with enough fuel for the argument chain, the
first overload in declaration order (`List.find?`) whose parameter count equals the
call's argument count and whose every parameter type is compatible with the type of
the argument at the same position (`overloadMatches`).  It returns no overload exactly
when no overload of the set satisfies this, and exactly then the message log grows, by
the one diagnostic `unable to match overloaded function`.  Nodes change at most by
having their type filled in; `types_are_compatible` is an arbitrary predicate. -/
theorem match_overloaded_function_first_match (E : Env) (fuel call ofunc : Nat) (s : SemState)
    (c f : AstNode) (args : List Nat)
    (hc : s.node call = some c) (hf : s.node ofunc = some f)
    (hargs : isChain s c.arguments args = true) (hcount : c.arg_count = args.length)
    (hwf : ∀ ov ∈ f.overloads, ∃ o, ov = some o ∧ filledType E s o ≠ none)
    (hfuel : args.length < fuel) :
    ∃ s1 : SemState, match_overloaded_function E fuel call ofunc s =
        some ((f.overloads.find? (overloadMatches E s args.length args)).join, s1) ∧
      ((f.overloads.find? (overloadMatches E s args.length args)).join = none ↔
        ∀ ov ∈ f.overloads, overloadMatches E s args.length args ov = false) ∧
      s1.msgs =
        (if (f.overloads.find? (overloadMatches E s args.length args)).join = none then
          (onyx_message_add s MsgType.Literal c.token.pos
            ["unable to match overloaded function"]).msgs
        else s.msgs) ∧
      FillEq E s s1 := by
  obtain ⟨s1, hm, hmsg, hfr⟩ := match_overloads_spec E s call c args fuel hc hargs hfuel
    f.overloads s (fillEq_refl E s) rfl hwf
  rw [hcount] at hm hmsg
  refine ⟨s1, by simp [match_overloaded_function, hf, hm], ?_, ?_, hfr⟩
  · cases hfind : f.overloads.find? (overloadMatches E s args.length args) with
    | none => simpa using hfind
    | some ov =>
      have hp := List.find?_some hfind
      have hmem := List.mem_of_find?_eq_some hfind
      cases ov with
      | none => simp [overloadMatches] at hp
      | some o =>
        constructor
        · intro h; simp [Option.join] at h
        · intro h; rw [h (some o) hmem] at hp; exact absurd hp (by simp)
  · cases hfind : f.overloads.find? (overloadMatches E s args.length args) with
    | none => rw [hfind] at hmsg; simpa using hmsg
    | some ov =>
      have hp := List.find?_some hfind
      cases ov with
      | none => simp [overloadMatches] at hp
      | some o => rw [hfind] at hmsg; simpa [Option.join] using hmsg

/-- C1, witness: for `add(1.0, 2.0)` the `f32` overload (address 3) is returned and no
diagnostic is recorded. -/
theorem match_overloaded_function_first_match_witness :
    ∃ s1 : SemState, match_overloaded_function sampleEnv 3 0 1 (addCallState (some ty_f32)) =
        some (some 3, s1) ∧
      (some 3 = none ↔
        ∀ ov ∈ [some 2, some 3],
          overloadMatches sampleEnv (addCallState (some ty_f32)) 2 [4, 5] ov = false) ∧
      s1.msgs = [] ∧ FillEq sampleEnv (addCallState (some ty_f32)) s1 :=
  match_overloaded_function_first_match sampleEnv 3 0 1 (addCallState (some ty_f32))
    ((addCallState (some ty_f32)).nodes.get ⟨0, by decide⟩)
    ((addCallState (some ty_f32)).nodes.get ⟨1, by decide⟩) [4, 5]
    (by rfl) (by rfl) (by decide) (by rfl)
    (by
      intro ov hov
      simp only [addCallState, List.get, List.mem_cons, List.mem_singleton,
        List.not_mem_nil, or_false] at hov
      rcases hov with rfl | rfl
      · exact ⟨2, rfl, by decide⟩
      · exact ⟨3, rfl, by decide⟩)
    (by decide)

/-! ### More on filling in types, and chains -/

/-- `fill_in_type` does not touch `kind`. -/
theorem fillNode_kind (E : Env) (n : AstNode) : (fillNode E n).kind = n.kind := by
  unfold fillNode; split <;> rfl

/-- `fill_in_type` does not touch `flags`. -/
theorem fillNode_flags (E : Env) (n : AstNode) : (fillNode E n).flags = n.flags := by
  unfold fillNode; split <;> rfl

/-- `fill_in_type` does not touch `callee`. -/
theorem fillNode_callee (E : Env) (n : AstNode) : (fillNode E n).callee = n.callee := by
  unfold fillNode; split <;> rfl

/-- `fill_in_type` does not touch `intrinsic`. -/
theorem fillNode_intrinsic (E : Env) (n : AstNode) :
    (fillNode E n).intrinsic = n.intrinsic := by
  unfold fillNode; split <;> rfl

/-- `fill_in_type` does not touch `intrinsic_name`. -/
theorem fillNode_intrinsic_name (E : Env) (n : AstNode) :
    (fillNode E n).intrinsic_name = n.intrinsic_name := by
  unfold fillNode; split <;> rfl

/-- `fill_in_type` does not touch `params`. -/
theorem fillNode_params (E : Env) (n : AstNode) : (fillNode E n).params = n.params := by
  unfold fillNode; split <;> rfl

/-- `fill_in_type` leaves a type that is already there. -/
theorem fillNode_type_of_some (E : Env) (n : AstNode) (h : n.type ≠ none) :
    (fillNode E n).type = n.type := by
  simp [fillNode, h]

/-- Filling in types keeps the addresses and the `next` links. -/
theorem fillEq_sameShape {E : Env} {s0 s : SemState} (h : FillEq E s0 s) : SameShape s0 s := by
  intro p
  rcases h p with hp | hp
  · rw [hp]
  · rw [hp]
    cases s0.node p <;> simp [fillNode_next]

/-- A store has its own shape. -/
theorem sameShape_refl (s : SemState) : SameShape s s := fun _ => rfl

/-- Having the same shape is transitive. -/
theorem sameShape_trans {s0 s1 s2 : SemState} (h1 : SameShape s0 s1)
    (h2 : SameShape s1 s2) : SameShape s0 s2 :=
  fun p => (h2 p).trans (h1 p)

/-- A node of the earlier store is still there, with the same `next`. -/
theorem sameShape_node {s0 s : SemState} (h : SameShape s0 s) {p : Nat} {n0 : AstNode}
    (h0 : s0.node p = some n0) : ∃ n, s.node p = some n ∧ n.next = n0.next := by
  have := h p
  rw [h0] at this
  cases hn : s.node p with
  | none => rw [hn] at this; simp at this
  | some n => rw [hn] at this; exact ⟨n, rfl, by simpa using this⟩

/-- Overwriting a node by one with the same `next` keeps the shape. -/
theorem sameShape_setNode {s : SemState} {p : Nat} {n m : AstNode} (hn : s.node p = some n)
    (hm : m.next = n.next) : SameShape s (s.setNode p m) := by
  intro q
  by_cases hq : p = q
  · subst hq; rw [node_setNode_self _ hn, hn]; simp [hm]
  · rw [node_setNode_ne _ hq]

/-- `onyx_message_add` does not touch the node store. -/
theorem onyx_message_add_node (s : SemState) (t : MsgType) (pos : Nat) (args : List String)
    (p : Nat) : (onyx_message_add s t pos args).node p = s.node p := rfl

/-- Whenever `fill_in_type` returns, it has at most filled in types and has kept the
messages. -/
theorem fill_in_type_frame (E : Env) {p : Nat} {s s1 : SemState}
    (h : fill_in_type E p s = some s1) : FillEq E s s1 ∧ s1.msgs = s.msgs := by
  cases hn : s.node p with
  | none => simp [fill_in_type, hn] at h
  | some n =>
    obtain ⟨s1', hf, hfe, _, hm, _⟩ := fill_in_type_spec E (fillEq_refl E s) hn
    rw [h] at hf
    cases hf
    exact ⟨hfe, hm⟩

/-- `fill_in_type` leaves every other address as it was. -/
theorem fill_in_type_other (E : Env) {p : Nat} {s s1 : SemState}
    (h : fill_in_type E p s = some s1) {q : Nat} (hq : p ≠ q) : s1.node q = s.node q := by
  cases hn : s.node p with
  | none => simp [fill_in_type, hn] at h
  | some n =>
    by_cases ht : n.type = none
    · simp [fill_in_type, hn, ht] at h
      rw [← h, node_setNode_ne _ hq]
    · simp [fill_in_type, hn, ht] at h
      rw [h]

/-- A chain with a first element, unfolded. -/
theorem isChain_cons {s : SemState} {p : Ptr} {a : Nat} {rest : List Nat}
    (h : isChain s p (a :: rest) = true) :
    p = some a ∧ ∃ n, s.node a = some n ∧ isChain s n.next rest = true := by
  cases p with
  | none => simp [isChain] at h
  | some a' =>
    simp only [isChain, Bool.and_eq_true, beq_iff_eq] at h
    obtain ⟨haa, hrest⟩ := h
    subst haa
    cases hn : s.node a' with
    | none => rw [hn] at hrest; simp at hrest
    | some n => rw [hn] at hrest; exact ⟨rfl, n, rfl, hrest⟩

/-- The empty chain starts at `NULL`. -/
theorem isChain_nil {s : SemState} {p : Ptr} (h : isChain s p [] = true) : p = none := by
  cases p with
  | none => rfl
  | some a => simp [isChain] at h

/-! ### `check_call` -/

/-- The `strcmp` chain of `check_call` maps every name of the table to the enumerator
paired with it. -/
theorem intrinsic_of_name_table :
    ∀ p ∈ intrinsic_names, intrinsic_of_name p.1 = p.2 := by
  decide

/-- Whenever the parameter loop of `check_call` returns, it has at most filled in
types; when it returns success it has added no message. -/
theorem check_call_params_frame (E : Env) (call callee : Nat) :
    ∀ (fuel : Nat) (fp ap : Ptr) (pos : Nat) (s s' : SemState) (rv : Nat),
      check_call_params E call callee fuel fp ap pos s = some (rv, s') →
      FillEq E s s' ∧ (rv = 0 → s'.msgs = s.msgs) := by
  intro fuel
  induction fuel with
  | zero => intro fp ap pos s s' rv h; simp [check_call_params] at h
  | succ k ih =>
    intro fp ap pos s s' rv h
    cases fp with
    | none =>
      cases ap with
      | none =>
        simp [check_call_params] at h
        obtain ⟨rfl, rfl⟩ := h
        exact ⟨fillEq_refl E s, fun _ => rfl⟩
      | some a =>
        simp only [check_call_params] at h
        cases hc : s.node call with
        | none => simp [hc] at h
        | some c =>
          simp [hc] at h
          obtain ⟨rfl, rfl⟩ := h
          exact ⟨fun p => Or.inl rfl, by simp⟩
    | some f =>
      cases ap with
      | none =>
        simp only [check_call_params] at h
        cases hc : s.node call with
        | none => simp [hc] at h
        | some c =>
          simp [hc] at h
          obtain ⟨rfl, rfl⟩ := h
          exact ⟨fun p => Or.inl rfl, by simp⟩
      | some a =>
        simp only [check_call_params] at h
        cases hf : fill_in_type E f s with
        | none => simp [hf] at h
        | some s1 =>
          obtain ⟨hfe, hm1⟩ := fill_in_type_frame E hf
          simp only [hf] at h
          cases hfn : s1.node f with
          | none => simp [hfn] at h
          | some fnode =>
            cases han : s1.node a with
            | none => simp [hfn, han] at h
            | some anode =>
              simp only [hfn, han] at h
              by_cases hc : E.types_are_compatible fnode.type anode.type = true
              · simp [hc] at h
                obtain ⟨h1, h2⟩ := ih _ _ _ _ _ _ h
                exact ⟨fillEq_trans hfe h1, fun hz => (h2 hz).trans hm1⟩
              · simp [hc] at h
                cases hcn : s1.node callee with
                | none => simp [hcn] at h
                | some cn =>
                  simp [hcn] at h
                  obtain ⟨rfl, rfl⟩ := h
                  exact ⟨hfe, by simp⟩

/-- The parameter loop of `check_call` returns when the formal parameters and the
arguments are proper chains and the fuel exceeds the number of formal parameters. -/
theorem check_call_params_returns (E : Env) (call callee : Nat) (s0 : SemState)
    (c0 cn0 : AstNode) (hcall : s0.node call = some c0) (hcallee : s0.node callee = some cn0)
    (formals : List Nat) :
    ∀ (fuel : Nat) (fp ap : Ptr) (actuals : List Nat) (pos : Nat) (s : SemState),
      SameShape s0 s → isChain s0 fp formals = true → isChain s0 ap actuals = true →
      formals.length < fuel →
      ∃ r, check_call_params E call callee fuel fp ap pos s = some r := by
  induction formals with
  | nil =>
    intro fuel fp ap actuals pos s hs hf ha hfuel
    have hfp := isChain_nil hf
    subst hfp
    obtain ⟨c, hc, _⟩ := sameShape_node hs hcall
    cases fuel with
    | zero => simp at hfuel
    | succ k =>
      cases ap with
      | none => exact ⟨(0, s), by simp [check_call_params]⟩
      | some a => exact ⟨_, by simp [check_call_params, hc]; rfl⟩
  | cons f rest ih =>
    intro fuel fp ap actuals pos s hs hf ha hfuel
    obtain ⟨hfp, fn0, hfn0, hfrest⟩ := isChain_cons hf
    subst hfp
    obtain ⟨c, hc, _⟩ := sameShape_node hs hcall
    cases fuel with
    | zero => simp at hfuel
    | succ k =>
      cases actuals with
      | nil =>
        have hap := isChain_nil ha
        subst hap
        exact ⟨_, by simp [check_call_params, hc]; rfl⟩
      | cons a arest =>
        obtain ⟨hap, an0, han0, harest⟩ := isChain_cons ha
        subst hap
        obtain ⟨fn, hfn, _⟩ := sameShape_node hs hfn0
        obtain ⟨s1, hfill, hfe, _, _, hn1⟩ := fill_in_type_spec E (fillEq_refl E s) hfn
        have hs1 : SameShape s0 s1 := sameShape_trans hs (fillEq_sameShape hfe)
        obtain ⟨fn1, hfn1, hfnext⟩ := sameShape_node hs1 hfn0
        obtain ⟨an1, han1, hanext⟩ := sameShape_node hs1 han0
        obtain ⟨cn1, hcn1, _⟩ := sameShape_node hs1 hcallee
        by_cases hcomp : E.types_are_compatible fn1.type an1.type = true
        · obtain ⟨r, hr⟩ := ih k fn1.next an1.next arest (pos + 1) s1 hs1
            (by rw [hfnext]; exact hfrest) (by rw [hanext]; exact harest)
            (by simp at hfuel; omega)
          exact ⟨r, by simp [check_call_params, hfill, hfn1, han1, hcomp, hr]⟩
        · exact ⟨_, by simp [check_call_params, hfill, hfn1, han1, hcomp, hcn1]; rfl⟩

/-- Lines 174-250 of `check_call` for a callee with a function type: the call node is
rewritten (`call_rewritten`), nothing else changes but the callee's filled-in type, and
the parameter loop is entered. -/
theorem check_call_callee_eq (E : Env) (fuel call fp : Nat) (s1 : SemState)
    (c1 cn1 : AstNode) (t : Nat)
    (hc1 : s1.node call = some c1) (hcn1 : s1.node fp = some cn1) (hne : call ≠ fp)
    (ht : (fillNode E cn1).type = some t) (hfun : E.Type_kind t = TypeKind.Function)
    (hname : (cn1.flags &&& E.Ast_Flag_Intrinsic) ≠ 0 → cn1.intrinsic_name ≠ none) :
    ∃ sd, check_call_callee E fuel call fp s1 =
        check_call_params E call fp fuel cn1.params c1.arguments 0 sd ∧
      sd.node call = some (call_rewritten E c1 cn1 t) ∧ SameShape s1 sd ∧
      sd.msgs = s1.msgs ∧ (∀ q, q ≠ call → q ≠ fp → sd.node q = s1.node q) ∧
      sd.node fp = some (fillNode E cn1) := by
  obtain ⟨sa, hfill, _, hfe, hma, hna⟩ := fill_in_type_spec E (fillEq_refl E s1) hcn1
  have hoth : ∀ q, fp ≠ q → sa.node q = s1.node q := fun q hq => fill_in_type_other E hfill hq
  have hca : sa.node call = some c1 := by rw [hoth call (Ne.symm hne), hc1]
  have hsa : SameShape s1 sa := fillEq_sameShape hfe
  by_cases hflag : (cn1.flags &&& E.Ast_Flag_Intrinsic) ≠ 0
  · obtain ⟨tok, htok⟩ := Option.ne_none_iff_exists'.mp (hname hflag)
    have hb1 := node_setNode_self
      { c1 with kind := AstKind.Intrinsic_Call, callee := none } hca
    have hb2 : (sa.setNode call
        { c1 with kind := AstKind.Intrinsic_Call, callee := none }).node fp =
          some (fillNode E cn1) := by
      rw [node_setNode_ne _ hne, hna]
    generalize hsb : sa.setNode call
      { c1 with kind := AstKind.Intrinsic_Call, callee := none } = sb at hb1 hb2
    have hc1' := node_setNode_self
      { c1 with kind := AstKind.Intrinsic_Call, callee := none,
                intrinsic := intrinsic_of_name tok.text } hb1
    have hc2 : (sb.setNode call
        { c1 with kind := AstKind.Intrinsic_Call, callee := none,
                  intrinsic := intrinsic_of_name tok.text }).node fp =
          some (fillNode E cn1) := by
      rw [node_setNode_ne _ hne, hb2]
    generalize hsc : sb.setNode call
        { c1 with kind := AstKind.Intrinsic_Call, callee := none,
                  intrinsic := intrinsic_of_name tok.text } = sc at hc1' hc2
    have hd1 := node_setNode_self
      { c1 with kind := AstKind.Intrinsic_Call, callee := none,
                intrinsic := intrinsic_of_name tok.text,
                type := E.Function_return_type t } hc1'
    have hd2 : (sc.setNode call
        { c1 with kind := AstKind.Intrinsic_Call, callee := none,
                  intrinsic := intrinsic_of_name tok.text,
                  type := E.Function_return_type t }).node fp = some (fillNode E cn1) := by
      rw [node_setNode_ne _ hne, hc2]
    refine ⟨sc.setNode call
        { c1 with kind := AstKind.Intrinsic_Call, callee := none,
                  intrinsic := intrinsic_of_name tok.text,
                  type := E.Function_return_type t }, ?_, ?_, ?_, ?_, ?_, hd2⟩
    · simp [check_call_callee, hfill, hna, ht, hfun, fillNode_flags, hflag,
        check_call_intrinsic, hca, hsb, hb2, fillNode_intrinsic_name, htok, hb1, hsc, hc2,
        hc1', hd2, hd1, fillNode_params]
    · rw [hd1]; simp [call_rewritten, hflag, htok]
    · have h1 : SameShape sa sb := by rw [← hsb]; exact sameShape_setNode hca rfl
      have h2 : SameShape sb sc := by rw [← hsc]; exact sameShape_setNode hb1 rfl
      exact sameShape_trans hsa (sameShape_trans h1
        (sameShape_trans h2 (sameShape_setNode hc1' rfl)))
    · rw [← hsc, ← hsb]; exact hma
    · intro q hq1 hq2
      rw [node_setNode_ne _ (Ne.symm hq1), ← hsc, node_setNode_ne _ (Ne.symm hq1), ← hsb,
        node_setNode_ne _ (Ne.symm hq1), hoth q (Ne.symm hq2)]
  · have hd1 := node_setNode_self { c1 with type := E.Function_return_type t } hca
    have hd2 : (sa.setNode call { c1 with type := E.Function_return_type t }).node fp =
        some (fillNode E cn1) := by
      rw [node_setNode_ne _ hne, hna]
    refine ⟨sa.setNode call { c1 with type := E.Function_return_type t }, ?_, ?_, ?_, hma,
      ?_, hd2⟩
    · simp only [ne_eq, not_not] at hflag
      simp [check_call_callee, hfill, hna, ht, hfun, fillNode_flags, hflag, hca, hd2, hd1,
        fillNode_params]
    · rw [hd1]; simp [call_rewritten, hflag]
    · exact sameShape_trans hsa (sameShape_setNode hca rfl)
    · intro q hq1 hq2
      rw [node_setNode_ne _ (Ne.symm hq1), hoth q (Ne.symm hq2)]

/-- Lines 174-250 of `check_call` do not lead to success when the callee has no type,
or a type that is not a function type, or is flagged intrinsic without an intrinsic
name. -/
theorem check_call_callee_fails (E : Env) (fuel call fp : Nat) (s1 s3 : SemState)
    (c1 cn1 : AstNode)
    (hc1 : s1.node call = some c1) (hcn1 : s1.node fp = some cn1) (hne : call ≠ fp)
    (hbad : (fillNode E cn1).type = none ∨
      (∃ t, (fillNode E cn1).type = some t ∧ E.Type_kind t ≠ TypeKind.Function) ∨
      ((cn1.flags &&& E.Ast_Flag_Intrinsic) ≠ 0 ∧ cn1.intrinsic_name = none)) :
    check_call_callee E fuel call fp s1 ≠ some (0, s3) := by
  obtain ⟨sa, hfill, _, hfe, hma, hna⟩ := fill_in_type_spec E (fillEq_refl E s1) hcn1
  have hoth : ∀ q, fp ≠ q → sa.node q = s1.node q := fun q hq => fill_in_type_other E hfill hq
  have hca : sa.node call = some c1 := by rw [hoth call (Ne.symm hne), hc1]
  rcases hbad with h | ⟨t, h1, h2⟩ | ⟨h1, h2⟩
  · simp [check_call_callee, hfill, hna, h]
  · simp [check_call_callee, hfill, hna, h1, h2, hca]
  · cases htt : (fillNode E cn1).type with
    | none => simp [check_call_callee, hfill, hna, htt]
    | some t =>
      by_cases hfun : E.Type_kind t = TypeKind.Function
      · have hb2 : (sa.setNode call
            { c1 with kind := AstKind.Intrinsic_Call, callee := none }).node fp =
              some (fillNode E cn1) := by
          rw [node_setNode_ne _ hne, hna]
        simp [check_call_callee, hfill, hna, htt, hfun, fillNode_flags, h1,
          check_call_intrinsic, hca, hb2, fillNode_intrinsic_name, h2]
      · simp [check_call_callee, hfill, hna, htt, hfun, hca]

/-- C2, as amended: for a call whose callee is an overload set and whose arguments
check successfully (state `s1`), let overload resolution return `m` (state `s2`).  If
`check_call` succeeds then `m` is an overload `ov`, a node of the store with a type
`t`; the call's type is the return type of `t` (when that is a non-null type); the
call's callee is `ov`, unless `ov` is flagged intrinsic, in which case the callee has
been cleared; and no diagnostic was added after the resolution.  (`hne`: the overload
chosen is not the call node itself.) -/
theorem check_call_overload_resolved (E : Env) (fuel : Nat) (check_expression : Checker)
    (call ofp : Nat) (s s1 s2 s3 : SemState) (c cn cn1 : AstNode) (m : Ptr)
    (hc : s.node call = some c) (hcallee : c.callee = some ofp)
    (hcn : s.node ofp = some cn) (hk : cn.kind = AstKind.Overloaded_Function)
    (hargs : check_call_arguments check_expression fuel c.arguments s = some (0, s1))
    (hcn1 : s1.node ofp = some cn1) (hk1 : cn1.kind = AstKind.Overloaded_Function)
    (hm : match_overloaded_function E fuel call ofp s1 = some (m, s2))
    (hne : m ≠ some call)
    (hsucc : check_call E fuel check_expression call s = some (0, s3)) :
    ∃ ov o t c3, m = some ov ∧ s2.node ov = some o ∧ filledType E s2 ov = some t ∧
      s3.node call = some c3 ∧
      c3.callee = (if (o.flags &&& E.Ast_Flag_Intrinsic) ≠ 0 then none else some ov) ∧
      (E.Function_return_type t ≠ none → c3.type = E.Function_return_type t) ∧
      s3.msgs = s2.msgs := by
  have hk' : cn.kind ≠ AstKind.Symbol := by rw [hk]; decide
  simp only [check_call, hc, hcallee, hcn, hk', hargs, orReturn, check_call_rest,
    check_call_overload, hcn1, hk1, hm, Option.bind_eq_bind, Option.some_bind, if_true,
    if_false, ne_eq, not_true_eq_false, not_false_eq_true] at hsucc
  cases hc2 : s2.node call with
  | none => simp [hc2] at hsucc
  | some c2 =>
    cases m with
    | none => simp [hc2] at hsucc
    | some ov =>
      have hne' : call ≠ ov := fun h => hne (by rw [h])
      simp only [hc2, Option.some_bind] at hsucc
      have hc2' := node_setNode_self { c2 with callee := some ov } hc2
      cases hov : s2.node ov with
      | none =>
        have : (s2.setNode call { c2 with callee := some ov }).node ov = none := by
          rw [node_setNode_ne _ hne', hov]
        simp [check_call_callee, fill_in_type, this] at hsucc
      | some o =>
        have hov' : (s2.setNode call { c2 with callee := some ov }).node ov = some o := by
          rw [node_setNode_ne _ hne', hov]
        cases htt : (fillNode E o).type with
        | none =>
          exact absurd hsucc (check_call_callee_fails E fuel call ov _ s3 _ o hc2' hov' hne'
            (Or.inl htt))
        | some t =>
          by_cases hfun : E.Type_kind t = TypeKind.Function
          · by_cases hname : (o.flags &&& E.Ast_Flag_Intrinsic) ≠ 0 ∧ o.intrinsic_name = none
            · exact absurd hsucc (check_call_callee_fails E fuel call ov _ s3 _ o hc2' hov'
                hne' (Or.inr (Or.inr hname)))
            · obtain ⟨sd, heq, hdc, _, hmd, _, _⟩ := check_call_callee_eq E fuel call ov _ _ o
                t hc2' hov' hne' htt hfun (fun hf hn => hname ⟨hf, hn⟩)
              rw [heq] at hsucc
              obtain ⟨hfe, hmsg⟩ := check_call_params_frame E call ov fuel _ _ _ _ _ _ hsucc
              obtain ⟨c3, hc3, _, hcase⟩ := fillEq_node hfe hdc
              refine ⟨ov, o, t, c3, rfl, hov, ?_, hc3, ?_, ?_, ?_⟩
              · rw [filledType_eq hov, htt]
              · have : (call_rewritten E { c2 with callee := some ov } o t).callee =
                    (if (o.flags &&& E.Ast_Flag_Intrinsic) ≠ 0 then none else some ov) := by
                  unfold call_rewritten; split <;> rfl
                rcases hcase with h | h
                · rw [h, this]
                · rw [h, fillNode_callee, this]
              · intro hret
                have : (call_rewritten E { c2 with callee := some ov } o t).type =
                    E.Function_return_type t := by
                  unfold call_rewritten; split <;> rfl
                rcases hcase with h | h
                · rw [h, this]
                · rw [h, fillNode_type_of_some _ _ (by rw [this]; exact hret), this]
              · rw [hmsg rfl, hmd]; rfl
          · exact absurd hsucc (check_call_callee_fails E fuel call ov _ s3 _ o hc2' hov' hne'
              (Or.inr (Or.inl ⟨t, htt, hfun⟩)))

/-- C2, witness: for `add :: (i32, i32) -> i32`, `add :: (f32, f32) -> f32` in that
order, the call `add(1.0, 2.0)` ends with callee = the `f32` overload (address 3),
type = `f32` and no diagnostic. -/
theorem check_call_overload_resolved_witness :
    (check_call sampleEnv 3 (check_expression sampleEnv 2) 0 (addCallState none)).map
        (fun r => (r.1, (r.2.node 0).map (fun c => (c.callee, c.type)), r.2.msgs)) =
      some (0, some (some 3, some ty_f32), []) ∧
    ∃ ov o t c3, addCallResolved.1 = some ov ∧ addCallResolved.2.node ov = some o ∧
      filledType sampleEnv addCallResolved.2 ov = some t ∧
      addCallChecked.2.node 0 = some c3 ∧
      c3.callee = (if (o.flags &&& sampleEnv.Ast_Flag_Intrinsic) ≠ 0 then none else some ov) ∧
      (sampleEnv.Function_return_type t ≠ none →
        c3.type = sampleEnv.Function_return_type t) ∧
      addCallChecked.2.msgs = addCallResolved.2.msgs :=
  ⟨by decide,
   check_call_overload_resolved sampleEnv 3 (check_expression sampleEnv 2) 0 1
    (addCallState none) (addCallState (some ty_f32)) addCallResolved.2 addCallChecked.2
    ((addCallState none).nodes.get ⟨0, by decide⟩)
    ((addCallState none).nodes.get ⟨1, by decide⟩)
    ((addCallState none).nodes.get ⟨1, by decide⟩) addCallResolved.1
    (by rfl) (by rfl) (by rfl) (by rfl) (by decide) (by rfl) (by rfl) (by decide)
    (by decide) (by decide)⟩

/-- C2, counterexample: a call whose callee is an overload set whose only overload is
flagged intrinsic.  The argument checks successfully, overload resolution chooses the
function at address 2, and `check_call` succeeds without a diagnostic, but the call's
callee is `NULL` afterwards, not the chosen overload. -/
theorem check_call_overload_intrinsic_callee_cleared :
    ((intrinsicCallState 1 "clz_i32" none).node 1).map AstNode.kind =
      some AstKind.Overloaded_Function ∧
    check_call_arguments (check_expression sampleEnv 2) 3 (some 3)
        (intrinsicCallState 1 "clz_i32" none) =
      some (0, intrinsicCallState 1 "clz_i32" (some ty_i32)) ∧
    (match_overloaded_function sampleEnv 3 0 1
      (intrinsicCallState 1 "clz_i32" (some ty_i32))).map (fun r => r.1) = some (some 2) ∧
    (check_call sampleEnv 3 (check_expression sampleEnv 2) 0
      (intrinsicCallState 1 "clz_i32" none)).map
        (fun r => (r.1, (r.2.node 0).map (fun c => (c.kind, c.callee, c.type)), r.2.msgs)) =
      some (0, some (AstKind.Intrinsic_Call, none, some ty_i32), []) :=
  ⟨by decide, by decide, by decide, by rfl⟩

/-- C10: for a call of a function flagged intrinsic, reached directly or through an
overload set (the callee is not an unresolved symbol, the arguments checked
successfully, lines 167-172 leave the function `fp` as callee, and its type is a
function type), whose intrinsic name is one of the names of the checker's table
`intrinsic_names`: `check_call` returns (the formal parameters and the arguments being
proper chains, with fuel for the parameters), and afterwards the node is an intrinsic
call, its callee is cleared, and its enumerator is `intrinsic_of_name` of the name
text, which is the enumerator paired with that name in the table. -/
theorem check_call_intrinsic_enumerator (E : Env) (fuel : Nat) (check_expression : Checker)
    (call cp fp : Nat) (s s1 s2 : SemState) (c cn c2 fn : AstNode) (t : Nat) (tok : OnyxToken)
    (intr : OnyxIntrinsic) (formals actuals : List Nat)
    (hc : s.node call = some c) (hcallee : c.callee = some cp)
    (hcn : s.node cp = some cn) (hk : cn.kind ≠ AstKind.Symbol)
    (hargs : check_call_arguments check_expression fuel c.arguments s = some (0, s1))
    (hres : check_call_overload E fuel call cp s1 = some (some fp, s2))
    (hc2 : s2.node call = some c2) (hfn : s2.node fp = some fn) (hne : call ≠ fp)
    (ht : (fillNode E fn).type = some t) (hfun : E.Type_kind t = TypeKind.Function)
    (hflag : (fn.flags &&& E.Ast_Flag_Intrinsic) ≠ 0)
    (hname : fn.intrinsic_name = some tok)
    (htab : (tok.text, intr) ∈ intrinsic_names)
    (hformals : isChain s2 fn.params formals = true)
    (hactuals : isChain s2 c2.arguments actuals = true)
    (hfuel : formals.length < fuel) :
    ∃ rv s3 c3, check_call E fuel check_expression call s = some (rv, s3) ∧
      s3.node call = some c3 ∧ c3.kind = AstKind.Intrinsic_Call ∧ c3.callee = none ∧
      c3.intrinsic = intrinsic_of_name tok.text ∧ intrinsic_of_name tok.text = intr := by
  obtain ⟨sd, heq, hdc, hshape, _, _, _⟩ := check_call_callee_eq E fuel call fp s2 c2 fn t
    hc2 hfn hne ht hfun (fun _ => by simp [hname])
  obtain ⟨⟨rv, s3⟩, hret⟩ := check_call_params_returns E call fp s2 c2 fn hc2 hfn formals
    fuel fn.params c2.arguments actuals 0 sd hshape hformals hactuals hfuel
  obtain ⟨hfe, _⟩ := check_call_params_frame E call fp fuel _ _ _ _ _ _ hret
  obtain ⟨c3, hc3, hf3, _⟩ := fillEq_node hfe hdc
  have hcr : call_rewritten E c2 fn t =
      { c2 with kind := AstKind.Intrinsic_Call, callee := none,
                intrinsic := intrinsic_of_name tok.text,
                type := E.Function_return_type t } := by
    simp [call_rewritten, hflag, hname]
  refine ⟨rv, s3, c3, ?_, hc3, ?_, ?_, ?_, intrinsic_of_name_table _ htab⟩
  · simp [check_call, hc, hcallee, hcn, hk, hargs, orReturn, check_call_rest, hres, heq, hret]
  · rw [← fillNode_kind E c3, hf3, fillNode_kind, hcr]
  · rw [← fillNode_callee E c3, hf3, fillNode_callee, hcr]
  · rw [← fillNode_intrinsic E c3, hf3, fillNode_intrinsic, hcr]

/-- C10, witness: the direct call `clz(1)` of the intrinsic named `clz_i32` becomes an
intrinsic call with enumerator `I32_CLZ`; and the call `clz(1)` whose callee is an
overload set holding the intrinsic named `ctz_i64` becomes an intrinsic call with
enumerator `I64_CTZ`. -/
theorem check_call_intrinsic_enumerator_witness :
    (∃ rv s3 c3, check_call sampleEnv 3 (check_expression sampleEnv 2) 0
        (intrinsicCallState 2 "clz_i32" none) = some (rv, s3) ∧
      s3.node 0 = some c3 ∧ c3.kind = AstKind.Intrinsic_Call ∧ c3.callee = none ∧
      c3.intrinsic = intrinsic_of_name "clz_i32" ∧
      intrinsic_of_name "clz_i32" = OnyxIntrinsic.I32_CLZ) ∧
    (∃ rv s3 c3, check_call sampleEnv 3 (check_expression sampleEnv 2) 0
        (intrinsicCallState 1 "ctz_i64" none) = some (rv, s3) ∧
      s3.node 0 = some c3 ∧ c3.kind = AstKind.Intrinsic_Call ∧ c3.callee = none ∧
      c3.intrinsic = intrinsic_of_name "ctz_i64" ∧
      intrinsic_of_name "ctz_i64" = OnyxIntrinsic.I64_CTZ) :=
  ⟨check_call_intrinsic_enumerator sampleEnv 3 (check_expression sampleEnv 2) 0 2 2
    (intrinsicCallState 2 "clz_i32" none) (intrinsicCallState 2 "clz_i32" (some ty_i32))
    (intrinsicCallState 2 "clz_i32" (some ty_i32))
    ((intrinsicCallState 2 "clz_i32" none).nodes.get ⟨0, by decide⟩)
    ((intrinsicCallState 2 "clz_i32" none).nodes.get ⟨2, by decide⟩)
    ((intrinsicCallState 2 "clz_i32" none).nodes.get ⟨0, by decide⟩)
    ((intrinsicCallState 2 "clz_i32" none).nodes.get ⟨2, by decide⟩)
    102 { text := "clz_i32", pos := 2 } OnyxIntrinsic.I32_CLZ [5] [3]
    (by rfl) (by rfl) (by rfl) (by decide) (by decide) (by rfl) (by rfl) (by rfl)
    (by decide) (by rfl) (by rfl) (by decide) (by rfl) (by decide) (by decide) (by decide)
    (by decide),
   check_call_intrinsic_enumerator sampleEnv 3 (check_expression sampleEnv 2) 0 1 2
    (intrinsicCallState 1 "ctz_i64" none) (intrinsicCallState 1 "ctz_i64" (some ty_i32))
    intrinsicOverloadResolved
    ((intrinsicCallState 1 "ctz_i64" none).nodes.get ⟨0, by decide⟩)
    ((intrinsicCallState 1 "ctz_i64" none).nodes.get ⟨1, by decide⟩)
    { kind := AstKind.Call, callee := some 2, arguments := some 3, arg_count := 1,
      token := { text := "clz", pos := 30 } }
    { kind := AstKind.Function, flags := 512, type_node := some 102, type := some 102,
      params := some 5, intrinsic_name := some { text := "ctz_i64", pos := 2 },
      token := { text := "clz", pos := 2 } }
    102 { text := "ctz_i64", pos := 2 } OnyxIntrinsic.I64_CTZ [5] [3]
    (by rfl) (by rfl) (by rfl) (by decide) (by decide) (by rfl) (by rfl) (by rfl)
    (by decide) (by rfl) (by rfl) (by decide) (by rfl) (by decide) (by decide) (by decide)
    (by decide)⟩

/-! ### `check_expression` -/

/-- A successful `orReturn` means that the check succeeded and the rest did. -/
theorem orReturn_eq_zero {x : Option (Nat × SemState)}
    {k : SemState → Option (Nat × SemState)} {s' : SemState}
    (h : orReturn x k = some (0, s')) : ∃ s1, x = some (0, s1) ∧ k s1 = some (0, s') := by
  cases x with
  | none => simp [orReturn] at h
  | some r =>
    obtain ⟨rv, s1⟩ := r
    by_cases hrv : rv = 0
    · subst hrv
      exact ⟨s1, rfl, by simpa [orReturn] using h⟩
    · simp [orReturn, hrv] at h

/-- When the type tests of `check_binaryop` succeed, the node has a type. -/
theorem check_binaryop_types_success (E : Env) (binop : Nat) (s s' : SemState)
    (h : check_binaryop_types E binop s = some (0, s')) :
    ∃ n, s'.node binop = some n ∧ n.type ≠ none := by
  cases hb : s.node binop with
  | none => simp [check_binaryop_types, hb] at h
  | some b =>
    cases hl : s.deref b.left with
    | none => simp [check_binaryop_types, hb, hl] at h
    | some l =>
      cases hr : s.deref b.right with
      | none =>
        by_cases htl : l.type = none <;> simp [check_binaryop_types, hb, hl, hr, htl] at h
      | some r =>
        have hl' : ∃ lp, b.left = some lp ∧ s.node lp = some l := by
          cases hbl : b.left with
          | none => simp [SemState.deref, hbl] at hl
          | some lp => exact ⟨lp, rfl, by simpa [SemState.deref, hbl] using hl⟩
        have hr' : ∃ rp, b.right = some rp ∧ s.node rp = some r := by
          cases hbr : b.right with
          | none => simp [SemState.deref, hbr] at hr
          | some rp => exact ⟨rp, rfl, by simpa [SemState.deref, hbr] using hr⟩
        obtain ⟨lp, hl2, hln⟩ := hl'
        obtain ⟨rp, hr2, hrn⟩ := hr'
        rw [check_binaryop_types_eq E binop lp rp s b l r hb hl2 hln hr2 hrn] at h
        by_cases htl : l.type = none
        · simp [htl] at h
        · by_cases htr : r.type = none
          · simp [htl, htr] at h
          · by_cases hc : E.types_are_compatible l.type r.type = false
            · simp [htl, htr, hc] at h
            · rw [if_neg htl, if_neg htr, if_neg hc] at h
              simp only [Option.some.injEq, Prod.mk.injEq, true_and] at h
              rw [← h, node_setNode_self _ hb]
              refine ⟨_, rfl, ?_⟩
              by_cases hcmp : binop_is_compare b.operation = true
              · simp [hcmp]
              · simpa [hcmp] using htl

/-- When `check_binaryop` succeeds, the node has a type. -/
theorem check_binaryop_success_typed (E : Env) (check_expression : Checker) (binop : Nat)
    (s s' : SemState) (h : check_binaryop E check_expression binop s = some (0, s')) :
    ∃ n, s'.node binop = some n ∧ n.type ≠ none := by
  cases hb : s.node binop with
  | none => simp [check_binaryop, hb] at h
  | some b =>
    cases hl : b.left with
    | none => simp [check_binaryop, hb, hl] at h
    | some lp =>
      simp only [check_binaryop, hb, hl, Option.bind_eq_bind, Option.some_bind] at h
      obtain ⟨s1, _, h1⟩ := orReturn_eq_zero h
      cases hb1 : s1.node binop with
      | none => simp [hb1] at h1
      | some b1 =>
        cases hr : b1.right with
        | none => simp [hb1, hr] at h1
        | some rp =>
          simp only [hb1, hr, Option.some_bind] at h1
          obtain ⟨s2, _, h2⟩ := orReturn_eq_zero h1
          unfold check_binaryop_rest at h2
          obtain ⟨s3, _, h3⟩ := orReturn_eq_zero h2
          exact check_binaryop_types_success E binop s3 s' h3

/-- C7, as amended: for an expression that is a binary operation, a parameter, a
global or a numeric literal, if `check_expression` returns success then the node has a
non-null type afterwards. -/
theorem check_expression_success_typed (E : Env) (fuel : Nat) (expr : Nat) (s s' : SemState)
    (n : AstNode) (hn : s.node expr = some n)
    (hkind : n.kind ∈ [AstKind.Binary_Op, AstKind.Param, AstKind.Global, AstKind.NumLit])
    (h : check_expression E fuel expr s = some (0, s')) :
    ∃ n', s'.node expr = some n' ∧ n'.type ≠ none := by
  cases fuel with
  | zero => simp [check_expression, checkers] at h
  | succ k =>
    obtain ⟨s1, hfill, _, _, _, hn1⟩ := fill_in_type_spec E (fillEq_refl E s) hn
    have hstep : check_expression E (k + 1) expr s =
        check_expression_step E k (check_expression E k) (check_statement E k) expr s := rfl
    rw [hstep] at h
    simp only [List.mem_cons, List.mem_singleton, List.not_mem_nil, or_false] at hkind
    have hnb : kind_is_type AstKind.Binary_Op = false := by decide
    have hnp : kind_is_type AstKind.Param = false := by decide
    have hng : kind_is_type AstKind.Global = false := by decide
    have hnn : kind_is_type AstKind.NumLit = false := by decide
    rcases hkind with hk | hk | hk | hk
    · simp only [check_expression_step, hn, hk, hnb, hfill, hn1, fillNode_kind,
        Option.bind_eq_bind, Option.some_bind, Bool.false_eq_true, if_false] at h
      exact check_binaryop_success_typed E _ expr s1 s' h
    · simp only [check_expression_step, hn, hk, hnp, hfill, hn1, fillNode_kind,
        Option.bind_eq_bind, Option.some_bind, Bool.false_eq_true, if_false] at h
      by_cases ht : (fillNode E n).type = none
      · simp [ht] at h
      · rw [if_neg ht] at h
        simp only [Option.some.injEq, Prod.mk.injEq, true_and] at h
        rw [← h]; exact ⟨_, hn1, ht⟩
    · simp only [check_expression_step, hn, hk, hng, hfill, hn1, fillNode_kind,
        Option.bind_eq_bind, Option.some_bind, Bool.false_eq_true, if_false] at h
      by_cases ht : (fillNode E n).type = none
      · simp [ht] at h
      · rw [if_neg ht] at h
        simp only [Option.some.injEq, Prod.mk.injEq, true_and] at h
        rw [← h]; exact ⟨_, hn1, ht⟩
    · simp only [check_expression_step, hn, hk, hnn, hfill, hn1, fillNode_kind,
        Option.bind_eq_bind, Option.some_bind, Bool.false_eq_true, if_false] at h
      by_cases ht : (fillNode E n).type = none
      · simp [ht] at h
      · rw [if_neg ht] at h
        simp only [Option.some.injEq, Prod.mk.injEq, true_and] at h
        rw [← h]; exact ⟨_, hn1, ht⟩

/-- C7, witness: after checking `x + y` with `x, y : i32` the operation node has a
type. -/
theorem check_expression_success_typed_witness :
    ∃ n', binopAddChecked.node 0 = some n' ∧ n'.type ≠ none :=
  check_expression_success_typed sampleEnv 2 0
    (binopState BinaryOp.Add 0 (some ty_i32) (some ty_i32)) binopAddChecked
    (sampleBinop BinaryOp.Add) (by rfl) (by decide) (by rfl)

/-- C7, counterexample: the local `x` whose type is not known yet checks
successfully and has no type afterwards; and the call `add(1)` of
`add :: (i32, i32) -> i32` fails (`too few arguments to function call`) and has the
type `i32` afterwards.  So neither direction of the equivalence holds. -/
theorem check_expression_type_not_iff_success :
    (check_expression sampleEnv 1 1 (binopState BinaryOp.Add 0 none none)).map
      (fun r => (r.1, (r.2.node 1).map AstNode.type)) = some (0, some none) ∧
    (check_expression sampleEnv 3 0 shortCallState).map
      (fun r => (r.1, (r.2.node 0).map AstNode.type, r.2.msgs)) =
      some (1, some (some ty_i32),
        [⟨MsgType.Literal, 20, ["too few arguments to function call"]⟩]) := by
  decide

/-! ### `onyx_type_check` -/

/-- The entity loop returns at the first entity whose check fails. -/
theorem onyx_type_check_entities_stops (E : Env) (fuel : Nat) (e : Entity) (post : List Entity)
    (pre : List Entity) :
    ∀ (p p1 p2 : ProgramInfo) (s s1 s2 : SemState) (rv : Nat),
      entities_pass E fuel pre p s = some (p1, s1) →
      check_entity E fuel e p1 s1 = some (rv, p2, s2) → rv ≠ 0 →
      onyx_type_check_entities E fuel (pre ++ e :: post) p s = some (p2, s2) := by
  induction pre with
  | nil =>
    intro p p1 p2 s s1 s2 rv hpre hfail hrv
    simp only [entities_pass, Option.some.injEq, Prod.mk.injEq] at hpre
    obtain ⟨rfl, rfl⟩ := hpre
    simp [onyx_type_check_entities, hfail, hrv]
  | cons a rest ih =>
    intro p p1 p2 s s1 s2 rv hpre hfail hrv
    simp only [entities_pass] at hpre
    cases hca : check_entity E fuel a p s with
    | none => simp [hca] at hpre
    | some r =>
      obtain ⟨ra, pa, sa⟩ := r
      cases ra with
      | zero =>
        simp only [hca] at hpre
        simp [onyx_type_check_entities, hca, ih pa p1 p2 sa s1 s2 rv hpre hfail hrv]
      | succ k => simp [hca] at hpre

/-- C8, as amended: if the entities before `e` all check successfully and the check of
`e` fails, `onyx_type_check` returns with the state the check of `e` left, whatever
entities come after `e`: no later entity is checked. -/
theorem onyx_type_check_stops_at_first_failure (E : Env) (fuel : Nat) (program : ProgramInfo)
    (pre post : List Entity) (e : Entity) (p1 p2 : ProgramInfo) (s s1 s2 : SemState) (rv : Nat)
    (hents : program.entities = pre ++ e :: post)
    (hpre : entities_pass E fuel pre program s = some (p1, s1))
    (hfail : check_entity E fuel e p1 s1 = some (rv, p2, s2)) (hrv : rv ≠ 0) :
    onyx_type_check E fuel program s = some (p2, s2) := by
  unfold onyx_type_check
  rw [hents]
  exact onyx_type_check_entities_stops E fuel e post pre program p1 p2 s s1 s2 rv hpre hfail hrv

/-- C8, witness: a global that checks, then two unresolved symbols: the run ends with
the diagnostic for the first symbol only. -/
theorem onyx_type_check_stops_at_first_failure_witness :
    onyx_type_check sampleEnv 1
        { entities := [⟨EntityType.Global, some 0⟩, ⟨EntityType.Expression, some 1⟩,
                       ⟨EntityType.Expression, some 2⟩] }
        globalThenSymbolsState =
      some ({ entities := [⟨EntityType.Global, some 0⟩, ⟨EntityType.Expression, some 1⟩,
                           ⟨EntityType.Expression, some 2⟩] },
        onyx_message_add
          (globalThenSymbolsState.setNode 0
            { kind := AstKind.Global, type_node := some 7, type := some 7,
              token := { text := "g", pos := 1 } })
          MsgType.Unresolved_Symbol 2 ["a"]) :=
  onyx_type_check_stops_at_first_failure sampleEnv 1 _ [⟨EntityType.Global, some 0⟩]
    [⟨EntityType.Expression, some 2⟩] ⟨EntityType.Expression, some 1⟩ _ _
    globalThenSymbolsState _ _ 1 (by rfl) (by rfl) (by rfl) (by decide)

/-- C8, counterexample: two expression entities, each an unresolved symbol.  The check
of the first fails; the check of the second would fail too, with a diagnostic of its
own; but after `onyx_type_check` the log holds the first diagnostic only: the second
entity was not checked. -/
theorem onyx_type_check_skips_later_entities :
    (check_entity sampleEnv 1 ⟨EntityType.Expression, some 0⟩ twoSymbolsProgram
      twoSymbolsState).map (fun r => r.1) = some 1 ∧
    (check_entity sampleEnv 1 ⟨EntityType.Expression, some 1⟩ twoSymbolsProgram
      twoSymbolsState).map (fun r => (r.1, r.2.2.msgs)) =
      some (1, [⟨MsgType.Unresolved_Symbol, 2, ["b"]⟩]) ∧
    (onyx_type_check sampleEnv 1 twoSymbolsProgram twoSymbolsState).map
      (fun r => r.2.msgs) = some [⟨MsgType.Unresolved_Symbol, 1, ["a"]⟩] := by
  decide

/-- C9, the code at the failing input: for the expression `sizeof i32`
`check_expression` returns failure and the state is unchanged, so no message was
added; `check_statement` fails without a message too, and after `onyx_type_check` of a
program with this one entity the message log is empty. -/
theorem check_expression_unhandled_kind_silent :
    check_expression sampleEnv 1 0 sizeofState = some (1, sizeofState) ∧
    sizeofState.msgs = [] ∧
    (check_statement sampleEnv 2 0 sizeofState).map (fun r => (r.1, r.2.msgs)) =
      some (1, []) ∧
    (onyx_type_check sampleEnv 1 { entities := [⟨EntityType.Expression, some 0⟩] }
      sizeofState).map (fun r => r.2.msgs) = some [] := by
  decide

/-! ### `check_call`: unknown intrinsic names and arity -/

/-- A name outside the table of `check_call` leaves the enumerator at
`ONYX_INTRINSIC_UNDEFINED`. -/
theorem intrinsic_of_name_unknown (name : String)
    (h : name ∉ intrinsic_names.map Prod.fst) :
    intrinsic_of_name name = OnyxIntrinsic.UNDEFINED := by
  simp only [intrinsic_names, List.map, List.mem_cons, List.mem_nil_iff, or_false,
    not_or] at h
  simp [intrinsic_of_name, h]

/-- The parameter loop of `check_call` with compatible types at every common position:
it returns what lines 271-285 say for the two chain lengths, having added no message of
its own and changed nothing but filled-in types.  (`s0` is the store the chains and the
types are read in; `s` is the running store.) -/
theorem check_call_params_arity (E : Env) (call callee : Nat) (s0 : SemState) (c0 : AstNode)
    (formals : List Nat) :
    ∀ (actuals : List Nat) (fuel : Nat) (fp ap : Ptr) (pos : Nat) (s : SemState),
      SameShape s0 s →
      (∃ c, s.node call = some c ∧ c.token = c0.token) →
      (∀ f ∈ formals, ∀ n0, s0.node f = some n0 →
        ∃ n, s.node f = some n ∧ (fillNode E n).type = (fillNode E n0).type) →
      (∀ a ∈ actuals, ∀ n0, s0.node a = some n0 →
        ∃ n, s.node a = some n ∧ n.type = n0.type) →
      (∀ a ∈ actuals, a ∉ formals) →
      isChain s0 fp formals = true → isChain s0 ap actuals = true →
      formalsAccept E s0 formals actuals = true →
      formals.length < fuel →
      ∃ s1 : SemState, FillEq E s s1 ∧ s1.msgs = s.msgs ∧
        check_call_params E call callee fuel fp ap pos s =
          some (arityOutcome s1 c0.token.pos formals.length actuals.length) := by
  induction formals with
  | nil =>
    intro actuals fuel fp ap pos s hs hcall hform hact hdisj hf ha hacc hfuel
    have hfp := isChain_nil hf
    subst hfp
    obtain ⟨c, hc, htok⟩ := hcall
    cases fuel with
    | zero => simp at hfuel
    | succ k =>
      cases actuals with
      | nil =>
        have hap := isChain_nil ha
        subst hap
        exact ⟨s, fillEq_refl E s, rfl, by simp [check_call_params, arityOutcome]⟩
      | cons a arest =>
        obtain ⟨hap, _⟩ := isChain_cons ha
        subst hap
        exact ⟨s, fillEq_refl E s, rfl, by simp [check_call_params, arityOutcome, hc, htok]⟩
  | cons f rest ih =>
    intro actuals fuel fp ap pos s hs hcall hform hact hdisj hf ha hacc hfuel
    obtain ⟨hfp, fn0, hfn0, hfrest⟩ := isChain_cons hf
    subst hfp
    obtain ⟨c, hc, htok⟩ := hcall
    cases fuel with
    | zero => simp at hfuel
    | succ k =>
      cases actuals with
      | nil =>
        have hap := isChain_nil ha
        subst hap
        exact ⟨s, fillEq_refl E s, rfl, by simp [check_call_params, arityOutcome, hc, htok]⟩
      | cons a arest =>
        obtain ⟨hap, an0, han0, harest⟩ := isChain_cons ha
        subst hap
        have hfa : f ≠ a := fun h => hdisj a (List.mem_cons_self _ _) (by simp [h])
        obtain ⟨fn, hfn, hfty⟩ := hform f (List.mem_cons_self _ _) fn0 hfn0
        obtain ⟨an, han, haty⟩ := hact a (List.mem_cons_self _ _) an0 han0
        obtain ⟨s1, hfill, hfe, _, hm1, hn1⟩ := fill_in_type_spec E (fillEq_refl E s) hfn
        have hoth : ∀ q, f ≠ q → s1.node q = s.node q :=
          fun q hq => fill_in_type_other E hfill hq
        have hs1 : SameShape s0 s1 := sameShape_trans hs (fillEq_sameShape hfe)
        have han1 : s1.node a = some an := by rw [hoth a hfa, han]
        simp only [formalsAccept, Bool.and_eq_true] at hacc
        obtain ⟨hcomp, hacc'⟩ := hacc
        have hcomp1 : E.types_are_compatible (fillNode E fn).type an.type = true := by
          rw [hfty, haty]
          simpa [filledType, nodeType, hfn0, han0] using hcomp
        obtain ⟨c1, hc1, hc1f, _⟩ := fillEq_node hfe hc
        have htok1 : c1.token = c0.token := by
          rw [← fillNode_token E c1, hc1f, fillNode_token, htok]
        obtain ⟨_, hsnext⟩ := sameShape_node hs hfn0
        obtain ⟨s2, hfe2, hm2, hres⟩ := ih arest k (fillNode E fn).next an.next (pos + 1) s1 hs1
          ⟨c1, hc1, htok1⟩
          (by
            intro g hg n0 hn0
            obtain ⟨n, hn, hty⟩ := hform g (List.mem_cons_of_mem _ hg) n0 hn0
            obtain ⟨n1, hn1', hn1f, _⟩ := fillEq_node hfe hn
            exact ⟨n1, hn1', by rw [hn1f, hty]⟩)
          (by
            intro b hb n0 hn0
            obtain ⟨n, hn, hty⟩ := hact b (List.mem_cons_of_mem _ hb) n0 hn0
            have hfb : f ≠ b := fun h => hdisj b (List.mem_cons_of_mem _ hb) (by simp [h])
            exact ⟨n, by rw [hoth b hfb, hn], hty⟩)
          (fun b hb hbr => hdisj b (List.mem_cons_of_mem _ hb) (List.mem_cons_of_mem _ hbr))
          (by
            obtain ⟨n', hn', hnx⟩ := sameShape_node hs hfn0
            rw [hfn] at hn'
            cases hn'
            rw [fillNode_next, hnx]; exact hfrest)
          (by
            obtain ⟨n', hn', hnx⟩ := sameShape_node hs han0
            rw [han] at hn'
            cases hn'
            rw [hnx]; exact harest)
          hacc' (by simp at hfuel; omega)
        refine ⟨s2, fillEq_trans hfe hfe2, hm2.trans hm1, ?_⟩
        simp only [check_call_params, hfill, hn1, han1, hcomp1, Bool.not_true]
        simp only [Bool.false_eq_true, if_false]
        rw [hres]
        simp [arityOutcome]

/-- Lines 174-285 of `check_call` for a callee `fp` with a function type, when the
argument types are compatible with the formal parameter types at every common
position: the outcome is decided by the two chain lengths alone (lines 271-285), the
call node has been rewritten (`call_rewritten`) and no message was added before that
decision. -/
theorem check_call_callee_arity (E : Env) (fuel call fp : Nat) (s2 : SemState)
    (c2 fn : AstNode) (t : Nat) (formals actuals : List Nat)
    (hc2 : s2.node call = some c2) (hfn : s2.node fp = some fn) (hne : call ≠ fp)
    (ht : (fillNode E fn).type = some t) (hfun : E.Type_kind t = TypeKind.Function)
    (hname : (fn.flags &&& E.Ast_Flag_Intrinsic) ≠ 0 → fn.intrinsic_name ≠ none)
    (hformals : isChain s2 fn.params formals = true)
    (hactuals : isChain s2 c2.arguments actuals = true)
    (hfuel : formals.length < fuel)
    (hcf : call ∉ formals) (hca : call ∉ actuals) (hfa : fp ∉ actuals)
    (hdisj : ∀ a ∈ actuals, a ∉ formals)
    (hacc : formalsAccept E s2 formals actuals = true) :
    ∃ s3 c3 : _, check_call_callee E fuel call fp s2 =
        some (arityOutcome s3 c2.token.pos formals.length actuals.length) ∧
      s3.msgs = s2.msgs ∧ s3.node call = some c3 ∧
      fillNode E c3 = fillNode E (call_rewritten E c2 fn t) := by
  obtain ⟨sd, heq, hdc, hshape, hmsg, hoth, hdf⟩ := check_call_callee_eq E fuel call fp s2
    c2 fn t hc2 hfn hne ht hfun hname
  have htok : (call_rewritten E c2 fn t).token = c2.token := by
    unfold call_rewritten; split <;> rfl
  obtain ⟨s3, hfe, hm3, hres⟩ := check_call_params_arity E call fp s2 c2 formals actuals fuel
    fn.params c2.arguments 0 sd hshape ⟨_, hdc, htok⟩
    (by
      intro f hf n0 hn0
      have hfc : f ≠ call := fun h => hcf (h ▸ hf)
      by_cases hffp : f = fp
      · subst hffp
        rw [hfn] at hn0
        cases hn0
        exact ⟨_, hdf, by rw [fillNode_idem]⟩
      · exact ⟨n0, by rw [hoth f hfc hffp, hn0], rfl⟩)
    (by
      intro a ha n0 hn0
      have hac : a ≠ call := fun h => hca (h ▸ ha)
      have hafp : a ≠ fp := fun h => hfa (h ▸ ha)
      exact ⟨n0, by rw [hoth a hac hafp, hn0], rfl⟩)
    hdisj hformals hactuals hacc hfuel
  obtain ⟨c3, hc3, hc3f, _⟩ := fillEq_node hfe hdc
  exact ⟨s3, c3, by rw [heq, hres], hm3.trans hmsg, hc3, hc3f⟩

/-- C11, counterexample: the call `clz(1)` of a function flagged intrinsic whose
intrinsic name `frobnicate` is none of the names `check_call` knows is accepted:
`check_call` returns success, records no diagnostic, and leaves an intrinsic call whose
enumerator is `ONYX_INTRINSIC_UNDEFINED`. -/
theorem check_call_unknown_intrinsic_accepted :
    "frobnicate" ∉ intrinsic_names.map Prod.fst ∧
    ∃ s3 c3, check_call sampleEnv 3 (check_expression sampleEnv 2) 0
        (intrinsicCallState 2 "frobnicate" none) = some (0, s3) ∧ s3.msgs = [] ∧
      s3.node 0 = some c3 ∧ c3.kind = AstKind.Intrinsic_Call ∧
      c3.intrinsic = OnyxIntrinsic.UNDEFINED :=
  ⟨by decide, _, _, rfl, rfl, rfl, rfl, rfl⟩

/-- C11, as amended: a call to a function flagged intrinsic whose intrinsic name is not
one of the names `check_call` knows is not rejected for that: when its arguments match
the formal parameters in number and in type, `check_call` returns success, adds no
diagnostic, and leaves the node an intrinsic call with a cleared callee whose
enumerator is `ONYX_INTRINSIC_UNDEFINED`.  (`s1` is the store after the arguments were
checked, `s2` the store after lines 167-172, which leave the function `fp` as callee;
the call node and `fp` are not among the parameters and arguments.) -/
theorem check_call_unknown_intrinsic (E : Env) (fuel : Nat) (check_expression : Checker)
    (call cp fp : Nat) (s s1 s2 : SemState) (c cn c2 fn : AstNode) (t : Nat) (tok : OnyxToken)
    (formals actuals : List Nat)
    (hc : s.node call = some c) (hcallee : c.callee = some cp)
    (hcn : s.node cp = some cn) (hk : cn.kind ≠ AstKind.Symbol)
    (hargs : check_call_arguments check_expression fuel c.arguments s = some (0, s1))
    (hres : check_call_overload E fuel call cp s1 = some (some fp, s2))
    (hc2 : s2.node call = some c2) (hfn : s2.node fp = some fn) (hne : call ≠ fp)
    (ht : (fillNode E fn).type = some t) (hfun : E.Type_kind t = TypeKind.Function)
    (hflag : (fn.flags &&& E.Ast_Flag_Intrinsic) ≠ 0)
    (hname : fn.intrinsic_name = some tok)
    (hunknown : tok.text ∉ intrinsic_names.map Prod.fst)
    (hformals : isChain s2 fn.params formals = true)
    (hactuals : isChain s2 c2.arguments actuals = true)
    (hfuel : formals.length < fuel)
    (hcf : call ∉ formals) (hca : call ∉ actuals) (hfa : fp ∉ actuals)
    (hdisj : ∀ a ∈ actuals, a ∉ formals)
    (hacc : formalsAccept E s2 formals actuals = true)
    (hlen : formals.length = actuals.length) :
    ∃ s3 c3, check_call E fuel check_expression call s = some (0, s3) ∧
      s3.msgs = s2.msgs ∧ s3.node call = some c3 ∧ c3.kind = AstKind.Intrinsic_Call ∧
      c3.callee = none ∧ c3.intrinsic = OnyxIntrinsic.UNDEFINED := by
  obtain ⟨s3, c3, heq, hm, hc3, hf3⟩ := check_call_callee_arity E fuel call fp s2 c2 fn t
    formals actuals hc2 hfn hne ht hfun (fun _ => by simp [hname]) hformals hactuals hfuel
    hcf hca hfa hdisj hacc
  have hcr : call_rewritten E c2 fn t =
      { c2 with kind := AstKind.Intrinsic_Call, callee := none,
                intrinsic := OnyxIntrinsic.UNDEFINED,
                type := E.Function_return_type t } := by
    simp [call_rewritten, hflag, hname, intrinsic_of_name_unknown _ hunknown]
  refine ⟨s3, c3, ?_, hm, hc3, ?_, ?_, ?_⟩
  · simp [check_call, hc, hcallee, hcn, hk, hargs, orReturn, check_call_rest, hres, heq,
      arityOutcome, hlen]
  · rw [← fillNode_kind E c3, hf3, fillNode_kind, hcr]
  · rw [← fillNode_callee E c3, hf3, fillNode_callee, hcr]
  · rw [← fillNode_intrinsic E c3, hf3, fillNode_intrinsic, hcr]

/-- C11, witness: the call `clz(1)` of the intrinsic named `frobnicate`. -/
theorem check_call_unknown_intrinsic_witness :
    ∃ s3 c3, check_call sampleEnv 3 (check_expression sampleEnv 2) 0
        (intrinsicCallState 2 "frobnicate" none) = some (0, s3) ∧
      s3.msgs = (intrinsicCallState 2 "frobnicate" (some ty_i32)).msgs ∧
      s3.node 0 = some c3 ∧ c3.kind = AstKind.Intrinsic_Call ∧
      c3.callee = none ∧ c3.intrinsic = OnyxIntrinsic.UNDEFINED :=
  check_call_unknown_intrinsic sampleEnv 3 (check_expression sampleEnv 2) 0 2 2
    (intrinsicCallState 2 "frobnicate" none) (intrinsicCallState 2 "frobnicate" (some ty_i32))
    (intrinsicCallState 2 "frobnicate" (some ty_i32))
    ((intrinsicCallState 2 "frobnicate" none).nodes.get ⟨0, by decide⟩)
    ((intrinsicCallState 2 "frobnicate" none).nodes.get ⟨2, by decide⟩)
    ((intrinsicCallState 2 "frobnicate" none).nodes.get ⟨0, by decide⟩)
    ((intrinsicCallState 2 "frobnicate" none).nodes.get ⟨2, by decide⟩)
    102 { text := "frobnicate", pos := 2 } [5] [3]
    (by rfl) (by rfl) (by rfl) (by decide) (by rfl) (by rfl) (by rfl) (by rfl)
    (by decide) (by rfl) (by rfl) (by decide) (by rfl) (by decide) (by decide) (by decide)
    (by decide) (by decide) (by decide) (by decide) (by decide) (by rfl) (by rfl)

/-- C12: for a call whose callee is not an unresolved symbol, whose arguments checked
successfully (store `s1`) and whose callee after lines 167-172 is the function `fp`,
with a function type (store `s2`); `formals` are its `n` formal parameters and
`actuals` the `m` arguments, the type of each argument being compatible with the type
of the formal parameter at the same position, as far as both chains go.  Then
`check_call` returns, and it succeeds if and only if `n = m`, fails with the message
`too few arguments to function call` if and only if `m < n`, and fails with the
message `too many arguments to function call` if and only if `n < m`; a success adds no
message.  This holds whether or not the call was rewritten into an intrinsic call: when
the function is flagged intrinsic the node is an intrinsic call afterwards.  (The call
node and `fp` are not among the parameters and arguments, and no argument is a
parameter.) -/
theorem check_call_arity (E : Env) (fuel : Nat) (check_expression : Checker)
    (call cp fp : Nat) (s s1 s2 : SemState) (c cn c2 fn : AstNode) (t : Nat)
    (formals actuals : List Nat)
    (hc : s.node call = some c) (hcallee : c.callee = some cp)
    (hcn : s.node cp = some cn) (hk : cn.kind ≠ AstKind.Symbol)
    (hargs : check_call_arguments check_expression fuel c.arguments s = some (0, s1))
    (hres : check_call_overload E fuel call cp s1 = some (some fp, s2))
    (hc2 : s2.node call = some c2) (hfn : s2.node fp = some fn) (hne : call ≠ fp)
    (ht : (fillNode E fn).type = some t) (hfun : E.Type_kind t = TypeKind.Function)
    (hname : (fn.flags &&& E.Ast_Flag_Intrinsic) ≠ 0 → fn.intrinsic_name ≠ none)
    (hformals : isChain s2 fn.params formals = true)
    (hactuals : isChain s2 c2.arguments actuals = true)
    (hfuel : formals.length < fuel)
    (hcf : call ∉ formals) (hca : call ∉ actuals) (hfa : fp ∉ actuals)
    (hdisj : ∀ a ∈ actuals, a ∉ formals)
    (hacc : formalsAccept E s2 formals actuals = true) :
    ∃ rv s3 c3, check_call E fuel check_expression call s = some (rv, s3) ∧
      (rv = 0 ↔ formals.length = actuals.length) ∧
      (rv = 0 → s3.msgs = s2.msgs) ∧
      ((rv ≠ 0 ∧ s3.msgs = s2.msgs ++
          [⟨MsgType.Literal, c2.token.pos, ["too few arguments to function call"]⟩]) ↔
        actuals.length < formals.length) ∧
      ((rv ≠ 0 ∧ s3.msgs = s2.msgs ++
          [⟨MsgType.Literal, c2.token.pos, ["too many arguments to function call"]⟩]) ↔
        formals.length < actuals.length) ∧
      s3.node call = some c3 ∧
      ((fn.flags &&& E.Ast_Flag_Intrinsic) ≠ 0 → c3.kind = AstKind.Intrinsic_Call) := by
  obtain ⟨s3, c3, heq, hm, hc3, hf3⟩ := check_call_callee_arity E fuel call fp s2 c2 fn t
    formals actuals hc2 hfn hne ht hfun hname hformals hactuals hfuel
    hcf hca hfa hdisj hacc
  have hcall : check_call E fuel check_expression call s =
      some (arityOutcome s3 c2.token.pos formals.length actuals.length) := by
    simp [check_call, hc, hcallee, hcn, hk, hargs, orReturn, check_call_rest, hres, heq]
  have hkind : (fn.flags &&& E.Ast_Flag_Intrinsic) ≠ 0 → c3.kind = AstKind.Intrinsic_Call := by
    intro hflag
    rw [← fillNode_kind E c3, hf3, fillNode_kind]
    simp [call_rewritten, hflag]
  rcases Nat.lt_trichotomy formals.length actuals.length with hlt | heq' | hgt
  · have h1 : ¬ actuals.length < formals.length := by omega
    refine ⟨1, onyx_message_add s3 MsgType.Literal c2.token.pos
      ["too many arguments to function call"], c3, ?_, ?_, ?_, ?_, ?_, hc3, hkind⟩
    · rw [hcall]; simp [arityOutcome, h1, hlt]
    · constructor
      · intro h; simp at h
      · intro h; omega
    · intro h; simp at h
    · simp [onyx_message_add, hm, h1]
    · simp [onyx_message_add, hm, hlt]
  · have h1 : ¬ actuals.length < formals.length := by omega
    have h2 : ¬ formals.length < actuals.length := by omega
    refine ⟨0, s3, c3, ?_, ?_, ?_, ?_, ?_, hc3, hkind⟩
    · rw [hcall]; simp [arityOutcome, h1, h2]
    · simp [heq']
    · intro _; exact hm
    · simp [h1]
    · simp [h2]
  · have h2 : ¬ formals.length < actuals.length := by omega
    refine ⟨1, onyx_message_add s3 MsgType.Literal c2.token.pos
      ["too few arguments to function call"], c3, ?_, ?_, ?_, ?_, ?_, hc3, hkind⟩
    · rw [hcall]; simp [arityOutcome, hgt]
    · constructor
      · intro h; simp at h
      · intro h; omega
    · intro h; simp at h
    · simp [onyx_message_add, hm, hgt]
    · simp [onyx_message_add, hm, h2]

/-- C12, witness: the call `add(1)` of `add :: (a: i32, b: i32) -> i32` (two formal
parameters, one argument), and the call `clz(1)` of the intrinsic `clz_i32` (one formal
parameter, one argument). -/
theorem check_call_arity_witness :
    (∃ rv s3 c3, check_call sampleEnv 3 (check_expression sampleEnv 2) 0 shortCallState =
        some (rv, s3) ∧
      (rv = 0 ↔ [4, 5].length = [2].length) ∧
      (rv = 0 → s3.msgs = shortCallChecked.msgs) ∧
      ((rv ≠ 0 ∧ s3.msgs = shortCallChecked.msgs ++
          [⟨MsgType.Literal, 20, ["too few arguments to function call"]⟩]) ↔
        [2].length < [4, 5].length) ∧
      ((rv ≠ 0 ∧ s3.msgs = shortCallChecked.msgs ++
          [⟨MsgType.Literal, 20, ["too many arguments to function call"]⟩]) ↔
        [4, 5].length < [2].length) ∧
      s3.node 0 = some c3 ∧
      (((0 : Nat) &&& sampleEnv.Ast_Flag_Intrinsic) ≠ 0 → c3.kind = AstKind.Intrinsic_Call)) ∧
    (∃ rv s3 c3, check_call sampleEnv 3 (check_expression sampleEnv 2) 0 (intrinsicCallState 2 "clz_i32" none) =
        some (rv, s3) ∧
      (rv = 0 ↔ [5].length = [3].length) ∧
      (rv = 0 → s3.msgs = (intrinsicCallState 2 "clz_i32" (some ty_i32)).msgs) ∧
      ((rv ≠ 0 ∧ s3.msgs = (intrinsicCallState 2 "clz_i32" (some ty_i32)).msgs ++
          [⟨MsgType.Literal, 30, ["too few arguments to function call"]⟩]) ↔
        [3].length < [5].length) ∧
      ((rv ≠ 0 ∧ s3.msgs = (intrinsicCallState 2 "clz_i32" (some ty_i32)).msgs ++
          [⟨MsgType.Literal, 30, ["too many arguments to function call"]⟩]) ↔
        [5].length < [3].length) ∧
      s3.node 0 = some c3 ∧
      (((512 : Nat) &&& sampleEnv.Ast_Flag_Intrinsic) ≠ 0 → c3.kind = AstKind.Intrinsic_Call)) :=
  ⟨check_call_arity sampleEnv 3 (check_expression sampleEnv 2) 0 1 1
    shortCallState shortCallChecked shortCallChecked
    (shortCallState.nodes.get ⟨0, by decide⟩) (shortCallState.nodes.get ⟨1, by decide⟩)
    (shortCallState.nodes.get ⟨0, by decide⟩) (shortCallState.nodes.get ⟨1, by decide⟩)
    100 [4, 5] [2]
    (by rfl) (by rfl) (by rfl) (by decide) (by rfl) (by rfl) (by rfl) (by rfl)
    (by decide) (by rfl) (by rfl) (by decide) (by rfl) (by rfl) (by decide) (by decide)
    (by decide) (by decide) (by decide) (by rfl),
   check_call_arity sampleEnv 3 (check_expression sampleEnv 2) 0 2 2
    (intrinsicCallState 2 "clz_i32" none) (intrinsicCallState 2 "clz_i32" (some ty_i32))
    (intrinsicCallState 2 "clz_i32" (some ty_i32))
    ((intrinsicCallState 2 "clz_i32" none).nodes.get ⟨0, by decide⟩)
    ((intrinsicCallState 2 "clz_i32" none).nodes.get ⟨2, by decide⟩)
    ((intrinsicCallState 2 "clz_i32" none).nodes.get ⟨0, by decide⟩)
    ((intrinsicCallState 2 "clz_i32" none).nodes.get ⟨2, by decide⟩)
    102 [5] [3]
    (by rfl) (by rfl) (by rfl) (by decide) (by rfl) (by rfl) (by rfl) (by rfl)
    (by decide) (by rfl) (by rfl) (by decide) (by rfl) (by rfl) (by decide) (by decide)
    (by decide) (by decide) (by decide) (by rfl)⟩

/-! ### `check_function` -/

/-- `fill_in_type` keeps the body of a node. -/
theorem fillNode_body (E : Env) (n : AstNode) : (fillNode E n).body = n.body := by
  unfold fillNode; split <;> rfl

/-- `fill_in_type` keeps the exported name of a node. -/
theorem fillNode_exported_name (E : Env) (n : AstNode) :
    (fillNode E n).exported_name = n.exported_name := by
  unfold fillNode; split <;> rfl

/-- The parameter loop of `check_function` on a proper chain of parameters, with fuel
for them: it returns, succeeds exactly when every parameter has a known type of
non-zero size, and in that case has added no message. -/
theorem check_function_params_spec (E : Env) (s0 : SemState) (params : List Nat) :
    ∀ (fuel : Nat) (p : Ptr) (s : SemState),
      FillEq E s0 s → isChain s0 p params = true → params.length < fuel →
      ∃ rv, ∃ s1 : SemState, check_function_params E fuel p s = some (rv, s1) ∧
        FillEq E s s1 ∧ (rv = 0 ↔ paramsKnown E s0 params = true) ∧
        (rv = 0 → s1.msgs = s.msgs) := by
  induction params with
  | nil =>
    intro fuel p s hfe hp hfuel
    have := isChain_nil hp
    subst this
    cases fuel with
    | zero => simp at hfuel
    | succ k =>
      exact ⟨0, s, by simp [check_function_params], fillEq_refl E s,
        by simp [paramsKnown], fun _ => rfl⟩
  | cons a rest ih =>
    intro fuel p s hfe hp hfuel
    obtain ⟨hpa, n0, hn0, hrest⟩ := isChain_cons hp
    subst hpa
    cases fuel with
    | zero => simp at hfuel
    | succ k =>
      obtain ⟨s1, hfill, hfe1, hfes, hm1, hn1⟩ := fill_in_type_spec E hfe hn0
      have hft : filledType E s0 a = (fillNode E n0).type := filledType_eq hn0
      cases hty : (fillNode E n0).type with
      | none =>
        refine ⟨1, _, by simp [check_function_params, hfill, hn1, hty]; rfl, ?_, ?_, ?_⟩
        · intro q; rcases hfes q with h | h
          · exact Or.inl h
          · exact Or.inr h
        · simp [paramsKnown, hft, hty]
        · intro h; simp at h
      | some t =>
        by_cases hsz : E.Basic_size t = 0
        · refine ⟨1, _, by simp [check_function_params, hfill, hn1, hty, hsz]; rfl, ?_, ?_, ?_⟩
          · intro q; rcases hfes q with h | h
            · exact Or.inl h
            · exact Or.inr h
          · simp [paramsKnown, hft, hty, hsz]
          · intro h; simp at h
        · obtain ⟨rv, s2, hres, hfe2, hiff, hm2⟩ := ih k (fillNode E n0).next s1 hfe1
            (by rw [fillNode_next]; exact hrest) (by simp at hfuel; omega)
          refine ⟨rv, s2, by simp [check_function_params, hfill, hn1, hty, hsz, hres],
            fillEq_trans hfes hfe2, ?_, fun h => (hm2 h).trans hm1⟩
          rw [hiff]
          simp [paramsKnown, hft, hty, hsz]

/-- C13: for a function without a body whose parameters form a proper chain (with fuel
for them) and which has a type once `fill_in_type` has run on it, `check_function`
returns, and it succeeds if and only if every parameter has a known type whose size
(the `Basic.size` the code reads) is not zero and, when the function is flagged exported, it is not flagged foreign, not
flagged intrinsic, not flagged inline, and has an exported name.  In particular a
function that is not flagged exported and whose parameters are fine is accepted,
whatever its foreign, intrinsic and inline flags. -/
theorem check_function_bodiless (E : Env) (fuel func : Nat) (s : SemState) (f : AstNode)
    (t : Nat) (params : List Nat)
    (hf : s.node func = some f) (hbody : f.body = none)
    (hparams : isChain s f.params params = true) (hfuel : params.length < fuel)
    (ht : (fillNode E f).type = some t) :
    ∃ rv, ∃ s1 : SemState, check_function E fuel func s = some (rv, s1) ∧
      (rv = 0 ↔ (paramsKnown E s params = true ∧
        ((f.flags &&& E.Ast_Flag_Exported) ≠ 0 →
          (f.flags &&& E.Ast_Flag_Foreign) = 0 ∧ (f.flags &&& E.Ast_Flag_Intrinsic) = 0 ∧
          (f.flags &&& E.Ast_Flag_Inline) = 0 ∧ f.exported_name ≠ none))) ∧
      ((f.flags &&& E.Ast_Flag_Exported) = 0 → paramsKnown E s params = true → rv = 0) := by
  obtain ⟨rv, s1, hres, hfe, hiff, _⟩ := check_function_params_spec E s params fuel f.params s
    (fillEq_refl E s) hparams hfuel
  by_cases hrv : rv = 0
  · subst hrv
    have hpk := hiff.mp rfl
    obtain ⟨s2, hfill, _, _, _, hn2⟩ := fill_in_type_spec E hfe hf
    have hbody2 : check_function_body E fuel func s2 =
        some (0, { s2 with expected_return_type := E.Function_return_type t }) := by
      simp [check_function_body, hn2, ht, fillNode_body, hbody]
    by_cases hex : (f.flags &&& E.Ast_Flag_Exported) = 0
    · refine ⟨0, { s2 with expected_return_type := E.Function_return_type t }, ?_, ?_, fun _ _ => rfl⟩
      · simp [check_function, hf, hres, orReturn, hfill, hn2, fillNode_flags, fillNode_token, hex, hbody2]
      · simp [hpk, hex]
    · by_cases h1 : (f.flags &&& E.Ast_Flag_Foreign) = 0
      · by_cases h2 : (f.flags &&& E.Ast_Flag_Intrinsic) = 0
        · by_cases h3 : (f.flags &&& E.Ast_Flag_Inline) = 0
          · cases h4 : f.exported_name with
            | none =>
              refine ⟨1, onyx_message_add s2 MsgType.Literal f.token.pos
                ["exporting function without a name"], ?_, ?_, fun h => absurd h hex⟩
              · simp [check_function, hf, hres, orReturn, hfill, hn2, fillNode_flags, fillNode_token, hex,
                  h1, h2, h3, fillNode_exported_name, h4]
              · simp [hex]
            | some nm =>
              refine ⟨0, { s2 with expected_return_type := E.Function_return_type t }, ?_, ?_, fun _ _ => rfl⟩
              · simp [check_function, hf, hres, orReturn, hfill, hn2, fillNode_flags, fillNode_token, hex,
                  h1, h2, h3, fillNode_exported_name, h4, hbody2]
              · simp [hpk, h1, h2, h3]
          · refine ⟨1, onyx_message_add s2 MsgType.Literal f.token.pos
                ["exporting a inlined function"], ?_, ?_, fun h => absurd h hex⟩
            · simp [check_function, hf, hres, orReturn, hfill, hn2, fillNode_flags, fillNode_token, hex,
                h1, h2, h3]
            · simp [hex, h3]
        · refine ⟨1, onyx_message_add s2 MsgType.Literal f.token.pos
                ["exporting a intrinsic function"], ?_, ?_, fun h => absurd h hex⟩
          · simp [check_function, hf, hres, orReturn, hfill, hn2, fillNode_flags, fillNode_token, hex,
              h1, h2]
          · simp [hex, h2]
      · refine ⟨1, onyx_message_add s2 MsgType.Literal f.token.pos
                ["exporting a foreign function"], ?_, ?_, fun h => absurd h hex⟩
        · simp [check_function, hf, hres, orReturn, hfill, hn2, fillNode_flags, fillNode_token, hex, h1]
        · simp [hex, h1]
  · have hpk : ¬ paramsKnown E s params = true := fun h => hrv (hiff.mpr h)
    refine ⟨1, s1, ?_, ?_, fun _ h => absurd h hpk⟩
    · simp [check_function, hf, hres, orReturn, hrv]
    · simp [hpk]

/-- C13, witness: the bodiless function `puts :: (a: i32) -> i32`, flagged foreign and
not exported. -/
theorem check_function_bodiless_witness :
    ∃ rv, ∃ s1 : SemState, check_function sampleEnv 3 0 (bodilessFunctionState 2 none) =
        some (rv, s1) ∧
      (rv = 0 ↔ (paramsKnown sampleEnv (bodilessFunctionState 2 none) [1] = true ∧
        (((2 : Nat) &&& sampleEnv.Ast_Flag_Exported) ≠ 0 →
          ((2 : Nat) &&& sampleEnv.Ast_Flag_Foreign) = 0 ∧
          ((2 : Nat) &&& sampleEnv.Ast_Flag_Intrinsic) = 0 ∧
          ((2 : Nat) &&& sampleEnv.Ast_Flag_Inline) = 0 ∧
          (none : Option OnyxToken) ≠ none))) ∧
      (((2 : Nat) &&& sampleEnv.Ast_Flag_Exported) = 0 →
        paramsKnown sampleEnv (bodilessFunctionState 2 none) [1] = true → rv = 0) :=
  check_function_bodiless sampleEnv 3 0 (bodilessFunctionState 2 none)
    ((bodilessFunctionState 2 none).nodes.get ⟨0, by decide⟩) 102 [1]
    (by rfl) (by rfl) (by decide) (by decide) (by rfl)

/-! ### `check_block` -/

/-- The loop of `check_block` over the symbols of the scope, every bound value being a
node of the store: it returns, succeeds exactly when every value has a type, changes
nothing on success, and on failure has added one `Unresolved_Type` message, for an
untyped symbol of the scope. -/
theorem check_block_symbols_spec (s : SemState) :
    ∀ symbols : List (String × Ptr), (∀ kv ∈ symbols, (s.deref kv.2).isSome = true) →
      ∃ rv, ∃ s1 : SemState, check_block_symbols symbols s = some (rv, s1) ∧
        (rv = 0 ↔ ∀ kv ∈ symbols, ∀ n, s.deref kv.2 = some n → n.type ≠ none) ∧
        (rv = 0 → s1 = s) ∧
        (rv ≠ 0 → ∃ kv ∈ symbols, ∃ n, s.deref kv.2 = some n ∧ n.type = none ∧
          s1 = onyx_message_add s MsgType.Unresolved_Type n.token.pos [n.token.text]) := by
  intro symbols
  induction symbols with
  | nil => intro _; exact ⟨0, s, rfl, by simp, fun _ => rfl, fun h => absurd rfl h⟩
  | cons kv rest ih =>
    intro hv
    obtain ⟨n, hn⟩ := Option.isSome_iff_exists.mp (hv kv (List.mem_cons_self _ _))
    obtain ⟨k, v⟩ := kv
    simp only at hn
    cases hty : n.type with
    | none =>
      refine ⟨1, onyx_message_add s MsgType.Unresolved_Type n.token.pos [n.token.text],
        by simp [check_block_symbols, hn, hty], ?_, fun h => by simp at h,
        fun _ => ⟨(k, v), List.mem_cons_self _ _, n, hn, hty, rfl⟩⟩
      constructor
      · intro h; simp at h
      · intro h
        exact absurd hty (h (k, v) (List.mem_cons_self _ _) n hn)
    | some t =>
      obtain ⟨rv, s1, hres, hiff, hz, hnz⟩ := ih (fun kv hkv => hv kv (List.mem_cons_of_mem _ hkv))
      refine ⟨rv, s1, by simp [check_block_symbols, hn, hty, hres], ?_, hz, ?_⟩
      · rw [hiff]
        constructor
        · intro h kv hkv m hm
          rcases List.mem_cons.mp hkv with rfl | hkv
          · simp only at hm
            rw [hn] at hm
            cases hm
            simp [hty]
          · exact h kv hkv m hm
        · intro h kv hkv m hm
          exact h kv (List.mem_cons_of_mem _ hkv) m hm
      · intro h
        obtain ⟨kv, hkv, m, hm, hmt, hs1⟩ := hnz h
        exact ⟨kv, List.mem_cons_of_mem _ hkv, m, hm, hmt, hs1⟩

/-- C14: for a block whose statements all check successfully (store `s1`), whose scope
is `scope` and whose scope binds every symbol to a node: `check_block` returns, and it
succeeds if and only if every symbol of the scope has a non-null type; a success leaves
the store as the statements left it, and a failure adds one `Unresolved_Type` message,
carrying the position and the name of an untyped symbol of that scope. -/
theorem check_block_scope_symbols (fuel : Nat) (check_statement : Checker) (block : Nat)
    (s s1 : SemState) (b b1 : AstNode) (sp : Nat) (scope : Scope)
    (hb : s.node block = some b)
    (hchain : check_statement_chain check_statement fuel b.body s = some (0, s1))
    (hb1 : s1.node block = some b1) (hsp : b1.scope = some sp)
    (hscope : s1.getScope sp = some scope)
    (hvals : ∀ kv ∈ scope.symbols, (s1.deref kv.2).isSome = true) :
    ∃ rv, ∃ s2 : SemState, check_block fuel check_statement block s = some (rv, s2) ∧
      (rv = 0 ↔ ∀ kv ∈ scope.symbols, ∀ n, s1.deref kv.2 = some n → n.type ≠ none) ∧
      (rv = 0 → s2 = s1) ∧
      (rv ≠ 0 → ∃ kv ∈ scope.symbols, ∃ n, s1.deref kv.2 = some n ∧ n.type = none ∧
        s2 = onyx_message_add s1 MsgType.Unresolved_Type n.token.pos [n.token.text]) := by
  obtain ⟨rv, s2, hres, hiff, hz, hnz⟩ := check_block_symbols_spec s1 scope.symbols hvals
  exact ⟨rv, s2, by simp [check_block, hb, hchain, orReturn, hb1, hsp, hscope, hres],
    hiff, hz, hnz⟩

/-- C14, witness: the block whose scope binds `y : i32` and an untyped `x`, and the
same block with `x : i32`. -/
theorem check_block_scope_symbols_witness :
    (∃ rv, ∃ s2 : SemState, check_block 3 (check_statement sampleEnv 2) 0 (blockState none) =
        some (rv, s2) ∧
      (rv = 0 ↔ ∀ kv ∈ [("y", some 2), ("x", some 1)],
        ∀ n, (blockState none).deref kv.2 = some n → n.type ≠ none) ∧
      (rv = 0 → s2 = blockState none) ∧
      (rv ≠ 0 → ∃ kv ∈ [("y", some 2), ("x", some 1)],
        ∃ n, (blockState none).deref kv.2 = some n ∧ n.type = none ∧
        s2 = onyx_message_add (blockState none) MsgType.Unresolved_Type n.token.pos
          [n.token.text])) ∧
    (∃ rv, ∃ s2 : SemState, check_block 3 (check_statement sampleEnv 2) 0
        (blockState (some ty_i32)) = some (rv, s2) ∧
      (rv = 0 ↔ ∀ kv ∈ [("y", some 2), ("x", some 1)],
        ∀ n, (blockState (some ty_i32)).deref kv.2 = some n → n.type ≠ none) ∧
      (rv = 0 → s2 = blockState (some ty_i32)) ∧
      (rv ≠ 0 → ∃ kv ∈ [("y", some 2), ("x", some 1)],
        ∃ n, (blockState (some ty_i32)).deref kv.2 = some n ∧ n.type = none ∧
        s2 = onyx_message_add (blockState (some ty_i32)) MsgType.Unresolved_Type n.token.pos
          [n.token.text])) :=
  ⟨check_block_scope_symbols 3 (check_statement sampleEnv 2) 0 (blockState none)
    (blockState none) ((blockState none).nodes.get ⟨0, by decide⟩)
    ((blockState none).nodes.get ⟨0, by decide⟩) 0 { symbols := [("y", some 2), ("x", some 1)] }
    (by rfl) (by rfl) (by rfl) (by rfl) (by rfl) (by decide),
   check_block_scope_symbols 3 (check_statement sampleEnv 2) 0 (blockState (some ty_i32))
    (blockState (some ty_i32)) ((blockState (some ty_i32)).nodes.get ⟨0, by decide⟩)
    ((blockState (some ty_i32)).nodes.get ⟨0, by decide⟩) 0
    { symbols := [("y", some 2), ("x", some 1)] }
    (by rfl) (by rfl) (by rfl) (by rfl) (by rfl) (by decide)⟩

/-! ### `check_array_access` -/

/-- Lines 417-440 for an array access whose base and index checked successfully (stores
`s1`, `s2`), whose index has a type `it`, and whose base type, when `type_is_pointer`
accepts it, is a type with a pointee: `check_array_access` returns, and succeeds if and
only if the base's type is a pointer and the index's type is a basic type with the
integer flag; on success the node's type is the pointee and `elem_size` is the
`Basic.size` member read through the pointee, whatever the kind of the pointee. -/
theorem check_array_access_typed_pointer (E : Env) (check_expression : Checker) (aa : Nat)
    (s s1 s2 : SemState) (a a1 a2 addr idx : AstNode) (ad e it : Nat)
    (ha : s.node aa = some a) (had : a.addr = some ad)
    (hce1 : check_expression ad s = some (0, s1))
    (ha1 : s1.node aa = some a1) (he : a1.expr = some e)
    (hce2 : check_expression e s1 = some (0, s2))
    (ha2 : s2.node aa = some a2) (haddr : s2.deref a2.addr = some addr)
    (hidx : s2.deref a2.expr = some idx) (hit : idx.type = some it)
    (hpointee : E.type_is_pointer addr.type = true →
      ∃ pt elem, addr.type = some pt ∧ E.Pointer_elem pt = some elem) :
    ∃ rv, ∃ s3 : SemState, check_array_access E check_expression aa s = some (rv, s3) ∧
      (rv = 0 ↔ (E.type_is_pointer addr.type = true ∧ E.Type_kind it = TypeKind.Basic ∧
        (E.Basic_flags it &&& E.Basic_Flag_Integer) ≠ 0)) ∧
      (rv = 0 → ∃ pt elem a3, addr.type = some pt ∧ E.Pointer_elem pt = some elem ∧
        s3.node aa = some a3 ∧ a3.type = some elem ∧ a3.elem_size = E.Basic_size elem) := by
  by_cases hp : E.type_is_pointer addr.type = true
  · obtain ⟨pt, elem, hpt, hel⟩ := hpointee hp
    by_cases hint : E.Type_kind it = TypeKind.Basic ∧
        (E.Basic_flags it &&& E.Basic_Flag_Integer) ≠ 0
    · refine ⟨0, s2.setNode aa { a2 with type := some elem, elem_size := E.Basic_size elem },
        ?_, ?_, ?_⟩
      · simp [check_array_access, ha, had, hce1, orReturn, ha1, he, hce2, ha2, haddr, hp,
          hidx, hit, hint.1, hint.2, hpt, hel]
        rw [← hpt]; exact hp
      · simp [hp, hint.1, hint.2]
      · intro _
        exact ⟨pt, elem, _, hpt, hel, node_setNode_self _ ha2, rfl, rfl⟩
    · refine ⟨1, onyx_message_add s2 MsgType.Literal a2.token.pos
        ["expected integer type for index"], ?_, ?_, fun h => by simp at h⟩
      · have hint' : E.Type_kind it ≠ TypeKind.Basic ∨
            (E.Basic_flags it &&& E.Basic_Flag_Integer) = 0 := by
          by_cases hk : E.Type_kind it = TypeKind.Basic
          · exact Or.inr (by by_contra hf; exact hint ⟨hk, hf⟩)
          · exact Or.inl hk
        simp [check_array_access, ha, had, hce1, orReturn, ha1, he, hce2, ha2, haddr, hp,
          hidx, hit, hint']
      · constructor
        · intro h; simp at h
        · intro h; exact absurd ⟨h.2.1, h.2.2⟩ hint
  · refine ⟨1, onyx_message_add s2 MsgType.Literal a2.token.pos
      ["expected pointer type for left of array access"], ?_, ?_, fun h => by simp at h⟩
    · simp [check_array_access, ha, had, hce1, orReturn, ha1, he, hce2, ha2, haddr, hp]
    · simp [hp]

/-- C15, the code at the failing input: for `p : rawptr` and `i : i32`, `*p` is
rejected by `check_dereference` with `cannot dereference rawptr` (so `type_is_pointer`
accepts `rawptr`), while `check_array_access` on `p[i]` has no such test and goes on to
read `Pointer.elem` of the basic type `rawptr` and `Basic.size` through it: it returns
neither success nor failure.  With `p : ^i32` the same access succeeds with type `i32`
and `elem_size` 4. -/
theorem check_array_access_rawptr_unguarded :
    sampleEnv.type_is_pointer (some (sampleEnv.basic_types BasicKind.Rawptr)) = true ∧
    check_dereference sampleEnv (check_expression sampleEnv 2) 3
        (arrayAccessState (some (sampleEnv.basic_types BasicKind.Rawptr))) =
      some (1, onyx_message_add
        (arrayAccessState (some (sampleEnv.basic_types BasicKind.Rawptr)))
        MsgType.Literal 73 ["cannot dereference rawptr"]) ∧
    check_array_access sampleEnv (check_expression sampleEnv 2) 0
        (arrayAccessState (some (sampleEnv.basic_types BasicKind.Rawptr))) = none ∧
    (∃ s, check_array_access sampleEnv (check_expression sampleEnv 2) 0
        (arrayAccessState (sampleEnv.type_make_pointer (some ty_i32))) = some (0, s) ∧
      (s.node 0).map (fun n => (n.type, n.elem_size)) = some (some ty_i32, 4)) :=
  ⟨by rfl, by rfl, by rfl, _, by rfl, by rfl⟩

/-! ### `collapse_scopes` -/

/-- A chain that starts at `NULL` is empty. -/
theorem isLocalChain_none {prev : Nat → Option Nat} {l : List Nat}
    (h : isLocalChain prev none l = true) : l = [] := by
  cases l with
  | nil => rfl
  | cons a r => simp [isLocalChain] at h

/-- A chain that starts at a local begins with it. -/
theorem isLocalChain_some {prev : Nat → Option Nat} {a : Nat} {l : List Nat}
    (h : isLocalChain prev (some a) l = true) :
    ∃ rest, l = a :: rest ∧ isLocalChain prev (prev a) rest = true := by
  cases l with
  | nil => simp [isLocalChain] at h
  | cons b r =>
    simp only [isLocalChain, Bool.and_eq_true, beq_iff_eq] at h
    obtain ⟨hab, hr⟩ := h
    subst hab
    exact ⟨r, rfl, hr⟩

/-- Writing the `prev_local` of a local outside a chain keeps the chain. -/
theorem isLocalChain_frame {prev : Nat → Option Nat} (x : Nat) (v : Option Nat) :
    ∀ (l : List Nat) (p : Option Nat), isLocalChain prev p l = true → x ∉ l →
      isLocalChain (fun y => if y = x then v else prev y) p l = true := by
  intro l
  induction l with
  | nil =>
    intro p h _
    cases p with
    | none => rfl
    | some a => simp [isLocalChain] at h
  | cons b r ih =>
    intro p h hx
    cases p with
    | none => simp [isLocalChain] at h
    | some a =>
      simp only [isLocalChain, Bool.and_eq_true, beq_iff_eq] at h ⊢
      obtain ⟨hab, hr⟩ := h
      subst hab
      have hax : a ≠ x := fun e => hx (by simp [e])
      refine ⟨rfl, ?_⟩
      simp only [hax, if_false]
      exact ih _ hr (fun hm => hx (List.mem_cons_of_mem _ hm))

/-- Line 50 on a proper chain without repetition: the walk ends at a local `first` of
the chain, and setting `first->prev_local` to the head of another chain, disjoint from
this one, links the two chains. -/
theorem first_local_spec (st : LocalStore) :
    ∀ (l : List Nat) (a fuel : Nat), isLocalChain st.prev_local (some a) l = true →
      l.length ≤ fuel → l.Nodup →
      ∃ first, first_local st fuel a = some first ∧ first ∈ l ∧
        ∀ (v : Option Nat) (lt : List Nat), isLocalChain st.prev_local v lt = true →
          (∀ x ∈ l, x ∉ lt) →
          isLocalChain (fun y => if y = first then v else st.prev_local y) (some a)
            (l ++ lt) = true := by
  intro l
  induction l with
  | nil => intro a fuel h; simp [isLocalChain] at h
  | cons b r ih =>
    intro a fuel h hfuel hnd
    simp only [isLocalChain, Bool.and_eq_true, beq_iff_eq] at h
    obtain ⟨hab, hr⟩ := h
    subst hab
    cases fuel with
    | zero => simp at hfuel
    | succ k =>
      cases hp : st.prev_local a with
      | none =>
        rw [hp] at hr
        have := isLocalChain_none hr
        subst this
        refine ⟨a, by simp [first_local, hp], by simp, ?_⟩
        intro v lt hv hdis
        simp only [List.singleton_append, isLocalChain, beq_self_eq_true, Bool.true_and,
          if_true]
        exact isLocalChain_frame a v lt v hv (hdis a (by simp))
      | some p =>
        rw [hp] at hr
        obtain ⟨first, hf, hmem, hlink⟩ := ih p k hr (by simp at hfuel; omega)
          (List.nodup_cons.mp hnd).2
        refine ⟨first, by simp [first_local, hp, hf], List.mem_cons_of_mem _ hmem, ?_⟩
        intro v lt hv hdis
        have hne : a ≠ first := fun e => (List.nodup_cons.mp hnd).1 (e ▸ hmem)
        simp only [List.cons_append, isLocalChain, beq_self_eq_true, Bool.true_and, hne,
          if_false, hp]
        exact hlink v lt hv (fun x hx => hdis x (List.mem_cons_of_mem _ hx))

/-- Lines 48-55 keep the invariant: the scope of the block is moved (or is the top scope
itself, which is left alone). -/
theorem collapse_block_scope_inv (l : Nat → List Nat) (U : List Nat) (top lfuel : Nat)
    (htop : top ∈ U) (hnd : ∀ sc ∈ U, (l sc).Nodup)
    (hdj : ∀ a ∈ U, ∀ b ∈ U, a ≠ b → ∀ x ∈ l a, x ∉ l b)
    (V : List Nat) (st : LocalStore) (sc : Nat) (hsc : sc ∈ U)
    (hlf : (l sc).length ≤ lfuel) (hinv : CollapseInv l U top V st) :
    ∃ st1, collapse_block_scope lfuel top sc st = some st1 ∧
      CollapseInv l U top (if sc = top then V else sc :: V) st1 := by
  obtain ⟨⟨lt, hlt, hltnd, hltm⟩, hV, hU⟩ := hinv
  by_cases hst : sc = top
  · refine ⟨st, by simp [collapse_block_scope, hst], ?_⟩
    simp only [hst, if_true]
    exact ⟨⟨lt, hlt, hltnd, hltm⟩, hV, hU⟩
  · simp only [hst, if_false]
    by_cases hscV : sc ∈ V
    · have hnone := (hV sc hscV).1
      refine ⟨st, by simp [collapse_block_scope, hst, hnone], ⟨lt, hlt, hltnd, ?_⟩, ?_, ?_⟩
      · intro x
        rw [hltm x]
        constructor
        · rintro (h | ⟨s', hs', hx⟩)
          · exact Or.inl h
          · exact Or.inr ⟨s', List.mem_cons_of_mem _ hs', hx⟩
        · rintro (h | ⟨s', hs', hx⟩)
          · exact Or.inl h
          · rcases List.mem_cons.mp hs' with rfl | hs'
            · exact Or.inr ⟨_, hscV, hx⟩
            · exact Or.inr ⟨s', hs', hx⟩
      · intro s' hs'
        rcases List.mem_cons.mp hs' with rfl | hs'
        · exact hV _ hscV
        · exact hV s' hs'
      · intro s' hs'U hs'V hs't
        exact hU s' hs'U (fun h => hs'V (List.mem_cons_of_mem _ h)) hs't
    · have hch := hU sc hsc hscV hst
      cases hll : st.last_local sc with
      | none =>
        rw [hll] at hch
        have hnil := isLocalChain_none hch
        refine ⟨st, by simp [collapse_block_scope, hst, hll], ⟨lt, hlt, hltnd, ?_⟩, ?_, ?_⟩
        · intro x
          rw [hltm x]
          constructor
          · rintro (h | ⟨s', hs', hx⟩)
            · exact Or.inl h
            · exact Or.inr ⟨s', List.mem_cons_of_mem _ hs', hx⟩
          · rintro (h | ⟨s', hs', hx⟩)
            · exact Or.inl h
            · rcases List.mem_cons.mp hs' with rfl | hs'
              · rw [hnil] at hx; simp at hx
              · exact Or.inr ⟨s', hs', hx⟩
        · intro s' hs'
          rcases List.mem_cons.mp hs' with rfl | hs'
          · exact ⟨hll, hst, hsc⟩
          · exact hV s' hs'
        · intro s' hs'U hs'V hs't
          exact hU s' hs'U (fun h => hs'V (List.mem_cons_of_mem _ h)) hs't
      | some ll =>
        rw [hll] at hch
        obtain ⟨first, hfirst, hfmem, hlink⟩ := first_local_spec st (l sc) ll lfuel hch
          hlf (hnd sc hsc)
        have hdis : ∀ x ∈ l sc, x ∉ lt := by
          intro x hx hxlt
          rcases (hltm x).mp hxlt with h | ⟨s', hs', hx'⟩
          · exact hdj sc hsc top htop hst x hx h
          · have hne : sc ≠ s' := fun e => hscV (e ▸ hs')
            exact hdj sc hsc s' (hV s' hs').2.2 hne x hx hx'
        refine ⟨((st.set_prev_local first (st.last_local top)).set_last_local
            top (some ll)).set_last_local sc none,
          by simp [collapse_block_scope, hst, hll, hfirst], ⟨l sc ++ lt, ?_, ?_, ?_⟩, ?_, ?_⟩
        · have htne : top ≠ sc := fun e => hst e.symm
          simp only [LocalStore.set_last_local, LocalStore.set_prev_local, htne, if_false,
            if_true]
          exact hlink _ lt hlt hdis
        · exact List.nodup_append.mpr ⟨hnd sc hsc, hltnd, fun x hx hx' => hdis x hx hx'⟩
        · intro x
          rw [List.mem_append, hltm x]
          constructor
          · rintro (h | h | ⟨s', hs', hx⟩)
            · exact Or.inr ⟨sc, List.mem_cons_self _ _, h⟩
            · exact Or.inl h
            · exact Or.inr ⟨s', List.mem_cons_of_mem _ hs', hx⟩
          · rintro (h | ⟨s', hs', hx⟩)
            · exact Or.inr (Or.inl h)
            · rcases List.mem_cons.mp hs' with rfl | hs'
              · exact Or.inl hx
              · exact Or.inr (Or.inr ⟨s', hs', hx⟩)
        · intro s' hs'
          rcases List.mem_cons.mp hs' with rfl | hs'
          · exact ⟨by simp [LocalStore.set_last_local], hst, hsc⟩
          · obtain ⟨h1, h2, h3⟩ := hV s' hs'
            refine ⟨?_, h2, h3⟩
            simp only [LocalStore.set_last_local, LocalStore.set_prev_local, h2, if_false]
            split
            · rfl
            · exact h1
        · intro s' hs'U hs'V hs't
          have hne : s' ≠ sc := fun e => hs'V (by simp [e])
          have hold := hU s' hs'U (fun h => hs'V (List.mem_cons_of_mem _ h)) hs't
          simp only [LocalStore.set_last_local, LocalStore.set_prev_local, hne, hs't,
            if_false]
          exact isLocalChain_frame first _ (l s') _ hold
            (fun hm => hdj sc hsc s' hs'U (Ne.symm hne) first hfmem hm)

/-- The scopes below a list of nodes, for two lists one after the other. -/
theorem chainScopes_append (a b : List OnyxAstNode) :
    chainScopes (a ++ b) = chainScopes a ++ chainScopes b := by
  induction a with
  | nil => simp [chainScopes]
  | cons n r ih => simp [chainScopes, ih]

/-- The size of two lists of nodes, one after the other. -/
theorem chainSize_append (a b : List OnyxAstNode) :
    chainSize (a ++ b) = chainSize a + chainSize b := by
  induction a with
  | nil => simp [chainSize]
  | cons n r ih => simp [chainSize, ih]; omega

/-- The scopes below a branch. -/
theorem chainScopes_toList (t : Option OnyxAstNode) : chainScopes t.toList = optScopes t := by
  cases t <;> simp [chainScopes, optScopes]

/-- The size of a branch. -/
theorem chainSize_toList (t : Option OnyxAstNode) : chainSize t.toList = optSize t := by
  cases t <;> simp [chainSize, optSize]

/-- The walk over a body pushes nodes below which lie exactly the scopes below the
body. -/
theorem push_children_scopes (body : List OnyxAstNode) :
    ∀ queue, chainScopes (push_children body queue) = chainScopes queue ++ chainScopes body := by
  induction body with
  | nil => intro queue; simp [push_children, chainScopes]
  | cons w next ih =>
    intro queue
    cases w with
    | Block sc b =>
      simp [push_children, ih, chainScopes_append, chainScopes, nodeScopes]
    | While b =>
      simp [push_children, ih, chainScopes_append, chainScopes, nodeScopes]
    | If t f =>
      simp [push_children, ih, chainScopes_append, chainScopes, nodeScopes,
        chainScopes_toList]
    | Other =>
      simp [push_children, ih, chainScopes, nodeScopes]

/-- The walk over a body pushes no more nodes than the body has. -/
theorem push_children_size (body : List OnyxAstNode) :
    ∀ queue, chainSize (push_children body queue) ≤ chainSize queue + chainSize body := by
  induction body with
  | nil => intro queue; simp [push_children, chainSize]
  | cons w next ih =>
    intro queue
    cases w with
    | Block sc b =>
      have := ih (queue ++ [OnyxAstNode.Block sc b])
      simp [push_children, chainSize_append, chainSize, nodeSize] at this ⊢
      omega
    | While b =>
      have := ih (queue ++ [b])
      simp [push_children, chainSize_append, chainSize, nodeSize] at this ⊢
      omega
    | If t f =>
      have := ih (queue ++ t.toList ++ f.toList)
      simp [push_children, chainSize_append, chainSize, nodeSize, chainSize_toList] at this ⊢
      omega
    | Other =>
      have := ih queue
      simp [push_children, chainSize, nodeSize] at this ⊢
      omega

/-- The walk over a well-formed body pushes only blocks and if nodes. -/
theorem push_children_ok (body : List OnyxAstNode) :
    ∀ queue, (∀ n ∈ queue, entryOk n = true) → bodyOk body = true →
      ∀ n ∈ push_children body queue, entryOk n = true := by
  induction body with
  | nil => intro queue hq _; simpa [push_children] using hq
  | cons w next ih =>
    intro queue hq hb
    simp only [bodyOk, Bool.and_eq_true] at hb
    obtain ⟨hw, hnext⟩ := hb
    cases w with
    | Block sc b =>
      simp only [push_children]
      refine ih _ ?_ hnext
      intro n hn
      rcases List.mem_append.mp hn with h | h
      · exact hq n h
      · simp at h; subst h; simpa [stmtOk, entryOk] using hw
    | While b =>
      simp only [push_children]
      refine ih _ ?_ hnext
      intro n hn
      rcases List.mem_append.mp hn with h | h
      · exact hq n h
      · simp at h; subst h; simpa [stmtOk] using hw
    | If t f =>
      simp only [push_children]
      refine ih _ ?_ hnext
      simp only [stmtOk, Bool.and_eq_true] at hw
      intro n hn
      rcases List.mem_append.mp hn with h | h
      · rcases List.mem_append.mp h with h | h
        · exact hq n h
        · cases t with
          | none => simp at h
          | some tn => simp at h; subst h; simpa [branchOk] using hw.1
      · cases f with
        | none => simp at h
        | some fn => simp at h; subst h; simpa [branchOk] using hw.2
    | Other =>
      simp only [push_children]
      exact ih _ hq hnext

/-- The loop over the traversal queue, with fuel for the nodes below the queue: it
returns, keeps the invariant, and has moved exactly the scopes (other than the top
scope) of the blocks below the queue. -/
theorem collapse_scopes_queue_inv (l : Nat → List Nat) (U : List Nat) (top lfuel : Nat)
    (htop : top ∈ U) (hnd : ∀ sc ∈ U, (l sc).Nodup)
    (hdj : ∀ a ∈ U, ∀ b ∈ U, a ≠ b → ∀ x ∈ l a, x ∉ l b) :
    ∀ (fuel : Nat) (queue : List OnyxAstNode) (V : List Nat) (st : LocalStore),
      CollapseInv l U top V st →
      (∀ sc ∈ chainScopes queue, sc ∈ U ∧ (l sc).length ≤ lfuel) →
      (∀ n ∈ queue, entryOk n = true) → chainSize queue < fuel →
      ∃ st1 V1, collapse_scopes_queue top lfuel fuel queue st = some st1 ∧
        CollapseInv l U top V1 st1 ∧ (∀ sc ∈ V, sc ∈ V1) ∧
        (∀ sc ∈ chainScopes queue, sc ≠ top → sc ∈ V1) ∧
        (∀ sc ∈ V1, sc ∈ V ∨ sc ∈ chainScopes queue) := by
  intro fuel
  induction fuel with
  | zero => intro queue V st _ _ _ h; simp at h
  | succ k ih =>
    intro queue V st hinv hU hok hsize
    cases queue with
    | nil =>
      exact ⟨st, V, by simp [collapse_scopes_queue], hinv, fun _ h => h,
        by simp [chainScopes], fun _ h => Or.inl h⟩
    | cons block rest =>
      cases block with
      | Block sc body =>
        have hscU := hU sc (by simp [chainScopes, nodeScopes])
        obtain ⟨st1, hst1, hinv1⟩ := collapse_block_scope_inv l U top lfuel htop hnd hdj
          V st sc hscU.1 hscU.2 hinv
        have hbody : bodyOk body = true := by
          simpa [entryOk] using hok _ (List.mem_cons_self _ _)
        have hsz := push_children_size body rest
        obtain ⟨st2, V2, hres, hinv2, hsub, hall, honly⟩ := ih (push_children body rest)
          (if sc = top then V else sc :: V) st1 hinv1
          (by
            intro x hx
            rw [push_children_scopes, List.mem_append] at hx
            apply hU x
            simp only [chainScopes, nodeScopes, List.mem_append, List.mem_cons]
            rcases hx with h | h
            · exact Or.inr h
            · exact Or.inl (Or.inr h))
          (push_children_ok body rest (fun n hn => hok n (List.mem_cons_of_mem _ hn)) hbody)
          (by simp [chainSize, nodeSize] at hsize; omega)
        refine ⟨st2, V2, by simp [collapse_scopes_queue, hst1, hres], hinv2, ?_, ?_, ?_⟩
        · intro x hx
          apply hsub
          split
          · exact hx
          · exact List.mem_cons_of_mem _ hx
        · intro x hx hxt
          simp only [chainScopes, nodeScopes, List.mem_append, List.mem_cons] at hx
          rcases hx with (h | h) | h
          · subst h
            apply hsub
            simp [hxt]
          · exact hall x (by rw [push_children_scopes, List.mem_append]; exact Or.inr h) hxt
          · exact hall x (by rw [push_children_scopes, List.mem_append]; exact Or.inl h) hxt
        · intro x hx
          simp only [chainScopes, nodeScopes, List.mem_append, List.mem_cons]
          rcases honly x hx with h | h
          · by_cases hst : sc = top
            · simp only [hst, if_true] at h
              exact Or.inl h
            · simp only [hst, if_false, List.mem_cons] at h
              rcases h with h | h
              · exact Or.inr (Or.inl (Or.inl h))
              · exact Or.inl h
          · rw [push_children_scopes, List.mem_append] at h
            rcases h with h | h
            · exact Or.inr (Or.inr h)
            · exact Or.inr (Or.inl (Or.inr h))
      | If t f =>
        have hbr : branchOk t = true ∧ branchOk f = true := by
          simpa [entryOk] using hok _ (List.mem_cons_self _ _)
        have hscopes : chainScopes (rest ++ t.toList ++ f.toList) =
            chainScopes rest ++ optScopes t ++ optScopes f := by
          simp [chainScopes_append, chainScopes_toList]
        obtain ⟨st2, V2, hres, hinv2, hsub, hall, honly⟩ := ih (rest ++ t.toList ++ f.toList)
          V st hinv
          (by
            intro x hx
            rw [hscopes] at hx
            apply hU x
            simp only [chainScopes, nodeScopes, List.mem_append] at hx ⊢
            rcases hx with (h | h) | h
            · exact Or.inr h
            · exact Or.inl (Or.inl h)
            · exact Or.inl (Or.inr h))
          (by
            intro n hn
            rcases List.mem_append.mp hn with h | h
            · rcases List.mem_append.mp h with h | h
              · exact hok n (List.mem_cons_of_mem _ h)
              · cases t with
                | none => simp at h
                | some tn => simp at h; subst h; simpa [branchOk] using hbr.1
            · cases f with
              | none => simp at h
              | some fn => simp at h; subst h; simpa [branchOk] using hbr.2)
          (by
            simp [chainSize, nodeSize, chainSize_append, chainSize_toList] at hsize ⊢
            omega)
        refine ⟨st2, V2, by simp only [collapse_scopes_queue]; exact hres, hinv2, hsub, ?_, ?_⟩
        · intro x hx hxt
          apply hall x _ hxt
          rw [hscopes]
          simp only [chainScopes, nodeScopes, List.mem_append] at hx ⊢
          rcases hx with (h | h) | h
          · exact Or.inl (Or.inr h)
          · exact Or.inr h
          · exact Or.inl (Or.inl h)
        · intro x hx
          rcases honly x hx with h | h
          · exact Or.inl h
          · rw [hscopes] at h
            simp only [chainScopes, nodeScopes, List.mem_append] at h ⊢
            rcases h with (h | h) | h
            · exact Or.inr (Or.inr h)
            · exact Or.inr (Or.inl (Or.inl h))
            · exact Or.inr (Or.inl (Or.inr h))
      | While b =>
        have := hok _ (List.mem_cons_self _ _)
        simp [entryOk] at this
      | Other =>
        have := hok _ (List.mem_cons_self _ _)
        simp [entryOk] at this

/-- A chain that visits no local starts at `NULL`. -/
theorem isLocalChain_nil {prev : Nat → Option Nat} {p : Option Nat}
    (h : isLocalChain prev p [] = true) : p = none := by
  cases p with
  | none => rfl
  | some a => simp [isLocalChain] at h

/-- Lines 32-78 for one function whose body is the block `Block top b`: with fuel for
the nodes of the body and for the local lists, the loop returns; afterwards the top
scope lists, without repetition, exactly the locals that the scopes of the blocks below
the body listed, those other scopes are empty, and the scopes that belong to no block
of the body have kept their lists. -/
theorem collapse_scopes_function_spec (l : Nat → List Nat) (U : List Nat)
    (top : Nat) (b : List OnyxAstNode) (fuel lfuel : Nat) (st : LocalStore)
    (hsub : ∀ sc ∈ nodeScopes (.Block top b), sc ∈ U ∧ (l sc).length ≤ lfuel)
    (hnd : ∀ sc ∈ U, (l sc).Nodup)
    (hdj : ∀ a ∈ U, ∀ b ∈ U, a ≠ b → ∀ x ∈ l a, x ∉ l b)
    (hok : entryOk (.Block top b) = true) (hfuel : nodeSize (.Block top b) < fuel)
    (hch : ∀ sc ∈ U, isLocalChain st.prev_local (st.last_local sc) (l sc) = true) :
    ∃ st1 lt, collapse_scopes_function fuel lfuel (.Block top b) st = some st1 ∧
      isLocalChain st1.prev_local (st1.last_local top) lt = true ∧ lt.Nodup ∧
      (∀ x, x ∈ lt ↔ ∃ sc ∈ nodeScopes (.Block top b), x ∈ l sc) ∧
      (∀ sc ∈ nodeScopes (.Block top b), sc ≠ top → st1.last_local sc = none) ∧
      (∀ sc ∈ U, sc ∉ nodeScopes (.Block top b) →
        isLocalChain st1.prev_local (st1.last_local sc) (l sc) = true) := by
  have htopmem : top ∈ nodeScopes (.Block top b) := by simp [nodeScopes]
  have htop : top ∈ U := (hsub top htopmem).1
  have hq : chainScopes [OnyxAstNode.Block top b] = nodeScopes (.Block top b) := by
    simp [chainScopes]
  have hinv0 : CollapseInv l U top [] st :=
    ⟨⟨l top, hch top htop, hnd top htop, by simp⟩, by simp, fun sc hsc _ _ => hch sc hsc⟩
  obtain ⟨st1, V1, hres, ⟨⟨lt, hlt, hltnd, hltm⟩, hV, hUc⟩, _, hall, honly⟩ :=
    collapse_scopes_queue_inv l U top lfuel htop hnd hdj fuel [.Block top b] [] st hinv0
      (by rw [hq]; exact hsub) (by simpa using hok)
      (by simpa [chainSize] using hfuel)
  rw [hq] at hall honly
  refine ⟨st1, lt, by simpa [collapse_scopes_function] using hres, hlt, hltnd, ?_, ?_, ?_⟩
  · intro x
    rw [hltm x]
    constructor
    · rintro (h | ⟨sc, hsc, hx⟩)
      · exact ⟨top, htopmem, h⟩
      · rcases honly sc hsc with h | h
        · simp at h
        · exact ⟨sc, h, hx⟩
    · rintro ⟨sc, hsc, hx⟩
      by_cases hst : sc = top
      · subst hst; exact Or.inl hx
      · exact Or.inr ⟨sc, hall sc hsc hst, hx⟩
  · intro sc hsc hst
    exact (hV sc (hall sc hsc hst)).1
  · intro sc hsc hnot
    have hst : sc ≠ top := fun e => hnot (e ▸ htopmem)
    refine hUc sc hsc (fun hv => ?_) hst
    rcases honly sc hv with h | h
    · simp at h
    · exact hnot h

/-- `collapse_scopes` over the functions of a program whose blocks and local lists are
well formed: it returns; afterwards every function's top scope lists, without
repetition, exactly the locals that the scopes of the blocks below its body listed at
the start (`l`), every other scope of those blocks is empty, and the scopes that belong
to no function have kept their lists. -/
theorem collapse_scopes_spec (U : List Nat) (fuel lfuel : Nat) :
    ∀ (functions : List OnyxAstNode) (l : Nat → List Nat) (st : LocalStore),
      (∀ F ∈ functions, entryOk F = true ∧ (∃ top b, F = .Block top b) ∧ nodeSize F < fuel ∧
        ∀ sc ∈ nodeScopes F, sc ∈ U ∧ (l sc).length ≤ lfuel) →
      functions.Pairwise (fun F G => ∀ sc ∈ nodeScopes F, sc ∉ nodeScopes G) →
      (∀ sc ∈ U, (l sc).Nodup) →
      (∀ a ∈ U, ∀ b ∈ U, a ≠ b → ∀ x ∈ l a, x ∉ l b) →
      (∀ sc ∈ U, isLocalChain st.prev_local (st.last_local sc) (l sc) = true) →
      ∃ st1, collapse_scopes fuel lfuel functions st = some st1 ∧
        (∀ F ∈ functions, ∀ top b, F = .Block top b →
          ∃ lt, isLocalChain st1.prev_local (st1.last_local top) lt = true ∧ lt.Nodup ∧
            (∀ x, x ∈ lt ↔ ∃ sc ∈ nodeScopes F, x ∈ l sc) ∧
            ∀ sc ∈ nodeScopes F, sc ≠ top → st1.last_local sc = none) ∧
        (∀ sc ∈ U, (∀ F ∈ functions, sc ∉ nodeScopes F) →
          isLocalChain st1.prev_local (st1.last_local sc) (l sc) = true) := by
  intro functions
  induction functions with
  | nil =>
    intro l st _ _ _ _ hch
    exact ⟨st, rfl, by simp, fun sc hsc _ => hch sc hsc⟩
  | cons F rest ih =>
    intro l st hfun hsep hnd hdj hch
    obtain ⟨hok, ⟨top, b, hF⟩, hsize, hsub⟩ := hfun F (List.mem_cons_self _ _)
    subst hF
    obtain ⟨hsepF, hseprest⟩ := List.pairwise_cons.mp hsep
    have htopmem : top ∈ nodeScopes (.Block top b) := by simp [nodeScopes]
    obtain ⟨st1, lt, hres, hlt, hltnd, hltm, hempty, hframe⟩ :=
      collapse_scopes_function_spec l U top b fuel lfuel st hsub hnd hdj hok hsize hch
    have hout : ∀ sc, sc ∉ nodeScopes (.Block top b) →
        (if sc = top then lt else if sc ∈ nodeScopes (.Block top b) then [] else l sc) =
          l sc := by
      intro sc hsc
      have hst : sc ≠ top := fun e => hsc (e ▸ htopmem)
      simp [hst, hsc]
    have horigin : ∀ sc ∈ U, ∀ x,
        x ∈ (if sc = top then lt else if sc ∈ nodeScopes (.Block top b) then [] else l sc) →
        ∃ so ∈ U, x ∈ l so ∧ (so ∈ nodeScopes (.Block top b) ↔ sc = top) ∧
          (sc ≠ top → so = sc) := by
      intro sc hscU x hx
      by_cases hst : sc = top
      · simp only [hst, if_true] at hx
        obtain ⟨so, hso, hxo⟩ := (hltm x).mp hx
        exact ⟨so, (hsub so hso).1, hxo, by simp [hst, hso], fun h => absurd hst h⟩
      · by_cases hin : sc ∈ nodeScopes (.Block top b)
        · simp [hst, hin] at hx
        · simp only [hst, hin, if_false] at hx
          exact ⟨sc, hscU, hx, by simp [hst, hin], fun _ => rfl⟩
    obtain ⟨st2, hres2, hfuns, hfr⟩ := ih
      (fun sc => if sc = top then lt else if sc ∈ nodeScopes (.Block top b) then [] else l sc)
      st1
      (by
        intro G hG
        obtain ⟨h1, h2, h3, h4⟩ := hfun G (List.mem_cons_of_mem _ hG)
        refine ⟨h1, h2, h3, fun sc hsc => ?_⟩
        have hnot : sc ∉ nodeScopes (.Block top b) := fun h => hsepF G hG sc h hsc
        simp only [hout sc hnot]
        exact h4 sc hsc)
      hseprest
      (by
        intro sc hsc
        by_cases hst : sc = top
        · simp only [hst, if_true]; exact hltnd
        · by_cases hin : sc ∈ nodeScopes (.Block top b)
          · simp [hst, hin]
          · simp only [hst, hin, if_false]; exact hnd sc hsc)
      (by
        intro a ha c hc hac x hxa hxc
        obtain ⟨sa, hsaU, hxsa, hsaiff, hsaeq⟩ := horigin a ha x hxa
        obtain ⟨sc', hscU, hxsc, hsciff, hsceq⟩ := horigin c hc x hxc
        have hsame : sa = sc' := by
          by_contra hne
          exact hdj sa hsaU sc' hscU hne x hxsa hxsc
        by_cases hat : a = top
        · have hct : c ≠ top := fun e => hac (hat.trans e.symm)
          have h1 : sa ∈ nodeScopes (.Block top b) := hsaiff.mpr hat
          have h2 : sc' ∉ nodeScopes (.Block top b) := fun h => hct (hsciff.mp h)
          exact h2 (hsame ▸ h1)
        · by_cases hct : c = top
          · have h1 : sc' ∈ nodeScopes (.Block top b) := hsciff.mpr hct
            have h2 : sa ∉ nodeScopes (.Block top b) := fun h => hat (hsaiff.mp h)
            exact h2 (hsame ▸ h1)
          · exact hac ((hsaeq hat).symm.trans (hsame.trans (hsceq hct))))
      (by
        intro sc hsc
        by_cases hst : sc = top
        · simp only [hst, if_true]; exact hlt
        · by_cases hin : sc ∈ nodeScopes (.Block top b)
          · simp only [hst, hin, if_false, if_true]
            rw [hempty sc hin hst]
            rfl
          · simp only [hst, hin, if_false]
            exact hframe sc hsc hin)
    refine ⟨st2, by simp [collapse_scopes, hres, hres2], ?_, ?_⟩
    · intro G hG top' b' hGeq
      rcases List.mem_cons.mp hG with hGF | hGrest
      · subst hGF
        cases hGeq
        have htopU : top ∈ U := (hsub top htopmem).1
        have hnotrest : ∀ sc ∈ nodeScopes (.Block top b), ∀ G ∈ rest, sc ∉ nodeScopes G :=
          fun sc hsc G hG => hsepF G hG sc hsc
        have h1 := hfr top htopU (hnotrest top htopmem)
        simp only [if_true] at h1
        refine ⟨lt, h1, hltnd, hltm, ?_⟩
        intro sc hsc hst
        have h2 := hfr sc (hsub sc hsc).1 (hnotrest sc hsc)
        simp only [hst, hsc, if_false, if_true] at h2
        exact isLocalChain_nil h2
      · obtain ⟨lt', h1, h2, h3, h4⟩ := hfuns G hGrest top' b' hGeq
        refine ⟨lt', h1, h2, ?_, h4⟩
        intro x
        rw [h3 x]
        constructor
        · rintro ⟨sc, hsc, hx⟩
          have hnot : sc ∉ nodeScopes (.Block top b) := fun h => hsepF G hGrest sc h hsc
          rw [hout sc hnot] at hx
          exact ⟨sc, hsc, hx⟩
        · rintro ⟨sc, hsc, hx⟩
          have hnot : sc ∉ nodeScopes (.Block top b) := fun h => hsepF G hGrest sc h hsc
          exact ⟨sc, hsc, by rw [hout sc hnot]; exact hx⟩
    · intro sc hsc hnone
      have hnot : sc ∉ nodeScopes (.Block top b) := hnone _ (List.mem_cons_self _ _)
      have h := hfr sc hsc (fun G hG => hnone G (List.mem_cons_of_mem _ hG))
      rw [hout sc hnot] at h
      exact h

/-- The scopes below a list of nodes are the scopes below its nodes. -/
theorem mem_chainScopes (fs : List OnyxAstNode) (x : Nat) :
    x ∈ chainScopes fs ↔ ∃ F ∈ fs, x ∈ nodeScopes F := by
  induction fs with
  | nil => simp [chainScopes]
  | cons n r ih => simp [chainScopes, ih]

/-- C16: let the bodies of the functions be blocks below which every while body and
every branch of an if node is a block or an if node (an else-if chain), let the scopes
of different functions be different, and let the scopes of the blocks reachable from
the bodies have local lists `l sc` that are proper chains, without repetition and
pairwise disjoint.  Then `collapse_scopes` returns (with fuel for the nodes and for the
lists), and afterwards, for every function with top scope `top`, every local that was
in the list of a scope of a block reachable from the body occurs exactly once in the
chain that starts at `top`'s `last_local`, and every other scope of those blocks has an
empty local list. -/
theorem collapse_scopes_locals (functions : List OnyxAstNode) (l : Nat → List Nat)
    (fuel lfuel : Nat) (st : LocalStore)
    (hfun : ∀ F ∈ functions, entryOk F = true ∧ isBlock F = true ∧ nodeSize F < fuel)
    (hsep : functions.Pairwise (fun F G => ∀ sc ∈ nodeScopes F, sc ∉ nodeScopes G))
    (hlf : ∀ sc ∈ chainScopes functions, (l sc).length ≤ lfuel)
    (hnd : ∀ sc ∈ chainScopes functions, (l sc).Nodup)
    (hdj : ∀ a ∈ chainScopes functions, ∀ b ∈ chainScopes functions, a ≠ b →
      ∀ x ∈ l a, x ∉ l b)
    (hch : ∀ sc ∈ chainScopes functions,
      isLocalChain st.prev_local (st.last_local sc) (l sc) = true) :
    ∃ st1, collapse_scopes fuel lfuel functions st = some st1 ∧
      ∀ F ∈ functions, ∀ top b, F = .Block top b →
        ∃ lt, isLocalChain st1.prev_local (st1.last_local top) lt = true ∧
          (∀ sc ∈ nodeScopes F, ∀ x ∈ l sc, lt.count x = 1) ∧
          (∀ sc ∈ nodeScopes F, sc ≠ top → st1.last_local sc = none) := by
  obtain ⟨st1, hres, hfuns, _⟩ := collapse_scopes_spec (chainScopes functions) fuel lfuel
    functions l st
    (by
      intro F hF
      obtain ⟨h1, h2, h3⟩ := hfun F hF
      refine ⟨h1, ?_, h3, fun sc hsc => ?_⟩
      · cases F with
        | Block top b => exact ⟨top, b, rfl⟩
        | While b => simp [isBlock] at h2
        | If t f => simp [isBlock] at h2
        | Other => simp [isBlock] at h2
      · have hm : sc ∈ chainScopes functions := (mem_chainScopes _ _).mpr ⟨F, hF, hsc⟩
        exact ⟨hm, hlf sc hm⟩)
    hsep hnd hdj hch
  refine ⟨st1, hres, fun F hF top b hFeq => ?_⟩
  obtain ⟨lt, h1, h2, h3, h4⟩ := hfuns F hF top b hFeq
  exact ⟨lt, h1, fun sc hsc x hx => List.count_eq_one_of_mem h2 ((h3 x).mpr ⟨sc, hsc, hx⟩), h4⟩

/-- C16, witness: the two functions of `sampleFunctions`, with nested blocks, while
bodies and an else-if chain. -/
theorem collapse_scopes_locals_witness :
    ∃ st1, collapse_scopes 20 3 sampleFunctions sampleLocals = some st1 ∧
      ∀ F ∈ sampleFunctions, ∀ top b, F = .Block top b →
        ∃ lt, isLocalChain st1.prev_local (st1.last_local top) lt = true ∧
          (∀ sc ∈ nodeScopes F, ∀ x ∈ sampleLists sc, lt.count x = 1) ∧
          (∀ sc ∈ nodeScopes F, sc ≠ top → st1.last_local sc = none) :=
  collapse_scopes_locals sampleFunctions sampleLists 20 3 sampleLocals
    (by decide) (by decide) (by decide) (by decide) (by decide) (by decide)

/-! ### Symbol resolution -/

/-- Whether a pointer leads through a list of nodes depends only on the `next` links of
these nodes. -/
theorem isChain_congr {s s' : SemState} :
    ∀ (l : List Nat) (p : Ptr),
      (∀ q ∈ l, (s'.node q).map AstNode.next = (s.node q).map AstNode.next) →
      isChain s' p l = isChain s p l := by
  intro l
  induction l with
  | nil => intro p _; cases p <;> rfl
  | cons a rest ih =>
    intro p h
    cases p with
    | none => rfl
    | some b =>
      by_cases hab : b = a
      · subst hab
        have ha := h b (List.mem_cons_self _ _)
        cases hn : s.node b with
        | none =>
          rw [hn] at ha
          cases hn' : s'.node b with
          | none => simp [isChain, hn, hn']
          | some n' => rw [hn'] at ha; simp at ha
        | some n =>
          rw [hn] at ha
          cases hn' : s'.node b with
          | none => rw [hn'] at ha; simp at ha
          | some n' =>
            rw [hn'] at ha
            simp only [Option.map_some', Option.some.injEq] at ha
            simp only [isChain, hn, hn', beq_self_eq_true, Bool.true_and]
            rw [ha]
            exact ih _ (fun q hq => h q (List.mem_cons_of_mem _ hq))
      · have hf : (b == a) = false := by simpa using hab
        simp only [isChain, hf, Bool.false_and]

/-- Reading a node that was just written. -/
theorem symres_node_setNode_self {s : SymresState} {p : Nat} {n : AstNode} (m : AstNode)
    (h : s.node p = some n) : (s.setNode p m).node p = some m :=
  node_setNode_self m h

/-- Writing a node leaves the other addresses as they were. -/
theorem symres_node_setNode_ne {s : SymresState} {p q : Nat} (m : AstNode) (h : p ≠ q) :
    (s.setNode p m).node q = s.node q :=
  node_setNode_ne m h

/-- One round of `resolve_arguments`. -/
theorem resolve_arguments_cons {R : Resolver} {P : List Nat} {a : Nat} {rest : List Nat}
    {s s' : SymresState} (h : resolve_arguments R P (a :: rest) s = some s') :
    ∃ n v r s1, s.node a = some n ∧ n.kind = AstKind.Argument ∧ n.value = some v ∧
      R v s = some (r, s1) ∧ (∀ p ∈ P, s1.node p = s.node p) ∧
      resolve_arguments R P rest (s1.setNode a { n with value := r }) = some s' := by
  simp only [resolve_arguments] at h
  cases hn : s.node a with
  | none => simp [hn] at h
  | some n =>
    simp only [hn] at h
    by_cases hk : n.kind = AstKind.Argument
    · rw [if_neg (by simp [hk])] at h
      cases hv : n.value with
      | none => simp [hv] at h
      | some v =>
        simp only [hv] at h
        cases hr : R v s with
        | none => simp [hr] at h
        | some r =>
          obtain ⟨r1, s1⟩ := r
          simp only [hr] at h
          by_cases hall : (P.all fun p => s1.node p == s.node p) = true
          · rw [if_pos hall] at h
            refine ⟨n, v, r1, s1, rfl, hk, hv, hr, ?_, h⟩
            intro p hp
            have := List.all_eq_true.mp hall p hp
            simpa using this
          · rw [if_neg hall] at h
            simp at h
    · rw [if_pos hk] at h
      simp at h

/-- `resolve_arguments` changes the nodes of `P` at most in their `value`, and only
those it walks over. -/
theorem resolve_arguments_frame {R : Resolver} {P : List Nat} :
    ∀ (l : List Nat) (s s' : SymresState), resolve_arguments R P l s = some s' →
      ∀ p ∈ P, ((s'.node p).map fun n => { n with value := none }) =
          ((s.node p).map fun n => { n with value := none }) ∧
        (p ∉ l → s'.node p = s.node p) := by
  intro l
  induction l with
  | nil =>
    intro s s' h p _
    simp only [resolve_arguments, Option.some.injEq] at h
    subst h
    exact ⟨rfl, fun _ => rfl⟩
  | cons a rest ih =>
    intro s s' h p hp
    obtain ⟨n, v, r, s1, hn, _, _, _, hfr, hrest⟩ := resolve_arguments_cons h
    obtain ⟨h1, h2⟩ := ih _ _ hrest p hp
    by_cases hpa : p = a
    · subst hpa
      have hs1 : s1.node p = some n := by rw [hfr p hp, hn]
      rw [symres_node_setNode_self _ hs1] at h1
      refine ⟨?_, fun hnot => absurd (List.mem_cons_self _ _) hnot⟩
      rw [h1, hn]
      rfl
    · have hsame : (s1.setNode a { n with value := r }).node p = s.node p := by
        rw [symres_node_setNode_ne _ (Ne.symm hpa), hfr p hp]
      rw [hsame] at h1 h2
      exact ⟨h1, fun hnot => h2 (fun hm => hnot (List.mem_cons_of_mem _ hm))⟩

/-- The walk of `symres_statement_chain` over a proper chain of argument nodes, with
fuel for them, is `resolve_arguments` whenever that has a result. -/
theorem symres_statement_chain_arguments (E : SymEnv) (k : Nat) (P : List Nat) :
    ∀ (l : List Nat) (fuel : Nat) (p : Ptr) (trailer : Trailer) (s s' : SymresState),
      isChain s.sem p l = true → (∀ a ∈ l, a ∈ P) → l.length < fuel →
      resolve_arguments (symres_expression E k) P l s = some s' →
      symres_statement_chain (symres_statement E (k + 1)) fuel p trailer s = some s' := by
  intro l
  induction l with
  | nil =>
    intro fuel p trailer s s' hch _ hfuel h
    have := isChain_nil hch
    subst this
    simp only [resolve_arguments, Option.some.injEq] at h
    subst h
    cases fuel with
    | zero => simp at hfuel
    | succ f => simp [symres_statement_chain]
  | cons a rest ih =>
    intro fuel p trailer s s' hch hP hfuel h
    obtain ⟨hp, n0, hn0, hrest⟩ := isChain_cons hch
    subst hp
    obtain ⟨n, v, r, s1, hn, hk, hv, hr, hfr, hres⟩ := resolve_arguments_cons h
    have hnn : n0 = n := by
      have : s.node a = some n0 := hn0
      rw [hn] at this
      exact (Option.some.inj this).symm
    subst hnn
    have haP : a ∈ P := hP a (List.mem_cons_self _ _)
    have hs1a : s1.node a = some n0 := by rw [hfr a haP, hn]
    have hstmt : symres_statement E (k + 1) a s =
        some (0, s1.setNode a { n0 with value := r }) := by
      show symres_statement_step E (symres_type E k) (symres_expression E k)
        (symres_statement E k) k a s = _
      simp [symres_statement_step, hn, hk, symres_field, hv, hr, hs1a]
    have hnode : (s1.setNode a { n0 with value := r }).node a =
        some { n0 with value := r } := symres_node_setNode_self _ hs1a
    cases fuel with
    | zero => simp at hfuel
    | succ f =>
      have hchain : isChain (s1.setNode a { n0 with value := r }).sem n0.next rest = true := by
        rw [← hrest]
        apply isChain_congr
        intro q hq
        have hqP : q ∈ P := hP q (List.mem_cons_of_mem _ hq)
        by_cases hqa : q = a
        · subst hqa
          have h1 : (s1.setNode q { n0 with value := r }).sem.node q =
              some { n0 with value := r } := hnode
          have h2 : s.sem.node q = some n0 := hn0
          rw [h1, h2]
          rfl
        · have h1 : (s1.setNode a { n0 with value := r }).sem.node q = s1.node q :=
            symres_node_setNode_ne _ (Ne.symm hqa)
          have h2 : s1.node q = s.sem.node q := hfr q hqP
          rw [h1, h2]
      have := ih f n0.next (Trailer.next a) _ s' hchain
        (fun q hq => hP q (List.mem_cons_of_mem _ hq)) (by simp at hfuel; omega) hres
      simp [symres_statement_chain, hstmt, hnode, this]

/-- Writing a node keeps the size of the store. -/
theorem symres_setNode_length (s : SymresState) (p : Nat) (m : AstNode) :
    (s.setNode p m).sem.nodes.length = s.sem.nodes.length := by
  simp [SymresState.setNode, SemState.setNode]

/-- Reading after a write. -/
theorem symres_node_setNode (s : SymresState) (p q : Nat) (m : AstNode) :
    (s.setNode p m).node q =
      if p = q then (if p < s.sem.nodes.length then some m else none) else s.node q := by
  simp [SymresState.node, SymresState.setNode, SemState.node, SemState.setNode,
    List.getElem?_set]

/-- Reading after an allocation. -/
theorem symres_node_new_node (s : SymresState) (k : AstKind) (q : Nat) :
    (s.new_node k).2.node q =
      if q = s.sem.nodes.length then some { kind := k } else s.node q := by
  by_cases hq : q = s.sem.nodes.length
  · subst hq
    simp [SymresState.node, SymresState.new_node, SemState.node, onyx_ast_node_new]
  · simp only [hq, if_false]
    by_cases hlt : q < s.sem.nodes.length
    · simp [SymresState.node, SymresState.new_node, SemState.node, onyx_ast_node_new,
        List.getElem?_append_left hlt]
    · have hgt : s.sem.nodes.length < q := by omega
      have h1 : s.sem.nodes[q]? = none := List.getElem?_eq_none (by omega)
      have h2 : (s.sem.nodes ++ [({ kind := k } : AstNode)])[q]? = none :=
        List.getElem?_eq_none (by simp; omega)
      simp [SymresState.node, SymresState.new_node, SemState.node, onyx_ast_node_new, h1, h2]

/-- Allocation adds one node. -/
theorem symres_new_node_length (s : SymresState) (k : AstKind) :
    (s.new_node k).2.sem.nodes.length = s.sem.nodes.length + 1 := by
  simp [SymresState.new_node, onyx_ast_node_new]

/-- The address of an allocated node. -/
theorem symres_new_node_fst (s : SymresState) (k : AstKind) :
    (s.new_node k).1 = s.sem.nodes.length := rfl

/-- Writing a node keeps the scopes. -/
theorem symres_setNode_scopes (s : SymresState) (p : Nat) (m : AstNode) :
    (s.setNode p m).sem.scopes = s.sem.scopes := rfl

/-- Writing a node keeps the current scope. -/
theorem symres_setNode_curr_scope (s : SymresState) (p : Nat) (m : AstNode) :
    (s.setNode p m).curr_scope = s.curr_scope := rfl

/-- Allocation keeps the scopes. -/
theorem symres_new_node_scopes (s : SymresState) (k : AstKind) :
    (s.new_node k).2.sem.scopes = s.sem.scopes := rfl

/-- Allocation keeps the current scope. -/
theorem symres_new_node_curr_scope (s : SymresState) (k : AstKind) :
    (s.new_node k).2.curr_scope = s.curr_scope := rfl

/-- `symbol_resolve` keeps the nodes. -/
theorem symbol_resolve_node (E : SymEnv) (scope : Option Nat) (tkn : OnyxToken)
    (s : SymresState) (q : Nat) : (symbol_resolve E scope tkn s).2.node q = s.node q := rfl

/-- `symbol_resolve` keeps the size of the store. -/
theorem symbol_resolve_length (E : SymEnv) (scope : Option Nat) (tkn : OnyxToken)
    (s : SymresState) :
    (symbol_resolve E scope tkn s).2.sem.nodes.length = s.sem.nodes.length := rfl

/-- The node `symbol_resolve` returns. -/
theorem symbol_resolve_fst (E : SymEnv) (scope : Option Nat) (tkn : OnyxToken)
    (s : SymresState) :
    (symbol_resolve E scope tkn s).1 = (E.symbol_resolve s.sem.scopes scope tkn).1 := rfl

/-- Lines 150-165 of `symres_call` for a callee that is a field access on the resolved
receiver `recv`: the implicit argument is a new node that carries the receiver and its
token and is linked in front of the arguments; the call gets the node the field's token
resolves to in the current scope as callee, the implicit argument as first argument
and one more in `arg_count`; the other nodes but the field access are as they were. -/
theorem symres_call_prepend_spec (E : SymEnv) (call fa recv : Nat) (s1 : SymresState)
    (f1 c1 rn : AstNode)
    (hf1 : s1.node fa = some f1) (hc1 : s1.node call = some c1)
    (hrn : s1.node recv = some rn)
    (h1 : call ≠ fa) (h2 : recv ≠ fa) (h3 : recv ≠ call) :
    ∃ s6, symres_call_prepend E call fa recv s1 = some (s1.sem.nodes.length, s6) ∧
      s6.node s1.sem.nodes.length =
        some { kind := AstKind.Argument, value := some recv, token := rn.token,
               next := c1.arguments } ∧
      s6.node call =
        some { c1 with callee := (E.symbol_resolve s1.sem.scopes s1.curr_scope f1.token).1,
                       arguments := some s1.sem.nodes.length,
                       arg_count := c1.arg_count + 1 } ∧
      (∀ q, q ≠ call → q ≠ fa → q ≠ s1.sem.nodes.length → s6.node q = s1.node q) := by
  have hcl : call < s1.sem.nodes.length := node_lt_length hc1
  have hfl : fa < s1.sem.nodes.length := node_lt_length hf1
  have hNc : ¬ s1.sem.nodes.length = call := by omega
  have hNf : ¬ s1.sem.nodes.length = fa := by omega
  have hcN : ¬ call = s1.sem.nodes.length := by omega
  have hfN : ¬ fa = s1.sem.nodes.length := by omega
  have hrN : ¬ recv = s1.sem.nodes.length := by
    have := node_lt_length hrn
    omega
  have hcl1 : call < s1.sem.nodes.length + 1 := by omega
  have e1 : (symres_call_prepend E call fa recv s1).map Prod.fst =
      some s1.sem.nodes.length := by
    simp [symres_call_prepend, symres_call_implicit, symres_node_setNode, symres_node_new_node,
      symres_setNode_length, symres_new_node_length, hf1, hc1, hrn, h1, h2, h3, Ne.symm h1,
      Ne.symm h2, Ne.symm h3, hcl, hfl, hNc, hNf, hcN, hfN, hrN, symres_new_node_fst,
      symbol_resolve_node]
  have e2 : (symres_call_prepend E call fa recv s1).bind
      (fun r => r.2.node s1.sem.nodes.length) =
        some { kind := AstKind.Argument, value := some recv, token := rn.token,
               next := c1.arguments } := by
    simp [symres_call_prepend, symres_call_implicit, symres_node_setNode, symres_node_new_node,
      symres_setNode_length, symres_new_node_length, hf1, hc1, hrn, h1, h2, h3, Ne.symm h1,
      Ne.symm h2, Ne.symm h3, hcl, hfl, hNc, hNf, hcN, hfN, hrN, symres_new_node_fst,
      symbol_resolve_node]
  have e3 : (symres_call_prepend E call fa recv s1).bind (fun r => r.2.node call) =
      some { c1 with callee := (E.symbol_resolve s1.sem.scopes s1.curr_scope f1.token).1,
                     arguments := some s1.sem.nodes.length,
                     arg_count := c1.arg_count + 1 } := by
    simp [symres_call_prepend, symres_call_implicit, symres_node_setNode, symres_node_new_node,
      symres_setNode_length, symres_new_node_length, hf1, hc1, hrn, h1, h2, h3, Ne.symm h1,
      Ne.symm h2, Ne.symm h3, hcl, hfl, hNc, hNf, hcN, hfN, hrN, symres_new_node_fst,
      symbol_resolve_node, symbol_resolve_fst, symres_setNode_scopes,
      symres_setNode_curr_scope, symres_new_node_scopes, symres_new_node_curr_scope,
      symbol_resolve_length, hcl1]
  have e4 : ∀ q, q ≠ call → q ≠ fa → q ≠ s1.sem.nodes.length →
      (symres_call_prepend E call fa recv s1).bind (fun r => r.2.node q) = s1.node q := by
    intro q hq1 hq2 hq3
    simp [symres_call_prepend, symres_call_implicit, symres_node_setNode, symres_node_new_node,
      symres_setNode_length, symres_new_node_length, hf1, hc1, hrn, h1, h2, h3, Ne.symm h1,
      Ne.symm h2, Ne.symm h3, hcl, hfl, hNc, hNf, hcN, hfN, hrN, symres_new_node_fst,
      symbol_resolve_node, hq1, hq2, hq3, Ne.symm hq1, Ne.symm hq2, Ne.symm hq3]
  cases hp : symres_call_prepend E call fa recv s1 with
  | none => rw [hp] at e1; simp at e1
  | some r =>
    obtain ⟨n, s6⟩ := r
    rw [hp] at e1 e2 e3
    simp only [Option.map_some', Option.some.injEq] at e1
    subst e1
    refine ⟨s6, rfl, e2, e3, fun q hq1 hq2 hq3 => ?_⟩
    have := e4 q hq1 hq2 hq3
    rw [hp] at this
    exact this

/-- `symres_call` for a callee that is a field access whose receiver resolves to a node
that is not a package: the path to the walk over the arguments is
`symres_call_prepend`. -/
theorem symres_call_field_access_eq (E : SymEnv) (k fuel call fa recv0 recv : Nat)
    (s s1 : SymresState) (c f f1 c1 rn : AstNode)
    (hc : s.node call = some c) (hcallee : c.callee = some fa)
    (hf : s.node fa = some f) (hkind : f.kind = AstKind.Field_Access)
    (hexpr : f.expr = some recv0)
    (hrecv : symres_expression E k recv0 s = some (some recv, s1))
    (hf1 : s1.node fa = some f1) (hkind1 : f1.kind = AstKind.Field_Access)
    (hrn : s1.node recv = some rn) (hnotpkg : rn.kind ≠ AstKind.Package)
    (hc1 : s1.node call = some c1)
    (h1 : call ≠ fa) (h2 : recv ≠ fa) :
    symres_call E (symres_expression E (k + 1)) (symres_statement E (k + 1)) fuel call s =
      (symres_call_prepend E call fa recv s1).bind fun r =>
        symres_statement_chain (symres_statement E (k + 1)) fuel (some r.1)
          (Trailer.arguments call) r.2 := by
  have hcl : call < s1.sem.nodes.length := node_lt_length hc1
  have hfl : fa < s1.sem.nodes.length := node_lt_length hf1
  have hstep : symres_expression E (k + 1) fa s =
      some (some fa, s1.setNode fa { f1 with expr := some recv }) := by
    show symres_expression_step E (symres_type E k) (symres_expression E k)
      (symres_statement E k) k fa s = _
    simp [symres_expression_step, hf, hkind, symres_field_access, hexpr, hrecv, hf1,
      symres_node_setNode, h2, Ne.symm h2, hrn, hnotpkg, hfl]
  simp [symres_call, symres_field, hc, hcallee, hstep, symres_node_setNode, h1, Ne.symm h1,
    hc1, hf1, hcl, hfl, symres_call_rest, symres_setNode_length, hkind1, symres_call_prepend]

/-- `symres_call` for a callee that resolves to a node that is not a field access: the
callee is written back and the arguments are walked over. -/
theorem symres_call_plain_eq (E : SymEnv) (k fuel call cal cp : Nat)
    (s s1 : SymresState) (c c1 cn : AstNode)
    (hc : s.node call = some c) (hcallee : c.callee = some cal)
    (hres : symres_expression E (k + 1) cal s = some (some cp, s1))
    (hc1 : s1.node call = some c1) (hcp : s1.node cp = some cn)
    (hnf : cn.kind ≠ AstKind.Field_Access) (hne : cp ≠ call) :
    symres_call E (symres_expression E (k + 1)) (symres_statement E (k + 1)) fuel call s =
      symres_statement_chain (symres_statement E (k + 1)) fuel c1.arguments
        (Trailer.arguments call) (s1.setNode call { c1 with callee := some cp }) := by
  have hcl : call < s1.sem.nodes.length := node_lt_length hc1
  simp [symres_call, symres_field, hc, hcallee, hres, symres_node_setNode, hne, Ne.symm hne,
    hc1, hcp, hcl, symres_call_rest, hnf]

/-- Every node of a proper chain is in the store. -/
theorem isChain_mem_node {s : SemState} :
    ∀ (l : List Nat) (p : Ptr), isChain s p l = true → ∀ q ∈ l, ∃ n, s.node q = some n := by
  intro l
  induction l with
  | nil => intro p _ q hq; simp at hq
  | cons a rest ih =>
    intro p h q hq
    obtain ⟨_, n, hn, hrest⟩ := isChain_cons h
    rcases List.mem_cons.mp hq with rfl | hq
    · exact ⟨n, hn⟩
    · exact ih _ hrest q hq

/-- Nodes that differ at most in `value` have the same `next`. -/
theorem next_of_value_erased {a b : Option AstNode}
    (h : (a.map fun n => { n with value := none }) = (b.map fun n => { n with value := none })) :
    a.map AstNode.next = b.map AstNode.next := by
  have := congrArg (Option.map AstNode.next) h
  simpa [Option.map_map, Function.comp] using this

/-- C17: let `call` be a call (store `s`).
First part: its callee is a field access `fa` on a receiver that resolves to the node
`recv` (store `s1`), which is not a package; `args` are the original arguments, `n` of
them.  Let lines 150-165 leave the store `s6` and the implicit argument at address `N`,
and let the walk over the arguments resolve every value without writing to the call or
to its argument nodes (`resolve_arguments`, store `s7`), the resolved receiver
resolving to itself.  Then `symres_call` returns `s7`; the callee is the node that the
field's token resolves to in the current scope; the argument list is `N`, then the
original arguments in their order; `N` is a new argument node whose value is `recv`;
and `arg_count` is `n + 1`.
Second part: its callee resolves to a node `cp` that is not a field access (store
`s1`); then `symres_call` returns, the argument list is the original one and
`arg_count` is unchanged.
(The call, the field access and the receiver are different nodes, and neither the call
nor the field access is one of the arguments.) -/
theorem symres_call_implicit_argument (E : SymEnv) (k fuel call : Nat) (s : SymresState)
    (c : AstNode) (hc : s.node call = some c) :
    (∀ (fa recv0 recv N : Nat) (s1 s6 s7 : SymresState) (f f1 c1 rn : AstNode)
        (args : List Nat),
      c.callee = some fa → s.node fa = some f → f.kind = AstKind.Field_Access →
      f.expr = some recv0 →
      symres_expression E k recv0 s = some (some recv, s1) →
      s1.node fa = some f1 → f1.kind = AstKind.Field_Access →
      s1.node recv = some rn → rn.kind ≠ AstKind.Package →
      s1.node call = some c1 →
      call ≠ fa → recv ≠ fa → recv ≠ call →
      isChain s1.sem c1.arguments args = true → c1.arg_count = args.length →
      call ∉ args → fa ∉ args →
      symres_call_prepend E call fa recv s1 = some (N, s6) →
      resolve_arguments (symres_expression E k) (call :: N :: args) (N :: args) s6 = some s7 →
      (symres_expression E k recv s6).map Prod.fst = some (some recv) →
      args.length + 1 < fuel →
      symres_call E (symres_expression E (k + 1)) (symres_statement E (k + 1)) fuel call s =
          some s7 ∧
        ∃ c7 ia, s7.node call = some c7 ∧
          c7.callee = (E.symbol_resolve s1.sem.scopes s1.curr_scope f1.token).1 ∧
          isChain s7.sem c7.arguments (N :: args) = true ∧
          c7.arg_count = args.length + 1 ∧
          s7.node N = some ia ∧ ia.kind = AstKind.Argument ∧ ia.value = some recv ∧
          N ∉ args) ∧
    (∀ (cal cp : Nat) (s1 s7 : SymresState) (c1 cn : AstNode) (args : List Nat),
      c.callee = some cal →
      symres_expression E (k + 1) cal s = some (some cp, s1) →
      s1.node call = some c1 → s1.node cp = some cn → cn.kind ≠ AstKind.Field_Access →
      cp ≠ call →
      isChain s1.sem c1.arguments args = true → call ∉ args →
      resolve_arguments (symres_expression E k) (call :: args) args
        (s1.setNode call { c1 with callee := some cp }) = some s7 →
      args.length < fuel →
      symres_call E (symres_expression E (k + 1)) (symres_statement E (k + 1)) fuel call s =
          some s7 ∧
        ∃ c7, s7.node call = some c7 ∧ c7.callee = some cp ∧
          isChain s7.sem c7.arguments args = true ∧ c7.arg_count = c1.arg_count) := by
  constructor
  · intro fa recv0 recv N s1 s6 s7 f f1 c1 rn args hcallee hf hkind hexpr hrecv hf1 hkind1
      hrn hnotpkg hc1 h1 h2 h3 hargs hcnt hca hfa hprep hrun hre hfuel
    obtain ⟨s6', hprep', hN, hcall6, hoth6⟩ := symres_call_prepend_spec E call fa recv s1
      f1 c1 rn hf1 hc1 hrn h1 h2 h3
    rw [hprep] at hprep'
    simp only [Option.some.injEq, Prod.mk.injEq] at hprep'
    obtain ⟨hNeq, hs6⟩ := hprep'
    subst hs6
    subst hNeq
    have hNargs : s1.sem.nodes.length ∉ args := by
      intro hm
      obtain ⟨n, hn⟩ := isChain_mem_node args _ hargs _ hm
      have := node_lt_length hn
      omega
    have hchain6a : isChain s6.sem c1.arguments args = true := by
      rw [← hargs]
      apply isChain_congr
      intro q hq
      have hq1 : q ≠ call := fun e => hca (e ▸ hq)
      have hq2 : q ≠ fa := fun e => hfa (e ▸ hq)
      have hq3 : q ≠ s1.sem.nodes.length := fun e => hNargs (e ▸ hq)
      have := hoth6 q hq1 hq2 hq3
      show (s6.node q).map AstNode.next = (s1.node q).map AstNode.next
      rw [this]
    have hchain6 : isChain s6.sem (some s1.sem.nodes.length) (s1.sem.nodes.length :: args) =
        true := by
      have hN' : s6.sem.node s1.sem.nodes.length = _ := hN
      simp only [isChain, beq_self_eq_true, Bool.true_and, hN']
      exact hchain6a
    have hrunchain := symres_statement_chain_arguments E k
      (call :: s1.sem.nodes.length :: args) (s1.sem.nodes.length :: args) fuel
      (some s1.sem.nodes.length) (Trailer.arguments call) s6 s7 hchain6
      (fun a ha => List.mem_cons_of_mem _ ha) (by simpa using hfuel) hrun
    have heq := symres_call_field_access_eq E k fuel call fa recv0 recv s s1 c f f1 c1 rn
      hc hcallee hf hkind hexpr hrecv hf1 hkind1 hrn hnotpkg hc1 h1 h2
    have hframe := resolve_arguments_frame _ _ _ hrun
    have hcN : call ≠ s1.sem.nodes.length := by
      have := node_lt_length hc1
      omega
    have hcall7 : s7.node call = s6.node call :=
      (hframe call (List.mem_cons_self _ _)).2 (by
        intro hm
        rcases List.mem_cons.mp hm with e | hm
        · exact hcN e
        · exact hca hm)
    obtain ⟨n, v, r, sa, hn, _, hv, hr, hfr, hrest⟩ := resolve_arguments_cons hrun
    rw [hN] at hn
    have hnn := (Option.some.inj hn).symm
    subst hnn
    simp only [Option.some.injEq] at hv
    have hv' : v = recv := hv.symm
    subst hv'
    rw [hr] at hre
    simp only [Option.map_some', Option.some.injEq] at hre
    subst hre
    have hframe2 := resolve_arguments_frame _ _ _ hrest
    have hsaN : sa.node s1.sem.nodes.length = s6.node s1.sem.nodes.length :=
      hfr _ (List.mem_cons_of_mem _ (List.mem_cons_self _ _))
    have hN7 : s7.node s1.sem.nodes.length =
        some { kind := AstKind.Argument, value := some v, token := rn.token,
               next := c1.arguments } := by
      rw [(hframe2 _ (List.mem_cons_of_mem _ (List.mem_cons_self _ _))).2 hNargs]
      rw [symres_node_setNode_self _ (hsaN.trans hN)]
    refine ⟨by rw [heq, hprep]; exact hrunchain, _, _, hcall7.trans hcall6, rfl, ?_, ?_,
      hN7, rfl, rfl, hNargs⟩
    · show isChain s7.sem (some s1.sem.nodes.length) (s1.sem.nodes.length :: args) = true
      rw [← hchain6]
      apply isChain_congr
      intro q hq
      exact next_of_value_erased (hframe q (List.mem_cons_of_mem _ hq)).1
    · show c1.arg_count + 1 = args.length + 1
      rw [hcnt]
  · intro cal cp s1 s7 c1 cn args hcallee hres hc1 hcp hnf hne hargs hca hrun hfuel
    have heq := symres_call_plain_eq E k fuel call cal cp s s1 c c1 cn hc hcallee hres hc1
      hcp hnf hne
    have hcall2 : (s1.setNode call { c1 with callee := some cp }).node call =
        some { c1 with callee := some cp } := symres_node_setNode_self _ hc1
    have hchain2 : isChain (s1.setNode call { c1 with callee := some cp }).sem c1.arguments
        args = true := by
      rw [← hargs]
      apply isChain_congr
      intro q hq
      have hq1 : call ≠ q := fun e => hca (e ▸ hq)
      show ((s1.setNode call { c1 with callee := some cp }).node q).map AstNode.next = _
      rw [symres_node_setNode_ne _ hq1]
      rfl
    have hrunchain := symres_statement_chain_arguments E k (call :: args) args fuel
      c1.arguments (Trailer.arguments call) _ s7 hchain2
      (fun a ha => List.mem_cons_of_mem _ ha) hfuel hrun
    have hframe := resolve_arguments_frame _ _ _ hrun
    have hcall7 := (hframe call (List.mem_cons_self _ _)).2 hca
    refine ⟨by rw [heq]; exact hrunchain, _, hcall7.trans hcall2, rfl, ?_, rfl⟩
    show isChain s7.sem c1.arguments args = true
    rw [← hchain2]
    apply isChain_congr
    intro q hq
    exact next_of_value_erased (hframe q (List.mem_cons_of_mem _ hq)).1

/-- C17, witness: the method call `p.len(1)`, where `p` is a local, and the plain call
`len(1)`. -/
theorem symres_call_implicit_argument_witness :
    (symres_call sampleSymEnv (symres_expression sampleSymEnv 3)
        (symres_statement sampleSymEnv 3) 5 0 methodCallState = some methodCallResolved ∧
      ∃ c7 ia, methodCallResolved.node 0 = some c7 ∧
        c7.callee = (sampleSymEnv.symbol_resolve methodCallState.sem.scopes
          methodCallState.curr_scope { text := "len", pos := 81 }).1 ∧
        isChain methodCallResolved.sem c7.arguments [7, 4] = true ∧
        c7.arg_count = [4].length + 1 ∧
        methodCallResolved.node 7 = some ia ∧ ia.kind = AstKind.Argument ∧
        ia.value = some 3 ∧ 7 ∉ [4]) ∧
    (symres_call sampleSymEnv (symres_expression sampleSymEnv 3)
        (symres_statement sampleSymEnv 3) 5 0 plainCallState = some plainCallResolved ∧
      ∃ c7, plainCallResolved.node 0 = some c7 ∧ c7.callee = some 4 ∧
        isChain plainCallResolved.sem c7.arguments [2] = true ∧ c7.arg_count = 1) :=
  ⟨(symres_call_implicit_argument sampleSymEnv 2 5 0 methodCallState
      (methodCallState.sem.nodes.get ⟨0, by decide⟩) (by rfl)).1
      1 2 3 7 methodCallState methodCallPrepended.2 methodCallResolved
      (methodCallState.sem.nodes.get ⟨1, by decide⟩)
      (methodCallState.sem.nodes.get ⟨1, by decide⟩)
      (methodCallState.sem.nodes.get ⟨0, by decide⟩)
      (methodCallState.sem.nodes.get ⟨3, by decide⟩) [4]
      (by rfl) (by rfl) (by rfl) (by rfl) (by rfl) (by rfl) (by rfl) (by rfl) (by decide)
      (by rfl) (by decide) (by decide) (by decide) (by rfl) (by rfl) (by decide) (by decide)
      (by rfl) (by rfl) (by rfl) (by decide),
   (symres_call_implicit_argument sampleSymEnv 2 5 0 plainCallState
      (plainCallState.sem.nodes.get ⟨0, by decide⟩) (by rfl)).2
      1 4 plainCallState plainCallResolved
      (plainCallState.sem.nodes.get ⟨0, by decide⟩)
      (plainCallState.sem.nodes.get ⟨4, by decide⟩) [2]
      (by rfl) (by rfl) (by rfl) (by rfl) (by decide) (by decide) (by rfl) (by decide)
      (by rfl) (by decide)⟩

/-- C18, the code at the failing input: `onyx_resolve_symbols` run twice over the
function `f :: () { for i: 0, 10 { } }`.  After the first run the local list of `f` is
`[i]` and one scope binds `i`; the second run pushes `i` on the local list again and
binds it in one more scope, which `symres_for` has created anew. -/
theorem onyx_resolve_symbols_for_loop_twice :
    ∃ e1 s1 e2 s2,
      onyx_resolve_symbols sampleSymEnv 6 forLoopEntities forLoopState = some (e1, s1) ∧
      onyx_resolve_symbols sampleSymEnv 6 e1 s1 = some (e2, s2) ∧
      (s1.node 0).map AstNode.locals = some [some 3] ∧
      (s2.node 0).map AstNode.locals = some [some 3, some 3] ∧
      (all_bindings s1).flatten.count ("i", some 3) = 1 ∧
      (all_bindings s2).flatten.count ("i", some 3) = 2 ∧
      s2.sem.scopes.length = s1.sem.scopes.length + 1 ∧
      s1.sem.msgs = [] ∧ s2.sem.msgs = [] :=
  ⟨_, _, _, _, rfl, rfl, by rfl, by rfl, by decide, by decide, by rfl, by rfl, by rfl⟩

/-! ### `build_type_table` -/

theorem le_bytes_length (n v : Nat) : (le_bytes n v).length = n := by
  induction n generalizing v with
  | zero => rfl
  | succ n ih => simp [le_bytes, ih]

theorem from_le_le_bytes (n v : Nat) : from_le (le_bytes n v) = v % 256 ^ n := by
  induction n generalizing v with
  | zero => simp [le_bytes, from_le, Nat.mod_one]
  | succ n ih =>
    simp only [le_bytes, from_le, ih]
    rw [pow_succ, Nat.mul_comm (256 ^ n) 256, Nat.mod_mul]
    

theorem read_bytes_append (data suffix : List Nat) (pos n : Nat) (x : List Nat)
    (h : read_bytes data pos n = some x) : read_bytes (data ++ suffix) pos n = some x := by
  unfold read_bytes at h ⊢
  by_cases hle : pos + n ≤ data.length
  · rw [if_pos hle] at h
    have hle2 : pos + n ≤ (data ++ suffix).length := by
      rw [List.length_append]; omega
    rw [if_pos hle2, ← Option.some.inj h]
    congr 1
    rw [List.drop_append_of_le_length (by omega), List.take_append_of_le_length]
    rw [List.length_drop]; omega
  · rw [if_neg hle] at h
    cases h

theorem read_bytes_at (a b c : List Nat) : read_bytes (a ++ b ++ c) a.length b.length = some b := by
  unfold read_bytes
  rw [if_pos (by simp)]
  simp [List.append_assoc]

theorem read_bytes_at_pos (a b c : List Nat) (pos n : Nat) (hp : pos = a.length)
    (hn : n = b.length) : read_bytes (a ++ b ++ c) pos n = some b := by
  subst hp; subst hn; exact read_bytes_at a b c

theorem read_bytes_lt (data : List Nat) (pos n : Nat) (x : List Nat)
    (h : read_bytes data pos n = some x) : pos + n ≤ data.length := by
  unfold read_bytes at h
  by_cases hle : pos + n ≤ data.length
  · exact hle
  · rw [if_neg hle] at h
    cases h

theorem grows_refl (st : TableBuffer) : Grows st st := ⟨⟨[], by simp⟩, rfl⟩

theorem grows_trans {a b c : TableBuffer} (h1 : Grows a b) (h2 : Grows b c) : Grows a c := by
  obtain ⟨⟨s1, e1⟩, i1⟩ := h1
  obtain ⟨⟨s2, e2⟩, i2⟩ := h2
  exact ⟨⟨s1 ++ s2, by rw [e2, e1, List.append_assoc]⟩, i2.trans i1⟩

theorem grows_append (st : TableBuffer) (bytes : List Nat) : Grows st (bh_buffer_append st bytes) :=
  ⟨⟨bytes, rfl⟩, rfl⟩

theorem grows_write_u32 (st : TableBuffer) (v : Nat) : Grows st (bh_buffer_write_u32 st v) :=
  grows_append st _

theorem grows_write_u64 (st : TableBuffer) (v : Nat) : Grows st (bh_buffer_write_u64 st v) :=
  grows_append st _

theorem grows_write_byte (st : TableBuffer) (v : Nat) : Grows st (bh_buffer_write_byte st v) :=
  grows_append st _

theorem grows_align (st : TableBuffer) (a : Nat) : Grows st (bh_buffer_align st a) :=
  grows_append st _

theorem grows_emit_constexpr_ (st : TableBuffer) (size : Nat) (bytes : List Nat) :
    Grows st (emit_constexpr_ st size bytes) :=
  grows_append st _

theorem grows_PATCH (st : TableBuffer) : Grows st (PATCH st) := ⟨⟨[], by simp [PATCH]⟩, rfl⟩

theorem grows_WRITE_PTR (E : TableEnv) (st : TableBuffer) (val : Nat) :
    Grows st (WRITE_PTR E st val) := by
  simp only [WRITE_PTR]
  have h1 := grows_trans (grows_align st E.POINTER_SIZE) (grows_PATCH _)
  split_ifs
  · exact grows_trans h1 (grows_trans (grows_write_u32 _ _) (grows_write_u64 _ _))
  · exact grows_trans h1 (grows_write_u64 _ _)
  · exact grows_trans h1 (grows_write_u32 _ _)
  · exact h1

theorem grows_WRITE_SLICE (E : TableEnv) (st : TableBuffer) (ptr count : Nat) :
    Grows st (WRITE_SLICE E st ptr count) := by
  simp only [WRITE_SLICE]
  have h1 := grows_WRITE_PTR E st ptr
  split_ifs
  · exact grows_trans h1 (grows_trans (grows_write_u32 _ _) (grows_write_u64 _ _))
  · exact grows_trans h1 (grows_write_u64 _ _)
  · exact grows_trans h1 (grows_write_u32 _ _)
  · exact h1

theorem grows_write_type_ids (ids : List Nat) (st : TableBuffer) :
    Grows st (write_type_ids ids st) := by
  induction ids generalizing st with
  | nil => exact grows_refl st
  | cons a rest ih => exact grows_trans (grows_write_u32 st a) (ih _)

theorem grows_enum_value_names (values : List AstEnumValue) (i : Nat) (locs : List Nat)
    (st : TableBuffer) : Grows st (enum_value_names values i locs st).2 := by
  induction values generalizing i locs st with
  | nil => exact grows_refl st
  | cons a rest ih => exact grows_trans (grows_append st _) (ih _ _ _)

theorem grows_enum_value_records (E : TableEnv) (values : List AstEnumValue) (i : Nat)
    (locs : List Nat) (st : TableBuffer) (h : values.all (fun v => v.is_numlit) = true) :
    ∃ st', enum_value_records E values i locs st = some st' ∧ Grows st st' := by
  induction values generalizing i st with
  | nil => exact ⟨st, rfl, grows_refl st⟩
  | cons a rest ih =>
    simp only [List.all_cons, Bool.and_eq_true] at h
    obtain ⟨st', e, g⟩ := ih (i + 1)
      (bh_buffer_write_u64 (WRITE_SLICE E (bh_buffer_align st 8) (locs.getD i 0)
        a.token_text.length) a.value_l) h.2
    refine ⟨st', ?_, ?_⟩
    · simp only [enum_value_records, h.1, if_true]
      exact e
    · exact grows_trans (grows_align st 8) (grows_trans (grows_WRITE_SLICE _ _ _ _)
        (grows_trans (grows_write_u64 _ _) g))

theorem grows_tag_payloads (conv : Nat → Nat) (tags : List AstTyped) (j : Nat) (locs : List Nat)
    (st : TableBuffer) (h : tags.all tagOk = true) :
    ∃ r, tag_payloads conv tags j locs st = some r ∧ Grows st r.2 := by
  induction tags generalizing j locs st with
  | nil => exact ⟨(locs, st), rfl, grows_refl st⟩
  | cons a rest ih =>
    simp only [List.all_cons, Bool.and_eq_true, tagOk] at h
    obtain ⟨⟨⟨hc, ht⟩, hx⟩, hrest⟩ := h
    obtain ⟨t, ht⟩ := Option.isSome_iff_exists.mp ht
    obtain ⟨bytes, hx⟩ := Option.isSome_iff_exists.mp hx
    obtain ⟨r, e, g⟩ := ih (j + 1) (locs.set j (conv (bh_buffer_align st t.alignment).buffer.length))
      (emit_constexpr_ (bh_buffer_align st t.alignment) t.size bytes) (by simpa [tagOk] using hrest)
    refine ⟨r, ?_, ?_⟩
    · simp only [tag_payloads, hc, if_true, ht, hx]
      exact e
    · exact grows_trans (grows_align st _) (grows_trans (grows_emit_constexpr_ _ _ _) g)

theorem grows_tag_slices (E : TableEnv) (tags : List AstTyped) (locs : List Nat) (k n : Nat)
    (st : TableBuffer) (hn : k + n ≤ tags.length)
    (h : tags.all (fun v => v.type_.isSome) = true) :
    ∃ st', tag_slices E tags locs k n st = some st' ∧ Grows st st' := by
  induction n generalizing k st with
  | zero => exact ⟨st, rfl, grows_refl st⟩
  | succ n ih =>
    have hk : k < tags.length := by omega
    have hget : tags.get? k = some (tags.get ⟨k, hk⟩) := List.get?_eq_get hk
    have hty := (List.all_eq_true.mp h) _ (List.get_mem tags k hk)
    obtain ⟨t, ht⟩ := Option.isSome_iff_exists.mp hty
    obtain ⟨st', e, g⟩ := ih (k + 1) (WRITE_SLICE E st (locs.getD k 0) t.id) (by omega)
    refine ⟨st', ?_, grows_trans (grows_WRITE_SLICE _ _ _ _) g⟩
    simp only [tag_slices, hget, ht]
    exact e

theorem tagOk_typed (tags : List AstTyped) (h : tags.all tagOk = true) :
    tags.all (fun v => v.type_.isSome) = true := by
  rw [List.all_eq_true] at h ⊢
  intro v hv
  have := h v hv
  simp only [tagOk, Bool.and_eq_true] at this
  exact this.1.2

theorem grows_polystruct_tag_payloads (tags : List AstTyped) (i tags_count : Nat)
    (locs : List Nat) (st : TableBuffer)
    (h : tags.all (fun v => v.type_.isSome && (!v.comptime || v.constexpr.isSome)) = true) :
    ∃ r, polystruct_tag_payloads tags i tags_count locs st = some r ∧ Grows st r.2.2 ∧
      r.1 ≤ tags_count := by
  induction tags generalizing i tags_count locs st with
  | nil => exact ⟨(tags_count, locs, st), rfl, grows_refl st, le_refl _⟩
  | cons a rest ih =>
    simp only [List.all_cons, Bool.and_eq_true] at h
    obtain ⟨⟨ht, hx⟩, hrest⟩ := h
    obtain ⟨t, ht⟩ := Option.isSome_iff_exists.mp ht
    by_cases hc : a.comptime = true
    · have hx' : a.constexpr.isSome = true := by simpa [hc] using hx
      obtain ⟨bytes, hx'⟩ := Option.isSome_iff_exists.mp hx'
      obtain ⟨r, e, g, hle⟩ := ih (i + 1) tags_count
        (locs.set i (u32 (bh_buffer_align st t.alignment).buffer.length))
        (emit_constexpr_ (bh_buffer_align st t.alignment) t.size bytes) (by simpa using hrest)
      refine ⟨r, ?_, ?_, hle⟩
      · simp only [polystruct_tag_payloads, hc, if_true, ht, hx']
        exact e
      · exact grows_trans (grows_align st _) (grows_trans (grows_emit_constexpr_ _ _ _) g)
    · obtain ⟨r, e, g, hle⟩ := ih i (tags_count - 1) locs st (by simpa using hrest)
      refine ⟨r, ?_, g, by omega⟩
      simp only [polystruct_tag_payloads, hc]
      exact e

theorem grows_struct_member_names (ms : List StructMember) (i : Nat) (locs : List Nat)
    (st : TableBuffer) : Grows st (struct_member_names ms i locs st).2 := by
  induction ms generalizing i locs st with
  | nil => exact grows_refl st
  | cons a rest ih => exact grows_trans (grows_append st _) (ih _ _ _)

theorem grows_struct_poly_solutions (slns : List AstPolySolution) (i : Nat) (locs : List Nat)
    (st : TableBuffer)
    (h : slns.all (fun sln =>
      sln.kind = .PSK_Type || (sln.value.bind (fun value => value.type_)).isSome) = true) :
    ∃ r, struct_poly_solutions slns i locs st = some r ∧ Grows st r.2 := by
  induction slns generalizing i locs st with
  | nil => exact ⟨(locs, st), rfl, grows_refl st⟩
  | cons a rest ih =>
    simp only [List.all_cons, Bool.and_eq_true] at h
    obtain ⟨ha, hrest⟩ := h
    have hrest' : rest.all (fun sln =>
      sln.kind = .PSK_Type || (sln.value.bind (fun value => value.type_)).isSome) = true := by
      simpa using hrest
    have g0 := grows_align st 8
    cases hk : a.kind with
    | PSK_Type =>
      obtain ⟨r, e, g⟩ := ih (i + 1) (locs.set i (u32 (bh_buffer_align st 8).buffer.length))
        (bh_buffer_append (bh_buffer_align st 8) (le_bytes 4 a.type_id)) hrest'
      refine ⟨r, ?_, grows_trans g0 (grows_trans (grows_append _ _) g)⟩
      simp only [struct_poly_solutions, hk]
      exact e
    | PSK_Undefined =>
      obtain ⟨r, e, g⟩ := ih (i + 1)
        ((locs.set i (u32 (bh_buffer_align st 8).buffer.length)).set i 0)
        (bh_buffer_align st 8) hrest'
      refine ⟨r, ?_, grows_trans g0 g⟩
      simp only [struct_poly_solutions, hk]
      exact e
    | PSK_Value =>
      have hv : (a.value.bind (fun value => value.type_)).isSome = true := by
        simpa [hk] using ha
      obtain ⟨t, ht⟩ := Option.isSome_iff_exists.mp hv
      obtain ⟨value, hval, hty⟩ := Option.bind_eq_some.mp ht
      cases hx : value.constexpr with
      | none =>
        obtain ⟨r, e, g⟩ := ih (i + 1)
          ((locs.set i (u32 (bh_buffer_align st 8).buffer.length)).set i 0)
          (bh_buffer_align st 8) hrest'
        refine ⟨r, ?_, grows_trans g0 g⟩
        simp only [struct_poly_solutions, hk, hval, hty, hx]
        exact e
      | some bytes =>
        obtain ⟨r, e, g⟩ := ih (i + 1) (locs.set i (u32 (bh_buffer_align st 8).buffer.length))
          (emit_constexpr_ (bh_buffer_align st 8) t.size bytes) hrest'
        refine ⟨r, ?_, grows_trans g0 (grows_trans (grows_emit_constexpr_ _ _ _) g)⟩
        simp only [struct_poly_solutions, hk, hval, hty, hx]
        exact e

theorem grows_struct_default_values (ms : List StructMember) (i : Nat) (locs : List Nat)
    (st : TableBuffer)
    (h : ms.all (fun mem => match mem.initial_value with
      | some value => value.type_.isSome
      | none => true) = true) :
    ∃ r, struct_default_values ms i locs st = some r ∧ Grows st r.2 := by
  induction ms generalizing i locs st with
  | nil => exact ⟨(locs, st), rfl, grows_refl st⟩
  | cons a rest ih =>
    simp only [List.all_cons, Bool.and_eq_true] at h
    obtain ⟨ha, hrest⟩ := h
    cases hv : a.initial_value with
    | none =>
      obtain ⟨r, e, g⟩ := ih (i + 1) locs st hrest
      refine ⟨r, ?_, g⟩
      simp only [struct_default_values, hv]
      exact e
    | some value =>
      rw [hv] at ha
      obtain ⟨t, ht⟩ := Option.isSome_iff_exists.mp ha
      by_cases hc : value.comptime = true
      · cases hx : value.constexpr with
        | none =>
          obtain ⟨r, e, g⟩ := ih (i + 1) (locs.set i 0) (bh_buffer_align st t.alignment) hrest
          refine ⟨r, ?_, grows_trans (grows_align st _) g⟩
          simp only [struct_default_values, hv, ht, hc, if_true, hx]
          exact e
        | some bytes =>
          obtain ⟨r, e, g⟩ := ih (i + 1)
            (locs.set i (u32 (bh_buffer_align st t.alignment).buffer.length))
            (emit_constexpr_ (bh_buffer_align st t.alignment) t.size bytes) hrest
          refine ⟨r, ?_, grows_trans (grows_align st _)
            (grows_trans (grows_emit_constexpr_ _ _ _) g)⟩
          simp only [struct_default_values, hv, ht, hc, if_true, hx]
          exact e
      · obtain ⟨r, e, g⟩ := ih (i + 1) locs st hrest
        refine ⟨r, ?_, g⟩
        simp only [struct_default_values, hv, ht, hc]
        exact e

theorem grows_struct_member_tags (E : TableEnv) (ms : List StructMember) (i : Nat)
    (locs : List Nat) (st : TableBuffer)
    (h : ms.all (fun mem => match mem.meta_tags with
      | some tags => tags.all tagOk
      | none => true) = true) :
    ∃ r, struct_member_tags E ms i locs st = some r ∧ Grows st r.2 := by
  induction ms generalizing i locs st with
  | nil => exact ⟨(locs, st), rfl, grows_refl st⟩
  | cons a rest ih =>
    simp only [List.all_cons, Bool.and_eq_true] at h
    obtain ⟨ha, hrest⟩ := h
    cases hv : a.meta_tags with
    | none =>
      obtain ⟨r, e, g⟩ := ih (i + 1) locs st hrest
      refine ⟨r, ?_, g⟩
      simp only [struct_member_tags, hv]
      exact e
    | some tags =>
      rw [hv] at ha
      obtain ⟨r1, e1, g1⟩ := grows_tag_payloads u64 tags 0 (List.replicate tags.length 0) st ha
      obtain ⟨s2, e2, g2⟩ := grows_tag_slices E tags r1.1 0 tags.length
        (bh_buffer_align r1.2 8) (by omega) (tagOk_typed tags ha)
      obtain ⟨r, e, g⟩ := ih (i + 1)
        (locs.set i (u32 (bh_buffer_align r1.2 8).buffer.length)) s2 hrest
      refine ⟨r, ?_, grows_trans g1 (grows_trans (grows_align _ _) (grows_trans g2 g))⟩
      simp only [struct_member_tags, hv, e1, e2]
      exact e

theorem grows_struct_member_array (E : TableEnv) (nl vl ml : List Nat) (ms : List StructMember)
    (i : Nat) (st : TableBuffer) : Grows st (struct_member_array E nl vl ml ms i st) := by
  induction ms generalizing i st with
  | nil => exact grows_refl st
  | cons a rest ih =>
    exact grows_trans (grows_WRITE_SLICE _ _ _ _) (grows_trans (grows_write_u32 _ _)
      (grows_trans (grows_write_u32 _ _) (grows_trans (grows_write_byte _ _)
      (grows_trans (grows_WRITE_PTR _ _ _) (grows_trans (grows_WRITE_SLICE _ _ _ _) (ih _ _))))))

theorem grows_struct_poly_array (E : TableEnv) (locs : List Nat) (slns : List AstPolySolution)
    (i : Nat) (st : TableBuffer)
    (h : slns.all (fun sln =>
      sln.kind = .PSK_Type || (sln.value.bind (fun value => value.type_)).isSome) = true) :
    ∃ st', struct_poly_array E locs slns i st = some st' ∧ Grows st st' := by
  induction slns generalizing i st with
  | nil => exact ⟨st, rfl, grows_refl st⟩
  | cons a rest ih =>
    simp only [List.all_cons, Bool.and_eq_true] at h
    obtain ⟨ha, hrest⟩ := h
    have hrest' : rest.all (fun sln =>
      sln.kind = .PSK_Type || (sln.value.bind (fun value => value.type_)).isSome) = true := by
      simpa using hrest
    by_cases hk : a.kind = .PSK_Type
    · obtain ⟨r, e, g⟩ := ih (i + 1)
        (bh_buffer_write_u32 (WRITE_PTR E st (locs.getD i 0)) E.Type_Index_id) hrest'
      refine ⟨r, ?_, grows_trans (grows_WRITE_PTR _ _ _) (grows_trans (grows_write_u32 _ _) g)⟩
      simp only [struct_poly_array, hk, if_true]
      exact e
    · have hv : (a.value.bind (fun value => value.type_)).isSome = true := by
        simpa [hk] using ha
      obtain ⟨t, ht⟩ := Option.isSome_iff_exists.mp hv
      obtain ⟨r, e, g⟩ := ih (i + 1)
        (bh_buffer_write_u32 (WRITE_PTR E st (locs.getD i 0)) t.id) hrest'
      refine ⟨r, ?_, grows_trans (grows_WRITE_PTR _ _ _) (grows_trans (grows_write_u32 _ _) g)⟩
      simp only [struct_poly_array, hk, if_false, ht]
      exact e

theorem grows_struct_methods (symbols : List MethodSymbol) (md : List StructMethodData)
    (st : TableBuffer) (h : symbols.all (fun s => !s.is_function || s.entity_ok) = true) :
    ∃ r, struct_methods symbols md st = some r ∧ Grows st r.2 := by
  induction symbols generalizing md st with
  | nil => exact ⟨(md, st), rfl, grows_refl st⟩
  | cons a rest ih =>
    simp only [List.all_cons, Bool.and_eq_true] at h
    obtain ⟨ha, hrest⟩ := h
    by_cases hf : a.is_function = true
    · have he : a.entity_ok = true := by simpa [hf] using ha
      obtain ⟨r, e, g⟩ := ih
        (md ++ [⟨u32 st.buffer.length, u32 a.key.length, a.type_id,
          u32 (bh_buffer_align (bh_buffer_append st a.key) 4).buffer.length⟩])
        (bh_buffer_write_u32 (bh_buffer_align (bh_buffer_append st a.key) 4) a.func_idx) hrest
      refine ⟨r, ?_, grows_trans (grows_append _ _) (grows_trans (grows_align _ _)
        (grows_trans (grows_write_u32 _ _) g))⟩
      simp only [struct_methods, hf, he, if_true]
      exact e
    · obtain ⟨r, e, g⟩ := ih md st hrest
      refine ⟨r, ?_, g⟩
      simp only [struct_methods, hf]
      exact e

theorem grows_struct_method_array (E : TableEnv) (md : List StructMethodData) (st : TableBuffer) :
    Grows st (struct_method_array E md st) := by
  induction md generalizing st with
  | nil => exact grows_refl st
  | cons a rest ih =>
    exact grows_trans (grows_WRITE_SLICE _ _ _ _) (grows_trans (grows_WRITE_PTR _ _ _)
      (grows_trans (grows_write_u32 _ _) (ih _)))

theorem getD_set_self (l : List Nat) (i v : Nat) (h : i < l.length) :
    (l.set i v).getD i 0 = v := by
  simp [List.getD_eq_getElem?_getD, List.getElem?_set, h]

theorem getD_set_ne (l : List Nat) (i k v : Nat) (h : i ≠ k) :
    (l.set i v).getD k 0 = l.getD k 0 := by
  simp [List.getD_eq_getElem?_getD, List.getElem?_set, h]

theorem read_bytes_mid (data a b c : List Nat) (pos n : Nat) (hd : data = a ++ b ++ c)
    (hp : pos = a.length) (hn : n = b.length) : read_bytes data pos n = some b := by
  subst hd; subst hp; subst hn
  exact read_bytes_at a b c

theorem read_u32_mid (data a c : List Nat) (pos v : Nat) (hd : data = a ++ le_bytes 4 v ++ c)
    (hp : pos = a.length) : read_u32 data pos = some (u32 v) := by
  unfold read_u32
  rw [read_bytes_mid data a (le_bytes 4 v) c pos 4 hd hp (le_bytes_length 4 v).symm]
  simp [from_le_le_bytes, u32]

theorem read_ptr_mid (E : TableEnv) (data a c : List Nat) (pos v : Nat)
    (hd : data = a ++ le_bytes E.POINTER_SIZE v ++ c) (hp : pos = a.length) :
    read_ptr E data pos = some (v % 256 ^ E.POINTER_SIZE) := by
  unfold read_ptr
  rw [read_bytes_mid data a (le_bytes E.POINTER_SIZE v) c pos E.POINTER_SIZE hd hp
    (le_bytes_length _ v).symm]
  simp [from_le_le_bytes]

theorem read_u32_append (data suffix : List Nat) (pos x : Nat) (h : read_u32 data pos = some x) :
    read_u32 (data ++ suffix) pos = some x := by
  unfold read_u32 at h ⊢
  obtain ⟨b, hb, hx⟩ := Option.map_eq_some'.mp h
  rw [read_bytes_append data suffix pos 4 b hb]
  simp [hx]

theorem read_ptr_append (E : TableEnv) (data suffix : List Nat) (pos x : Nat)
    (h : read_ptr E data pos = some x) : read_ptr E (data ++ suffix) pos = some x := by
  unfold read_ptr at h ⊢
  obtain ⟨b, hb, hx⟩ := Option.map_eq_some'.mp h
  rw [read_bytes_append data suffix pos _ b hb]
  simp [hx]

theorem membersAt_append (E : TableEnv) (type : OnyxType) (data suffix : List Nat) (pos : Nat)
    (h : MembersAt E type data pos) : MembersAt E type (data ++ suffix) pos := by
  obtain ⟨base, hle, h1, h2, h3⟩ := h
  refine ⟨base, by rw [List.length_append]; omega, read_ptr_append _ _ _ _ _ h1,
    read_ptr_append _ _ _ _ _ h2, ?_⟩
  intro j hj
  obtain ⟨p, a1, a2, a3, a4, a5⟩ := h3 j hj
  exact ⟨p, read_ptr_append _ _ _ _ _ a1, read_ptr_append _ _ _ _ _ a2,
    read_bytes_append _ _ _ _ _ a3, read_u32_append _ _ _ _ a4, read_u32_append _ _ _ _ a5⟩

theorem recordAt_append (E : TableEnv) (type : OnyxType) (data suffix : List Nat) (pos : Nat)
    (h : RecordAt E type data pos) : RecordAt E type (data ++ suffix) pos :=
  ⟨read_bytes_append _ _ _ _ _ h.1, fun hk hm => membersAt_append _ _ _ _ _ (h.2 hk hm)⟩

theorem WRITE_PTR_buffer (E : TableEnv) (hps : E.POINTER_SIZE = 4 ∨ E.POINTER_SIZE = 8)
    (st : TableBuffer) (v : Nat) :
    (WRITE_PTR E st v).buffer = st.buffer ++
      List.replicate ((E.POINTER_SIZE - st.buffer.length % E.POINTER_SIZE) % E.POINTER_SIZE) 0 ++
      le_bytes E.POINTER_SIZE v := by
  rcases hps with h | h <;>
    simp [WRITE_PTR, h, PATCH, bh_buffer_align, bh_buffer_write_u32, bh_buffer_write_u64,
      bh_buffer_append]

theorem WRITE_PTR_aligned (E : TableEnv) (hps : E.POINTER_SIZE = 4 ∨ E.POINTER_SIZE = 8)
    (st : TableBuffer) (v : Nat) (hal : st.buffer.length % E.POINTER_SIZE = 0) :
    (WRITE_PTR E st v).buffer = st.buffer ++ le_bytes E.POINTER_SIZE v := by
  rw [WRITE_PTR_buffer E hps, hal]
  simp

theorem WRITE_SLICE_buffer (E : TableEnv) (hps : E.POINTER_SIZE = 4 ∨ E.POINTER_SIZE = 8)
    (st : TableBuffer) (p c : Nat) :
    (WRITE_SLICE E st p c).buffer = (WRITE_PTR E st p).buffer ++ le_bytes E.POINTER_SIZE c := by
  rcases hps with h | h <;>
    simp [WRITE_SLICE, h, bh_buffer_write_u32, bh_buffer_write_u64, bh_buffer_append]

theorem WRITE_SLICE_aligned (E : TableEnv) (hps : E.POINTER_SIZE = 4 ∨ E.POINTER_SIZE = 8)
    (st : TableBuffer) (p c : Nat) (hal : st.buffer.length % E.POINTER_SIZE = 0) :
    (WRITE_SLICE E st p c).buffer =
      st.buffer ++ le_bytes E.POINTER_SIZE p ++ le_bytes E.POINTER_SIZE c := by
  rw [WRITE_SLICE_buffer E hps, WRITE_PTR_aligned E hps st p hal]

theorem bh_buffer_align_length (st : TableBuffer) (a : Nat) (ha : 0 < a) :
    (bh_buffer_align st a).buffer.length % a = 0 := by
  simp only [bh_buffer_align, bh_buffer_append, List.length_append, List.length_replicate]
  by_cases h0 : st.buffer.length % a = 0
  · rw [h0]; simp [h0]
  · have hlt : st.buffer.length % a < a := Nat.mod_lt _ ha
    rw [Nat.mod_eq_of_lt (by omega : a - st.buffer.length % a < a)]
    have hdm := Nat.div_add_mod st.buffer.length a
    have : st.buffer.length + (a - st.buffer.length % a) = a * (st.buffer.length / a + 1) := by
      rw [Nat.mul_add]; omega
    rw [this]
    exact Nat.mul_mod_right _ _

theorem struct_member_names_spec (ms : List StructMember) (i : Nat) (locs : List Nat)
    (st : TableBuffer) (hlen : i + ms.length ≤ locs.length) :
    (∀ k, k < i → (struct_member_names ms i locs st).1.getD k 0 = locs.getD k 0) ∧
    ∀ j (hj : j < ms.length), ∃ p,
      (struct_member_names ms i locs st).1.getD (i + j) 0 = u32 p ∧
      read_bytes (struct_member_names ms i locs st).2.buffer p (ms.get ⟨j, hj⟩).name.length =
        some (ms.get ⟨j, hj⟩).name := by
  induction ms generalizing i locs st with
  | nil =>
    refine ⟨fun k _ => rfl, ?_⟩
    intro j hj
    exact absurd hj (Nat.not_lt_zero j)
  | cons a rest ih =>
    simp only [List.length_cons] at hlen
    have ih' := ih (i + 1) (locs.set i (u32 st.buffer.length)) (bh_buffer_append st a.name)
      (by rw [List.length_set]; omega)
    obtain ⟨hpre, hnames⟩ := ih'
    have hg := grows_struct_member_names rest (i + 1) (locs.set i (u32 st.buffer.length))
      (bh_buffer_append st a.name)
    obtain ⟨⟨suf, hsuf⟩, _⟩ := hg
    refine ⟨?_, ?_⟩
    · intro k hk
      simp only [struct_member_names]
      rw [hpre k (by omega), getD_set_ne _ _ _ _ (by omega)]
    · intro j hj
      simp only [struct_member_names]
      cases j with
      | zero =>
        refine ⟨st.buffer.length, ?_, ?_⟩
        · have h0 := hpre i (by omega)
          rw [getD_set_self _ _ _ (by omega)] at h0
          exact h0
        · rw [hsuf]
          exact read_bytes_mid _ st.buffer a.name suf _ _ rfl rfl rfl
      | succ j =>
        obtain ⟨p, hp1, hp2⟩ := hnames j (by simpa using hj)
        refine ⟨p, ?_, ?_⟩
        · rw [← hp1]; congr 1; omega
        · exact hp2

theorem member_record_buffer (E : TableEnv) (hps : E.POINTER_SIZE = 4 ∨ E.POINTER_SIZE = 8)
    (st : TableBuffer) (hal : st.buffer.length % E.POINTER_SIZE = 0)
    (nl len off ty used vl ml cnt : Nat) :
    ∃ rest, rest.length = 4 * E.POINTER_SIZE ∧
      (WRITE_SLICE E (WRITE_PTR E (bh_buffer_write_byte (bh_buffer_write_u32
        (bh_buffer_write_u32 (WRITE_SLICE E st nl len) off) ty) used) vl) ml cnt).buffer =
      st.buffer ++ le_bytes E.POINTER_SIZE nl ++ le_bytes E.POINTER_SIZE len ++
        le_bytes 4 off ++ le_bytes 4 ty ++ rest := by
  have h1 := WRITE_SLICE_aligned E hps st nl len hal
  have h4 : (bh_buffer_write_byte (bh_buffer_write_u32
      (bh_buffer_write_u32 (WRITE_SLICE E st nl len) off) ty) used).buffer =
      st.buffer ++ le_bytes E.POINTER_SIZE nl ++ le_bytes E.POINTER_SIZE len ++
        le_bytes 4 off ++ le_bytes 4 ty ++ [used % 256] := by
    simp [bh_buffer_write_byte, bh_buffer_write_u32, bh_buffer_append, h1]
  have h4l : (bh_buffer_write_byte (bh_buffer_write_u32
      (bh_buffer_write_u32 (WRITE_SLICE E st nl len) off) ty) used).buffer.length =
      st.buffer.length + 2 * E.POINTER_SIZE + 9 := by
    rw [h4]; simp [le_bytes_length]; omega
  have h5 := WRITE_PTR_buffer E hps (bh_buffer_write_byte (bh_buffer_write_u32
      (bh_buffer_write_u32 (WRITE_SLICE E st nl len) off) ty) used) vl
  have hpad : (E.POINTER_SIZE - (st.buffer.length + 2 * E.POINTER_SIZE + 9) % E.POINTER_SIZE)
      % E.POINTER_SIZE = E.POINTER_SIZE - 1 := by
    rcases hps with h | h <;> rw [h] at hal ⊢ <;> omega
  rw [h4l, hpad, h4] at h5
  have h5l : (WRITE_PTR E (bh_buffer_write_byte (bh_buffer_write_u32
      (bh_buffer_write_u32 (WRITE_SLICE E st nl len) off) ty) used) vl).buffer.length %
      E.POINTER_SIZE = 0 := by
    rw [h5]
    simp only [List.length_append, le_bytes_length, List.length_replicate, List.length_singleton]
    rcases hps with h | h <;> rw [h] at hal ⊢ <;> omega
  have h6 := WRITE_SLICE_aligned E hps _ ml cnt h5l
  rw [h5] at h6
  refine ⟨[used % 256] ++ List.replicate (E.POINTER_SIZE - 1) 0 ++ le_bytes E.POINTER_SIZE vl ++
    le_bytes E.POINTER_SIZE ml ++ le_bytes E.POINTER_SIZE cnt, ?_, ?_⟩
  · simp only [List.length_append, le_bytes_length, List.length_replicate, List.length_singleton]
    rcases hps with h | h <;> rw [h]
  · rw [h6]
    simp only [List.append_assoc]

theorem member_record_size_eq (E : TableEnv) (hps : E.POINTER_SIZE = 4 ∨ E.POINTER_SIZE = 8) :
    member_record_size E = 6 * E.POINTER_SIZE + 8 := by
  rcases hps with h | h <;> simp [member_record_size, h]

theorem struct_member_array_spec (E : TableEnv) (hps : E.POINTER_SIZE = 4 ∨ E.POINTER_SIZE = 8)
    (nl vl ml : List Nat) (ms : List StructMember) (i : Nat) (st : TableBuffer)
    (hal : st.buffer.length % E.POINTER_SIZE = 0) :
    (struct_member_array E nl vl ml ms i st).buffer.length =
      st.buffer.length + ms.length * member_record_size E ∧
    ∀ j (hj : j < ms.length),
      read_ptr E (struct_member_array E nl vl ml ms i st).buffer
          (st.buffer.length + j * member_record_size E) =
        some (nl.getD (i + j) 0 % 256 ^ E.POINTER_SIZE) ∧
      read_ptr E (struct_member_array E nl vl ml ms i st).buffer
          (st.buffer.length + j * member_record_size E + E.POINTER_SIZE) =
        some ((ms.get ⟨j, hj⟩).name.length % 256 ^ E.POINTER_SIZE) ∧
      read_u32 (struct_member_array E nl vl ml ms i st).buffer
          (st.buffer.length + j * member_record_size E + 2 * E.POINTER_SIZE) =
        some (u32 (ms.get ⟨j, hj⟩).offset) ∧
      read_u32 (struct_member_array E nl vl ml ms i st).buffer
          (st.buffer.length + j * member_record_size E + 2 * E.POINTER_SIZE + 4) =
        some (u32 (ms.get ⟨j, hj⟩).type_id) := by
  induction ms generalizing i st with
  | nil =>
    refine ⟨by simp [struct_member_array], ?_⟩
    intro j hj
    exact absurd hj (Nat.not_lt_zero j)
  | cons a rest ih =>
    obtain ⟨tl, htl, hrec⟩ := member_record_buffer E hps st hal (nl.getD i 0) a.name.length
      a.offset a.type_id (if a.used then 1 else 0) (vl.getD i 0) (ml.getD i 0)
      (a.meta_tags.getD []).length
    have hsz := member_record_size_eq E hps
    have h1l : (WRITE_SLICE E (WRITE_PTR E (bh_buffer_write_byte (bh_buffer_write_u32
        (bh_buffer_write_u32 (WRITE_SLICE E st (nl.getD i 0) a.name.length) a.offset) a.type_id)
        (if a.used then 1 else 0)) (vl.getD i 0)) (ml.getD i 0)
        (a.meta_tags.getD []).length).buffer.length =
        st.buffer.length + member_record_size E := by
      rw [hrec, hsz]
      simp only [List.length_append, le_bytes_length, htl]
      omega
    have hal1 : (WRITE_SLICE E (WRITE_PTR E (bh_buffer_write_byte (bh_buffer_write_u32
        (bh_buffer_write_u32 (WRITE_SLICE E st (nl.getD i 0) a.name.length) a.offset) a.type_id)
        (if a.used then 1 else 0)) (vl.getD i 0)) (ml.getD i 0)
        (a.meta_tags.getD []).length).buffer.length % E.POINTER_SIZE = 0 := by
      rw [h1l, hsz]
      rcases hps with h | h <;> rw [h] at hal ⊢ <;> omega
    obtain ⟨ihl, ihr⟩ := ih (i + 1) _ hal1
    obtain ⟨⟨suf, hsuf⟩, _⟩ := grows_struct_member_array E nl vl ml rest (i + 1)
      (WRITE_SLICE E (WRITE_PTR E (bh_buffer_write_byte (bh_buffer_write_u32
        (bh_buffer_write_u32 (WRITE_SLICE E st (nl.getD i 0) a.name.length) a.offset) a.type_id)
        (if a.used then 1 else 0)) (vl.getD i 0)) (ml.getD i 0)
        (a.meta_tags.getD []).length)
    simp only [struct_member_array]
    refine ⟨?_, ?_⟩
    · rw [ihl, h1l, List.length_cons]
      ring
    · intro j hj
      cases j with
      | zero =>
        have h0 : (a :: rest).get ⟨0, hj⟩ = a := rfl
        simp only [Nat.zero_mul, Nat.add_zero, h0]
        rw [hsuf, hrec]
        refine ⟨?_, ?_, ?_, ?_⟩
        · exact read_ptr_mid E _ st.buffer
            (le_bytes E.POINTER_SIZE a.name.length ++ le_bytes 4 a.offset ++
              le_bytes 4 a.type_id ++ tl ++ suf) _ _ (by simp only [List.append_assoc]) rfl
        · exact read_ptr_mid E _ (st.buffer ++ le_bytes E.POINTER_SIZE (nl.getD i 0))
            (le_bytes 4 a.offset ++ le_bytes 4 a.type_id ++ tl ++ suf) _ _
            (by simp only [List.append_assoc])
            (by simp only [List.length_append, le_bytes_length])
        · exact read_u32_mid _ (st.buffer ++ le_bytes E.POINTER_SIZE (nl.getD i 0) ++
              le_bytes E.POINTER_SIZE a.name.length)
            (le_bytes 4 a.type_id ++ tl ++ suf) _ _
            (by simp only [List.append_assoc])
            (by simp only [List.length_append, le_bytes_length]; omega)
        · exact read_u32_mid _ (st.buffer ++ le_bytes E.POINTER_SIZE (nl.getD i 0) ++
              le_bytes E.POINTER_SIZE a.name.length ++ le_bytes 4 a.offset)
            (tl ++ suf) _ _
            (by simp only [List.append_assoc])
            (by simp only [List.length_append, le_bytes_length]; omega)
      | succ j =>
        have hj' : j < rest.length := by simpa using hj
        obtain ⟨b1, b2, b3, b4⟩ := ihr j hj'
        have hpos : st.buffer.length + (j + 1) * member_record_size E =
            st.buffer.length + member_record_size E + j * member_record_size E := by ring
        rw [h1l] at b1 b2 b3 b4
        rw [hpos]
        have hi : i + (j + 1) = i + 1 + j := by omega
        rw [hi]
        exact ⟨b1, b2, b3, b4⟩

theorem table_info_stored_buffer (E : TableEnv) (st : TableBuffer) (idx k s a : Nat) :
    (table_info_stored E st idx k s a).buffer =
      st.buffer ++ (le_bytes 4 k ++ le_bytes 4 s ++ le_bytes 4 a) := by
  simp [table_info_stored, bh_buffer_write_u32, bh_buffer_append]

theorem table_info_stored_info (E : TableEnv) (st : TableBuffer) (idx k s a : Nat) :
    (table_info_stored E st idx k s a).info =
      st.info.set idx (Table_Info_Type E st.buffer.length) := by
  simp [table_info_stored, bh_buffer_write_u32, bh_buffer_append]

theorem table_info_record_eq (E : TableEnv) (st : TableBuffer) (idx k s a : Nat)
    (h : idx < st.info.length) :
    table_info_record E st idx k s a = some (table_info_stored E st idx k s a) := by
  simp [table_info_record, h]

theorem table_info_record_of_grows (E : TableEnv) {st s1 : TableBuffer} (idx k s a : Nat)
    (g : Grows st s1) (h : idx < st.info.length) :
    table_info_record E s1 idx k s a = some (table_info_stored E s1 idx k s a) :=
  table_info_record_eq E s1 idx k s a (by rw [g.2]; exact h)

theorem table_info_record_some (E : TableEnv) (st s1 : TableBuffer) (idx k s a : Nat)
    (h : table_info_record E st idx k s a = some s1) :
    s1 = table_info_stored E st idx k s a ∧ idx < st.info.length := by
  unfold table_info_record at h
  split at h
  · rename_i hlt
    exact ⟨(Option.some.inj h).symm, hlt⟩
  · cases h

theorem u32_mod_ptr (E : TableEnv) (hps : E.POINTER_SIZE = 4 ∨ E.POINTER_SIZE = 8) (x : Nat) :
    u32 x % 256 ^ E.POINTER_SIZE = u32 x := by
  apply Nat.mod_eq_of_lt
  have h1 : u32 x < 4294967296 := Nat.mod_lt _ (by decide)
  rcases hps with h | h <;> rw [h]
  · exact h1
  · exact lt_trans h1 (by norm_num)

theorem record_with_slices (E : TableEnv) (hps : E.POINTER_SIZE = 4 ∨ E.POINTER_SIZE = 8)
    (st : TableBuffer) (idx k s a c nb nl mb cnt : Nat) :
    (WRITE_SLICE E (WRITE_SLICE E (bh_buffer_write_u32
        (table_info_stored E (bh_buffer_align st 8) idx k s a) c) nb nl) mb cnt).buffer =
      (bh_buffer_align st 8).buffer ++ (le_bytes 4 k ++ le_bytes 4 s ++ le_bytes 4 a) ++
        le_bytes 4 c ++ le_bytes E.POINTER_SIZE nb ++ le_bytes E.POINTER_SIZE nl ++
        le_bytes E.POINTER_SIZE mb ++ le_bytes E.POINTER_SIZE cnt := by
  have h8 := bh_buffer_align_length st 8 (by decide)
  have h3 : (bh_buffer_write_u32 (table_info_stored E (bh_buffer_align st 8) idx k s a) c).buffer =
      (bh_buffer_align st 8).buffer ++ (le_bytes 4 k ++ le_bytes 4 s ++ le_bytes 4 a) ++
        le_bytes 4 c := by
    simp [bh_buffer_write_u32, bh_buffer_append, table_info_stored_buffer]
  have h3l : (bh_buffer_write_u32
      (table_info_stored E (bh_buffer_align st 8) idx k s a) c).buffer.length %
      E.POINTER_SIZE = 0 := by
    rw [h3]
    simp only [List.length_append, le_bytes_length]
    rcases hps with h | h <;> rw [h] <;> omega
  have h4 := WRITE_SLICE_aligned E hps _ nb nl h3l
  have h4l : (WRITE_SLICE E (bh_buffer_write_u32
      (table_info_stored E (bh_buffer_align st 8) idx k s a) c) nb nl).buffer.length %
      E.POINTER_SIZE = 0 := by
    rw [h4, h3]
    simp only [List.length_append, le_bytes_length]
    rcases hps with h | h <;> rw [h] <;> omega
  rw [WRITE_SLICE_aligned E hps _ mb cnt h4l, h4, h3]

theorem struct_record_spec (E : TableEnv) (hps : E.POINTER_SIZE = 4 ∨ E.POINTER_SIZE = 8)
    (type : OnyxType) (idx : Nat) (b : StructBases) (st : TableBuffer)
    (hidx : idx < st.info.length) :
    ∃ st' pos, struct_record E type idx b st = some st' ∧ st.buffer.length ≤ pos ∧
      st'.info = st.info.set idx (Table_Info_Type E pos) ∧
      (∃ suffix, st'.buffer = st.buffer ++ suffix) ∧
      read_bytes st'.buffer pos 12 =
        some (le_bytes 4 (E.Type_Kind_value type.kind) ++ le_bytes 4 type.size ++
          le_bytes 4 type.alignment) ∧
      read_ptr E st'.buffer (pos + 16 + 2 * E.POINTER_SIZE) =
        some (b.members_base % 256 ^ E.POINTER_SIZE) ∧
      read_ptr E st'.buffer (pos + 16 + 3 * E.POINTER_SIZE) =
        some (type.mem_count % 256 ^ E.POINTER_SIZE) := by
  have key : ∀ (st0 : TableBuffer) (nb nl : Nat), Grows st st0 →
      ∃ pos, st.buffer.length ≤ pos ∧
      (WRITE_SLICE E (WRITE_SLICE E (WRITE_SLICE E (WRITE_SLICE E (WRITE_SLICE E
        (bh_buffer_write_u32 (table_info_stored E (bh_buffer_align st0 8) idx
          (E.Type_Kind_value type.kind) type.size type.alignment)
          (type.constructed_from.getD 0)) nb nl) b.members_base type.mem_count)
          b.params_base type.poly_sln.length) b.struct_tag_base type.meta_tags.length)
          b.method_data_base b.method_count).info = st.info.set idx (Table_Info_Type E pos) ∧
      (∃ suffix, (WRITE_SLICE E (WRITE_SLICE E (WRITE_SLICE E (WRITE_SLICE E (WRITE_SLICE E
        (bh_buffer_write_u32 (table_info_stored E (bh_buffer_align st0 8) idx
          (E.Type_Kind_value type.kind) type.size type.alignment)
          (type.constructed_from.getD 0)) nb nl) b.members_base type.mem_count)
          b.params_base type.poly_sln.length) b.struct_tag_base type.meta_tags.length)
          b.method_data_base b.method_count).buffer = st.buffer ++ suffix) ∧
      read_bytes (WRITE_SLICE E (WRITE_SLICE E (WRITE_SLICE E (WRITE_SLICE E (WRITE_SLICE E
        (bh_buffer_write_u32 (table_info_stored E (bh_buffer_align st0 8) idx
          (E.Type_Kind_value type.kind) type.size type.alignment)
          (type.constructed_from.getD 0)) nb nl) b.members_base type.mem_count)
          b.params_base type.poly_sln.length) b.struct_tag_base type.meta_tags.length)
          b.method_data_base b.method_count).buffer pos 12 =
        some (le_bytes 4 (E.Type_Kind_value type.kind) ++ le_bytes 4 type.size ++
          le_bytes 4 type.alignment) ∧
      read_ptr E (WRITE_SLICE E (WRITE_SLICE E (WRITE_SLICE E (WRITE_SLICE E (WRITE_SLICE E
        (bh_buffer_write_u32 (table_info_stored E (bh_buffer_align st0 8) idx
          (E.Type_Kind_value type.kind) type.size type.alignment)
          (type.constructed_from.getD 0)) nb nl) b.members_base type.mem_count)
          b.params_base type.poly_sln.length) b.struct_tag_base type.meta_tags.length)
          b.method_data_base b.method_count).buffer (pos + 16 + 2 * E.POINTER_SIZE) =
        some (b.members_base % 256 ^ E.POINTER_SIZE) ∧
      read_ptr E (WRITE_SLICE E (WRITE_SLICE E (WRITE_SLICE E (WRITE_SLICE E (WRITE_SLICE E
        (bh_buffer_write_u32 (table_info_stored E (bh_buffer_align st0 8) idx
          (E.Type_Kind_value type.kind) type.size type.alignment)
          (type.constructed_from.getD 0)) nb nl) b.members_base type.mem_count)
          b.params_base type.poly_sln.length) b.struct_tag_base type.meta_tags.length)
          b.method_data_base b.method_count).buffer (pos + 16 + 3 * E.POINTER_SIZE) =
        some (type.mem_count % 256 ^ E.POINTER_SIZE) := by
    intro st0 nb nl g0
    have hrec := record_with_slices E hps st0 idx (E.Type_Kind_value type.kind) type.size
      type.alignment (type.constructed_from.getD 0) nb nl b.members_base type.mem_count
    have g1 : Grows st (bh_buffer_align st0 8) := grows_trans g0 (grows_align st0 8)
    obtain ⟨⟨s1, hs1⟩, hi1⟩ := g1
    obtain ⟨⟨s2, hs2⟩, hi2⟩ := grows_trans (grows_WRITE_SLICE E (WRITE_SLICE E (WRITE_SLICE E
        (bh_buffer_write_u32 (table_info_stored E (bh_buffer_align st0 8) idx
          (E.Type_Kind_value type.kind) type.size type.alignment)
          (type.constructed_from.getD 0)) nb nl) b.members_base type.mem_count)
          b.params_base type.poly_sln.length)
      (grows_trans (grows_WRITE_SLICE E _ b.struct_tag_base type.meta_tags.length)
        (grows_WRITE_SLICE E _ b.method_data_base b.method_count))
    have hi3 : (WRITE_SLICE E (WRITE_SLICE E
        (bh_buffer_write_u32 (table_info_stored E (bh_buffer_align st0 8) idx
          (E.Type_Kind_value type.kind) type.size type.alignment)
          (type.constructed_from.getD 0)) nb nl) b.members_base type.mem_count).info =
        st.info.set idx (Table_Info_Type E (bh_buffer_align st0 8).buffer.length) := by
      rw [(grows_WRITE_SLICE E _ _ _).2, (grows_WRITE_SLICE E _ _ _).2, (grows_write_u32 _ _).2,
        table_info_stored_info, hi1]
    refine ⟨(bh_buffer_align st0 8).buffer.length, ?_, ?_, ?_, ?_, ?_, ?_⟩
    · rw [hs1, List.length_append]; omega
    · rw [hi2, hi3]
    · refine ⟨s1 ++ ((le_bytes 4 (E.Type_Kind_value type.kind) ++ le_bytes 4 type.size ++
        le_bytes 4 type.alignment) ++ le_bytes 4 (type.constructed_from.getD 0) ++
        le_bytes E.POINTER_SIZE nb ++ le_bytes E.POINTER_SIZE nl ++
        le_bytes E.POINTER_SIZE b.members_base ++ le_bytes E.POINTER_SIZE type.mem_count) ++ s2, ?_⟩
      rw [hs2, hrec, hs1]
      simp only [List.append_assoc]
    · rw [hs2, hrec]
      exact read_bytes_mid _ (bh_buffer_align st0 8).buffer _
        (le_bytes 4 (type.constructed_from.getD 0) ++
        le_bytes E.POINTER_SIZE nb ++ le_bytes E.POINTER_SIZE nl ++
        le_bytes E.POINTER_SIZE b.members_base ++ le_bytes E.POINTER_SIZE type.mem_count ++ s2)
        _ _ (by simp only [List.append_assoc]) rfl
        (by simp only [List.length_append, le_bytes_length])
    · rw [hs2, hrec]
      exact read_ptr_mid E _ ((bh_buffer_align st0 8).buffer ++
        (le_bytes 4 (E.Type_Kind_value type.kind) ++ le_bytes 4 type.size ++
          le_bytes 4 type.alignment) ++ le_bytes 4 (type.constructed_from.getD 0) ++
        le_bytes E.POINTER_SIZE nb ++ le_bytes E.POINTER_SIZE nl)
        (le_bytes E.POINTER_SIZE type.mem_count ++ s2) _ _
        (by simp only [List.append_assoc])
        (by simp only [List.length_append, le_bytes_length]; omega)
    · rw [hs2, hrec]
      exact read_ptr_mid E _ ((bh_buffer_align st0 8).buffer ++
        (le_bytes 4 (E.Type_Kind_value type.kind) ++ le_bytes 4 type.size ++
          le_bytes 4 type.alignment) ++ le_bytes 4 (type.constructed_from.getD 0) ++
        le_bytes E.POINTER_SIZE nb ++ le_bytes E.POINTER_SIZE nl ++
        le_bytes E.POINTER_SIZE b.members_base) s2 _ _
        (by simp only [List.append_assoc])
        (by simp only [List.length_append, le_bytes_length]; omega)
  cases hn : type.name with
  | none =>
    obtain ⟨pos, hp⟩ := key st 0 0 (grows_refl st)
    refine ⟨_, pos, ?_, hp⟩
    simp only [struct_record, hn, table_info_record_of_grows E idx _ _ _ (grows_align st 8) hidx]
  | some name =>
    obtain ⟨pos, hp⟩ := key (bh_buffer_append st name) (u32 st.buffer.length) (u32 name.length)
      (grows_append st name)
    refine ⟨_, pos, ?_, hp⟩
    simp only [struct_record, hn, table_info_record_of_grows E idx _ _ _
      (grows_trans (grows_append st name) (grows_align _ 8)) hidx]

theorem struct_payloads_spec (E : TableEnv) (type : OnyxType) (st : TableBuffer)
    (h1 : type.memarr.all (fun mem => match mem.initial_value with
      | some value => value.type_.isSome
      | none => true) = true)
    (h2 : type.memarr.all (fun mem => match mem.meta_tags with
      | some tags => tags.all tagOk
      | none => true) = true)
    (h3 : type.poly_sln.all (fun sln =>
      sln.kind = .PSK_Type || (sln.value.bind (fun value => value.type_)).isSome) = true) :
    ∃ r, struct_payloads E type st = some r ∧ Grows st r.2 ∧ r.2.buffer.length % 8 = 0 ∧
      (type.memarr.length ≤ type.mem_count → ∀ j (hj : j < type.memarr.length), ∃ p,
        r.1.name_locations.getD j 0 = u32 p ∧
        read_bytes r.2.buffer p (type.memarr.get ⟨j, hj⟩).name.length =
          some (type.memarr.get ⟨j, hj⟩).name) := by
  have g1 := grows_struct_member_names type.memarr 0 (List.replicate type.mem_count 0) st
  obtain ⟨r2, e2, g2⟩ := grows_struct_poly_solutions type.poly_sln 0
    (List.replicate type.poly_sln.length 0)
    (bh_buffer_align (struct_member_names type.memarr 0 (List.replicate type.mem_count 0) st).2 8)
    h3
  obtain ⟨r3, e3, g3⟩ := grows_struct_default_values type.memarr 0
    (List.replicate type.mem_count 0) (bh_buffer_align r2.2 8) h1
  obtain ⟨r4, e4, g4⟩ := grows_struct_member_tags E type.memarr 0
    (List.replicate type.mem_count 0) r3.2 h2
  have gtail : Grows (struct_member_names type.memarr 0 (List.replicate type.mem_count 0) st).2
      (bh_buffer_align r4.2 8) :=
    grows_trans (grows_align _ 8) (grows_trans g2 (grows_trans (grows_align _ 8)
      (grows_trans g3 (grows_trans g4 (grows_align _ 8)))))
  refine ⟨(⟨(struct_member_names type.memarr 0 (List.replicate type.mem_count 0) st).1,
    r2.1, r3.1, r4.1⟩, bh_buffer_align r4.2 8), ?_, grows_trans g1 gtail,
    bh_buffer_align_length _ 8 (by decide), ?_⟩
  · simp only [struct_payloads, e2, e3, e4]
  · intro hm j hj
    obtain ⟨_, hnames⟩ := struct_member_names_spec type.memarr 0
      (List.replicate type.mem_count 0) st (by simp; omega)
    obtain ⟨p, hp1, hp2⟩ := hnames j hj
    obtain ⟨⟨suf, hsuf⟩, _⟩ := gtail
    refine ⟨p, ?_, ?_⟩
    · rw [← hp1, Nat.zero_add]
    · show read_bytes (bh_buffer_align r4.2 8).buffer p _ = _
      rw [hsuf]
      exact read_bytes_append _ _ _ _ _ hp2

theorem struct_arrays_spec (E : TableEnv) (hps : E.POINTER_SIZE = 4 ∨ E.POINTER_SIZE = 8)
    (type : OnyxType) (l : StructLocations) (st : TableBuffer)
    (hal : st.buffer.length % 8 = 0)
    (h3 : type.poly_sln.all (fun sln =>
      sln.kind = .PSK_Type || (sln.value.bind (fun value => value.type_)).isSome) = true)
    (h4 : type.meta_tags.all tagOk = true)
    (h5 : (match type.methods with
      | some symbols => symbols.all (fun s => !s.is_function || s.entity_ok)
      | none => true) = true) :
    ∃ q, struct_arrays E type l st = some q ∧ Grows st q.2 ∧
      q.1.members_base = u32 st.buffer.length ∧
      st.buffer.length + type.memarr.length * member_record_size E ≤ q.2.buffer.length ∧
      ∀ j (hj : j < type.memarr.length),
        read_ptr E q.2.buffer (st.buffer.length + j * member_record_size E) =
          some (l.name_locations.getD j 0 % 256 ^ E.POINTER_SIZE) ∧
        read_ptr E q.2.buffer (st.buffer.length + j * member_record_size E + E.POINTER_SIZE) =
          some ((type.memarr.get ⟨j, hj⟩).name.length % 256 ^ E.POINTER_SIZE) ∧
        read_u32 q.2.buffer (st.buffer.length + j * member_record_size E + 2 * E.POINTER_SIZE) =
          some (u32 (type.memarr.get ⟨j, hj⟩).offset) ∧
        read_u32 q.2.buffer
            (st.buffer.length + j * member_record_size E + 2 * E.POINTER_SIZE + 4) =
          some (u32 (type.memarr.get ⟨j, hj⟩).type_id) := by
  have halp : st.buffer.length % E.POINTER_SIZE = 0 := by
    rcases hps with h | h <;> rw [h] <;> omega
  obtain ⟨hlen, hreads⟩ := struct_member_array_spec E hps l.name_locations l.value_locations
    l.meta_locations type.memarr 0 st halp
  have gA := grows_struct_member_array E l.name_locations l.value_locations l.meta_locations
    type.memarr 0 st
  obtain ⟨s1, e1, g1⟩ := grows_struct_poly_array E l.param_locations type.poly_sln 0
    (bh_buffer_align (struct_member_array E l.name_locations l.value_locations l.meta_locations
      type.memarr 0 st) 8) h3
  obtain ⟨r5, e5, g5⟩ := grows_tag_payloads u32 type.meta_tags 0
    (List.replicate type.meta_tags.length 0) s1 h4
  have hm : ∃ r6, struct_method_data type.methods r5.2 = some r6 ∧ Grows r5.2 r6.2 := by
    cases hmeth : type.methods with
    | none => exact ⟨([], r5.2), rfl, grows_refl _⟩
    | some symbols =>
      rw [hmeth] at h5
      exact grows_struct_methods symbols [] r5.2 h5
  obtain ⟨r6, e6, g6⟩ := hm
  obtain ⟨s7, e7, g7⟩ := grows_tag_slices E type.meta_tags r5.1 0 type.meta_tags.length
    (bh_buffer_align (struct_method_array E r6.1 (bh_buffer_align r6.2 4)) 8) (by omega)
    (tagOk_typed _ h4)
  have gtail : Grows (struct_member_array E l.name_locations l.value_locations l.meta_locations
      type.memarr 0 st) s7 :=
    grows_trans (grows_align _ 8) (grows_trans g1 (grows_trans g5 (grows_trans g6
      (grows_trans (grows_align _ 4) (grows_trans (grows_struct_method_array E _ _)
      (grows_trans (grows_align _ 8) g7))))))
  obtain ⟨suf, hsuf⟩ := gtail.1
  refine ⟨(⟨u32 st.buffer.length,
    u32 (bh_buffer_align (struct_member_array E l.name_locations l.value_locations
      l.meta_locations type.memarr 0 st) 8).buffer.length,
    u32 (bh_buffer_align (struct_method_array E r6.1 (bh_buffer_align r6.2 4)) 8).buffer.length,
    u32 (bh_buffer_align r6.2 4).buffer.length, r6.1.length⟩, s7), ?_,
    grows_trans gA gtail, rfl, ?_, ?_⟩
  · simp only [struct_arrays, e1, e5, e6, e7]
  · show _ ≤ s7.buffer.length
    rw [hsuf, List.length_append, hlen]
    omega
  · intro j hj
    obtain ⟨b1, b2, b3, b4⟩ := hreads j hj
    show read_ptr E s7.buffer _ = _ ∧ read_ptr E s7.buffer _ = _ ∧ read_u32 s7.buffer _ = _ ∧
      read_u32 s7.buffer _ = _
    rw [hsuf]
    rw [Nat.zero_add] at b1
    exact ⟨read_ptr_append _ _ _ _ _ b1, read_ptr_append _ _ _ _ _ b2,
      read_u32_append _ _ _ _ b3, read_u32_append _ _ _ _ b4⟩

theorem recorded (E : TableEnv) (type : OnyxType) (idx : Nat) (st s1 s2 : TableBuffer)
    (k s a : Nat) (g1 : Grows st s1) (g2 : Grows (table_info_stored E s1 idx k s a) s2)
    (hdr : record_header E type = le_bytes 4 k ++ le_bytes 4 s ++ le_bytes 4 a)
    (hk : type.kind ≠ .Struct) :
    ∃ pos, (∃ suffix, s2.buffer = st.buffer ++ suffix) ∧
      s2.info = st.info.set idx (Table_Info_Type E pos) ∧ st.buffer.length ≤ pos ∧
      RecordAt E type s2.buffer pos := by
  obtain ⟨⟨a1, h1⟩, i1⟩ := g1
  obtain ⟨⟨a2, h2⟩, i2⟩ := g2
  rw [table_info_stored_buffer] at h2
  rw [table_info_stored_info] at i2
  refine ⟨s1.buffer.length, ⟨a1 ++ (le_bytes 4 k ++ le_bytes 4 s ++ le_bytes 4 a) ++ a2, ?_⟩, ?_,
    ?_, ?_, ?_⟩
  · rw [h2, h1]; simp only [List.append_assoc]
  · rw [i2, i1]
  · rw [h1, List.length_append]; omega
  · rw [hdr]
    exact read_bytes_mid _ s1.buffer _ a2 _ _ h2 rfl
      (by simp only [List.length_append, le_bytes_length])
  · intro h
    exact absurd h hk

theorem record_header_eq (E : TableEnv) (type : OnyxType) (hk : type.kind ≠ .PolyStruct) :
    record_header E type = le_bytes 4 (E.Type_Kind_value type.kind) ++ le_bytes 4 type.size ++
      le_bytes 4 type.alignment := by
  simp [record_header, hk]

theorem type_table_simple_spec (E : TableEnv) (type : OnyxType) (idx : Nat) (st : TableBuffer)
    (hidx : idx < st.info.length) (hk1 : type.kind ≠ .Struct) (hk2 : type.kind ≠ .PolyStruct) :
    ∃ st' pos, type_table_simple E type idx st = some st' ∧
      (∃ suffix, st'.buffer = st.buffer ++ suffix) ∧
      st'.info = st.info.set idx (Table_Info_Type E pos) ∧
      st.buffer.length ≤ pos ∧ RecordAt E type st'.buffer pos := by
  obtain ⟨s2, e, g⟩ : ∃ s2, type_table_simple E type idx st = some s2 ∧
      Grows (table_info_stored E st idx (E.Type_Kind_value type.kind) type.size
        type.alignment) s2 := by
    simp only [type_table_simple, table_info_record_eq E st idx _ _ _ hidx]
    split
    · exact ⟨_, rfl, grows_write_u32 _ _⟩
    · exact ⟨_, rfl, grows_trans (grows_write_u32 _ _) (grows_write_u32 _ _)⟩
    · exact ⟨_, rfl, grows_write_u32 _ _⟩
  obtain ⟨pos, hp⟩ := recorded E type idx st st s2 (E.Type_Kind_value type.kind) type.size
    type.alignment (grows_refl st) g (record_header_eq E type hk2) hk1
  exact ⟨s2, pos, e, hp⟩

theorem type_table_compound_spec (E : TableEnv) (type : OnyxType) (idx : Nat) (st : TableBuffer)
    (hidx : idx < st.info.length) (hk1 : type.kind ≠ .Struct) (hk2 : type.kind ≠ .PolyStruct) :
    ∃ st' pos, type_table_compound E type idx st = some st' ∧
      (∃ suffix, st'.buffer = st.buffer ++ suffix) ∧
      st'.info = st.info.set idx (Table_Info_Type E pos) ∧
      st.buffer.length ≤ pos ∧ RecordAt E type st'.buffer pos := by
  have g1 : Grows st (bh_buffer_align (write_type_ids type.types st) 8) :=
    grows_trans (grows_write_type_ids _ _) (grows_align _ _)
  obtain ⟨pos, hp⟩ := recorded E type idx st (bh_buffer_align (write_type_ids type.types st) 8) _
    (E.Type_Kind_value type.kind) type.size type.alignment g1
    (grows_WRITE_SLICE E _ (u32 st.buffer.length) (u32 type.types.length))
    (record_header_eq E type hk2) hk1
  refine ⟨_, pos, ?_, hp⟩
  simp only [type_table_compound, table_info_record_of_grows E idx _ _ _ g1 hidx]

theorem type_table_function_spec (E : TableEnv) (type : OnyxType) (idx : Nat) (st : TableBuffer)
    (hidx : idx < st.info.length) (hk1 : type.kind ≠ .Struct) (hk2 : type.kind ≠ .PolyStruct) :
    ∃ st' pos, type_table_function E type idx st = some st' ∧
      (∃ suffix, st'.buffer = st.buffer ++ suffix) ∧
      st'.info = st.info.set idx (Table_Info_Type E pos) ∧
      st.buffer.length ≤ pos ∧ RecordAt E type st'.buffer pos := by
  have g1 : Grows st (write_type_ids type.params st) := grows_write_type_ids _ _
  obtain ⟨pos, hp⟩ := recorded E type idx st (write_type_ids type.params st)
    (bh_buffer_write_u32 (WRITE_SLICE E (bh_buffer_write_u32
      (table_info_stored E (write_type_ids type.params st) idx
        (E.Type_Kind_value type.kind) type.size type.alignment) type.return_type_id)
      (u32 st.buffer.length) (u32 type.params.length))
      (if type.vararg_arg_pos > 0 then 1 else 0))
    (E.Type_Kind_value type.kind) type.size type.alignment g1
    (grows_trans (grows_write_u32 _ _) (grows_trans (grows_WRITE_SLICE E _ _ _)
      (grows_write_u32 _ _))) (record_header_eq E type hk2) hk1
  refine ⟨_, pos, ?_, hp⟩
  simp only [type_table_function, table_info_record_of_grows E idx _ _ _ g1 hidx]

theorem type_table_enum_spec (E : TableEnv) (type : OnyxType) (idx : Nat) (st : TableBuffer)
    (hidx : idx < st.info.length) (hk : type.kind = .Enum) (h : assertsHold type = true) :
    ∃ st' pos, type_table_enum E type idx st = some st' ∧
      (∃ suffix, st'.buffer = st.buffer ++ suffix) ∧
      st'.info = st.info.set idx (Table_Info_Type E pos) ∧
      st.buffer.length ≤ pos ∧ RecordAt E type st'.buffer pos := by
  simp only [assertsHold, hk, Bool.and_eq_true] at h
  obtain ⟨hn, hv⟩ := h
  obtain ⟨name, hn⟩ := Option.isSome_iff_exists.mp hn
  have g0 := grows_enum_value_names type.values 0
    (List.replicate (u32 type.values.length) 0) st
  obtain ⟨s1, e1, g1⟩ := grows_enum_value_records E type.values 0
    (enum_value_names type.values 0 (List.replicate (u32 type.values.length) 0) st).1
    (bh_buffer_align (enum_value_names type.values 0
      (List.replicate (u32 type.values.length) 0) st).2 8) hv
  have gs : Grows st (bh_buffer_align (bh_buffer_append s1 name) 8) :=
    grows_trans g0 (grows_trans (grows_align _ _) (grows_trans g1
      (grows_trans (grows_append _ _) (grows_align _ _))))
  obtain ⟨pos, r1, r2, r3, r4⟩ := recorded E type idx st
    (bh_buffer_align (bh_buffer_append s1 name) 8)
    (bh_buffer_write_u32 (WRITE_SLICE E (WRITE_SLICE E (bh_buffer_write_u32
      (table_info_stored E (bh_buffer_align (bh_buffer_append s1 name) 8) idx
        (E.Type_Kind_value type.kind) type.size type.alignment) type.backing_id)
      (u32 s1.buffer.length) (u32 name.length))
      (u32 (bh_buffer_align (enum_value_names type.values 0
        (List.replicate (u32 type.values.length) 0) st).2 8).buffer.length)
      (u32 type.values.length)) (if type.is_flags then 1 else 0))
    (E.Type_Kind_value type.kind) type.size type.alignment gs
    (grows_trans (grows_write_u32 _ _) (grows_trans (grows_WRITE_SLICE E _ _ _)
      (grows_trans (grows_WRITE_SLICE E _ _ _) (grows_write_u32 _ _))))
    (record_header_eq E type (by rw [hk]; decide)) (by rw [hk]; decide)
  refine ⟨_, pos, ?_, r1, r2, r3, r4⟩
  simp only [type_table_enum, e1, hn, table_info_record_of_grows E idx _ _ _ gs hidx]

theorem type_table_distinct_spec (E : TableEnv) (type : OnyxType) (idx : Nat) (st : TableBuffer)
    (hidx : idx < st.info.length) (hk : type.kind = .Distinct) (h : assertsHold type = true) :
    ∃ st' pos, type_table_distinct E type idx st = some st' ∧
      (∃ suffix, st'.buffer = st.buffer ++ suffix) ∧
      st'.info = st.info.set idx (Table_Info_Type E pos) ∧
      st.buffer.length ≤ pos ∧ RecordAt E type st'.buffer pos := by
  simp only [assertsHold, hk] at h
  obtain ⟨name, hn⟩ := Option.isSome_iff_exists.mp h
  obtain ⟨pos, r1, r2, r3, r4⟩ := recorded E type idx st
    (bh_buffer_align (bh_buffer_append st name) 8)
    (WRITE_SLICE E (bh_buffer_write_u32
      (table_info_stored E (bh_buffer_align (bh_buffer_append st name) 8) idx
        (E.Type_Kind_value type.kind) type.size type.alignment) type.base_type_id)
      (u32 st.buffer.length) (u32 name.length))
    (E.Type_Kind_value type.kind) type.size type.alignment
    (grows_trans (grows_append _ _) (grows_align _ _))
    (grows_trans (grows_write_u32 _ _) (grows_WRITE_SLICE E _ _ _))
    (record_header_eq E type (by rw [hk]; decide)) (by rw [hk]; decide)
  refine ⟨_, pos, ?_, r1, r2, r3, r4⟩
  simp only [type_table_distinct, hn, table_info_record_of_grows E idx _ _ _
    (grows_trans (grows_append st name) (grows_align _ 8)) hidx]

theorem type_table_polystruct_spec (E : TableEnv) (type : OnyxType) (idx : Nat)
    (st : TableBuffer) (hidx : idx < st.info.length) (hk : type.kind = .PolyStruct)
    (h : assertsHold type = true) :
    ∃ st' pos, type_table_polystruct E type idx st = some st' ∧
      (∃ suffix, st'.buffer = st.buffer ++ suffix) ∧
      st'.info = st.info.set idx (Table_Info_Type E pos) ∧
      st.buffer.length ≤ pos ∧ RecordAt E type st'.buffer pos := by
  simp only [assertsHold, hk, Bool.and_eq_true] at h
  obtain ⟨hn, ht⟩ := h
  obtain ⟨name, hn⟩ := Option.isSome_iff_exists.mp hn
  obtain ⟨r, e1, g1, hle⟩ := grows_polystruct_tag_payloads type.meta_tags 0
    (u32 type.meta_tags.length) (List.replicate type.meta_tags.length 0)
    (bh_buffer_append st name) ht
  have hu : u32 type.meta_tags.length ≤ type.meta_tags.length := Nat.mod_le _ _
  have hty : type.meta_tags.all (fun v => v.type_.isSome) = true := by
    rw [List.all_eq_true] at ht ⊢
    intro v hv
    have := ht v hv
    simp only [Bool.and_eq_true] at this
    exact this.1
  obtain ⟨s2, e2, g2⟩ := grows_tag_slices E type.meta_tags r.2.1 0 r.1
    (bh_buffer_align r.2.2 8) (by omega) hty
  obtain ⟨pos, r1, r2, r3, r4⟩ := recorded E type idx st (bh_buffer_align s2 8)
    (WRITE_SLICE E (WRITE_SLICE E
      (table_info_stored E (bh_buffer_align s2 8) idx (E.Type_Kind_value type.kind) 0 0)
      (u32 st.buffer.length) (u32 name.length))
      (u32 (bh_buffer_align r.2.2 8).buffer.length) r.1)
    (E.Type_Kind_value type.kind) 0 0
    (grows_trans (grows_append _ _) (grows_trans g1 (grows_trans (grows_align _ _)
      (grows_trans g2 (grows_align _ _)))))
    (grows_trans (grows_WRITE_SLICE E _ _ _) (grows_WRITE_SLICE E _ _ _))
    (by simp [record_header, hk]) (by rw [hk]; decide)
  refine ⟨_, pos, ?_, r1, r2, r3, r4⟩
  simp only [type_table_polystruct, hn, e1, e2, table_info_record_of_grows E idx _ _ _
    (grows_trans (grows_append st name) (grows_trans g1 (grows_trans (grows_align _ _)
      (grows_trans g2 (grows_align _ _))))) hidx]

theorem type_table_struct_spec (E : TableEnv) (hps : E.POINTER_SIZE = 4 ∨ E.POINTER_SIZE = 8)
    (type : OnyxType) (idx : Nat) (st : TableBuffer) (hidx : idx < st.info.length)
    (hk : type.kind = .Struct) (h : assertsHold type = true) :
    ∃ st' pos, type_table_struct E type idx st = some st' ∧
      (∃ suffix, st'.buffer = st.buffer ++ suffix) ∧
      st'.info = st.info.set idx (Table_Info_Type E pos) ∧
      st.buffer.length ≤ pos ∧ RecordAt E type st'.buffer pos := by
  simp only [assertsHold, hk, Bool.and_eq_true] at h
  obtain ⟨⟨⟨hmem, hpoly⟩, htags⟩, hmeth⟩ := h
  have h1 : type.memarr.all (fun mem => match mem.initial_value with
      | some value => value.type_.isSome
      | none => true) = true := by
    rw [List.all_eq_true] at hmem ⊢
    intro mem hm
    have := hmem mem hm
    simp only [Bool.and_eq_true] at this
    exact this.1
  have h2 : type.memarr.all (fun mem => match mem.meta_tags with
      | some tags => tags.all tagOk
      | none => true) = true := by
    rw [List.all_eq_true] at hmem ⊢
    intro mem hm
    have := hmem mem hm
    simp only [Bool.and_eq_true] at this
    exact this.2
  obtain ⟨r, er, gr, hal, hnames⟩ := struct_payloads_spec E type st h1 h2 hpoly
  obtain ⟨q, eq, gq, hbase, hqlen, hreads⟩ := struct_arrays_spec E hps type r.1 r.2 hal hpoly
    htags hmeth
  have gq2 := grows_trans gr gq
  obtain ⟨sr, pos, esr, hpos, hinfo, ⟨suf, hsuf⟩, hhdr, hptr, hcnt⟩ :=
    struct_record_spec E hps type idx q.1 q.2 (by rw [gq2.2]; exact hidx)
  obtain ⟨⟨s0, hs0⟩, hi0⟩ := gq2
  obtain ⟨sq, hsq⟩ := gq.1
  refine ⟨sr, pos, ?_, ⟨s0 ++ suf, ?_⟩, ?_, ?_, ?_, ?_⟩
  · simp only [type_table_struct, er, eq, esr]
  · rw [hsuf, hs0, List.append_assoc]
  · rw [hinfo, hi0]
  · rw [hs0, List.length_append] at hpos
    omega
  · rw [record_header_eq E type (by rw [hk]; decide)]
    exact hhdr
  · intro _ hm
    refine ⟨r.2.buffer.length, ?_, ?_, hcnt, ?_⟩
    · rw [hsuf, List.length_append]
      omega
    · rw [hptr, hbase, u32_mod_ptr E hps]
    · intro j hj
      obtain ⟨p, hp1, hp2⟩ := hnames hm j hj
      obtain ⟨b1, b2, b3, b4⟩ := hreads j hj
      rw [hp1, u32_mod_ptr E hps] at b1
      rw [hsuf]
      refine ⟨p, read_ptr_append _ _ _ _ _ b1, read_ptr_append _ _ _ _ _ b2, ?_,
        read_u32_append _ _ _ _ b3, read_u32_append _ _ _ _ b4⟩
      rw [hsq, List.append_assoc]
      exact read_bytes_append _ _ _ _ _ hp2

theorem type_table_entry_spec (E : TableEnv) (hps : E.POINTER_SIZE = 4 ∨ E.POINTER_SIZE = 8)
    (idx : Nat) (type : OnyxType) (st : TableBuffer) (hidx : idx < st.info.length)
    (h : assertsHold type = true) :
    ∃ st' pos, type_table_entry E idx type st = some st' ∧
      (∃ suffix, st'.buffer = st.buffer ++ suffix) ∧
      st'.info = st.info.set idx (Table_Info_Type E pos) ∧
      st.buffer.length ≤ pos ∧ RecordAt E type st'.buffer pos := by
  cases hk : type.kind with
  | Struct =>
    simp only [type_table_entry, hk]
    exact type_table_struct_spec E hps type idx st hidx hk h
  | Enum =>
    simp only [type_table_entry, hk]
    exact type_table_enum_spec E type idx st hidx hk h
  | Distinct =>
    simp only [type_table_entry, hk]
    exact type_table_distinct_spec E type idx st hidx hk h
  | PolyStruct =>
    simp only [type_table_entry, hk]
    exact type_table_polystruct_spec E type idx st hidx hk h
  | Compound =>
    simp only [type_table_entry, hk]
    exact type_table_compound_spec E type idx st hidx (by rw [hk]; decide) (by rw [hk]; decide)
  | Function =>
    simp only [type_table_entry, hk]
    exact type_table_function_spec E type idx st hidx (by rw [hk]; decide) (by rw [hk]; decide)
  | Basic =>
    simp only [type_table_entry, hk]
    exact type_table_simple_spec E type idx st hidx (by rw [hk]; decide) (by rw [hk]; decide)
  | Pointer =>
    simp only [type_table_entry, hk]
    exact type_table_simple_spec E type idx st hidx (by rw [hk]; decide) (by rw [hk]; decide)
  | Array =>
    simp only [type_table_entry, hk]
    exact type_table_simple_spec E type idx st hidx (by rw [hk]; decide) (by rw [hk]; decide)
  | Slice =>
    simp only [type_table_entry, hk]
    exact type_table_simple_spec E type idx st hidx (by rw [hk]; decide) (by rw [hk]; decide)
  | DynArray =>
    simp only [type_table_entry, hk]
    exact type_table_simple_spec E type idx st hidx (by rw [hk]; decide) (by rw [hk]; decide)
  | VarArgs =>
    simp only [type_table_entry, hk]
    exact type_table_simple_spec E type idx st hidx (by rw [hk]; decide) (by rw [hk]; decide)

theorem type_table_entries_spec (E : TableEnv) (hps : E.POINTER_SIZE = 4 ∨ E.POINTER_SIZE = 8)
    (entries : List (Nat × OnyxType)) (st : TableBuffer)
    (hasserts : ∀ e ∈ entries, assertsHold e.2 = true)
    (hkeys : (entries.map Prod.fst).Nodup)
    (hrange : ∀ e ∈ entries, e.1 < st.info.length) :
    ∃ st', type_table_entries E entries st = some st' ∧
      (∃ suffix, st'.buffer = st.buffer ++ suffix) ∧
      st'.info.length = st.info.length ∧
      (∀ i, i ∉ entries.map Prod.fst → st'.info.getD i 0 = st.info.getD i 0) ∧
      ∀ e ∈ entries, e.1 < st.info.length → ∃ pos, st.buffer.length ≤ pos ∧
        st'.info.getD e.1 0 = Table_Info_Type E pos ∧ RecordAt E e.2 st'.buffer pos := by
  induction entries generalizing st with
  | nil =>
    refine ⟨st, rfl, ⟨[], by simp⟩, rfl, fun _ _ => rfl, ?_⟩
    intro e he
    cases he
  | cons a rest ih =>
    obtain ⟨s1, pos1, e1, ⟨suf1, hsuf1⟩, hinfo1, hpos1, hrec1⟩ :=
      type_table_entry_spec E hps a.1 a.2 st (hrange a (List.mem_cons_self _ _))
        (hasserts a (List.mem_cons_self _ _))
    rw [List.map_cons, List.nodup_cons] at hkeys
    have hlen1 : s1.info.length = st.info.length := by rw [hinfo1, List.length_set]
    obtain ⟨st', e2, ⟨suf2, hsuf2⟩, hlen2, hother2, hrecs2⟩ := ih s1
      (fun e he => hasserts e (List.mem_cons_of_mem _ he)) hkeys.2
      (fun e he => by rw [hlen1]; exact hrange e (List.mem_cons_of_mem _ he))
    refine ⟨st', ?_, ⟨suf1 ++ suf2, by rw [hsuf2, hsuf1, List.append_assoc]⟩,
      hlen2.trans hlen1, ?_, ?_⟩
    · simp only [type_table_entries, e1]
      exact e2
    · intro i hi
      rw [List.map_cons, List.mem_cons, not_or] at hi
      rw [hother2 i hi.2, hinfo1, getD_set_ne _ _ _ _ (fun h => hi.1 h.symm)]
    · intro e he hlt
      rcases List.mem_cons.mp he with h | h
      · subst h
        refine ⟨pos1, hpos1, ?_, ?_⟩
        · rw [hother2 e.1 hkeys.1, hinfo1, getD_set_self _ _ _ hlt]
        · rw [hsuf2]
          exact recordAt_append _ _ _ _ _ hrec1
      · obtain ⟨pos, hp1, hp2, hp3⟩ := hrecs2 e h (by rw [hlen1]; exact hlt)
        refine ⟨pos, ?_, hp2, hp3⟩
        rw [hsuf1, List.length_append] at hp1
        omega

theorem read_bytes_split (data : List Nat) (pos n : Nat) (x : List Nat)
    (h : read_bytes data pos n = some x) :
    data = data.take pos ++ x ++ data.drop (pos + n) ∧ (data.take pos).length = pos ∧
      x.length = n := by
  have hle := read_bytes_lt data pos n x h
  unfold read_bytes at h
  rw [if_pos hle] at h
  have hx := Option.some.inj h
  subst hx
  refine ⟨?_, ?_, ?_⟩
  · rw [List.append_assoc]
    have h1 : List.take n (List.drop pos data) ++ List.drop (pos + n) data = List.drop pos data := by
      rw [← List.drop_drop]
      exact List.take_append_drop n (List.drop pos data)
    rw [h1, List.take_append_drop]
  · rw [List.length_take]; omega
  · rw [List.length_take, List.length_drop]; omega

theorem read_header_words (data : List Nat) (pos a b c : Nat)
    (h : read_bytes data pos 12 = some (le_bytes 4 a ++ le_bytes 4 b ++ le_bytes 4 c)) :
    read_u32 data pos = some (u32 a) ∧ read_u32 data (pos + 4) = some (u32 b) ∧
      read_u32 data (pos + 8) = some (u32 c) := by
  obtain ⟨hd, hl, _⟩ := read_bytes_split data pos 12 _ h
  refine ⟨?_, ?_, ?_⟩
  · exact read_u32_mid data (data.take pos) (le_bytes 4 b ++ le_bytes 4 c ++ data.drop (pos + 12))
      pos a (by rw [List.append_assoc, List.append_assoc, List.append_assoc] at hd
                rw [List.append_assoc, List.append_assoc]; exact hd) hl.symm
  · exact read_u32_mid data (data.take pos ++ le_bytes 4 a) (le_bytes 4 c ++ data.drop (pos + 12))
      (pos + 4) b (by simpa only [List.append_assoc] using hd)
      (by rw [List.length_append, hl, le_bytes_length])
  · exact read_u32_mid data (data.take pos ++ le_bytes 4 a ++ le_bytes 4 b) (data.drop (pos + 12))
      (pos + 8) c (by simpa only [List.append_assoc] using hd)
      (by rw [List.length_append, List.length_append, hl, le_bytes_length, le_bytes_length])

theorem build_type_table_eq (E : TableEnv) (entries : List (Nat × OnyxType))
    (module : OnyxWasmModule) (st : TableBuffer) (hcount : entries.length + 1 < 4294967296)
    (h : type_table_entries E entries (type_table_init (entries.length + 1)) = some st) :
    build_type_table E entries module = some (module.next_data_id + 2,
      { data := module.data ++
          [⟨8, st.buffer.length, st.buffer, module.next_data_id⟩,
           ⟨E.POINTER_SIZE, (entries.length + 1) * E.POINTER_SIZE, info_bytes E st.info,
             module.next_data_id + 1⟩,
           ⟨E.POINTER_SIZE, 2 * E.POINTER_SIZE,
             info_bytes E [0, Table_Info_Type E (entries.length + 1)], module.next_data_id + 2⟩],
        data_patches := module.data_patches ++
          relative_patches module.next_data_id st.base_patch_locations ++
          data_patches E module.next_data_id (module.next_data_id + 1) st.info
            (entries.length + 1) ++
          [⟨.Datum_Patch_Data, module.next_data_id + 1, 0, module.next_data_id + 2, 0⟩],
        next_data_id := module.next_data_id + 3 }) := by
  have hu : u32 (entries.length + 1) = entries.length + 1 := Nat.mod_eq_of_lt hcount
  simp only [build_type_table, hu, h, emit_data_entry, List.append_assoc, List.cons_append,
    List.nil_append]

theorem table_info_type_eq (E : TableEnv) (n : Nat) (h : n < 4294967296) :
    Table_Info_Type E n = n := by
  unfold Table_Info_Type
  split
  · exact Nat.mod_eq_of_lt h
  · exact Nat.mod_eq_of_lt (lt_trans h (by norm_num))

theorem type_table_records (E : TableEnv) (hps : E.POINTER_SIZE = 4 ∨ E.POINTER_SIZE = 8)
    (entries : List (Nat × OnyxType))
    (hasserts : ∀ e ∈ entries, assertsHold e.2 = true)
    (hkeys : (entries.map Prod.fst).Nodup)
    (hid : ∀ e ∈ entries, e.1 = e.2.id ∧ e.2.id < entries.length + 1)
    (hsize : ∀ st, type_table_entries E entries (type_table_init (entries.length + 1)) = some st →
      st.buffer.length < 4294967296) :
    ∃ st, type_table_entries E entries (type_table_init (entries.length + 1)) = some st ∧
      st.buffer.length < 4294967296 ∧
      ∀ e ∈ entries, 8 ≤ st.info.getD e.2.id 0 ∧
        RecordAt E e.2 st.buffer (st.info.getD e.2.id 0) := by
  have hinit : (type_table_init (entries.length + 1)).info.length = entries.length + 1 := by
    simp [type_table_init, bh_buffer_write_u64, bh_buffer_append]
  obtain ⟨st, e, _, _, _, hrecs⟩ := type_table_entries_spec E hps entries
    (type_table_init (entries.length + 1)) hasserts hkeys
    (fun en hen => by rw [hinit, (hid en hen).1]; exact (hid en hen).2)
  have hlt := hsize st e
  refine ⟨st, e, hlt, ?_⟩
  intro en hen
  obtain ⟨pos, hp1, hp2, hp3⟩ := hrecs en hen (by
    rw [(hid en hen).1]
    simpa [type_table_init, bh_buffer_write_u64, bh_buffer_append] using (hid en hen).2)
  have hp12 := read_bytes_lt _ _ _ _ hp3.1
  rw [(hid en hen).1, table_info_type_eq E pos (by omega)] at hp2
  rw [hp2]
  refine ⟨?_, hp3⟩
  have : (type_table_init (entries.length + 1)).buffer.length = 8 := by
    simp [type_table_init, bh_buffer_write_u64, bh_buffer_append, le_bytes_length]
  omega

theorem mem_data_patches (E : TableEnv) (data_id index : Nat) (info : List Nat) (count i : Nat)
    (hi : i < count) :
    (⟨.Datum_Patch_Data, data_id, info.getD i 0, index, i * E.POINTER_SIZE⟩ : DatumPatchInfo) ∈
      data_patches E data_id index info count := by
  unfold data_patches
  exact List.mem_map.mpr ⟨i, List.mem_range.mpr hi, rfl⟩

theorem data_patches_unique (E : TableEnv) (hps : E.POINTER_SIZE = 4 ∨ E.POINTER_SIZE = 8)
    (data_id index : Nat) (info : List Nat) (count i : Nat) (p : DatumPatchInfo)
    (hp : p ∈ data_patches E data_id index info count) (hl : p.location = i * E.POINTER_SIZE) :
    p.offset = info.getD i 0 := by
  unfold data_patches at hp
  obtain ⟨k, _, hk⟩ := List.mem_map.mp hp
  subst hk
  have hki : k = i := by
    have h0 : 0 < E.POINTER_SIZE := by rcases hps with h | h <;> rw [h] <;> decide
    exact Nat.eq_of_mul_eq_mul_right h0 hl
  rw [hki]

/-- C19, amended: when every entry of the type map is keyed by the id of its
type, the keys are distinct and every id is below `type_count`, the number of
entries plus one, then for every type of the type map, whatever its kind, the
Data patch of the pointer-table slot `T.id` carries the offset in the content
segment at which the three 32-bit words kind, size and alignment of `T` stand
(size and alignment being 0 for a polymorphic struct); no other new patch on
that slot carries another offset, and the offset lies past the eight reserved
bytes.  The further hypotheses are that no assert fails and that the words and
the segment fit 32 bits. -/
theorem build_type_table_record_header (E : TableEnv) (entries : List (Nat × OnyxType))
    (module : OnyxWasmModule)
    (hps : E.POINTER_SIZE = 4 ∨ E.POINTER_SIZE = 8)
    (hasserts : ∀ e ∈ entries, assertsHold e.2 = true)
    (hkeys : (entries.map Prod.fst).Nodup)
    (hid : ∀ e ∈ entries, e.1 = e.2.id ∧ e.2.id < entries.length + 1)
    (hvals : ∀ e ∈ entries, E.Type_Kind_value e.2.kind < 4294967296 ∧
      e.2.size < 4294967296 ∧ e.2.alignment < 4294967296)
    (hcount : entries.length + 1 < 4294967296)
    (hsize : ∀ st, type_table_entries E entries (type_table_init (entries.length + 1)) = some st →
      st.buffer.length < 4294967296) :
    ∃ id module1 content table,
      build_type_table E entries module = some (id, module1) ∧
      content ∈ module1.data ∧ table ∈ module1.data ∧
      table.length = (entries.length + 1) * E.POINTER_SIZE ∧
      ∀ e ∈ entries, ∃ offset,
        (⟨.Datum_Patch_Data, content.id, offset, table.id, e.2.id * E.POINTER_SIZE⟩ :
          DatumPatchInfo) ∈ module1.data_patches ∧
        (∀ p ∈ module1.data_patches.drop module.data_patches.length,
          p.index = table.id → p.location = e.2.id * E.POINTER_SIZE → p.offset = offset) ∧
        8 ≤ offset ∧
        read_u32 content.data offset = some (E.Type_Kind_value e.2.kind) ∧
        read_u32 content.data (offset + 4) =
          some (if e.2.kind = .PolyStruct then 0 else e.2.size) ∧
        read_u32 content.data (offset + 8) =
          some (if e.2.kind = .PolyStruct then 0 else e.2.alignment) := by
  obtain ⟨st, est, _, hrecs⟩ := type_table_records E hps entries hasserts hkeys hid hsize
  refine ⟨_, _, ⟨8, st.buffer.length, st.buffer, module.next_data_id⟩,
    ⟨E.POINTER_SIZE, (entries.length + 1) * E.POINTER_SIZE, info_bytes E st.info,
      module.next_data_id + 1⟩,
    build_type_table_eq E entries module st hcount est, by simp, by simp, rfl, ?_⟩
  intro e he
  obtain ⟨h8, hrec, _⟩ := hrecs e he
  obtain ⟨w1, w2, w3⟩ := read_header_words _ _ _ _ _ hrec
  obtain ⟨v1, v2, v3⟩ := hvals e he
  refine ⟨st.info.getD e.2.id 0, ?_, ?_, h8, ?_, ?_, ?_⟩
  · simp only [List.mem_append]
    exact Or.inl (Or.inr (mem_data_patches E _ _ _ _ _ (hid e he).2))
  · intro p hp hidx hloc
    simp only [List.append_assoc, List.drop_left] at hp
    rcases List.mem_append.mp hp with h | h
    · unfold relative_patches at h
      obtain ⟨loc, _, hl⟩ := List.mem_map.mp h
      subst hl
      simp at hidx
    · rcases List.mem_append.mp h with h | h
      · exact data_patches_unique E hps _ _ _ _ _ p h hloc
      · rw [List.mem_singleton] at h
        subst h
        simp at hidx
  · rw [w1]
    exact congrArg some (Nat.mod_eq_of_lt v1)
  · rw [w2]
    refine congrArg some ?_
    split
    · rfl
    · exact Nat.mod_eq_of_lt v2
  · rw [w3]
    refine congrArg some ?_
    split
    · rfl
    · exact Nat.mod_eq_of_lt v3

set_option maxRecDepth 4096 in
theorem build_type_table_record_header_witness :
    ∃ id module1 content table,
      build_type_table sampleTable4 sampleTypes {} = some (id, module1) ∧
      content ∈ module1.data ∧ table ∈ module1.data ∧
      table.length = (sampleTypes.length + 1) * sampleTable4.POINTER_SIZE ∧
      ∀ e ∈ sampleTypes, ∃ offset,
        (⟨.Datum_Patch_Data, content.id, offset, table.id, e.2.id * sampleTable4.POINTER_SIZE⟩ :
          DatumPatchInfo) ∈ module1.data_patches ∧
        (∀ p ∈ module1.data_patches.drop ({} : OnyxWasmModule).data_patches.length,
          p.index = table.id → p.location = e.2.id * sampleTable4.POINTER_SIZE →
            p.offset = offset) ∧
        8 ≤ offset ∧
        read_u32 content.data offset = some (sampleTable4.Type_Kind_value e.2.kind) ∧
        read_u32 content.data (offset + 4) =
          some (if e.2.kind = .PolyStruct then 0 else e.2.size) ∧
        read_u32 content.data (offset + 8) =
          some (if e.2.kind = .PolyStruct then 0 else e.2.alignment) :=
  build_type_table_record_header sampleTable4 sampleTypes {} (by decide) (by decide) (by decide)
    (by decide) (by decide) (by decide)
    (by intro st h; cases h; decide)

/-- C19, as a counterexample: the type map whose single type has the id 5, a
unique id, has `type_count = 2`.  The pointer table has two slots, whose Data
patches stand at the locations 0 and 4 whatever `table_info` holds, and none
at the location `5 * POINTER_SIZE = 20` of a slot 5; the offset of the record
is to be stored at index 5 of the two slots of `table_info`, and
`build_type_table` has no result. -/
theorem build_type_table_no_slot_for_id :
    sampleGapTypes.map (fun e => (e.1, e.2.id)) = [(5, 5)] ∧
    u32 (sampleGapTypes.length + 1) = 2 ∧
    (∀ info : List Nat,
      (data_patches sampleTable4 1 2 info (u32 (sampleGapTypes.length + 1))).map
        (fun p => p.location) = [0, 4]) ∧
    5 * sampleTable4.POINTER_SIZE = 20 ∧
    type_table_entries sampleTable4 sampleGapTypes
      (type_table_init (u32 (sampleGapTypes.length + 1))) = none ∧
    build_type_table sampleTable4 sampleGapTypes {} = none :=
  ⟨by decide, by decide, fun _ => rfl, by decide, by decide, by decide⟩

theorem mod_ptr_of_lt (E : TableEnv) (hps : E.POINTER_SIZE = 4 ∨ E.POINTER_SIZE = 8) (x : Nat)
    (h : x < 4294967296) : x % 256 ^ E.POINTER_SIZE = x := by
  apply Nat.mod_eq_of_lt
  rcases hps with h1 | h1 <;> rw [h1]
  · exact h
  · exact lt_trans h (by norm_num)

/-- C20, amended: when every entry of the type map is keyed by the id of its
type, the keys are distinct and every id is below `type_count`, the number of
entries plus one, the record of every struct of the type map gives its members
back, for 4-byte and for 8-byte pointers: the Data patch of the pointer-table
slot of the struct leads to its record, the members slice of the record holds
the number of members, and decoding the `i`-th record of the member array, at
the fixed stride `member_record_size` from the base of the slice, yields the
bytes of the name, the offset and the type id of the `i`-th member.  The
further hypotheses are that no assert fails, that the segment fits 32 bits,
that `mem_count` is the length of `memarr`, and that offsets and type ids fit
32 bits. -/
theorem build_type_table_struct_members (E : TableEnv) (entries : List (Nat × OnyxType))
    (module : OnyxWasmModule)
    (hps : E.POINTER_SIZE = 4 ∨ E.POINTER_SIZE = 8)
    (hasserts : ∀ e ∈ entries, assertsHold e.2 = true)
    (hkeys : (entries.map Prod.fst).Nodup)
    (hid : ∀ e ∈ entries, e.1 = e.2.id ∧ e.2.id < entries.length + 1)
    (hcount : entries.length + 1 < 4294967296)
    (hsize : ∀ st, type_table_entries E entries (type_table_init (entries.length + 1)) = some st →
      st.buffer.length < 4294967296)
    (hmem : ∀ e ∈ entries, e.2.kind = .Struct → e.2.mem_count = e.2.memarr.length)
    (hfields : ∀ e ∈ entries, ∀ mem ∈ e.2.memarr,
      mem.offset < 4294967296 ∧ mem.type_id < 4294967296) :
    ∃ id module1 content table,
      build_type_table E entries module = some (id, module1) ∧
      content ∈ module1.data ∧ table ∈ module1.data ∧
      ∀ e ∈ entries, e.2.kind = .Struct → ∃ offset members_base,
        (⟨.Datum_Patch_Data, content.id, offset, table.id, e.2.id * E.POINTER_SIZE⟩ :
          DatumPatchInfo) ∈ module1.data_patches ∧
        read_members_slice E content.data offset = some (members_base, e.2.memarr.length) ∧
        ∀ i (hi : i < e.2.memarr.length),
          decode_member E content.data members_base i =
            some ((e.2.memarr.get ⟨i, hi⟩).name, (e.2.memarr.get ⟨i, hi⟩).offset,
              (e.2.memarr.get ⟨i, hi⟩).type_id) := by
  obtain ⟨st, est, hlt, hrecs⟩ := type_table_records E hps entries hasserts hkeys hid hsize
  refine ⟨_, _, ⟨8, st.buffer.length, st.buffer, module.next_data_id⟩,
    ⟨E.POINTER_SIZE, (entries.length + 1) * E.POINTER_SIZE, info_bytes E st.info,
      module.next_data_id + 1⟩,
    build_type_table_eq E entries module st hcount est, by simp, by simp, ?_⟩
  intro e he hk
  obtain ⟨_, _, hmembers⟩ := hrecs e he
  have hmc := hmem e he hk
  obtain ⟨base, hle, hptr, hcnt, hj⟩ := hmembers hk (le_of_eq hmc.symm)
  have hsz := member_record_size_eq E hps
  have hb : u32 base = base := Nat.mod_eq_of_lt (by omega)
  have hk32 : e.2.memarr.length < 4294967296 := by
    have h1 : e.2.memarr.length ≤ e.2.memarr.length * member_record_size E :=
      Nat.le_mul_of_pos_right _ (by rw [hsz]; omega)
    omega
  rw [hb] at hptr
  rw [hmc, mod_ptr_of_lt E hps _ hk32] at hcnt
  refine ⟨st.info.getD e.2.id 0, base, ?_, ?_, ?_⟩
  · simp only [List.mem_append]
    exact Or.inl (Or.inr (mem_data_patches E _ _ _ _ _ (hid e he).2))
  · simp only [read_members_slice, hptr, hcnt]
  · intro i hi
    obtain ⟨p, a1, a2, a3, a4, a5⟩ := hj i hi
    have hp := read_bytes_lt _ _ _ _ a3
    obtain ⟨f1, f2⟩ := hfields e he _ (List.get_mem e.2.memarr i hi)
    rw [show u32 p = p from Nat.mod_eq_of_lt (by omega)] at a1
    rw [mod_ptr_of_lt E hps _ (by omega)] at a2
    rw [show u32 (e.2.memarr.get ⟨i, hi⟩).offset = (e.2.memarr.get ⟨i, hi⟩).offset from
      Nat.mod_eq_of_lt f1] at a4
    rw [show u32 (e.2.memarr.get ⟨i, hi⟩).type_id = (e.2.memarr.get ⟨i, hi⟩).type_id from
      Nat.mod_eq_of_lt f2] at a5
    simp only [decode_member, a1, a2, a3, a4, a5]

set_option maxRecDepth 4096 in
theorem build_type_table_struct_members_witness :
    (∃ id module1 content table,
      build_type_table sampleTable4 sampleTypes {} = some (id, module1) ∧
      content ∈ module1.data ∧ table ∈ module1.data ∧
      ∀ e ∈ sampleTypes, e.2.kind = .Struct → ∃ offset members_base,
        (⟨.Datum_Patch_Data, content.id, offset, table.id,
          e.2.id * sampleTable4.POINTER_SIZE⟩ : DatumPatchInfo) ∈ module1.data_patches ∧
        read_members_slice sampleTable4 content.data offset =
          some (members_base, e.2.memarr.length) ∧
        ∀ i (hi : i < e.2.memarr.length),
          decode_member sampleTable4 content.data members_base i =
            some ((e.2.memarr.get ⟨i, hi⟩).name, (e.2.memarr.get ⟨i, hi⟩).offset,
              (e.2.memarr.get ⟨i, hi⟩).type_id)) ∧
    (∃ id module1 content table,
      build_type_table sampleTable8 sampleTypes {} = some (id, module1) ∧
      content ∈ module1.data ∧ table ∈ module1.data ∧
      ∀ e ∈ sampleTypes, e.2.kind = .Struct → ∃ offset members_base,
        (⟨.Datum_Patch_Data, content.id, offset, table.id,
          e.2.id * sampleTable8.POINTER_SIZE⟩ : DatumPatchInfo) ∈ module1.data_patches ∧
        read_members_slice sampleTable8 content.data offset =
          some (members_base, e.2.memarr.length) ∧
        ∀ i (hi : i < e.2.memarr.length),
          decode_member sampleTable8 content.data members_base i =
            some ((e.2.memarr.get ⟨i, hi⟩).name, (e.2.memarr.get ⟨i, hi⟩).offset,
              (e.2.memarr.get ⟨i, hi⟩).type_id)) :=
  ⟨build_type_table_struct_members sampleTable4 sampleTypes {} (by decide) (by decide)
      (by decide) (by decide) (by decide) (by intro st h; cases h; decide) (by decide)
      (by decide),
    build_type_table_struct_members sampleTable8 sampleTypes {} (by decide) (by decide)
      (by decide) (by decide) (by decide) (by intro st h; cases h; decide) (by decide)
      (by decide)⟩

set_option maxRecDepth 4096 in
/-- C20, as a counterexample: the type map whose single type is the struct `S`
with the id 3 and one member has `type_count = 2`.  The payload of the struct
and its member array are written, but the offset of its record is to be stored
at index 3 of the two slots of `table_info`; for 4-byte and for 8-byte pointers
`build_type_table` has no result, and the pointer table of two slots has no
slot 3 that could lead to the record. -/
theorem build_type_table_struct_without_slot :
    sampleGapStruct.map (fun e => (e.1, e.2.id, e.2.kind, e.2.memarr.length)) =
      [(3, 3, Type_Kind.Struct, 1)] ∧
    u32 (sampleGapStruct.length + 1) = 2 ∧
    (∀ info : List Nat,
      (data_patches sampleTable8 1 2 info (u32 (sampleGapStruct.length + 1))).map
        (fun p => p.location) = [0, 8]) ∧
    sampleGapStruct.all (fun e =>
      ((struct_payloads sampleTable4 e.2 (type_table_init 2)).bind
        (fun r => struct_arrays sampleTable4 e.2 r.1 r.2)).isSome) = true ∧
    build_type_table sampleTable4 sampleGapStruct {} = none ∧
    build_type_table sampleTable8 sampleGapStruct {} = none :=
  ⟨by decide, by decide, fun _ => rfl, by decide, by decide, by decide⟩

/-! ### `build_foreign_blocks` -/

theorem grows_foreign_function_names (symbols : List ForeignSymbol) (a : ForeignFunctions)
    (st : TableBuffer) : Grows st (foreign_function_names symbols a st).2 := by
  induction symbols generalizing a st with
  | nil => exact grows_refl st
  | cons f rest ih =>
    simp only [foreign_function_names]
    split
    · exact grows_trans (grows_append st _) (ih _ _)
    · exact ih _ _

theorem foreign_function_names_spec (symbols fs : List ForeignSymbol)
    (hfs : symbols.filter (fun f => f.is_function) = fs) (a : ForeignFunctions)
    (st : TableBuffer)
    (h1 : a.funcs_length + fs.length ≤ a.name_offsets.length)
    (h2 : a.name_lengths.length = a.name_offsets.length)
    (h3 : a.func_types.length = a.name_offsets.length)
    (h4 : a.name_offsets.length < 4294967296) :
    (foreign_function_names symbols a st).1.funcs_length = a.funcs_length + fs.length ∧
    (∀ k, k < a.funcs_length →
      (foreign_function_names symbols a st).1.name_offsets.getD k 0 = a.name_offsets.getD k 0 ∧
      (foreign_function_names symbols a st).1.name_lengths.getD k 0 = a.name_lengths.getD k 0 ∧
      (foreign_function_names symbols a st).1.func_types.getD k 0 = a.func_types.getD k 0) ∧
    ∀ j (hj : j < fs.length), ∃ p,
      (foreign_function_names symbols a st).1.name_offsets.getD (a.funcs_length + j) 0 = u32 p ∧
      read_bytes (foreign_function_names symbols a st).2.buffer p
          (fs.get ⟨j, hj⟩).foreign_name.length = some (fs.get ⟨j, hj⟩).foreign_name ∧
      (foreign_function_names symbols a st).1.name_lengths.getD (a.funcs_length + j) 0 =
        u32 (fs.get ⟨j, hj⟩).foreign_name.length ∧
      (foreign_function_names symbols a st).1.func_types.getD (a.funcs_length + j) 0 =
        u32 (fs.get ⟨j, hj⟩).type_id := by
  induction symbols generalizing fs a st with
  | nil =>
    simp only [List.filter_nil] at hfs
    subst hfs
    refine ⟨by simp [foreign_function_names], fun k _ => ⟨rfl, rfl, rfl⟩, ?_⟩
    intro j hj
    exact absurd hj (Nat.not_lt_zero j)
  | cons f rest ih =>
    by_cases hf : f.is_function = true
    · have hfil : (f :: rest).filter (fun f => f.is_function) =
          f :: rest.filter (fun f => f.is_function) := by simp [List.filter, hf]
      rw [hfil] at hfs
      subst hfs
      simp only [List.length_cons] at h1 ⊢
      have hu : u32 (a.funcs_length + 1) = a.funcs_length + 1 :=
        Nat.mod_eq_of_lt (by omega)
      obtain ⟨i1, i2, i3⟩ := ih (rest.filter (fun f => f.is_function)) rfl
        ⟨a.name_offsets.set a.funcs_length (u32 st.buffer.length),
          a.name_lengths.set a.funcs_length (u32 f.foreign_name.length),
          a.func_types.set a.funcs_length (u32 f.type_id), u32 (a.funcs_length + 1)⟩
        (bh_buffer_append st f.foreign_name)
        (by simp only [List.length_set, hu]; omega)
        (by simp only [List.length_set]; exact h2)
        (by simp only [List.length_set]; exact h3)
        (by simp only [List.length_set]; exact h4)
      obtain ⟨suf, hsuf⟩ := (grows_foreign_function_names rest
        ⟨a.name_offsets.set a.funcs_length (u32 st.buffer.length),
          a.name_lengths.set a.funcs_length (u32 f.foreign_name.length),
          a.func_types.set a.funcs_length (u32 f.type_id), u32 (a.funcs_length + 1)⟩
        (bh_buffer_append st f.foreign_name)).1
      simp only [hu] at i1 i2 i3 hsuf
      simp only [foreign_function_names, hf, if_true, hu]
      refine ⟨by rw [i1]; omega, ?_, ?_⟩
      · intro k hk
        obtain ⟨b1, b2, b3⟩ := i2 k (by omega)
        rw [b1, b2, b3, getD_set_ne _ _ _ _ (by omega), getD_set_ne _ _ _ _ (by omega),
          getD_set_ne _ _ _ _ (by omega)]
        exact ⟨rfl, rfl, rfl⟩
      · intro j hj
        cases j with
        | zero =>
          obtain ⟨b1, b2, b3⟩ := i2 a.funcs_length (by omega)
          simp only [Nat.add_zero]
          refine ⟨st.buffer.length, ?_, ?_, ?_, ?_⟩
          · rw [b1, getD_set_self _ _ _ (by omega)]
          · rw [hsuf]
            exact read_bytes_mid _ st.buffer f.foreign_name suf _ _ rfl rfl rfl
          · rw [b2, getD_set_self _ _ _ (by omega)]
            rfl
          · rw [b3, getD_set_self _ _ _ (by omega)]
            rfl
        | succ j =>
          obtain ⟨p, c1, c2, c3, c4⟩ := i3 j (by simpa using hj)
          have hidx : a.funcs_length + (j + 1) = a.funcs_length + 1 + j := by omega
          rw [hidx]
          exact ⟨p, c1, c2, c3, c4⟩
    · have hfil : (f :: rest).filter (fun f => f.is_function) =
          rest.filter (fun f => f.is_function) := by simp [List.filter, hf]
      rw [hfil] at hfs
      simp only [foreign_function_names, hf]
      exact ih fs hfs a st h1 h2 h3 h4

theorem grows_foreign_function_entries (E : TableEnv) (a : ForeignFunctions) (i n : Nat)
    (st : TableBuffer) : Grows st (foreign_function_entries E a i n st) := by
  induction n generalizing i st with
  | zero => exact grows_refl st
  | succ n ih =>
    exact grows_trans (grows_align st _) (grows_trans (grows_WRITE_SLICE E _ _ _)
      (grows_trans (grows_write_u32 _ _) (ih _ _)))

theorem foreign_function_size_eq (E : TableEnv) (hps : E.POINTER_SIZE = 4 ∨ E.POINTER_SIZE = 8) :
    foreign_function_size E = 3 * E.POINTER_SIZE := by
  rcases hps with h | h <;> simp [foreign_function_size, h]

theorem bh_buffer_align_buffer_length (st : TableBuffer) (a : Nat) :
    (bh_buffer_align st a).buffer.length =
      st.buffer.length + (a - st.buffer.length % a) % a := by
  simp [bh_buffer_align, bh_buffer_append]

theorem foreign_function_entries_spec (E : TableEnv)
    (hps : E.POINTER_SIZE = 4 ∨ E.POINTER_SIZE = 8) (a : ForeignFunctions) (n i : Nat)
    (st : TableBuffer)
    (h4 : (bh_buffer_align st E.POINTER_SIZE).buffer.length ≤ st.buffer.length + 4) :
    (bh_buffer_align st E.POINTER_SIZE).buffer.length + n * foreign_function_size E ≤
      (foreign_function_entries E a i n st).buffer.length + 4 ∧
    ∀ j, j < n →
      read_ptr E (foreign_function_entries E a i n st).buffer
          ((bh_buffer_align st E.POINTER_SIZE).buffer.length + j * foreign_function_size E) =
        some (a.name_offsets.getD (i + j) 0 % 256 ^ E.POINTER_SIZE) ∧
      read_ptr E (foreign_function_entries E a i n st).buffer
          ((bh_buffer_align st E.POINTER_SIZE).buffer.length + j * foreign_function_size E +
            E.POINTER_SIZE) =
        some (a.name_lengths.getD (i + j) 0 % 256 ^ E.POINTER_SIZE) ∧
      read_u32 (foreign_function_entries E a i n st).buffer
          ((bh_buffer_align st E.POINTER_SIZE).buffer.length + j * foreign_function_size E +
            2 * E.POINTER_SIZE) =
        some (u32 (a.func_types.getD (i + j) 0)) := by
  induction n generalizing i st with
  | zero =>
    refine ⟨by simpa [foreign_function_entries] using h4, ?_⟩
    intro j hj
    exact absurd hj (Nat.not_lt_zero j)
  | succ n ih =>
    have hsz := foreign_function_size_eq E hps
    have h0 : 0 < E.POINTER_SIZE := by rcases hps with h | h <;> rw [h] <;> decide
    have hal := bh_buffer_align_length st E.POINTER_SIZE h0
    have h1 := WRITE_SLICE_aligned E hps (bh_buffer_align st E.POINTER_SIZE)
      (a.name_offsets.getD i 0) (a.name_lengths.getD i 0) hal
    have h2 : (bh_buffer_write_u32 (WRITE_SLICE E (bh_buffer_align st E.POINTER_SIZE)
        (a.name_offsets.getD i 0) (a.name_lengths.getD i 0)) (a.func_types.getD i 0)).buffer =
        (bh_buffer_align st E.POINTER_SIZE).buffer ++
          le_bytes E.POINTER_SIZE (a.name_offsets.getD i 0) ++
          le_bytes E.POINTER_SIZE (a.name_lengths.getD i 0) ++
          le_bytes 4 (a.func_types.getD i 0) := by
      simp only [bh_buffer_write_u32, bh_buffer_append, h1]
    have h2l : (bh_buffer_write_u32 (WRITE_SLICE E (bh_buffer_align st E.POINTER_SIZE)
        (a.name_offsets.getD i 0) (a.name_lengths.getD i 0)) (a.func_types.getD i 0)).buffer.length =
        (bh_buffer_align st E.POINTER_SIZE).buffer.length + 2 * E.POINTER_SIZE + 4 := by
      rw [h2]
      simp only [List.length_append, le_bytes_length]
      omega
    have h3l : (bh_buffer_align (bh_buffer_write_u32 (WRITE_SLICE E
        (bh_buffer_align st E.POINTER_SIZE) (a.name_offsets.getD i 0)
        (a.name_lengths.getD i 0)) (a.func_types.getD i 0)) E.POINTER_SIZE).buffer.length =
        (bh_buffer_align st E.POINTER_SIZE).buffer.length + foreign_function_size E := by
      rw [bh_buffer_align_buffer_length, h2l, hsz]
      rcases hps with h | h <;> rw [h] at hal ⊢ <;> omega
    obtain ⟨ihl, ihr⟩ := ih (i + 1) (bh_buffer_write_u32 (WRITE_SLICE E
      (bh_buffer_align st E.POINTER_SIZE) (a.name_offsets.getD i 0)
      (a.name_lengths.getD i 0)) (a.func_types.getD i 0))
      (by rw [h3l, h2l, hsz]; rcases hps with h | h <;> rw [h] <;> omega)
    rw [h3l] at ihl ihr
    obtain ⟨suf, hsuf⟩ := (grows_foreign_function_entries E a (i + 1) n
      (bh_buffer_write_u32 (WRITE_SLICE E (bh_buffer_align st E.POINTER_SIZE)
        (a.name_offsets.getD i 0) (a.name_lengths.getD i 0)) (a.func_types.getD i 0))).1
    simp only [foreign_function_entries]
    refine ⟨?_, ?_⟩
    · have : (n + 1) * foreign_function_size E =
          foreign_function_size E + n * foreign_function_size E := by ring
      omega
    · intro j hj
      cases j with
      | zero =>
        simp only [Nat.zero_mul, Nat.add_zero]
        rw [hsuf, h2]
        refine ⟨?_, ?_, ?_⟩
        · exact read_ptr_mid E _ (bh_buffer_align st E.POINTER_SIZE).buffer
            (le_bytes E.POINTER_SIZE (a.name_lengths.getD i 0) ++
              le_bytes 4 (a.func_types.getD i 0) ++ suf) _ _
            (by simp only [List.append_assoc]) rfl
        · exact read_ptr_mid E _ ((bh_buffer_align st E.POINTER_SIZE).buffer ++
              le_bytes E.POINTER_SIZE (a.name_offsets.getD i 0))
            (le_bytes 4 (a.func_types.getD i 0) ++ suf) _ _
            (by simp only [List.append_assoc])
            (by simp only [List.length_append, le_bytes_length])
        · exact read_u32_mid _ ((bh_buffer_align st E.POINTER_SIZE).buffer ++
              le_bytes E.POINTER_SIZE (a.name_offsets.getD i 0) ++
              le_bytes E.POINTER_SIZE (a.name_lengths.getD i 0)) suf _ _
            (by simp only [List.append_assoc])
            (by simp only [List.length_append, le_bytes_length]; omega)
      | succ j =>
        obtain ⟨b1, b2, b3⟩ := ihr j (by omega)
        have hpos : (bh_buffer_align st E.POINTER_SIZE).buffer.length +
            (j + 1) * foreign_function_size E =
            (bh_buffer_align st E.POINTER_SIZE).buffer.length + foreign_function_size E +
              j * foreign_function_size E := by ring
        have hi : i + (j + 1) = i + 1 + j := by omega
        rw [hpos, hi]
        exact ⟨b1, b2, b3⟩

theorem bh_buffer_align_of_aligned (st : TableBuffer) (a : Nat)
    (h : st.buffer.length % a = 0) : (bh_buffer_align st a).buffer = st.buffer := by
  simp [bh_buffer_align, bh_buffer_append, h]

theorem mod_ptr_of_mod_eight (E : TableEnv) (hps : E.POINTER_SIZE = 4 ∨ E.POINTER_SIZE = 8)
    (n : Nat) (h : n % 8 = 0) : n % E.POINTER_SIZE = 0 := by
  rcases hps with h1 | h1 <;> rw [h1] <;> omega

theorem foreign_block_record_spec (E : TableEnv) (hps : E.POINTER_SIZE = 4 ∨ E.POINTER_SIZE = 8)
    (fb : AstForeignBlock) (index funcs_base funcs_length : Nat) (st : TableBuffer) :
    ∃ pos, st.buffer.length ≤ pos ∧
      (foreign_block_record E fb index funcs_base funcs_length st).info =
        st.info.set index (Table_Info_Type E pos) ∧
      (∃ suffix, (foreign_block_record E fb index funcs_base funcs_length st).buffer =
        st.buffer ++ suffix) ∧
      pos + 4 * E.POINTER_SIZE =
        (foreign_block_record E fb index funcs_base funcs_length st).buffer.length ∧
      read_ptr E (foreign_block_record E fb index funcs_base funcs_length st).buffer pos =
        some (u32 st.buffer.length) ∧
      read_ptr E (foreign_block_record E fb index funcs_base funcs_length st).buffer
        (pos + E.POINTER_SIZE) = some (u32 fb.module_name.length) ∧
      read_bytes (foreign_block_record E fb index funcs_base funcs_length st).buffer
        st.buffer.length fb.module_name.length = some fb.module_name ∧
      read_ptr E (foreign_block_record E fb index funcs_base funcs_length st).buffer
        (pos + 2 * E.POINTER_SIZE) = some (funcs_base % 256 ^ E.POINTER_SIZE) ∧
      read_ptr E (foreign_block_record E fb index funcs_base funcs_length st).buffer
        (pos + 3 * E.POINTER_SIZE) = some (funcs_length % 256 ^ E.POINTER_SIZE) := by
  have h8 := bh_buffer_align_length (bh_buffer_append st fb.module_name) 8 (by decide)
  have hp8 := mod_ptr_of_mod_eight E hps _ h8
  obtain ⟨pad, hpad⟩ := (grows_align (bh_buffer_append st fb.module_name) 8).1
  have hpad1 : (bh_buffer_align (bh_buffer_append st fb.module_name) 8).buffer =
      st.buffer ++ fb.module_name ++ pad := hpad
  have w1 := WRITE_SLICE_aligned E hps
    (set_info E (bh_buffer_align (bh_buffer_append st fb.module_name) 8) index)
    (u32 st.buffer.length) (u32 fb.module_name.length) hp8
  have w2 := WRITE_SLICE_aligned E hps (WRITE_SLICE E
    (set_info E (bh_buffer_align (bh_buffer_append st fb.module_name) 8) index)
    (u32 st.buffer.length) (u32 fb.module_name.length)) funcs_base funcs_length
    (by rw [w1]
        simp only [List.length_append, le_bytes_length, set_info]
        rcases hps with h | h <;> rw [h] at hp8 ⊢ <;> omega)
  rw [w1] at w2
  have hfin : (foreign_block_record E fb index funcs_base funcs_length st).buffer =
      (bh_buffer_align (bh_buffer_append st fb.module_name) 8).buffer ++
        le_bytes E.POINTER_SIZE (u32 st.buffer.length) ++
        le_bytes E.POINTER_SIZE (u32 fb.module_name.length) ++
        le_bytes E.POINTER_SIZE funcs_base ++ le_bytes E.POINTER_SIZE funcs_length := w2
  have hinfo : (foreign_block_record E fb index funcs_base funcs_length st).info =
      st.info.set index
        (Table_Info_Type E (bh_buffer_align (bh_buffer_append st fb.module_name) 8).buffer.length) := by
    simp only [foreign_block_record]
    rw [(grows_WRITE_SLICE E _ _ _).2, (grows_WRITE_SLICE E _ _ _).2]
    rfl
  refine ⟨(bh_buffer_align (bh_buffer_append st fb.module_name) 8).buffer.length, ?_, hinfo,
    ?_, ?_, ?_, ?_, ?_, ?_, ?_⟩
  · rw [hpad1]; simp only [List.length_append]; omega
  · exact ⟨fb.module_name ++ pad ++ (le_bytes E.POINTER_SIZE (u32 st.buffer.length) ++
      le_bytes E.POINTER_SIZE (u32 fb.module_name.length) ++
      le_bytes E.POINTER_SIZE funcs_base ++ le_bytes E.POINTER_SIZE funcs_length),
      by rw [hfin, hpad1]; simp only [List.append_assoc]⟩
  · rw [hfin]; simp only [List.length_append, le_bytes_length]; omega
  · rw [hfin]
    refine (read_ptr_mid E _ (bh_buffer_align (bh_buffer_append st fb.module_name) 8).buffer
      (le_bytes E.POINTER_SIZE (u32 fb.module_name.length) ++
        le_bytes E.POINTER_SIZE funcs_base ++ le_bytes E.POINTER_SIZE funcs_length)
      (bh_buffer_align (bh_buffer_append st fb.module_name) 8).buffer.length (u32 st.buffer.length)
      (by simp only [List.append_assoc]) rfl).trans ?_
    rw [u32_mod_ptr E hps]
  · rw [hfin]
    refine (read_ptr_mid E _ ((bh_buffer_align (bh_buffer_append st fb.module_name) 8).buffer ++
        le_bytes E.POINTER_SIZE (u32 st.buffer.length))
      (le_bytes E.POINTER_SIZE funcs_base ++ le_bytes E.POINTER_SIZE funcs_length)
      ((bh_buffer_align (bh_buffer_append st fb.module_name) 8).buffer.length + E.POINTER_SIZE)
      (u32 fb.module_name.length)
      (by simp only [List.append_assoc])
      (by simp only [List.length_append, le_bytes_length])).trans ?_
    rw [u32_mod_ptr E hps]
  · rw [hfin, hpad1]
    exact read_bytes_mid _ st.buffer fb.module_name
      (pad ++ (le_bytes E.POINTER_SIZE (u32 st.buffer.length) ++
      le_bytes E.POINTER_SIZE (u32 fb.module_name.length) ++
      le_bytes E.POINTER_SIZE funcs_base ++ le_bytes E.POINTER_SIZE funcs_length)) _ _
      (by simp only [List.append_assoc]) rfl rfl
  · rw [hfin]
    exact read_ptr_mid E _ ((bh_buffer_align (bh_buffer_append st fb.module_name) 8).buffer ++
        le_bytes E.POINTER_SIZE (u32 st.buffer.length) ++
        le_bytes E.POINTER_SIZE (u32 fb.module_name.length))
      (le_bytes E.POINTER_SIZE funcs_length) _ _
      (by simp only [List.append_assoc])
      (by simp only [List.length_append, le_bytes_length]; omega)
  · rw [hfin]
    exact read_ptr_mid E _ ((bh_buffer_align (bh_buffer_append st fb.module_name) 8).buffer ++
        le_bytes E.POINTER_SIZE (u32 st.buffer.length) ++
        le_bytes E.POINTER_SIZE (u32 fb.module_name.length) ++
        le_bytes E.POINTER_SIZE funcs_base) [] _ _
      (by simp only [List.append_assoc, List.append_nil])
      (by simp only [List.length_append, le_bytes_length]; omega)

theorem foreignBlockAt_append (E : TableEnv) (fb : AstForeignBlock) (data suffix : List Nat)
    (pos : Nat) (h : ForeignBlockAt E fb data pos) :
    ForeignBlockAt E fb (data ++ suffix) pos := by
  obtain ⟨nb, fbase, hle, h1, h2, h3, h4, h5, h6⟩ := h
  refine ⟨nb, fbase, by rw [List.length_append]; omega, read_ptr_append _ _ _ _ _ h1,
    read_ptr_append _ _ _ _ _ h2, read_bytes_append _ _ _ _ _ h3,
    read_ptr_append _ _ _ _ _ h4, read_ptr_append _ _ _ _ _ h5, ?_⟩
  intro j hj
  obtain ⟨p, a1, a2, a3, a4⟩ := h6 j hj
  exact ⟨p, read_ptr_append _ _ _ _ _ a1, read_ptr_append _ _ _ _ _ a2,
    read_bytes_append _ _ _ _ _ a3, read_u32_append _ _ _ _ a4⟩

theorem u32_u32 (x : Nat) : u32 (u32 x) = u32 x := by
  simp [u32]

theorem foreign_block_spec (E : TableEnv) (hps : E.POINTER_SIZE = 4 ∨ E.POINTER_SIZE = 8)
    (fb : AstForeignBlock) (index : Nat) (st : TableBuffer)
    (hsym : fb.symbols.length < 4294967296) :
    ∃ pos, st.buffer.length ≤ pos ∧
      (foreign_block E fb index st).info = st.info.set index (Table_Info_Type E pos) ∧
      (∃ suffix, (foreign_block E fb index st).buffer = st.buffer ++ suffix) ∧
      ForeignBlockAt E fb (foreign_block E fb index st).buffer pos := by
  have hfl : (foreign_functions fb).length ≤ fb.symbols.length := List.length_filter_le _ _
  obtain ⟨n1, _, n3⟩ := foreign_function_names_spec fb.symbols (foreign_functions fb) rfl
    ⟨List.replicate fb.symbols.length 0, List.replicate fb.symbols.length 0,
      List.replicate fb.symbols.length 0, 0⟩ st
    (by simp only [List.length_replicate]; omega) (by simp) (by simp)
    (by simp only [List.length_replicate]; exact hsym)
  have g1 := grows_foreign_function_names fb.symbols
    ⟨List.replicate fb.symbols.length 0, List.replicate fb.symbols.length 0,
      List.replicate fb.symbols.length 0, 0⟩ st
  simp only [foreign_block]
  generalize foreign_function_names fb.symbols
    ⟨List.replicate fb.symbols.length 0, List.replicate fb.symbols.length 0,
      List.replicate fb.symbols.length 0, 0⟩ st = r at n1 n3 g1 ⊢
  simp only [Nat.zero_add] at n1 n3
  have h8 := bh_buffer_align_length r.2 8 (by decide)
  have hp8 := mod_ptr_of_mod_eight E hps _ h8
  have hbase := bh_buffer_align_of_aligned (bh_buffer_align r.2 8) E.POINTER_SIZE hp8
  obtain ⟨e1, e2⟩ := foreign_function_entries_spec E hps r.1 r.1.funcs_length 0
    (bh_buffer_align r.2 8) (by rw [hbase]; omega)
  rw [hbase] at e1 e2
  have g2 := grows_foreign_function_entries E r.1 0 r.1.funcs_length (bh_buffer_align r.2 8)
  generalize foreign_function_entries E r.1 0 r.1.funcs_length (bh_buffer_align r.2 8) = s2
    at e1 e2 g2 ⊢
  obtain ⟨pos, hpos, hinfo, ⟨suf, hsuf⟩, hlen, q1, q2, q3, q4, q5⟩ :=
    foreign_block_record_spec E hps fb index (u32 (bh_buffer_align r.2 8).buffer.length)
      r.1.funcs_length s2
  have g12 : Grows st s2 := grows_trans g1 (grows_trans (grows_align _ 8) g2)
  obtain ⟨⟨s0, hs0⟩, hi0⟩ := g12
  obtain ⟨sr, hsr⟩ := (grows_trans (grows_align r.2 8) g2).1
  have hfs : (foreign_functions fb).length < 4294967296 := by omega
  refine ⟨pos, ?_, ?_, ⟨s0 ++ suf, by rw [hsuf, hs0, List.append_assoc]⟩,
    s2.buffer.length, (bh_buffer_align r.2 8).buffer.length, ?_, q1, q2, q3, ?_, ?_, ?_⟩
  · rw [hs0, List.length_append] at hpos; omega
  · rw [hinfo, hi0]
  · rw [n1] at e1
    have h4 : 16 ≤ 4 * E.POINTER_SIZE := by rcases hps with h | h <;> rw [h] <;> omega
    omega
  · rw [q4, u32_mod_ptr E hps]
  · rw [q5, n1, mod_ptr_of_lt E hps _ hfs]
  · intro j hj
    obtain ⟨p, c1, c2, c3, c4⟩ := n3 j hj
    obtain ⟨b1, b2, b3⟩ := e2 j (by rw [n1]; exact hj)
    rw [Nat.zero_add] at b1 b2 b3
    rw [c1, u32_mod_ptr E hps] at b1
    rw [c3, u32_mod_ptr E hps] at b2
    rw [c4, u32_u32] at b3
    rw [hsuf]
    refine ⟨p, read_ptr_append _ _ _ _ _ b1, read_ptr_append _ _ _ _ _ b2, ?_,
      read_u32_append _ _ _ _ b3⟩
    rw [hsr, List.append_assoc]
    exact read_bytes_append _ _ _ _ _ c2

theorem foreign_blocks_loop_spec (E : TableEnv) (hps : E.POINTER_SIZE = 4 ∨ E.POINTER_SIZE = 8)
    (blocks : List AstForeignBlock) (index : Nat) (st : TableBuffer)
    (hsym : ∀ fb ∈ blocks, fb.symbols.length < 4294967296)
    (hidx : index + blocks.length ≤ st.info.length) (hlt : st.info.length < 4294967296) :
    (∃ suffix, (foreign_blocks_loop E blocks index st).buffer = st.buffer ++ suffix) ∧
    (foreign_blocks_loop E blocks index st).info.length = st.info.length ∧
    (∀ i, i < index → (foreign_blocks_loop E blocks index st).info.getD i 0 = st.info.getD i 0) ∧
    ∀ k (hk : k < blocks.length), ∃ pos, st.buffer.length ≤ pos ∧
      (foreign_blocks_loop E blocks index st).info.getD (index + k) 0 = Table_Info_Type E pos ∧
      ForeignBlockAt E (blocks.get ⟨k, hk⟩) (foreign_blocks_loop E blocks index st).buffer pos := by
  induction blocks generalizing index st with
  | nil =>
    refine ⟨⟨[], by simp [foreign_blocks_loop]⟩, rfl, fun _ _ => rfl, ?_⟩
    intro k hk
    exact absurd hk (Nat.not_lt_zero k)
  | cons fb rest ih =>
    simp only [List.length_cons] at hidx
    obtain ⟨pos, hpos, hinfo, ⟨suf1, hsuf1⟩, hat⟩ := foreign_block_spec E hps fb index st
      (hsym fb (List.mem_cons_self _ _))
    have hu : u32 (index + 1) = index + 1 := Nat.mod_eq_of_lt (by omega)
    have hlen1 : (foreign_block E fb index st).info.length = st.info.length := by
      rw [hinfo, List.length_set]
    obtain ⟨⟨suf2, hsuf2⟩, i2, i3, i4⟩ := ih (index + 1) (foreign_block E fb index st)
      (fun f hf => hsym f (List.mem_cons_of_mem _ hf)) (by rw [hlen1]; omega)
      (by rw [hlen1]; exact hlt)
    simp only [foreign_blocks_loop, hu]
    refine ⟨⟨suf1 ++ suf2, by rw [hsuf2, hsuf1, List.append_assoc]⟩, i2.trans hlen1, ?_, ?_⟩
    · intro i hi
      rw [i3 i (by omega), hinfo, getD_set_ne _ _ _ _ (by omega)]
    · intro k hk
      cases k with
      | zero =>
        refine ⟨pos, hpos, ?_, ?_⟩
        · have e0 := i3 index (by omega)
          rw [hinfo, getD_set_self _ _ _ (by omega)] at e0
          exact e0
        · rw [hsuf2]
          exact foreignBlockAt_append _ _ _ _ _ hat
      | succ k =>
        obtain ⟨p, p1, p2, p3⟩ := i4 k (by simpa using hk)
        refine ⟨p, ?_, ?_, p3⟩
        · rw [hsuf1, List.length_append] at p1; omega
        · rw [← p2]; congr 1; omega

theorem build_foreign_blocks_eq (E : TableEnv) (blocks : List AstForeignBlock)
    (module : OnyxWasmModule) (hcount : blocks.length < 4294967296) :
    build_foreign_blocks E blocks module = (module.next_data_id + 2,
      { data := module.data ++
          [⟨8, (foreign_blocks_loop E blocks 0 (table_init blocks.length)).buffer.length,
             (foreign_blocks_loop E blocks 0 (table_init blocks.length)).buffer,
             module.next_data_id⟩,
           ⟨E.POINTER_SIZE, blocks.length * E.POINTER_SIZE,
             info_bytes E (foreign_blocks_loop E blocks 0 (table_init blocks.length)).info,
             module.next_data_id + 1⟩,
           ⟨E.POINTER_SIZE, 2 * E.POINTER_SIZE,
             info_bytes E [0, Table_Info_Type E blocks.length], module.next_data_id + 2⟩],
        data_patches := module.data_patches ++
          relative_patches module.next_data_id
            (foreign_blocks_loop E blocks 0 (table_init blocks.length)).base_patch_locations ++
          data_patches E module.next_data_id (module.next_data_id + 1)
            (foreign_blocks_loop E blocks 0 (table_init blocks.length)).info blocks.length ++
          [⟨.Datum_Patch_Data, module.next_data_id + 1, 0, module.next_data_id + 2, 0⟩],
        next_data_id := module.next_data_id + 3 }) := by
  have hu : u32 blocks.length = blocks.length := Nat.mod_eq_of_lt hcount
  simp only [build_foreign_blocks, hu, emit_data_entry, List.append_assoc, List.cons_append,
    List.nil_append]

/-- C24: for every foreign block, the Data patch of its slot of the pointer
table carries the offset of a header that decodes to the bytes of the module
name of the block and to a functions slice whose count is the number of
function-kind symbols of its scope, and the `j`-th function entry decodes to
the bytes of the foreign name of the `j`-th such symbol and to its type id.
The hypotheses are that the counts, the type ids and the segment fit 32
bits. -/
theorem build_foreign_blocks_decodes (E : TableEnv) (blocks : List AstForeignBlock)
    (module : OnyxWasmModule)
    (hps : E.POINTER_SIZE = 4 ∨ E.POINTER_SIZE = 8)
    (hcount : blocks.length < 4294967296)
    (hsym : ∀ fb ∈ blocks, fb.symbols.length < 4294967296)
    (htypes : ∀ fb ∈ blocks, ∀ f ∈ fb.symbols, f.type_id < 4294967296)
    (hsize : (foreign_blocks_loop E blocks 0 (table_init blocks.length)).buffer.length <
      4294967296) :
    ∃ content table : WasmDatum,
      content ∈ (build_foreign_blocks E blocks module).2.data ∧
      table ∈ (build_foreign_blocks E blocks module).2.data ∧
      table.length = blocks.length * E.POINTER_SIZE ∧
      ∀ k (hk : k < blocks.length), ∃ offset funcs_base,
        (⟨.Datum_Patch_Data, content.id, offset, table.id, k * E.POINTER_SIZE⟩ :
          DatumPatchInfo) ∈ (build_foreign_blocks E blocks module).2.data_patches ∧
        decode_foreign_block E content.data offset =
          some ((blocks.get ⟨k, hk⟩).module_name, funcs_base,
            (foreign_functions (blocks.get ⟨k, hk⟩)).length) ∧
        ∀ j (hj : j < (foreign_functions (blocks.get ⟨k, hk⟩)).length),
          decode_foreign_function E content.data funcs_base j =
            some (((foreign_functions (blocks.get ⟨k, hk⟩)).get ⟨j, hj⟩).foreign_name,
              ((foreign_functions (blocks.get ⟨k, hk⟩)).get ⟨j, hj⟩).type_id) := by
  have hinit : (table_init blocks.length).info.length = blocks.length := by
    simp [table_init, bh_buffer_write_u64, bh_buffer_append]
  obtain ⟨_, _, _, hblocks⟩ := foreign_blocks_loop_spec E hps blocks 0
    (table_init blocks.length) hsym (by rw [hinit]; omega) (by rw [hinit]; exact hcount)
  rw [build_foreign_blocks_eq E blocks module hcount]
  refine ⟨⟨8, (foreign_blocks_loop E blocks 0 (table_init blocks.length)).buffer.length,
      (foreign_blocks_loop E blocks 0 (table_init blocks.length)).buffer, module.next_data_id⟩,
    ⟨E.POINTER_SIZE, blocks.length * E.POINTER_SIZE,
      info_bytes E (foreign_blocks_loop E blocks 0 (table_init blocks.length)).info,
      module.next_data_id + 1⟩, by simp, by simp, rfl, ?_⟩
  intro k hk
  obtain ⟨pos, _, hp2, nb, fbase, hle, h1, h2, h3, h4, h5, h6⟩ := hblocks k hk
  rw [Nat.zero_add] at hp2
  have hn := read_bytes_lt _ _ _ _ h3
  have hpl := read_bytes_lt _ _ _ _
    (Option.map_eq_some'.mp h1).choose_spec.1
  have hposlt : pos < 4294967296 := by omega
  rw [table_info_type_eq E pos hposlt] at hp2
  rw [show u32 nb = nb from Nat.mod_eq_of_lt (by omega)] at h1
  rw [show u32 (blocks.get ⟨k, hk⟩).module_name.length = (blocks.get ⟨k, hk⟩).module_name.length
    from Nat.mod_eq_of_lt (by omega)] at h2
  rw [show u32 fbase = fbase from Nat.mod_eq_of_lt (by omega)] at h4
  refine ⟨pos, fbase, ?_, ?_, ?_⟩
  · simp only [List.mem_append]
    rw [← hp2]
    exact Or.inl (Or.inr (mem_data_patches E _ _ _ _ _ hk))
  · simp only [decode_foreign_block, h1, h2, h3, h4, h5]
  · intro j hj
    obtain ⟨p, a1, a2, a3, a4⟩ := h6 j hj
    have hp := read_bytes_lt _ _ _ _ a3
    have hmem : (foreign_functions (blocks.get ⟨k, hk⟩)).get ⟨j, hj⟩ ∈
        (blocks.get ⟨k, hk⟩).symbols :=
      (List.mem_filter.mp (List.get_mem _ j hj)).1
    have hty := htypes _ (List.get_mem blocks k hk) _ hmem
    rw [show u32 p = p from Nat.mod_eq_of_lt (by omega)] at a1
    rw [show u32 ((foreign_functions (blocks.get ⟨k, hk⟩)).get ⟨j, hj⟩).foreign_name.length =
      ((foreign_functions (blocks.get ⟨k, hk⟩)).get ⟨j, hj⟩).foreign_name.length
      from Nat.mod_eq_of_lt (by omega)] at a2
    rw [show u32 ((foreign_functions (blocks.get ⟨k, hk⟩)).get ⟨j, hj⟩).type_id =
      ((foreign_functions (blocks.get ⟨k, hk⟩)).get ⟨j, hj⟩).type_id
      from Nat.mod_eq_of_lt hty] at a4
    simp only [decode_foreign_function, a1, a2, a3, a4]

set_option maxRecDepth 4096 in
theorem build_foreign_blocks_decodes_witness :
    (∃ content table : WasmDatum,
      content ∈ (build_foreign_blocks sampleTable4 sampleForeignBlocks {}).2.data ∧
      table ∈ (build_foreign_blocks sampleTable4 sampleForeignBlocks {}).2.data ∧
      table.length = sampleForeignBlocks.length * sampleTable4.POINTER_SIZE ∧
      ∀ k (hk : k < sampleForeignBlocks.length), ∃ offset funcs_base,
        (⟨.Datum_Patch_Data, content.id, offset, table.id, k * sampleTable4.POINTER_SIZE⟩ :
          DatumPatchInfo) ∈ (build_foreign_blocks sampleTable4 sampleForeignBlocks {}).2.data_patches ∧
        decode_foreign_block sampleTable4 content.data offset =
          some ((sampleForeignBlocks.get ⟨k, hk⟩).module_name, funcs_base,
            (foreign_functions (sampleForeignBlocks.get ⟨k, hk⟩)).length) ∧
        ∀ j (hj : j < (foreign_functions (sampleForeignBlocks.get ⟨k, hk⟩)).length),
          decode_foreign_function sampleTable4 content.data funcs_base j =
            some (((foreign_functions (sampleForeignBlocks.get ⟨k, hk⟩)).get ⟨j, hj⟩).foreign_name,
              ((foreign_functions (sampleForeignBlocks.get ⟨k, hk⟩)).get ⟨j, hj⟩).type_id)) ∧
    (∃ content table : WasmDatum,
      content ∈ (build_foreign_blocks sampleTable8 sampleForeignBlocks {}).2.data ∧
      table ∈ (build_foreign_blocks sampleTable8 sampleForeignBlocks {}).2.data ∧
      table.length = sampleForeignBlocks.length * sampleTable8.POINTER_SIZE ∧
      ∀ k (hk : k < sampleForeignBlocks.length), ∃ offset funcs_base,
        (⟨.Datum_Patch_Data, content.id, offset, table.id, k * sampleTable8.POINTER_SIZE⟩ :
          DatumPatchInfo) ∈ (build_foreign_blocks sampleTable8 sampleForeignBlocks {}).2.data_patches ∧
        decode_foreign_block sampleTable8 content.data offset =
          some ((sampleForeignBlocks.get ⟨k, hk⟩).module_name, funcs_base,
            (foreign_functions (sampleForeignBlocks.get ⟨k, hk⟩)).length) ∧
        ∀ j (hj : j < (foreign_functions (sampleForeignBlocks.get ⟨k, hk⟩)).length),
          decode_foreign_function sampleTable8 content.data funcs_base j =
            some (((foreign_functions (sampleForeignBlocks.get ⟨k, hk⟩)).get ⟨j, hj⟩).foreign_name,
              ((foreign_functions (sampleForeignBlocks.get ⟨k, hk⟩)).get ⟨j, hj⟩).type_id)) :=
  ⟨build_foreign_blocks_decodes sampleTable4 sampleForeignBlocks {} (by decide) (by decide)
      (by decide) (by decide) (by decide),
    build_foreign_blocks_decodes sampleTable8 sampleForeignBlocks {} (by decide) (by decide)
      (by decide) (by decide) (by decide)⟩

/-! ### `build_tagged_procedures` -/

theorem grows_emit_constexpr (st : TableBuffer) (size : Nat) (value : AstTyped) :
    Grows st (emit_constexpr st size value) :=
  grows_append st _

theorem grows_tagged_procedure_tags (tags : List AstTyped) (i : Nat) (offs types : List Nat)
    (st : TableBuffer) (h : tags.all (fun v => v.type_.isSome) = true) :
    ∃ r, tagged_procedure_tags tags i offs types st = some r ∧ Grows st r.2.2 := by
  induction tags generalizing i offs types st with
  | nil => exact ⟨(offs, types, st), rfl, grows_refl st⟩
  | cons a rest ih =>
    simp only [List.all_cons, Bool.and_eq_true] at h
    obtain ⟨t, ht⟩ := Option.isSome_iff_exists.mp h.1
    obtain ⟨r, e, g⟩ := ih (i + 1)
      (offs.set i (u32 (bh_buffer_align st t.alignment).buffer.length))
      (types.set i (u32 t.id)) (emit_constexpr (bh_buffer_align st t.alignment) t.size a) h.2
    refine ⟨r, ?_, grows_trans (grows_align st _) (grows_trans (grows_emit_constexpr _ _ _) g)⟩
    simp only [tagged_procedure_tags, ht]
    exact e

theorem grows_tagged_procedure_tag_array (offs types : List Nat) (i n : Nat)
    (st : TableBuffer) : Grows st (tagged_procedure_tag_array offs types i n st) := by
  induction n generalizing i st with
  | zero => exact grows_refl st
  | succ n ih =>
    exact grows_trans (grows_PATCH st) (grows_trans (grows_write_u32 _ _)
      (grows_trans (grows_write_u32 _ _) (ih _ _)))

theorem tagged_procedure_record_spec (E : TableEnv) (func : TaggedProcedure)
    (index base count : Nat) (st : TableBuffer) (he : func.entity_ok = true) :
    ∃ st', tagged_procedure_record E func index base count st = some st' ∧
      (∃ suffix, st'.buffer = st.buffer ++ suffix) ∧
      st'.info = st.info.set index (Table_Info_Type E (bh_buffer_align st 4).buffer.length) ∧
      st.buffer.length ≤ (bh_buffer_align st 4).buffer.length ∧
      (bh_buffer_align st 4).buffer.length + 8 ≤ st'.buffer.length ∧
      read_u32 st'.buffer (bh_buffer_align st 4).buffer.length = some (u32 func.func_idx) ∧
      read_u32 st'.buffer ((bh_buffer_align st 4).buffer.length + 4) =
        some (u32 func.type_id) := by
  obtain ⟨pad, hpad⟩ := (grows_align st 4).1
  obtain ⟨tl, htl⟩ := (grows_trans (grows_WRITE_SLICE E (bh_buffer_write_u32
    (bh_buffer_write_u32 (set_info E (bh_buffer_align st 4) index) func.func_idx) func.type_id)
    base count) (grows_write_u32 _ func.package_id)).1
  have hb : (bh_buffer_write_u32 (bh_buffer_write_u32 (set_info E (bh_buffer_align st 4) index)
      func.func_idx) func.type_id).buffer =
      (bh_buffer_align st 4).buffer ++ le_bytes 4 func.func_idx ++ le_bytes 4 func.type_id := by
    simp only [bh_buffer_write_u32, bh_buffer_append, set_info]
  rw [hb] at htl
  refine ⟨bh_buffer_write_u32 (WRITE_SLICE E (bh_buffer_write_u32 (bh_buffer_write_u32
    (set_info E (bh_buffer_align st 4) index) func.func_idx) func.type_id) base count)
    func.package_id, by simp only [tagged_procedure_record, he, if_true], ?_, ?_, ?_, ?_, ?_, ?_⟩
  · exact ⟨pad ++ le_bytes 4 func.func_idx ++ le_bytes 4 func.type_id ++ tl,
      by rw [htl, hpad]; simp only [List.append_assoc]⟩
  · rw [(grows_write_u32 _ _).2, (grows_WRITE_SLICE E _ _ _).2, (grows_write_u32 _ _).2,
      (grows_write_u32 _ _).2, set_info, (grows_align st 4).2]
  · rw [hpad, List.length_append]; omega
  · rw [htl]; simp only [List.length_append, le_bytes_length]; omega
  · rw [htl]
    exact read_u32_mid _ (bh_buffer_align st 4).buffer (le_bytes 4 func.type_id ++ tl) _ _
      (by simp only [List.append_assoc]) rfl
  · rw [htl]
    exact read_u32_mid _ ((bh_buffer_align st 4).buffer ++ le_bytes 4 func.func_idx) tl _ _
      rfl (by simp only [List.length_append, le_bytes_length])

theorem tagged_procedure_spec (E : TableEnv) (func : TaggedProcedure) (index : Nat)
    (st : TableBuffer) (he : func.entity_ok = true)
    (ht : func.tags.all (fun v => v.type_.isSome) = true) :
    ∃ st' pos, tagged_procedure E func index st = some st' ∧
      (∃ suffix, st'.buffer = st.buffer ++ suffix) ∧
      st'.info = st.info.set index (Table_Info_Type E pos) ∧
      st.buffer.length ≤ pos ∧ pos + 8 ≤ st'.buffer.length ∧
      read_u32 st'.buffer pos = some (u32 func.func_idx) ∧
      read_u32 st'.buffer (pos + 4) = some (u32 func.type_id) := by
  obtain ⟨r, e, g⟩ := grows_tagged_procedure_tags func.tags 0
    (List.replicate (u32 func.tags.length) 0) (List.replicate (u32 func.tags.length) 0) st ht
  have g2 : Grows st (tagged_procedure_tag_array r.1 r.2.1 0
      (u32 func.tags.length) (bh_buffer_align r.2.2 4)) :=
    grows_trans g (grows_trans (grows_align _ 4) (grows_tagged_procedure_tag_array _ _ _ _ _))
  obtain ⟨st', e2, ⟨suf, hsuf⟩, hinfo, h1, h2, h3, h4⟩ := tagged_procedure_record_spec E func
    index (u32 (bh_buffer_align r.2.2 4).buffer.length) (u32 func.tags.length)
    (tagged_procedure_tag_array r.1 r.2.1 0 (u32 func.tags.length) (bh_buffer_align r.2.2 4)) he
  obtain ⟨⟨s0, hs0⟩, hi0⟩ := g2
  refine ⟨st', _, ?_, ⟨s0 ++ suf, by rw [hsuf, hs0, List.append_assoc]⟩, ?_, ?_, h2, h3, h4⟩
  · simp only [tagged_procedure, e]
    exact e2
  · rw [hinfo, hi0]
  · rw [hs0, List.length_append] at h1
    omega

theorem tagged_procedures_loop_spec (E : TableEnv) (p : TaggedProcedure → Bool)
    (procs fs : List TaggedProcedure) (hfs : procs.filter p = fs) (index proc_count : Nat)
    (st : TableBuffer)
    (hok : ∀ f ∈ procs, p f = true →
      f.entity_ok = true ∧ f.tags.all (fun v => v.type_.isSome) = true)
    (hidx : index + fs.length ≤ st.info.length) (hinfo : st.info.length < 4294967296)
    (hpc : proc_count < 4294967296) (hrej : procs.length - fs.length ≤ proc_count) :
    ∃ r, tagged_procedures_loop E p procs index proc_count st = some r ∧
      r.1 + (procs.length - fs.length) = proc_count ∧
      (∃ suffix, r.2.buffer = st.buffer ++ suffix) ∧
      r.2.info.length = st.info.length ∧
      (∀ i, i < index → r.2.info.getD i 0 = st.info.getD i 0) ∧
      ∃ ps : List Nat, ps.length = fs.length ∧ ps.Pairwise (fun a b => a < b) ∧
        ∀ k (hk : k < fs.length),
          st.buffer.length ≤ ps.getD k 0 ∧ ps.getD k 0 + 8 ≤ r.2.buffer.length ∧
          r.2.info.getD (index + k) 0 = Table_Info_Type E (ps.getD k 0) ∧
          read_u32 r.2.buffer (ps.getD k 0) = some (u32 (fs.get ⟨k, hk⟩).func_idx) ∧
          read_u32 r.2.buffer (ps.getD k 0 + 4) = some (u32 (fs.get ⟨k, hk⟩).type_id) := by
  induction procs generalizing fs index proc_count st with
  | nil =>
    simp only [List.filter_nil] at hfs
    subst hfs
    refine ⟨(proc_count, st), rfl, by simp, ⟨[], by simp⟩, rfl, fun _ _ => rfl, [], rfl,
      List.Pairwise.nil, ?_⟩
    intro k hk
    exact absurd hk (Nat.not_lt_zero k)
  | cons f rest ih =>
    have hle : (rest.filter p).length ≤ rest.length := List.length_filter_le _ _
    by_cases hp : p f = true
    · have hfil : (f :: rest).filter p = f :: rest.filter p := by simp [List.filter, hp]
      rw [hfil] at hfs
      subst hfs
      simp only [List.length_cons] at hidx hrej ⊢
      obtain ⟨he, ht⟩ := hok f (List.mem_cons_self _ _) hp
      obtain ⟨s1, pos, e1, ⟨suf1, hsuf1⟩, hi1, hpos1, hpos2, rd1, rd2⟩ :=
        tagged_procedure_spec E f index st he ht
      have hlen1 : s1.info.length = st.info.length := by rw [hi1, List.length_set]
      have hu : u32 (index + 1) = index + 1 := Nat.mod_eq_of_lt (by omega)
      obtain ⟨r, e2, hc, ⟨suf2, hsuf2⟩, hl2, hlow, ps, hpl, hpw, hall⟩ :=
        ih (rest.filter p) rfl (index + 1) proc_count s1
          (fun g hg => hok g (List.mem_cons_of_mem _ hg)) (by rw [hlen1]; omega)
          (by rw [hlen1]; exact hinfo) hpc (by omega)
      refine ⟨r, ?_, by omega, ⟨suf1 ++ suf2, by rw [hsuf2, hsuf1, List.append_assoc]⟩,
        hl2.trans hlen1, ?_, pos :: ps, by simp [hpl], ?_, ?_⟩
      · simp only [tagged_procedures_loop, hp, if_true, e1, hu]
        exact e2
      · intro i hi
        rw [hlow i (by omega), hi1, getD_set_ne _ _ _ _ (by omega)]
      · rw [List.pairwise_cons]
        refine ⟨?_, hpw⟩
        intro x hx
        obtain ⟨k, hk, hkx⟩ := List.getElem_of_mem hx
        have hk2 : k < (rest.filter p).length := by rw [← hpl]; exact hk
        have := (hall k hk2).1
        rw [List.getD_eq_getElem _ _ hk, hkx] at this
        omega
      · intro k hk
        cases k with
        | zero =>
          have e0 := hlow index (by omega)
          rw [hi1, getD_set_self _ _ _ (by omega)] at e0
          refine ⟨hpos1, ?_, e0, ?_, ?_⟩
          · rw [hsuf2, List.length_append]
            simp only [List.getD_cons_zero]
            omega
          · rw [hsuf2]
            exact read_u32_append _ _ _ _ rd1
          · rw [hsuf2]
            exact read_u32_append _ _ _ _ rd2
        | succ k =>
          obtain ⟨a1, a2, a3, a4, a5⟩ := hall k (by simpa using hk)
          have hidx2 : index + (k + 1) = index + 1 + k := by omega
          rw [hidx2]
          refine ⟨?_, a2, a3, a4, a5⟩
          rw [hsuf1, List.length_append] at a1
          simp only [List.getD_cons_succ]
          omega
    · have hfil : (f :: rest).filter p = rest.filter p := by simp [List.filter, hp]
      rw [hfil] at hfs
      subst hfs
      simp only [List.length_cons] at hrej ⊢
      have hu : u32 (proc_count - 1) = proc_count - 1 := Nat.mod_eq_of_lt (by omega)
      obtain ⟨r, e2, hc, hrest⟩ := ih (rest.filter p) rfl index (proc_count - 1) st
        (fun g hg => hok g (List.mem_cons_of_mem _ hg)) hidx hinfo (by omega) (by omega)
      refine ⟨r, ?_, by omega, hrest⟩
      simp only [tagged_procedures_loop, hp, hu]
      exact e2

theorem build_tagged_procedures_eq (E : TableEnv) (p : TaggedProcedure → Bool)
    (procs : List TaggedProcedure) (module : OnyxWasmModule) (r : Nat × TableBuffer)
    (hcount : procs.length < 4294967296)
    (h : tagged_procedures_loop E p procs 0 procs.length (table_init procs.length) = some r) :
    build_tagged_procedures E p procs module = some (module.next_data_id + 2,
      { data := module.data ++
          [⟨8, r.2.buffer.length, r.2.buffer, module.next_data_id⟩,
           ⟨E.POINTER_SIZE, r.1 * E.POINTER_SIZE, info_bytes E (r.2.info.take r.1),
             module.next_data_id + 1⟩,
           ⟨E.POINTER_SIZE, 2 * E.POINTER_SIZE,
             info_bytes E [0, Table_Info_Type E r.1], module.next_data_id + 2⟩],
        data_patches := module.data_patches ++
          relative_patches module.next_data_id r.2.base_patch_locations ++
          data_patches E module.next_data_id (module.next_data_id + 1) r.2.info r.1 ++
          [⟨.Datum_Patch_Data, module.next_data_id + 1, 0, module.next_data_id + 2, 0⟩],
        next_data_id := module.next_data_id + 3 }) := by
  have hu : u32 procs.length = procs.length := Nat.mod_eq_of_lt hcount
  simp only [build_tagged_procedures, hu, h, emit_data_entry, List.append_assoc,
    List.cons_append, List.nil_append]

theorem type_table_entries_total (E : TableEnv) (hps : E.POINTER_SIZE = 4 ∨ E.POINTER_SIZE = 8)
    (entries : List (Nat × OnyxType)) (st : TableBuffer)
    (hasserts : ∀ e ∈ entries, assertsHold e.2 = true)
    (hrange : ∀ e ∈ entries, e.1 < st.info.length) :
    ∃ st', type_table_entries E entries st = some st' := by
  induction entries generalizing st with
  | nil => exact ⟨st, rfl⟩
  | cons a rest ih =>
    obtain ⟨s1, _, e1, _, hinfo1, _⟩ := type_table_entry_spec E hps a.1 a.2 st
      (hrange a (List.mem_cons_self _ _)) (hasserts a (List.mem_cons_self _ _))
    obtain ⟨s2, e2⟩ := ih s1 (fun e he => hasserts e (List.mem_cons_of_mem _ he))
      (fun e he => by
        rw [hinfo1, List.length_set]
        exact hrange e (List.mem_cons_of_mem _ he))
    exact ⟨s2, by simp only [type_table_entries, e1]; exact e2⟩

theorem type_table_init_info_length (count : Nat) :
    (type_table_init count).info.length = count := by
  simp [type_table_init, bh_buffer_write_u64, bh_buffer_append]

theorem type_table_entries_returns (E : TableEnv)
    (hps : E.POINTER_SIZE = 4 ∨ E.POINTER_SIZE = 8) (entries : List (Nat × OnyxType))
    (hasserts : ∀ e ∈ entries, assertsHold e.2 = true)
    (hrange : ∀ e ∈ entries, e.1 < entries.length + 1) :
    ∃ st', type_table_entries E entries (type_table_init (entries.length + 1)) = some st' :=
  type_table_entries_total E hps entries _ hasserts
    (fun e he => by rw [type_table_init_info_length]; exact hrange e he)

theorem extends_refl (st : TableBuffer) : Extends st st := ⟨⟨[], by simp⟩, rfl, rfl⟩

theorem extends_trans {a b c : TableBuffer} (h1 : Extends a b) (h2 : Extends b c) :
    Extends a c := by
  obtain ⟨⟨s1, e1⟩, p1, i1⟩ := h1
  obtain ⟨⟨s2, e2⟩, p2, i2⟩ := h2
  exact ⟨⟨s1 ++ s2, by rw [e2, e1, List.append_assoc]⟩, p2.trans p1, i2.trans i1⟩

theorem extends_append (st : TableBuffer) (bytes : List Nat) :
    Extends st (bh_buffer_append st bytes) := ⟨⟨bytes, rfl⟩, rfl, rfl⟩

theorem extends_write_u32 (st : TableBuffer) (v : Nat) : Extends st (bh_buffer_write_u32 st v) :=
  extends_append st _

theorem extends_write_u64 (st : TableBuffer) (v : Nat) : Extends st (bh_buffer_write_u64 st v) :=
  extends_append st _

theorem extends_write_byte (st : TableBuffer) (v : Nat) :
    Extends st (bh_buffer_write_byte st v) :=
  extends_append st _

theorem extends_align (st : TableBuffer) (a : Nat) : Extends st (bh_buffer_align st a) :=
  extends_append st _

theorem extends_emit_constexpr_ (st : TableBuffer) (size : Nat) (bytes : List Nat) :
    Extends st (emit_constexpr_ st size bytes) :=
  extends_append st _

theorem extends_emit_constexpr (st : TableBuffer) (size : Nat) (value : AstTyped) :
    Extends st (emit_constexpr st size value) :=
  extends_append st _

theorem WRITE_PTR_patches (E : TableEnv) (hps : E.POINTER_SIZE = 4 ∨ E.POINTER_SIZE = 8)
    (st : TableBuffer) (v : Nat) :
    (WRITE_PTR E st v).base_patch_locations =
      st.base_patch_locations ++ [u32 (bh_buffer_align st E.POINTER_SIZE).buffer.length] := by
  rcases hps with h | h <;>
    simp [WRITE_PTR, h, PATCH, bh_buffer_write_u32, bh_buffer_write_u64, bh_buffer_append,
      bh_buffer_align]

theorem extends_WRITE_SLICE_count (E : TableEnv) (st : TableBuffer) (v c : Nat) :
    Extends (WRITE_PTR E st v) (WRITE_SLICE E st v c) := by
  simp only [WRITE_SLICE]
  split_ifs
  · exact extends_trans (extends_write_u32 _ _) (extends_write_u64 _ _)
  · exact extends_write_u64 _ _
  · exact extends_write_u32 _ _
  · exact extends_refl _

/-- C26: the scan of `lookup_and_load_custom_libraries` takes a custom
section whose name is empty, and one whose name is `_onyx`, for the library
section, because `strncmp` compares over the length of the name of the
section only: on `sampleEmptyNameModule` and on `sampleShortNameModule` the
turn of the loop does not move the cursor to `section_start + section_size`
(15 and 20) but stops after the name, and the bytes that follow are read as
one library path `p`. -/
theorem lookup_and_load_custom_libraries_partial_name :
    section_step sampleEmptyNameModule str_onyx_libs 8 = some (.found 11) ∧
    lookup_and_load_custom_libraries {} 4 sampleEmptyNameModule {} =
      some ⟨[[112]], [], {}⟩ ∧
    section_step sampleShortNameModule str_onyx_libs 8 = some (.found 16) ∧
    lookup_and_load_custom_libraries {} 4 sampleShortNameModule {} =
      some ⟨[[112]], [], {}⟩ := by
  decide

set_option maxRecDepth 4096 in
/-- C27: on `sampleLongPathModule`, whose section `_onyx_libs` holds a path
of 513 bytes `a` and then the path `b`, `lookup_and_load_custom_libraries`
stores 512 bytes `a` as the first path and the two bytes 1, `b` as the
second: the cursor moves by the clamped length 512, so the length of the
second entry is read from the last byte of the first. -/
theorem lookup_and_load_custom_libraries_long_path :
    lookup_and_load_custom_libraries {} 4 sampleLongPathModule {} =
      some ⟨[List.replicate 512 97, [1, 98]], [], {}⟩ := by
  decide

/-- C29: on a module with the import `env.missing`, which no library
defines, `onyx_run_wasm` returns failure after the message about the import
and deletes nothing: the module, the store and the engine are still set when
it returns, and no event of `cleanup_wasm_objects` is observed. -/
theorem onyx_run_wasm_unresolved_import_no_cleanup :
    onyx_run_wasm sampleEngine 4 sampleOnyxBytes {} =
      some (false, [0, 97, 115, 109, 1, 0, 0, 0],
        { wasm_engine := true, wasm_store := true, wasm_instance := false,
          wasm_module := some sampleMissingImport, wasm_memory := true,
          events := [.wasm_module_new [0, 97, 115, 109, 1, 0, 0, 0], .wasm_memory_new,
            .print (missing_import_message [101, 110, 118]
              [109, 105, 115, 115, 105, 110, 103])] }) := by
  decide

/-- C30: on `sampleTrapModule`, which has no custom section named
`_onyx_func_offsets` but one with the empty name, `onyx_print_trap` prints
the trace after the message of the trap: the scan stops after the empty name
(cursor 11), and the frame of function 0 is printed with the name `f` found
through the word at that position. -/
theorem onyx_print_trap_partial_name :
    section_step sampleTrapModule str_onyx_func_offsets 8 = some (.found 11) ∧
    onyx_print_trap 4 sampleTrapModule sampleTrap {} =
      some { events := [.print (trap_message [120]), .print trace_message,
        .print_frame 0 0 [102]] } := by
  decide

/-! ### Further properties of the runtime loader and of the reflection tables -/

/-- C33: `wasm_extern_lookup_by_name` compares each export with the name over
the length of the name only.  On a module that exports `_start2` and then
`_start`, the lookup of `_start` returns the export at position 0, which is
`_start2`; on a module whose only export is `_start2` it returns that export
and not `NULL`. -/
theorem wasm_extern_lookup_by_name_initial_part :
    wasm_extern_lookup_by_name sampleExports str_start = some (some 0) ∧
    sampleExports.exports.get? 0 = some [95, 115, 116, 97, 114, 116, 50] ∧
    sampleExports.exports.get? 1 = some str_start ∧
    wasm_extern_lookup_by_name sampleExportsOther str_start = some (some 0) ∧
    str_start ∉ sampleExportsOther.exports := by
  decide

/-- C34: for the polymorphic struct `samplePolyStruct`, whose first tag is
skipped and whose second tag, of type 6, has its payload at offset 12, the
tags slice of the record has one entry, at offset 16, and that entry pairs
the payload location 12 with the type id 5 of the skipped tag: the loop that
writes the entries reads `meta_tags[i]` at the position `i` of the entry. -/
theorem type_table_polystruct_skipped_tag :
    (type_table_polystruct sampleTable4 samplePolyStruct 1 (type_table_init 2)).map
      (fun st => (st.buffer, st.info)) =
      some ([0, 0, 0, 0, 0, 0, 0, 0, 80, 0, 0, 0, 1, 0, 0, 0,
        12, 0, 0, 0, 5, 0, 0, 0,
        11, 0, 0, 0, 0, 0, 0, 0, 0, 0, 0, 0, 8, 0, 0, 0, 1, 0, 0, 0, 16, 0, 0, 0, 1, 0, 0, 0],
        [0, 24]) := by
  decide

/-- The turn of the loop on `sampleLoopModule` comes back to the cursor it
started from, so the scan runs out of every fuel. -/
theorem section_scan_sampleLoopModule (name : List Nat) (fuel : Nat) :
    section_scan sampleLoopModule name fuel 8 = none := by
  have hstep : section_step sampleLoopModule name 8 = some (.skip 8) := by
    simp [section_step, uleb128_to_uint, sampleLoopModule, uleb128, i32]
  induction fuel with
  | zero => rfl
  | succ n ih =>
    have hlt : ((8 : Int) < (sampleLoopModule.length : Int)) := by decide
    simp only [section_scan, if_pos hlt, hstep]
    exact ih

/-- C35: on `sampleLoopModule` the cursor is 8 at the start of the first turn
of the scan and 8 again after it: the section size 4294967290 added to
`section_start` = 14 is 8 modulo 2^32.  The loop condition still holds, and
the scans of `lookup_and_load_custom_libraries` and of `onyx_print_trap` do
not end, whatever the fuel. -/
theorem section_scan_does_not_terminate :
    uleb128_to_uint sampleLoopModule 9 = some (4294967290, 14) ∧
    section_step sampleLoopModule str_onyx_libs 8 = some (.skip 8) ∧
    section_step sampleLoopModule str_onyx_func_offsets 8 = some (.skip 8) ∧
    (8 : Int) < sampleLoopModule.length ∧
    (∀ fuel, section_scan sampleLoopModule str_onyx_libs fuel 8 = none) ∧
    ∀ fuel, section_scan sampleLoopModule str_onyx_func_offsets fuel 8 = none :=
  ⟨by decide, by decide, by decide, by decide,
    section_scan_sampleLoopModule str_onyx_libs,
    section_scan_sampleLoopModule str_onyx_func_offsets⟩

/-- C37: the terminator of a library path is written at the index that equals
the number of bytes allocated, for every length, so one byte past the
allocation; the terminator of a library name is written at index 256 of the
256 bytes of `library_name` as soon as the length is at least 256. -/
theorem terminator_outside_buffer :
    (∀ len, (lib_path_terminator len).index = (lib_path_terminator len).size) ∧
    lib_path_terminator 3 = ⟨3, 3⟩ ∧
    lib_path_terminator 600 = ⟨512, 512⟩ ∧
    library_name_terminator 256 = ⟨256, 256⟩ ∧
    library_name_terminator 300 = ⟨256, 256⟩ ∧
    library_name_terminator 255 = ⟨256, 255⟩ :=
  ⟨fun _ => rfl, by decide, by decide, by decide, by decide, by decide⟩

/-- C38: `wasm_name_equals` takes the names `a\0b` and `a\0c`, of the same
size and different in their last byte, for equal: `strncmp` stops at the zero
byte. -/
theorem wasm_name_equals_zero_byte :
    wasm_name_equals [97, 0, 98] [97, 0, 99] = some true ∧
    ([97, 0, 98] : List Nat).length = ([97, 0, 99] : List Nat).length ∧
    ([97, 0, 98] : List Nat) ≠ [97, 0, 99] := by
  decide

/-- C40: a plain assignment `x = e` whose operands check successfully, where
`x` is an l-value without a type after the checks and `e` has the type `T`,
compatible with itself: `check_binaryop` succeeds, `x` has the type `T`
afterwards, the assignment node has the type `T`, and the messages are those
left by the checks of the operands. -/
theorem check_binaryop_assign_untyped (E : Env) (check_expression : Checker)
    (binop lp rp lp2 rp2 : Nat) (s s1 s2 : SemState) (b b1 b2 l r : AstNode) (T : Nat)
    (hb : s.node binop = some b) (hl : b.left = some lp)
    (hL : check_expression lp s = some (0, s1))
    (hb1 : s1.node binop = some b1) (hr : b1.right = some rp)
    (hR : check_expression rp s1 = some (0, s2))
    (hb2 : s2.node binop = some b2) (hop : b2.operation = BinaryOp.Assign)
    (hl2 : b2.left = some lp2) (hln : s2.node lp2 = some l)
    (hr2 : b2.right = some rp2) (hrn : s2.node rp2 = some r)
    (hlval : E.is_lval l = true) (hlt : l.type = none) (hrt : r.type = some T)
    (hrefl : E.types_are_compatible (some T) (some T) = true) :
    ∃ s3, check_binaryop E check_expression binop s = some (0, s3) ∧
      s3.msgs = s2.msgs ∧
      (∃ x, s3.node lp2 = some x ∧ x.type = some T) ∧
      (∃ a, s3.node binop = some a ∧ a.type = some T ∧ a.operation = BinaryOp.Assign) := by
  have hne : rp2 ≠ lp2 := by
    intro h
    rw [h, hln] at hrn
    have := Option.some.inj hrn
    rw [this, hrt] at hlt
    cases hlt
  have hisassign : binop_is_assignment b2.operation = true := by rw [hop]; decide
  have hcmp : binop_is_compare b2.operation = false := by rw [hop]; decide
  have hassign : check_binaryop_assignment E binop s2 =
      some (0, s2.setNode lp2 { l with type := some T }) := by
    have hia : binop_is_assignment BinaryOp.Assign = true := by decide
    simp [check_binaryop_assignment, hb2, hia, hop, hl2, hln, hlval, hlt, hr2,
      hrn, SemState.deref, hrt]
  have hl3 : (s2.setNode lp2 { l with type := some T }).node lp2 =
      some { l with type := some T } := node_setNode_self _ hln
  have hr3 : (s2.setNode lp2 { l with type := some T }).node rp2 = some r := by
    rw [node_setNode_ne _ (Ne.symm hne), hrn]
  rw [check_binaryop_eq_rest E check_expression binop lp rp s s1 s2 b b1 hb hl hL hb1 hr hR]
  have hrest : check_binaryop_rest E binop s2 =
      check_binaryop_types E binop (s2.setNode lp2 { l with type := some T }) := by
    simp [check_binaryop_rest, hassign, orReturn]
  rw [hrest]
  by_cases hbl : binop = lp2
  · subst hbl
    have hbl2 : b2 = l := by
      rw [hb2] at hln
      exact Option.some.inj hln
    subst hbl2
    rw [check_binaryop_types_eq E binop binop rp2
      (s2.setNode binop { b2 with type := some T }) { b2 with type := some T }
      { b2 with type := some T } r hl3 hl2 hl3 hr2 hr3]
    simp only [hrt, hrefl, hcmp, reduceCtorEq, if_false, Bool.true_eq_false,
      Bool.false_eq_true]
    refine ⟨_, rfl, rfl, ?_⟩
    have hfin := node_setNode_self { b2 with type := some T } hl3
    exact ⟨⟨_, hfin, rfl⟩, ⟨_, hfin, rfl, hop⟩⟩
  · have hb3 : (s2.setNode lp2 { l with type := some T }).node binop = some b2 := by
      rw [node_setNode_ne _ (Ne.symm hbl), hb2]
    rw [check_binaryop_types_eq E binop lp2 rp2
      (s2.setNode lp2 { l with type := some T }) b2 { l with type := some T } r hb3 hl2 hl3
      hr2 hr3]
    simp only [hrt, hrefl, hcmp, reduceCtorEq, if_false, Bool.true_eq_false,
      Bool.false_eq_true]
    refine ⟨_, rfl, rfl, ?_⟩
    have hfin := node_setNode_self { b2 with type := some T } hb3
    refine ⟨⟨{ l with type := some T }, ?_, rfl⟩, ⟨_, hfin, rfl, hop⟩⟩
    rw [node_setNode_ne _ hbl, hl3]

/-- C40, witness: `x = y` with `x` an untyped local and `y : i32`. -/
theorem check_binaryop_assign_untyped_witness :
    ∃ s3, check_binaryop sampleEnv (check_expression sampleEnv 1) 0
        (binopState BinaryOp.Assign 0 none (some ty_i32)) = some (0, s3) ∧
      s3.msgs = (binopState BinaryOp.Assign 0 none (some ty_i32)).msgs ∧
      (∃ x, s3.node 1 = some x ∧ x.type = some ty_i32) ∧
      (∃ a, s3.node 0 = some a ∧ a.type = some ty_i32 ∧ a.operation = BinaryOp.Assign) :=
  check_binaryop_assign_untyped sampleEnv (check_expression sampleEnv 1) 0 1 2 1 2
    (binopState BinaryOp.Assign 0 none (some ty_i32))
    (binopState BinaryOp.Assign 0 none (some ty_i32))
    (binopState BinaryOp.Assign 0 none (some ty_i32))
    (sampleBinop BinaryOp.Assign) (sampleBinop BinaryOp.Assign) (sampleBinop BinaryOp.Assign)
    (sampleX 0 none) (sampleY (some ty_i32)) ty_i32
    (by rfl) (by rfl) (by rfl) (by rfl) (by rfl) (by rfl) (by rfl) (by rfl) (by rfl) (by rfl)
    (by rfl) (by rfl) (by rfl) (by rfl) (by rfl) (by rfl)

/-! ### Alignment of the patch sites -/

theorem aligned_of_patches {k : Nat} {st st1 : TableBuffer}
    (hp : st1.base_patch_locations = st.base_patch_locations)
    (ha : PatchesAligned k st) : PatchesAligned k st1 := by
  intro L hL
  rw [hp] at hL
  exact ha L hL

theorem aligned_of_extends {k : Nat} {st st1 : TableBuffer} (h : Extends st st1)
    (ha : PatchesAligned k st) : PatchesAligned k st1 :=
  aligned_of_patches h.2.1 ha

theorem u32_mod_of_mod (k n : Nat) (hk : k = 4 ∨ k = 8) (h : n % k = 0) : u32 n % k = 0 := by
  unfold u32
  rcases hk with hk | hk <;> subst hk <;> omega

theorem aligned_WRITE_PTR (E : TableEnv) (hps : E.POINTER_SIZE = 4 ∨ E.POINTER_SIZE = 8)
    (k : Nat) (hk : k = 4 ∨ k = E.POINTER_SIZE) (st : TableBuffer) (v : Nat)
    (ha : PatchesAligned k st) : PatchesAligned k (WRITE_PTR E st v) := by
  intro L hL
  rw [WRITE_PTR_patches E hps, List.mem_append] at hL
  rcases hL with hL | hL
  · exact ha L hL
  · rw [List.mem_singleton] at hL
    subst hL
    have h0 : 0 < E.POINTER_SIZE := by rcases hps with h | h <;> rw [h] <;> decide
    have hal := bh_buffer_align_length st E.POINTER_SIZE h0
    have hps_mod := u32_mod_of_mod E.POINTER_SIZE _ hps hal
    rcases hk with hk | hk
    · subst hk
      generalize u32 (bh_buffer_align st E.POINTER_SIZE).buffer.length = n at hps_mod
      rcases hps with h | h <;> rw [h] at hps_mod <;> omega
    · subst hk
      exact hps_mod

theorem aligned_WRITE_SLICE (E : TableEnv) (hps : E.POINTER_SIZE = 4 ∨ E.POINTER_SIZE = 8)
    (k : Nat) (hk : k = 4 ∨ k = E.POINTER_SIZE) (st : TableBuffer) (v c : Nat)
    (ha : PatchesAligned k st) : PatchesAligned k (WRITE_SLICE E st v c) :=
  aligned_of_extends (extends_WRITE_SLICE_count E st v c) (aligned_WRITE_PTR E hps k hk st v ha)

theorem aligned_table_info_stored (E : TableEnv) (k : Nat) (st : TableBuffer)
    (idx kind s al : Nat) (ha : PatchesAligned k st) :
    PatchesAligned k (table_info_stored E st idx kind s al) :=
  aligned_of_patches rfl ha

theorem aligned_set_info (E : TableEnv) (k : Nat) (st : TableBuffer) (index : Nat)
    (ha : PatchesAligned k st) : PatchesAligned k (set_info E st index) :=
  aligned_of_patches rfl ha

theorem aligned_write_type_ids (k : Nat) (ids : List Nat) (st : TableBuffer)
    (ha : PatchesAligned k st) : PatchesAligned k (write_type_ids ids st) := by
  induction ids generalizing st with
  | nil => exact ha
  | cons x rest ih => exact ih _ (aligned_of_extends (extends_write_u32 st x) ha)

theorem aligned_enum_value_names (k : Nat) (values : List AstEnumValue) (i : Nat)
    (locs : List Nat) (st : TableBuffer) (ha : PatchesAligned k st) :
    PatchesAligned k (enum_value_names values i locs st).2 := by
  induction values generalizing i locs st with
  | nil => exact ha
  | cons x rest ih => exact ih _ _ _ (aligned_of_extends (extends_append st x.token_text) ha)

theorem aligned_enum_value_records (E : TableEnv)
    (hps : E.POINTER_SIZE = 4 ∨ E.POINTER_SIZE = 8) (values : List AstEnumValue) (i : Nat)
    (locs : List Nat) (st st1 : TableBuffer)
    (h : enum_value_records E values i locs st = some st1)
    (ha : PatchesAligned E.POINTER_SIZE st) : PatchesAligned E.POINTER_SIZE st1 := by
  induction values generalizing i st with
  | nil =>
    simp only [enum_value_records, Option.some.injEq] at h
    subst h
    exact ha
  | cons x rest ih =>
    simp only [enum_value_records] at h
    split at h
    · exact ih _ _ h (aligned_of_extends (extends_write_u64 _ x.value_l)
        (aligned_WRITE_SLICE E hps _ (Or.inr rfl) _ _ _
          (aligned_of_extends (extends_align st 8) ha)))
    · cases h

theorem aligned_tag_payloads (k : Nat) (conv : Nat → Nat) (tags : List AstTyped) (j : Nat)
    (locs : List Nat) (st : TableBuffer) (r : List Nat × TableBuffer)
    (h : tag_payloads conv tags j locs st = some r) (ha : PatchesAligned k st) :
    PatchesAligned k r.2 := by
  induction tags generalizing j locs st with
  | nil =>
    simp only [tag_payloads, Option.some.injEq] at h
    subst h
    exact ha
  | cons x rest ih =>
    simp only [tag_payloads] at h
    split at h
    · split at h
      · cases h
      · rename_i t ht
        split at h
        · cases h
        · rename_i bytes hb
          exact ih _ _ _ h (aligned_of_extends (extends_emit_constexpr_ _ t.size bytes)
            (aligned_of_extends (extends_align st t.alignment) ha))
    · cases h

theorem aligned_tag_slices (E : TableEnv) (hps : E.POINTER_SIZE = 4 ∨ E.POINTER_SIZE = 8)
    (tags : List AstTyped) (locs : List Nat) (j n : Nat) (st st1 : TableBuffer)
    (h : tag_slices E tags locs j n st = some st1)
    (ha : PatchesAligned E.POINTER_SIZE st) : PatchesAligned E.POINTER_SIZE st1 := by
  induction n generalizing j st with
  | zero =>
    simp only [tag_slices, Option.some.injEq] at h
    subst h
    exact ha
  | succ n ih =>
    simp only [tag_slices] at h
    split at h
    · cases h
    · split at h
      · cases h
      · exact ih _ _ h (aligned_WRITE_SLICE E hps _ (Or.inr rfl) _ _ _ ha)

theorem aligned_polystruct_tag_payloads (k : Nat) (tags : List AstTyped) (i c : Nat)
    (locs : List Nat) (st : TableBuffer) (r : Nat × List Nat × TableBuffer)
    (h : polystruct_tag_payloads tags i c locs st = some r) (ha : PatchesAligned k st) :
    PatchesAligned k r.2.2 := by
  induction tags generalizing i c locs st with
  | nil =>
    simp only [polystruct_tag_payloads, Option.some.injEq] at h
    subst h
    exact ha
  | cons x rest ih =>
    simp only [polystruct_tag_payloads] at h
    split at h
    · split at h
      · cases h
      · rename_i t ht
        split at h
        · cases h
        · rename_i bytes hb
          exact ih _ _ _ _ h (aligned_of_extends (extends_emit_constexpr_ _ t.size bytes)
            (aligned_of_extends (extends_align st t.alignment) ha))
    · exact ih _ _ _ _ h ha

theorem aligned_type_table_simple (E : TableEnv) (type : OnyxType) (idx : Nat)
    (st st1 : TableBuffer) (h : type_table_simple E type idx st = some st1)
    (ha : PatchesAligned E.POINTER_SIZE st) : PatchesAligned E.POINTER_SIZE st1 := by
  have h1 := aligned_table_info_stored E _ st idx (E.Type_Kind_value type.kind) type.size
    type.alignment ha
  unfold type_table_simple at h
  split at h
  · cases h
  rename_i sx hsx
  obtain ⟨rfl, _⟩ := table_info_record_some E _ _ _ _ _ _ hsx
  split at h <;> (simp only [Option.some.injEq] at h; subst h)
  · exact aligned_of_extends (extends_write_u32 _ _) h1
  · exact aligned_of_extends (extends_trans (extends_write_u32 _ _) (extends_write_u32 _ _)) h1
  · exact aligned_of_extends (extends_write_u32 _ _) h1

theorem aligned_type_table_compound (E : TableEnv)
    (hps : E.POINTER_SIZE = 4 ∨ E.POINTER_SIZE = 8) (type : OnyxType) (idx : Nat)
    (st st1 : TableBuffer) (h : type_table_compound E type idx st = some st1)
    (ha : PatchesAligned E.POINTER_SIZE st) : PatchesAligned E.POINTER_SIZE st1 := by
  simp only [type_table_compound] at h
  split at h
  · cases h
  rename_i sx hsx
  obtain ⟨rfl, _⟩ := table_info_record_some E _ _ _ _ _ _ hsx
  simp only [Option.some.injEq] at h
  subst h
  exact aligned_WRITE_SLICE E hps _ (Or.inr rfl) _ _ _
    (aligned_table_info_stored E _ _ idx _ _ _
      (aligned_of_extends (extends_align _ 8) (aligned_write_type_ids _ type.types st ha)))

theorem aligned_type_table_function (E : TableEnv)
    (hps : E.POINTER_SIZE = 4 ∨ E.POINTER_SIZE = 8) (type : OnyxType) (idx : Nat)
    (st st1 : TableBuffer) (h : type_table_function E type idx st = some st1)
    (ha : PatchesAligned E.POINTER_SIZE st) : PatchesAligned E.POINTER_SIZE st1 := by
  simp only [type_table_function] at h
  split at h
  · cases h
  rename_i sx hsx
  obtain ⟨rfl, _⟩ := table_info_record_some E _ _ _ _ _ _ hsx
  simp only [Option.some.injEq] at h
  subst h
  exact aligned_of_extends (extends_write_u32 _ _)
    (aligned_WRITE_SLICE E hps _ (Or.inr rfl) _ _ _
      (aligned_of_extends (extends_write_u32 _ type.return_type_id)
        (aligned_table_info_stored E _ _ idx _ _ _
          (aligned_write_type_ids _ type.params st ha))))

theorem aligned_type_table_enum (E : TableEnv)
    (hps : E.POINTER_SIZE = 4 ∨ E.POINTER_SIZE = 8) (type : OnyxType) (idx : Nat)
    (st st1 : TableBuffer) (h : type_table_enum E type idx st = some st1)
    (ha : PatchesAligned E.POINTER_SIZE st) : PatchesAligned E.POINTER_SIZE st1 := by
  simp only [type_table_enum] at h
  have a1 := aligned_of_extends (extends_align _ 8)
    (aligned_enum_value_names E.POINTER_SIZE type.values 0
      (List.replicate (u32 type.values.length) 0) st ha)
  split at h
  · cases h
  · rename_i s3 h3
    have a3 := aligned_enum_value_records E hps _ _ _ _ s3 h3 a1
    split at h
    · cases h
    · rename_i name hn
      split at h
      · cases h
      rename_i sx hsx
      obtain ⟨rfl, _⟩ := table_info_record_some E _ _ _ _ _ _ hsx
      simp only [Option.some.injEq] at h
      subst h
      exact aligned_of_extends (extends_write_u32 _ _)
        (aligned_WRITE_SLICE E hps _ (Or.inr rfl) _ _ _
          (aligned_WRITE_SLICE E hps _ (Or.inr rfl) _ _ _
            (aligned_of_extends (extends_write_u32 _ type.backing_id)
              (aligned_table_info_stored E _ _ idx _ _ _
                (aligned_of_extends
                  (extends_trans (extends_append s3 name) (extends_align _ 8)) a3)))))

theorem aligned_type_table_distinct (E : TableEnv)
    (hps : E.POINTER_SIZE = 4 ∨ E.POINTER_SIZE = 8) (type : OnyxType) (idx : Nat)
    (st st1 : TableBuffer) (h : type_table_distinct E type idx st = some st1)
    (ha : PatchesAligned E.POINTER_SIZE st) : PatchesAligned E.POINTER_SIZE st1 := by
  simp only [type_table_distinct] at h
  split at h
  · cases h
  · rename_i name hn
    split at h
    · cases h
    rename_i sx hsx
    obtain ⟨rfl, _⟩ := table_info_record_some E _ _ _ _ _ _ hsx
    simp only [Option.some.injEq] at h
    subst h
    exact aligned_WRITE_SLICE E hps _ (Or.inr rfl) _ _ _
      (aligned_of_extends (extends_write_u32 _ type.base_type_id)
        (aligned_table_info_stored E _ _ idx _ _ _
          (aligned_of_extends (extends_trans (extends_append st name) (extends_align _ 8)) ha)))

theorem aligned_type_table_polystruct (E : TableEnv)
    (hps : E.POINTER_SIZE = 4 ∨ E.POINTER_SIZE = 8) (type : OnyxType) (idx : Nat)
    (st st1 : TableBuffer) (h : type_table_polystruct E type idx st = some st1)
    (ha : PatchesAligned E.POINTER_SIZE st) : PatchesAligned E.POINTER_SIZE st1 := by
  simp only [type_table_polystruct] at h
  split at h
  · cases h
  · rename_i name hn
    split at h
    · cases h
    · rename_i r hr
      have a2 := aligned_of_extends (extends_align r.2.2 8)
        (aligned_polystruct_tag_payloads _ _ _ _ _ _ r hr
          (aligned_of_extends (extends_append st name) ha))
      split at h
      · cases h
      · rename_i s4 h4
        split at h
        · cases h
        rename_i sx hsx
        obtain ⟨rfl, _⟩ := table_info_record_some E _ _ _ _ _ _ hsx
        simp only [Option.some.injEq] at h
        subst h
        exact aligned_WRITE_SLICE E hps _ (Or.inr rfl) _ _ _
          (aligned_WRITE_SLICE E hps _ (Or.inr rfl) _ _ _
            (aligned_table_info_stored E _ _ idx _ _ _
              (aligned_of_extends (extends_align s4 8)
                (aligned_tag_slices E hps _ _ _ _ _ s4 h4 a2))))

theorem aligned_struct_member_names (k : Nat) (members : List StructMember)
    (i : Nat) (locs : List Nat) (st : TableBuffer) (ha : PatchesAligned k st) :
    PatchesAligned k (struct_member_names members i locs st).2 := by
  induction members generalizing i locs st with
  | nil => exact ha
  | cons x rest ih => exact ih _ _ _ (aligned_of_extends (extends_append st x.name) ha)

theorem aligned_struct_poly_solutions (k : Nat) (slns : List AstPolySolution)
    (i : Nat) (locs : List Nat) (st : TableBuffer) (r : List Nat × TableBuffer)
    (h : struct_poly_solutions slns i locs st = some r) (ha : PatchesAligned k st) :
    PatchesAligned k r.2 := by
  induction slns generalizing i locs st with
  | nil =>
    simp only [struct_poly_solutions, Option.some.injEq] at h
    subst h
    exact ha
  | cons x rest ih =>
    simp only [struct_poly_solutions] at h
    have a1 := aligned_of_extends (extends_align st 8) ha
    split at h
    · exact ih _ _ _ h (aligned_of_extends (extends_append _ (le_bytes 4 x.type_id)) a1)
    · split at h
      · cases h
      · split at h
        · cases h
        · rename_i t ht
          split at h
          · rename_i bytes hb
            exact ih _ _ _ h (aligned_of_extends (extends_emit_constexpr_ _ t.size bytes) a1)
          · exact ih _ _ _ h a1
    · exact ih _ _ _ h a1

theorem aligned_struct_default_values (k : Nat) (members : List StructMember)
    (i : Nat) (locs : List Nat) (st : TableBuffer) (r : List Nat × TableBuffer)
    (h : struct_default_values members i locs st = some r) (ha : PatchesAligned k st) :
    PatchesAligned k r.2 := by
  induction members generalizing i locs st with
  | nil =>
    simp only [struct_default_values, Option.some.injEq] at h
    subst h
    exact ha
  | cons x rest ih =>
    simp only [struct_default_values] at h
    split at h
    · exact ih _ _ _ h ha
    · split at h
      · cases h
      · rename_i t ht
        split at h
        · have a1 := aligned_of_extends (extends_align st t.alignment) ha
          split at h
          · exact ih _ _ _ h a1
          · rename_i bytes hb
            exact ih _ _ _ h (aligned_of_extends (extends_emit_constexpr_ _ t.size bytes) a1)
        · exact ih _ _ _ h ha

theorem aligned_struct_member_tags (E : TableEnv)
    (hps : E.POINTER_SIZE = 4 ∨ E.POINTER_SIZE = 8) (members : List StructMember)
    (i : Nat) (locs : List Nat) (st : TableBuffer) (r : List Nat × TableBuffer)
    (h : struct_member_tags E members i locs st = some r)
    (ha : PatchesAligned E.POINTER_SIZE st) : PatchesAligned E.POINTER_SIZE r.2 := by
  induction members generalizing i locs st with
  | nil =>
    simp only [struct_member_tags, Option.some.injEq] at h
    subst h
    exact ha
  | cons x rest ih =>
    simp only [struct_member_tags] at h
    split at h
    · exact ih _ _ _ h ha
    · rename_i tags htags
      split at h
      · cases h
      · rename_i q hq
        have a2 := aligned_of_extends (extends_align q.2 8)
          (aligned_tag_payloads _ u64 tags 0 _ st q hq ha)
        split at h
        · cases h
        · rename_i s3 h3
          exact ih _ _ _ h (aligned_tag_slices E hps _ _ _ _ _ s3 h3 a2)

theorem aligned_struct_member_array (E : TableEnv)
    (hps : E.POINTER_SIZE = 4 ∨ E.POINTER_SIZE = 8) (nl vl ml : List Nat)
    (members : List StructMember) (i : Nat) (st : TableBuffer)
    (ha : PatchesAligned E.POINTER_SIZE st) :
    PatchesAligned E.POINTER_SIZE (struct_member_array E nl vl ml members i st) := by
  induction members generalizing i st with
  | nil => exact ha
  | cons x rest ih =>
    simp only [struct_member_array]
    exact ih _ _ (aligned_WRITE_SLICE E hps _ (Or.inr rfl) _ _ _
      (aligned_WRITE_PTR E hps _ (Or.inr rfl) _ _
        (aligned_of_extends (extends_trans (extends_trans
          (extends_write_u32 _ x.offset) (extends_write_u32 _ x.type_id))
          (extends_write_byte _ (if x.used then 1 else 0)))
          (aligned_WRITE_SLICE E hps _ (Or.inr rfl) st (nl.getD i 0) x.name.length ha))))

theorem aligned_struct_poly_array (E : TableEnv)
    (hps : E.POINTER_SIZE = 4 ∨ E.POINTER_SIZE = 8) (locs : List Nat)
    (slns : List AstPolySolution) (i : Nat) (st st1 : TableBuffer)
    (h : struct_poly_array E locs slns i st = some st1)
    (ha : PatchesAligned E.POINTER_SIZE st) : PatchesAligned E.POINTER_SIZE st1 := by
  induction slns generalizing i st with
  | nil =>
    simp only [struct_poly_array, Option.some.injEq] at h
    subst h
    exact ha
  | cons x rest ih =>
    simp only [struct_poly_array] at h
    have a1 := aligned_WRITE_PTR E hps _ (Or.inr rfl) st (locs.getD i 0) ha
    split at h
    · exact ih _ _ h (aligned_of_extends (extends_write_u32 _ E.Type_Index_id) a1)
    · split at h
      · cases h
      · rename_i t ht
        exact ih _ _ h (aligned_of_extends (extends_write_u32 _ t.id) a1)

theorem aligned_struct_methods (k : Nat) (symbols : List MethodSymbol)
    (md : List StructMethodData) (st : TableBuffer) (r : List StructMethodData × TableBuffer)
    (h : struct_methods symbols md st = some r) (ha : PatchesAligned k st) :
    PatchesAligned k r.2 := by
  induction symbols generalizing md st with
  | nil =>
    simp only [struct_methods, Option.some.injEq] at h
    subst h
    exact ha
  | cons x rest ih =>
    simp only [struct_methods] at h
    split at h
    · split at h
      · exact ih _ _ h (aligned_of_extends (extends_trans (extends_trans
          (extends_append st x.key) (extends_align _ 4)) (extends_write_u32 _ x.func_idx)) ha)
      · cases h
    · exact ih md st h ha

theorem aligned_struct_method_data (k : Nat) (methods : Option (List MethodSymbol))
    (st : TableBuffer) (r : List StructMethodData × TableBuffer)
    (h : struct_method_data methods st = some r) (ha : PatchesAligned k st) :
    PatchesAligned k r.2 := by
  cases methods with
  | none =>
    simp only [struct_method_data, Option.some.injEq] at h
    subst h
    exact ha
  | some symbols =>
    simp only [struct_method_data] at h
    exact aligned_struct_methods k symbols [] st r h ha

theorem aligned_struct_method_array (E : TableEnv)
    (hps : E.POINTER_SIZE = 4 ∨ E.POINTER_SIZE = 8) (md : List StructMethodData)
    (st : TableBuffer) (ha : PatchesAligned E.POINTER_SIZE st) :
    PatchesAligned E.POINTER_SIZE (struct_method_array E md st) := by
  induction md generalizing st with
  | nil => exact ha
  | cons x rest ih =>
    simp only [struct_method_array]
    exact ih _ (aligned_of_extends (extends_write_u32 _ x.type)
      (aligned_WRITE_PTR E hps _ (Or.inr rfl) _ x.data_loc
        (aligned_WRITE_SLICE E hps _ (Or.inr rfl) st x.name_loc x.name_len ha)))

theorem aligned_struct_payloads (E : TableEnv)
    (hps : E.POINTER_SIZE = 4 ∨ E.POINTER_SIZE = 8) (type : OnyxType) (st : TableBuffer)
    (r : StructLocations × TableBuffer) (h : struct_payloads E type st = some r)
    (ha : PatchesAligned E.POINTER_SIZE st) : PatchesAligned E.POINTER_SIZE r.2 := by
  simp only [struct_payloads] at h
  have a2 := aligned_of_extends (extends_align _ 8)
    (aligned_struct_member_names E.POINTER_SIZE type.memarr 0
      (List.replicate type.mem_count 0) st ha)
  split at h
  · cases h
  · rename_i r2 h2
    have a4 := aligned_of_extends (extends_align r2.2 8)
      (aligned_struct_poly_solutions _ _ _ _ _ r2 h2 a2)
    split at h
    · cases h
    · rename_i r3 h3
      have a5 := aligned_struct_default_values _ _ _ _ _ r3 h3 a4
      split at h
      · cases h
      · rename_i r4 h4
        have a6 := aligned_struct_member_tags E hps _ _ _ _ r4 h4 a5
        simp only [Option.some.injEq] at h
        subst h
        exact aligned_of_extends (extends_align r4.2 8) a6

theorem aligned_struct_arrays (E : TableEnv)
    (hps : E.POINTER_SIZE = 4 ∨ E.POINTER_SIZE = 8) (type : OnyxType) (l : StructLocations)
    (st : TableBuffer) (r : StructBases × TableBuffer) (h : struct_arrays E type l st = some r)
    (ha : PatchesAligned E.POINTER_SIZE st) : PatchesAligned E.POINTER_SIZE r.2 := by
  simp only [struct_arrays] at h
  have a2 := aligned_of_extends (extends_align _ 8)
    (aligned_struct_member_array E hps l.name_locations l.value_locations
      l.meta_locations type.memarr 0 st ha)
  split at h
  · cases h
  · rename_i s3 h3
    have a3 := aligned_struct_poly_array E hps _ _ _ _ s3 h3 a2
    split at h
    · cases h
    · rename_i r5 h5
      have a4 := aligned_tag_payloads _ u32 _ _ _ _ r5 h5 a3
      split at h
      · cases h
      · rename_i r6 h6
        have a8 := aligned_of_extends (extends_align _ 8)
          (aligned_struct_method_array E hps r6.1 _
            (aligned_of_extends (extends_align r6.2 4)
              (aligned_struct_method_data _ _ _ r6 h6 a4)))
        split at h
        · cases h
        · rename_i s9 h9
          have a9 := aligned_tag_slices E hps _ _ _ _ _ s9 h9 a8
          simp only [Option.some.injEq] at h
          subst h
          exact a9

theorem aligned_struct_record (E : TableEnv)
    (hps : E.POINTER_SIZE = 4 ∨ E.POINTER_SIZE = 8) (type : OnyxType) (idx : Nat)
    (b : StructBases) (st st1 : TableBuffer) (h : struct_record E type idx b st = some st1)
    (ha : PatchesAligned E.POINTER_SIZE st) : PatchesAligned E.POINTER_SIZE st1 := by
  simp only [struct_record] at h
  split at h
  · cases h
  rename_i sx hsx
  obtain ⟨rfl, _⟩ := table_info_record_some E _ _ _ _ _ _ hsx
  simp only [Option.some.injEq] at h
  subst h
  have key : ∀ (s0 : TableBuffer) (nb nl : Nat), PatchesAligned E.POINTER_SIZE s0 →
      PatchesAligned E.POINTER_SIZE (WRITE_SLICE E (WRITE_SLICE E (WRITE_SLICE E
        (WRITE_SLICE E (WRITE_SLICE E
        (bh_buffer_write_u32 (table_info_stored E (bh_buffer_align s0 8) idx
          (E.Type_Kind_value type.kind) type.size type.alignment)
          (type.constructed_from.getD 0)) nb nl) b.members_base type.mem_count)
          b.params_base type.poly_sln.length) b.struct_tag_base type.meta_tags.length)
          b.method_data_base b.method_count) := by
    intro s0 nb nl a0
    have a3 := aligned_of_extends (extends_write_u32 _ (type.constructed_from.getD 0))
      (aligned_table_info_stored E _ _ idx (E.Type_Kind_value type.kind) type.size
        type.alignment (aligned_of_extends (extends_align s0 8) a0))
    exact aligned_WRITE_SLICE E hps _ (Or.inr rfl) _ _ _
      (aligned_WRITE_SLICE E hps _ (Or.inr rfl) _ _ _
        (aligned_WRITE_SLICE E hps _ (Or.inr rfl) _ _ _
          (aligned_WRITE_SLICE E hps _ (Or.inr rfl) _ _ _
            (aligned_WRITE_SLICE E hps _ (Or.inr rfl) _ nb nl a3))))
  cases hname : type.name with
  | none => exact key st 0 0 ha
  | some name => exact key _ _ _ (aligned_of_extends (extends_append st name) ha)

theorem aligned_type_table_struct (E : TableEnv)
    (hps : E.POINTER_SIZE = 4 ∨ E.POINTER_SIZE = 8) (type : OnyxType) (idx : Nat)
    (st st1 : TableBuffer) (h : type_table_struct E type idx st = some st1)
    (ha : PatchesAligned E.POINTER_SIZE st) : PatchesAligned E.POINTER_SIZE st1 := by
  simp only [type_table_struct] at h
  split at h
  · cases h
  · rename_i r hr
    have a1 := aligned_struct_payloads E hps type st r hr ha
    split at h
    · cases h
    · rename_i q hq
      have a2 := aligned_struct_arrays E hps type r.1 r.2 q hq a1
      exact aligned_struct_record E hps type idx q.1 q.2 st1 h a2

theorem aligned_type_table_entry (E : TableEnv)
    (hps : E.POINTER_SIZE = 4 ∨ E.POINTER_SIZE = 8) (idx : Nat) (type : OnyxType)
    (st st1 : TableBuffer) (h : type_table_entry E idx type st = some st1)
    (ha : PatchesAligned E.POINTER_SIZE st) : PatchesAligned E.POINTER_SIZE st1 := by
  unfold type_table_entry at h
  split at h
  · exact aligned_type_table_compound E hps type idx st st1 h ha
  · exact aligned_type_table_function E hps type idx st st1 h ha
  · exact aligned_type_table_enum E hps type idx st st1 h ha
  · exact aligned_type_table_struct E hps type idx st st1 h ha
  · exact aligned_type_table_polystruct E hps type idx st st1 h ha
  · exact aligned_type_table_distinct E hps type idx st st1 h ha
  · exact aligned_type_table_simple E type idx st st1 h ha

theorem aligned_type_table_entries (E : TableEnv)
    (hps : E.POINTER_SIZE = 4 ∨ E.POINTER_SIZE = 8) (entries : List (Nat × OnyxType))
    (st st1 : TableBuffer) (h : type_table_entries E entries st = some st1)
    (ha : PatchesAligned E.POINTER_SIZE st) : PatchesAligned E.POINTER_SIZE st1 := by
  induction entries generalizing st with
  | nil =>
    simp only [type_table_entries, Option.some.injEq] at h
    subst h
    exact ha
  | cons x rest ih =>
    simp only [type_table_entries] at h
    split at h
    · cases h
    · rename_i s1 h1
      exact ih _ h (aligned_type_table_entry E hps x.1 x.2 st s1 h1 ha)

theorem aligned_foreign_function_names (k : Nat) (symbols : List ForeignSymbol)
    (a : ForeignFunctions) (st : TableBuffer) (ha : PatchesAligned k st) :
    PatchesAligned k (foreign_function_names symbols a st).2 := by
  induction symbols generalizing a st with
  | nil => exact ha
  | cons x rest ih =>
    simp only [foreign_function_names]
    split
    · exact ih _ _ (aligned_of_extends (extends_append st x.foreign_name) ha)
    · exact ih a st ha

theorem aligned_foreign_function_entries (E : TableEnv)
    (hps : E.POINTER_SIZE = 4 ∨ E.POINTER_SIZE = 8) (a : ForeignFunctions) (i n : Nat)
    (st : TableBuffer) (ha : PatchesAligned E.POINTER_SIZE st) :
    PatchesAligned E.POINTER_SIZE (foreign_function_entries E a i n st) := by
  induction n generalizing i st with
  | zero => exact ha
  | succ n ih =>
    simp only [foreign_function_entries]
    exact ih _ _ (aligned_of_extends (extends_write_u32 _ (a.func_types.getD i 0))
      (aligned_WRITE_SLICE E hps _ (Or.inr rfl) _ (a.name_offsets.getD i 0)
        (a.name_lengths.getD i 0) (aligned_of_extends (extends_align st E.POINTER_SIZE) ha)))

theorem aligned_foreign_block_record (E : TableEnv)
    (hps : E.POINTER_SIZE = 4 ∨ E.POINTER_SIZE = 8) (fb : AstForeignBlock)
    (index funcs_base funcs_length : Nat) (st : TableBuffer)
    (ha : PatchesAligned E.POINTER_SIZE st) :
    PatchesAligned E.POINTER_SIZE (foreign_block_record E fb index funcs_base funcs_length st) := by
  show PatchesAligned E.POINTER_SIZE (WRITE_SLICE E (WRITE_SLICE E (set_info E
    (bh_buffer_align (bh_buffer_append st fb.module_name) 8) index) (u32 st.buffer.length)
    (u32 fb.module_name.length)) funcs_base funcs_length)
  exact aligned_WRITE_SLICE E hps _ (Or.inr rfl) _ _ _
    (aligned_WRITE_SLICE E hps _ (Or.inr rfl) _ _ _
      (aligned_set_info E _ _ index
        (aligned_of_extends (extends_trans (extends_append st fb.module_name)
          (extends_align _ 8)) ha)))

theorem aligned_foreign_block (E : TableEnv)
    (hps : E.POINTER_SIZE = 4 ∨ E.POINTER_SIZE = 8) (fb : AstForeignBlock) (index : Nat)
    (st : TableBuffer) (ha : PatchesAligned E.POINTER_SIZE st) :
    PatchesAligned E.POINTER_SIZE (foreign_block E fb index st) := by
  simp only [foreign_block]
  exact aligned_foreign_block_record E hps fb index _ _ _
    (aligned_foreign_function_entries E hps _ 0 _ _
      (aligned_of_extends (extends_align _ 8)
        (aligned_foreign_function_names _ fb.symbols _ st ha)))

theorem aligned_foreign_blocks_loop (E : TableEnv)
    (hps : E.POINTER_SIZE = 4 ∨ E.POINTER_SIZE = 8) (blocks : List AstForeignBlock)
    (index : Nat) (st : TableBuffer) (ha : PatchesAligned E.POINTER_SIZE st) :
    PatchesAligned E.POINTER_SIZE (foreign_blocks_loop E blocks index st) := by
  induction blocks generalizing index st with
  | nil => exact ha
  | cons fb rest ih => exact ih _ _ (aligned_foreign_block E hps fb index st ha)

theorem aligned_tagged_procedure_tags (k : Nat) (tags : List AstTyped)
    (i : Nat) (offsets types : List Nat) (st : TableBuffer)
    (r : List Nat × List Nat × TableBuffer)
    (h : tagged_procedure_tags tags i offsets types st = some r) (ha : PatchesAligned k st) :
    PatchesAligned k r.2.2 := by
  induction tags generalizing i offsets types st with
  | nil =>
    simp only [tagged_procedure_tags, Option.some.injEq] at h
    subst h
    exact ha
  | cons x rest ih =>
    simp only [tagged_procedure_tags] at h
    split at h
    · cases h
    · rename_i t ht
      exact ih _ _ _ _ h (aligned_of_extends (extends_trans (extends_align st t.alignment)
        (extends_emit_constexpr _ t.size x)) ha)

theorem aligned_tagged_procedure_tag_array (offsets types : List Nat) (i n : Nat)
    (st : TableBuffer) (hlen : st.buffer.length % 4 = 0) (ha : PatchesAligned 4 st) :
    PatchesAligned 4 (tagged_procedure_tag_array offsets types i n st) := by
  induction n generalizing i st with
  | zero => exact ha
  | succ n ih =>
    simp only [tagged_procedure_tag_array]
    refine ih _ _ ?_ ?_
    · simp only [bh_buffer_write_u32, bh_buffer_append, PATCH, List.length_append,
        le_bytes_length]
      omega
    · refine aligned_of_extends (extends_write_u32 _ (types.getD i 0)) ?_
      intro L hL
      have hp : (bh_buffer_write_u32 (PATCH st) (offsets.getD i 0)).base_patch_locations =
          st.base_patch_locations ++ [u32 st.buffer.length] := rfl
      rw [hp, List.mem_append] at hL
      rcases hL with hL | hL
      · exact ha L hL
      · rw [List.mem_singleton] at hL
        subst hL
        exact u32_mod_of_mod 4 _ (Or.inl rfl) hlen

theorem aligned_tagged_procedure_record (E : TableEnv)
    (hps : E.POINTER_SIZE = 4 ∨ E.POINTER_SIZE = 8) (func : TaggedProcedure)
    (index tag_array_base tag_count : Nat) (st st1 : TableBuffer)
    (h : tagged_procedure_record E func index tag_array_base tag_count st = some st1)
    (ha : PatchesAligned 4 st) : PatchesAligned 4 st1 := by
  simp only [tagged_procedure_record] at h
  split at h
  · simp only [Option.some.injEq] at h
    subst h
    exact aligned_of_extends (extends_write_u32 _ func.package_id)
      (aligned_WRITE_SLICE E hps 4 (Or.inl rfl) _ _ _
        (aligned_of_extends (extends_trans (extends_write_u32 _ func.func_idx)
          (extends_write_u32 _ func.type_id))
          (aligned_set_info E 4 _ index (aligned_of_extends (extends_align st 4) ha))))
  · cases h

theorem aligned_tagged_procedure (E : TableEnv)
    (hps : E.POINTER_SIZE = 4 ∨ E.POINTER_SIZE = 8) (func : TaggedProcedure) (index : Nat)
    (st st1 : TableBuffer) (h : tagged_procedure E func index st = some st1)
    (ha : PatchesAligned 4 st) : PatchesAligned 4 st1 := by
  simp only [tagged_procedure] at h
  split at h
  · cases h
  · rename_i r hr
    exact aligned_tagged_procedure_record E hps func index _ _ _ st1 h
      (aligned_tagged_procedure_tag_array r.1 r.2.1 0 (u32 func.tags.length) _
        (bh_buffer_align_length r.2.2 4 (by decide))
        (aligned_of_extends (extends_align r.2.2 4)
          (aligned_tagged_procedure_tags 4 _ _ _ _ _ r hr ha)))

theorem aligned_tagged_procedures_loop (E : TableEnv)
    (hps : E.POINTER_SIZE = 4 ∨ E.POINTER_SIZE = 8)
    (should_emit_function : TaggedProcedure → Bool) (procs : List TaggedProcedure)
    (index proc_count : Nat) (st : TableBuffer) (r : Nat × TableBuffer)
    (h : tagged_procedures_loop E should_emit_function procs index proc_count st = some r)
    (ha : PatchesAligned 4 st) : PatchesAligned 4 r.2 := by
  induction procs generalizing index proc_count st with
  | nil =>
    simp only [tagged_procedures_loop, Option.some.injEq] at h
    subst h
    exact ha
  | cons x rest ih =>
    simp only [tagged_procedures_loop] at h
    split at h
    · split at h
      · cases h
      · rename_i s1 h1
        exact ih _ _ _ h (aligned_tagged_procedure E hps x index st s1 h1 ha)
    · exact ih _ _ _ h ha

theorem aligned_table_init (k count : Nat) : PatchesAligned k (table_init count) := by
  intro L hL
  cases hL

theorem aligned_type_table_init (k count : Nat) : PatchesAligned k (type_table_init count) := by
  intro L hL
  cases hL

theorem relative_of_mem_patches (E : TableEnv) (id index count : Nat) (locs info : List Nat)
    (k : Nat) (hk : ∀ L ∈ locs, L % k = 0) (p : DatumPatchInfo) (a b c d : Nat)
    (hp : p ∈ relative_patches id locs ++ (data_patches E id index info count ++
      [⟨.Datum_Patch_Data, a, b, c, d⟩]))
    (hkind : p.kind = .Datum_Patch_Relative) : p.location % k = 0 := by
  rw [List.mem_append, List.mem_append, List.mem_singleton] at hp
  rcases hp with hp | hp | hp
  · simp only [relative_patches, List.mem_map] at hp
    obtain ⟨L, hL, rfl⟩ := hp
    exact hk L hL
  · simp only [data_patches, List.mem_map] at hp
    obtain ⟨i, _, rfl⟩ := hp
    cases hkind
  · subst hp
    cases hkind

/-- C32, as a counterexample: with `POINTER_SIZE = 8`, for one tagged
procedure with one tag of four bytes, `build_tagged_procedures` returns and
registers the Relative patch of the tag's data offset at location 12 of the
content segment, which is not a multiple of 8; the patch of the tag slice of
the record is at location 32. -/
theorem tagged_procedure_patch_not_pointer_aligned :
    sampleTable8.POINTER_SIZE = 8 ∧
    (build_tagged_procedures sampleTable8 (fun _ => true) sampleOneTagProcedure
        ({} : OnyxWasmModule)).map (fun r => r.2.data_patches.filter
          (fun p => p.kind = DatumPatchInfoKind.Datum_Patch_Relative)) =
      some [⟨.Datum_Patch_Relative, 1, 0, 1, 12⟩, ⟨.Datum_Patch_Relative, 1, 0, 1, 32⟩] ∧
    12 % sampleTable8.POINTER_SIZE = 4 := by
  decide

/-- C32, amended: of the patches that a builder appends to the module, every
Relative patch registered by `build_type_table` and by `build_foreign_blocks`
has a location that is a multiple of `POINTER_SIZE`, and every Relative patch
registered by `build_tagged_procedures`, the patches of the tag data offsets
included, has a location that is a multiple of 4; for `POINTER_SIZE = 4` and
for `POINTER_SIZE = 8`.  For `build_type_table` this holds of every result it
has, for every type map, and it has a result when every key of the type map is
below `type_count`, the number of entries plus one; `build_foreign_blocks` and
`build_tagged_procedures` return.  The hypotheses are that no assert of the
builders fails and that the counts fit 32 bits. -/
theorem relative_patches_aligned (E : TableEnv) (entries : List (Nat × OnyxType))
    (blocks : List AstForeignBlock) (should_emit_function : TaggedProcedure → Bool)
    (procs : List TaggedProcedure) (module : OnyxWasmModule)
    (hps : E.POINTER_SIZE = 4 ∨ E.POINTER_SIZE = 8)
    (hasserts : ∀ e ∈ entries, assertsHold e.2 = true)
    (hok : ∀ f ∈ procs, should_emit_function f = true →
      f.entity_ok = true ∧ f.tags.all (fun v => v.type_.isSome) = true)
    (hcount : entries.length + 1 < 4294967296 ∧ blocks.length < 4294967296 ∧
      procs.length < 4294967296) :
    ((∀ (id : Nat) (module1 : OnyxWasmModule),
        build_type_table E entries module = some (id, module1) →
        ∃ added : List DatumPatchInfo,
          module1.data_patches = module.data_patches ++ added ∧
          ∀ p ∈ added, p.kind = .Datum_Patch_Relative → p.location % E.POINTER_SIZE = 0) ∧
      ((∀ e ∈ entries, e.1 < entries.length + 1) →
        ∃ (id : Nat) (module1 : OnyxWasmModule) (added : List DatumPatchInfo),
          build_type_table E entries module = some (id, module1) ∧
          module1.data_patches = module.data_patches ++ added ∧
          ∀ p ∈ added, p.kind = .Datum_Patch_Relative →
            p.location % E.POINTER_SIZE = 0)) ∧
    (∃ (id : Nat) (module1 : OnyxWasmModule) (added : List DatumPatchInfo),
      build_foreign_blocks E blocks module = (id, module1) ∧
      module1.data_patches = module.data_patches ++ added ∧
      ∀ p ∈ added, p.kind = .Datum_Patch_Relative → p.location % E.POINTER_SIZE = 0) ∧
    ∃ (id : Nat) (module1 : OnyxWasmModule) (added : List DatumPatchInfo),
      build_tagged_procedures E should_emit_function procs module = some (id, module1) ∧
      module1.data_patches = module.data_patches ++ added ∧
      ∀ p ∈ added, p.kind = .Datum_Patch_Relative → p.location % 4 = 0 := by
  obtain ⟨hc1, hc2, hc3⟩ := hcount
  refine ⟨?_, ?_, ?_⟩
  · have key : ∀ st, type_table_entries E entries (type_table_init (entries.length + 1)) =
        some st → ∃ (id : Nat) (module1 : OnyxWasmModule) (added : List DatumPatchInfo),
          build_type_table E entries module = some (id, module1) ∧
          module1.data_patches = module.data_patches ++ added ∧
          ∀ p ∈ added, p.kind = .Datum_Patch_Relative →
            p.location % E.POINTER_SIZE = 0 := by
      intro st est
      have a := aligned_type_table_entries E hps entries _ st est
        (aligned_type_table_init E.POINTER_SIZE _)
      exact ⟨_, _, _, build_type_table_eq E entries module st hc1 est,
        by rw [List.append_assoc, List.append_assoc],
        fun p hp hk => relative_of_mem_patches E _ _ _ _ _ _ a p _ _ _ _ hp hk⟩
    constructor
    · intro id module1 hb
      cases est : type_table_entries E entries (type_table_init (entries.length + 1)) with
      | none =>
        have hu : u32 (entries.length + 1) = entries.length + 1 := Nat.mod_eq_of_lt hc1
        simp only [build_type_table, hu, est] at hb
        cases hb
      | some st =>
        obtain ⟨id2, module2, added, hb2, hp2, ha2⟩ := key st est
        rw [hb2] at hb
        simp only [Option.some.injEq, Prod.mk.injEq] at hb
        obtain ⟨_, rfl⟩ := hb
        exact ⟨added, hp2, ha2⟩
    · intro hrange
      obtain ⟨st, est⟩ := type_table_entries_returns E hps entries hasserts hrange
      exact key st est
  · have a := aligned_foreign_blocks_loop E hps blocks 0 (table_init blocks.length)
      (aligned_table_init E.POINTER_SIZE _)
    exact ⟨_, _, _, build_foreign_blocks_eq E blocks module hc2,
      by rw [List.append_assoc, List.append_assoc],
      fun p hp hk => relative_of_mem_patches E _ _ _ _ _ _ a p _ _ _ _ hp hk⟩
  · have hinit : (table_init procs.length).info.length = procs.length := by
      simp [table_init, bh_buffer_write_u64, bh_buffer_append]
    have hle : (procs.filter should_emit_function).length ≤ procs.length :=
      List.length_filter_le _ _
    obtain ⟨r, e, _⟩ := tagged_procedures_loop_spec E should_emit_function procs _ rfl 0
      procs.length (table_init procs.length) hok (by rw [hinit]; omega)
      (by rw [hinit]; exact hc3) hc3 (by omega)
    have a := aligned_tagged_procedures_loop E hps should_emit_function procs 0 procs.length
      (table_init procs.length) r e (aligned_table_init 4 _)
    exact ⟨_, _, _, build_tagged_procedures_eq E should_emit_function procs module r hc3 e,
      by rw [List.append_assoc, List.append_assoc],
      fun p hp hk => relative_of_mem_patches E _ _ _ _ _ _ a p _ _ _ _ hp hk⟩

theorem relative_patches_aligned_witness :
    (∀ e ∈ sampleTypes, e.1 < sampleTypes.length + 1) ∧
    (∃ (id : Nat) (module1 : OnyxWasmModule) (added : List DatumPatchInfo),
      build_type_table sampleTable8 sampleTypes ({} : OnyxWasmModule) = some (id, module1) ∧
      module1.data_patches = ({} : OnyxWasmModule).data_patches ++ added ∧
      ∀ p ∈ added, p.kind = .Datum_Patch_Relative →
        p.location % sampleTable8.POINTER_SIZE = 0) ∧
    (∃ (id : Nat) (module1 : OnyxWasmModule),
      build_type_table sampleTable8 sampleTypes ({} : OnyxWasmModule) = some (id, module1) ∧
      ∃ added : List DatumPatchInfo,
        module1.data_patches = ({} : OnyxWasmModule).data_patches ++ added ∧
        ∀ p ∈ added, p.kind = .Datum_Patch_Relative →
          p.location % sampleTable8.POINTER_SIZE = 0) ∧
    (∃ (id : Nat) (module1 : OnyxWasmModule) (added : List DatumPatchInfo),
      build_foreign_blocks sampleTable8 sampleForeignBlocks ({} : OnyxWasmModule) =
        (id, module1) ∧
      module1.data_patches = ({} : OnyxWasmModule).data_patches ++ added ∧
      ∀ p ∈ added, p.kind = .Datum_Patch_Relative →
        p.location % sampleTable8.POINTER_SIZE = 0) ∧
    ∃ (id : Nat) (module1 : OnyxWasmModule) (added : List DatumPatchInfo),
      build_tagged_procedures sampleTable8 sampleShouldEmit sampleProcedures
        ({} : OnyxWasmModule) = some (id, module1) ∧
      module1.data_patches = ({} : OnyxWasmModule).data_patches ++ added ∧
      ∀ p ∈ added, p.kind = .Datum_Patch_Relative → p.location % 4 = 0 :=
  ⟨by decide,
    (relative_patches_aligned sampleTable8 sampleTypes sampleForeignBlocks sampleShouldEmit
      sampleProcedures {} (by decide) (by decide) (by decide) (by decide)).1.2 (by decide),
    by
      obtain ⟨id, module1, _, hb, _⟩ := (relative_patches_aligned sampleTable8 sampleTypes
        sampleForeignBlocks sampleShouldEmit sampleProcedures {} (by decide) (by decide)
        (by decide) (by decide)).1.2 (by decide)
      exact ⟨id, module1, hb, (relative_patches_aligned sampleTable8 sampleTypes
        sampleForeignBlocks sampleShouldEmit sampleProcedures {} (by decide) (by decide)
        (by decide) (by decide)).1.1 id module1 hb⟩,
    (relative_patches_aligned sampleTable8 sampleTypes sampleForeignBlocks sampleShouldEmit
      sampleProcedures {} (by decide) (by decide) (by decide) (by decide)).2⟩

/-- C36, as a counterexample: a type map with the single entry of key and id
5 has unique and increasing ids, `type_count` is 2, and the write index 5 is
not less than it; the store lies outside the two slots of `table_info`, and
the loop over the type map has no result. -/
theorem type_table_index_outside_table :
    (sampleGapTypes.map Prod.fst).Nodup ∧
    (sampleGapTypes.map Prod.fst).Pairwise (fun a b => a < b) ∧
    (∀ e ∈ sampleGapTypes, e.1 = e.2.id) ∧
    sampleGapTypes.map (fun e => e.2.id) = [5] ∧
    u32 (sampleGapTypes.length + 1) = 2 ∧
    (type_table_init (u32 (sampleGapTypes.length + 1))).info = [0, 0] ∧
    ¬ (5 < u32 (sampleGapTypes.length + 1)) ∧
    type_table_entries sampleTable4 sampleGapTypes
      (type_table_init (u32 (sampleGapTypes.length + 1))) = none := by
  decide

/-- C36, amended: when the ids of the type map are the consecutive numbers
from `start`, with `start` 0 or 1, in any order, and the key of every entry is
the id of its type, the loop of `build_type_table` over the type map returns,
`table_info` has `type_count` = number of entries + 1 slots, and for every
entry the write index `T.id` is less than `type_count` and the slot `T.id`
holds the offset of the record of `T`, at or after byte 8 of the buffer.  The
hypotheses are that no assert of the builder fails and that the count fits 32
bits. -/
theorem type_table_index_inside_table (E : TableEnv) (entries : List (Nat × OnyxType))
    (start : Nat) (hps : E.POINTER_SIZE = 4 ∨ E.POINTER_SIZE = 8)
    (hasserts : ∀ e ∈ entries, assertsHold e.2 = true)
    (hid : ∀ e ∈ entries, e.1 = e.2.id)
    (hkeys : (entries.map Prod.fst).Perm (List.range' start entries.length))
    (hstart : start ≤ 1) (hcount : entries.length + 1 < 4294967296) :
    ∃ st, type_table_entries E entries (type_table_init (u32 (entries.length + 1))) = some st ∧
      st.info.length = entries.length + 1 ∧
      ∀ e ∈ entries, e.2.id < u32 (entries.length + 1) ∧
        ∃ pos, 8 ≤ pos ∧ st.info.getD e.2.id 0 = Table_Info_Type E pos ∧
          RecordAt E e.2 st.buffer pos := by
  have hu : u32 (entries.length + 1) = entries.length + 1 := Nat.mod_eq_of_lt hcount
  have hnodup : (entries.map Prod.fst).Nodup :=
    (List.Perm.nodup_iff hkeys).2 (List.nodup_range' start entries.length)
  have hinfo : (type_table_init (entries.length + 1)).info.length = entries.length + 1 := by
    simp [type_table_init, bh_buffer_write_u64, bh_buffer_append]
  have hbuf : (type_table_init (entries.length + 1)).buffer.length = 8 := by
    simp [type_table_init, bh_buffer_write_u64, bh_buffer_append, u64, le_bytes_length]
  have hrange : ∀ e ∈ entries, e.1 < (type_table_init (entries.length + 1)).info.length := by
    intro e he
    have hmem : e.1 ∈ List.range' start entries.length :=
      (List.Perm.mem_iff hkeys).1 (List.mem_map_of_mem Prod.fst he)
    rw [List.mem_range'_1] at hmem
    rw [hinfo]
    omega
  obtain ⟨st, est, _, hlen, _, hrecs⟩ := type_table_entries_spec E hps entries
    (type_table_init (entries.length + 1)) hasserts hnodup hrange
  rw [hu]
  refine ⟨st, est, by rw [hlen, hinfo], ?_⟩
  intro e he
  have hmem : e.1 ∈ List.range' start entries.length :=
    (List.Perm.mem_iff hkeys).1 (List.mem_map_of_mem Prod.fst he)
  rw [List.mem_range'_1] at hmem
  have hlt : e.1 < entries.length + 1 := by omega
  obtain ⟨pos, hpos, hget, hrec⟩ := hrecs e he (by rw [hinfo]; exact hlt)
  rw [hbuf] at hpos
  rw [← hid e he]
  exact ⟨hlt, pos, hpos, hget, hrec⟩

set_option maxRecDepth 4096 in
theorem type_table_index_inside_table_witness :
    ∃ st, type_table_entries sampleTable4 sampleTypes
        (type_table_init (u32 (sampleTypes.length + 1))) = some st ∧
      st.info.length = sampleTypes.length + 1 ∧
      ∀ e ∈ sampleTypes, e.2.id < u32 (sampleTypes.length + 1) ∧
        ∃ pos, 8 ≤ pos ∧ st.info.getD e.2.id 0 = Table_Info_Type sampleTable4 pos ∧
          RecordAt sampleTable4 e.2 st.buffer pos :=
  type_table_index_inside_table sampleTable4 sampleTypes 1 (by decide) (by decide) (by decide)
    (by decide) (by decide) (by decide)

/-! ### The scope stack and the statement chains -/

/-- C31, as a counterexample: with scope 2 as the current scope,
`scope_enter` on scope 1, whose parent is scope 0, followed by `scope_leave`
leaves scope 0 as the current scope, not scope 2; and when the scope of the
package has scope 2 as its parent, the current scope after
`onyx_resolve_symbols` has processed the entity is scope 2, not the global
scope 0. -/
theorem scope_enter_leave_other_parent :
    scopeStackState.curr_scope = some 2 ∧
    (scopeStackState.sem.getScope 1).map Scope.parent = some (some 0) ∧
    ((scope_enter (some 1) scopeStackState).bind scope_leave).map
      (fun s => s.curr_scope) = some (some 0) ∧
    packageScopeState.global_scope = some 0 ∧
    (onyx_resolve_symbols sampleSymEnv 6 forLoopEntities packageScopeState).map
      (fun r => r.2.curr_scope) = some (some 2) := by
  decide

theorem curr_scope_introduce_builtins (E : SymEnv) (l : List String) (s : SymresState) :
    (introduce_builtins E l s).curr_scope = s.curr_scope := by
  induction l generalizing s with
  | nil => rfl
  | cons x rest ih => exact ih _

theorem scope_enter_eq (s : SymresState) (sp : Nat) (sc : Scope)
    (h : s.sem.getScope sp = some sc) :
    scope_enter (some sp) s = some { (if sc.parent = none then
      s.setScope sp { sc with parent := s.curr_scope } else s) with curr_scope := some sp } := by
  simp [scope_enter, h]

theorem scope_leave_eq (s : SymresState) (sp : Nat) (sc : Scope) (hc : s.curr_scope = some sp)
    (h : s.sem.getScope sp = some sc) :
    scope_leave s = some { s with curr_scope := sc.parent } := by
  simp [scope_leave, hc, h]

theorem scope_enter_leave (s : SymresState) (sp : Nat) (sc : Scope)
    (h : s.sem.getScope sp = some sc) :
    ∃ s1 s2, scope_enter (some sp) s = some s1 ∧ scope_leave s1 = some s2 ∧
      s1.curr_scope = some sp ∧
      (s1.sem.getScope sp).map Scope.parent =
        some (if sc.parent = none then s.curr_scope else sc.parent) ∧
      s2.curr_scope = (if sc.parent = none then s.curr_scope else sc.parent) := by
  have hlt : sp < s.sem.scopes.length := by
    simp only [SemState.getScope] at h
    exact (List.getElem?_eq_some_iff.1 h).1
  have h1 : ∃ sc1, ({ (if sc.parent = none then s.setScope sp { sc with parent := s.curr_scope }
      else s) with curr_scope := some sp } : SymresState).sem.getScope sp = some sc1 ∧
      sc1.parent = (if sc.parent = none then s.curr_scope else sc.parent) := by
    by_cases hp : sc.parent = none
    · exact ⟨{ sc with parent := s.curr_scope },
        by simp [hp, SymresState.setScope, SemState.getScope, hlt], by simp [hp]⟩
    · exact ⟨sc, by simp [hp, h], by simp [hp]⟩
  obtain ⟨sc1, hsc1, hpar⟩ := h1
  refine ⟨_, _, scope_enter_eq s sp sc h, scope_leave_eq _ sp sc1 rfl hsc1, rfl, ?_, hpar⟩
  rw [hsc1, Option.map_some', hpar]

/-- C31, amended: `scope_enter` on a scope followed by `scope_leave` returns
and leaves as the current scope the parent the scope had, or the scope that
was current when the scope had no parent; so the current scope is again `c`
when the scope had no parent or had `c` as its parent.  `onyx_resolve_symbols`
starts its loop over the entities with the global scope as the current scope,
and when the scope of the package of an entity has no parent or the global
scope as its parent, and the resolution of the entity returns with the scope
of the package as the current scope and has not changed the parent of that
scope, the current scope after the entity has been processed is again the
global scope, and the loop goes on from there. -/
theorem scope_enter_leave_stack (E : SymEnv) (fuel : Nat) :
    (∀ (s : SymresState) (sp : Nat) (sc : Scope), s.sem.getScope sp = some sc →
      ∃ s1 s2, scope_enter (some sp) s = some s1 ∧ scope_leave s1 = some s2 ∧
        s2.curr_scope = (if sc.parent = none then s.curr_scope else sc.parent) ∧
        ((sc.parent = none ∨ sc.parent = s.curr_scope) → s2.curr_scope = s.curr_scope)) ∧
    (∀ (entities : List (Entity × Option Nat)) (s : SymresState),
      ∃ s0, s0.curr_scope = s.global_scope ∧
        onyx_resolve_symbols E fuel entities s = symres_entities E fuel entities s0) ∧
    ∀ (entity : Entity) (package : Option Nat) (rest : List (Entity × Option Nat))
      (s s1 : SymresState) (pk sp : Nat) (p : Package) (sc : Scope) (r : Entity × SymresState),
      s.curr_scope = s.global_scope → package = some pk → s.packages[pk]? = some p →
      p.scope = some sp → s.sem.getScope sp = some sc →
      (sc.parent = none ∨ sc.parent = s.global_scope) →
      scope_enter (some sp) s = some s1 →
      symres_entity E fuel entity { s1 with curr_package := package } = some r →
      r.2.curr_scope = some sp →
      (r.2.sem.getScope sp).map Scope.parent = (s1.sem.getScope sp).map Scope.parent →
      ∃ s3, scope_leave r.2 = some s3 ∧ s3.curr_scope = s.global_scope ∧
        symres_entities E fuel ((entity, package) :: rest) s =
          (symres_entities E fuel rest s3).map (fun rs => ((r.1, package) :: rs.1, rs.2)) := by
  refine ⟨?_, ?_, ?_⟩
  · intro s sp sc h
    obtain ⟨s1, s2, e1, e2, _, _, hc⟩ := scope_enter_leave s sp sc h
    refine ⟨s1, s2, e1, e2, hc, ?_⟩
    intro hp
    rw [hc]
    rcases hp with hp | hp
    · rw [if_pos hp]
    · by_cases hn : sc.parent = none
      · rw [if_pos hn]
      · rw [if_neg hn, hp]
  · intro entities s
    exact ⟨_, curr_scope_introduce_builtins E builtin_symbols _, rfl⟩
  · intro entity package rest s s1 pk sp p sc r hcur hpk hp hsp hsc hpar hs1 hent hbal hkeep
    obtain ⟨s1', _, e1, _, _, hparent, _⟩ := scope_enter_leave s sp sc hsc
    rw [hs1, Option.some.injEq] at e1
    subst e1
    have hglobal : (if sc.parent = none then s.curr_scope else sc.parent) = s.global_scope := by
      by_cases hn : sc.parent = none
      · rw [if_pos hn, hcur]
      · rw [if_neg hn]
        rcases hpar with h | h
        · exact absurd h hn
        · exact h
    rw [hparent, hglobal] at hkeep
    cases hget : r.2.sem.getScope sp with
    | none => simp [hget] at hkeep
    | some sc1 =>
      rw [hget, Option.map_some', Option.some.injEq] at hkeep
      have hleave := scope_leave_eq r.2 sp sc1 hbal hget
      refine ⟨_, hleave, hkeep, ?_⟩
      subst hpk
      simp only [symres_entities, Option.bind_eq_bind, Option.some_bind, hp, hsp, hs1, hent,
        hleave]
      cases symres_entities E fuel rest { r.2 with curr_scope := sc1.parent } <;> rfl

theorem scope_enter_leave_stack_witness :
    (∃ s1 s2, scope_enter (some 1) forLoopStart = some s1 ∧ scope_leave s1 = some s2 ∧
      s2.curr_scope = (if ({ parent := some 0 } : Scope).parent = none
        then forLoopStart.curr_scope else ({ parent := some 0 } : Scope).parent) ∧
      ((({ parent := some 0 } : Scope).parent = none ∨
        ({ parent := some 0 } : Scope).parent = forLoopStart.curr_scope) →
          s2.curr_scope = forLoopStart.curr_scope)) ∧
    ∃ s3, scope_leave ((symres_entity sampleSymEnv 6 ⟨EntityType.Function, some 0⟩
        { (scope_enter (some 1) forLoopStart).getD {} with curr_package := some 0 }).getD
          (⟨EntityType.Function, none⟩, {})).2 = some s3 ∧
      s3.curr_scope = forLoopStart.global_scope ∧
      symres_entities sampleSymEnv 6 ((⟨EntityType.Function, some 0⟩, some 0) :: []) forLoopStart =
        (symres_entities sampleSymEnv 6 [] s3).map (fun rs =>
          ((((symres_entity sampleSymEnv 6 ⟨EntityType.Function, some 0⟩
            { (scope_enter (some 1) forLoopStart).getD {} with curr_package := some 0 }).getD
              (⟨EntityType.Function, none⟩, {})).1, some 0) :: rs.1, rs.2)) :=
  ⟨(scope_enter_leave_stack sampleSymEnv 6).1 forLoopStart 1 { parent := some 0 } (by decide),
   (scope_enter_leave_stack sampleSymEnv 6).2.2 ⟨EntityType.Function, some 0⟩ (some 0) []
    forLoopStart ((scope_enter (some 1) forLoopStart).getD {}) 0 1
    ⟨some 1, some 2⟩ { parent := some 0 }
    ((symres_entity sampleSymEnv 6 ⟨EntityType.Function, some 0⟩
        { (scope_enter (some 1) forLoopStart).getD {} with curr_package := some 0 }).getD
          (⟨EntityType.Function, none⟩, {}))
    (by decide) (by decide) (by decide) (by decide) (by decide) (by decide) (by decide)
    (by decide) (by decide) (by decide)⟩

theorem map_setNode_keep {α : Type} (g : AstNode → α) {s : SymresState} {x : Nat}
    {n : AstNode} (m : AstNode) (hn : s.node x = some n) (hg : g m = g n) (q : Nat) :
    ((s.setNode x m).node q).map g = (s.node q).map g := by
  by_cases hq : x = q
  · subst hq
    rw [symres_node_setNode_self m hn, hn, Option.map_some', Option.map_some', hg]
  · rw [symres_node_setNode_ne m hq]

theorem read_setNode_keep {s : SymresState} {x : Nat} {n : AstNode} (m : AstNode)
    (hn : s.node x = some n) (h1 : m.next = n.next) (h2 : m.body = n.body)
    (h3 : m.arguments = n.arguments) (t : Trailer) :
    t.read (s.setNode x m) = t.read s := by
  cases t with
  | arguments c => exact map_setNode_keep AstNode.arguments m hn h3 c
  | body b => exact map_setNode_keep AstNode.body m hn h2 b
  | next q => exact map_setNode_keep AstNode.next m hn h1 q

theorem function_locals_eq (s s1 : SymresState) (hc : s1.curr_function = s.curr_function)
    (h : ∀ q, (s1.node q).map AstNode.locals = (s.node q).map AstNode.locals) :
    function_locals s1 = function_locals s := by
  unfold function_locals
  rw [hc]
  cases hf : s.curr_function with
  | none => rfl
  | some f =>
    show ((s1.node f).map AstNode.locals).getD [] = ((s.node f).map AstNode.locals).getD []
    rw [h f]

/-- What `*trailer = v` does: one node is written, and it differs from what it was at
most in the field of the location. -/
theorem store_inv {t : Trailer} {v : Ptr} {s s2 : SymresState} (h : t.store v s = some s2) :
    ∃ x n m, s.node x = some n ∧ s2 = s.setNode x m ∧ m.kind = n.kind ∧
      m.locals = n.locals ∧
      ((t = .next x ∧ m.next = v ∧ m.body = n.body ∧ m.arguments = n.arguments) ∨
       (t = .body x ∧ m.body = v ∧ m.next = n.next ∧ m.arguments = n.arguments) ∨
       (t = .arguments x ∧ m.arguments = v ∧ m.next = n.next ∧ m.body = n.body)) := by
  cases t with
  | arguments c =>
    cases hn : s.node c with
    | none => simp [Trailer.store, hn] at h
    | some n =>
      simp only [Trailer.store, hn, Option.bind_eq_bind, Option.some_bind,
        Option.some.injEq] at h
      exact ⟨c, n, _, hn, h.symm, rfl, rfl, Or.inr (Or.inr ⟨rfl, rfl, rfl, rfl⟩)⟩
  | body c =>
    cases hn : s.node c with
    | none => simp [Trailer.store, hn] at h
    | some n =>
      simp only [Trailer.store, hn, Option.bind_eq_bind, Option.some_bind,
        Option.some.injEq] at h
      exact ⟨c, n, _, hn, h.symm, rfl, rfl, Or.inr (Or.inl ⟨rfl, rfl, rfl, rfl⟩)⟩
  | next c =>
    cases hn : s.node c with
    | none => simp [Trailer.store, hn] at h
    | some n =>
      simp only [Trailer.store, hn, Option.bind_eq_bind, Option.some_bind,
        Option.some.injEq] at h
      exact ⟨c, n, _, hn, h.symm, rfl, rfl, Or.inl ⟨rfl, rfl, rfl, rfl⟩⟩

/-- Reading a location after `*trailer = v`. -/
theorem read_store {t : Trailer} {v : Ptr} {s s2 : SymresState} (h : t.store v s = some s2)
    (t' : Trailer) : t'.read s2 = if t' = t then some v else t'.read s := by
  obtain ⟨x, n, m, hn, rfl, _, _, hcase⟩ := store_inv h
  have hself : (s.setNode x m).node x = some m := symres_node_setNode_self m hn
  rcases hcase with ⟨rfl, hv, hb, ha⟩ | ⟨rfl, hv, hb, ha⟩ | ⟨rfl, hv, hb, ha⟩
  · cases t' with
    | arguments c =>
      rw [if_neg (by simp)]
      exact map_setNode_keep AstNode.arguments m hn ha c
    | body c =>
      rw [if_neg (by simp)]
      exact map_setNode_keep AstNode.body m hn hb c
    | next c =>
      by_cases hc : c = x
      · subst hc
        rw [if_pos rfl]
        show ((s.setNode c m).node c).map AstNode.next = some v
        rw [hself, Option.map_some', hv]
      · rw [if_neg (by simpa using hc)]
        show ((s.setNode x m).node c).map AstNode.next = (s.node c).map AstNode.next
        rw [symres_node_setNode_ne m (Ne.symm hc)]
  · cases t' with
    | arguments c =>
      rw [if_neg (by simp)]
      exact map_setNode_keep AstNode.arguments m hn ha c
    | next c =>
      rw [if_neg (by simp)]
      exact map_setNode_keep AstNode.next m hn hb c
    | body c =>
      by_cases hc : c = x
      · subst hc
        rw [if_pos rfl]
        show ((s.setNode c m).node c).map AstNode.body = some v
        rw [hself, Option.map_some', hv]
      · rw [if_neg (by simpa using hc)]
        show ((s.setNode x m).node c).map AstNode.body = (s.node c).map AstNode.body
        rw [symres_node_setNode_ne m (Ne.symm hc)]
  · cases t' with
    | body c =>
      rw [if_neg (by simp)]
      exact map_setNode_keep AstNode.body m hn ha c
    | next c =>
      rw [if_neg (by simp)]
      exact map_setNode_keep AstNode.next m hn hb c
    | arguments c =>
      by_cases hc : c = x
      · subst hc
        rw [if_pos rfl]
        show ((s.setNode c m).node c).map AstNode.arguments = some v
        rw [hself, Option.map_some', hv]
      · rw [if_neg (by simpa using hc)]
        show ((s.setNode x m).node c).map AstNode.arguments = (s.node c).map AstNode.arguments
        rw [symres_node_setNode_ne m (Ne.symm hc)]

theorem kind_store {t : Trailer} {v : Ptr} {s s2 : SymresState} (h : t.store v s = some s2)
    (q : Nat) : (s2.node q).map AstNode.kind = (s.node q).map AstNode.kind := by
  obtain ⟨x, n, m, hn, rfl, hk, _, _⟩ := store_inv h
  exact map_setNode_keep AstNode.kind m hn hk q

theorem locals_store {t : Trailer} {v : Ptr} {s s2 : SymresState} (h : t.store v s = some s2) :
    function_locals s2 = function_locals s := by
  obtain ⟨x, n, m, hn, rfl, _, hl, _⟩ := store_inv h
  exact function_locals_eq _ _ rfl (map_setNode_keep AstNode.locals m hn hl)

theorem curr_store {t : Trailer} {v : Ptr} {s s2 : SymresState} (h : t.store v s = some s2) :
    s2.curr_function = s.curr_function ∧ s2.curr_scope = s.curr_scope := by
  obtain ⟨x, n, m, hn, rfl, _, _, _⟩ := store_inv h
  exact ⟨rfl, rfl⟩

/-- The statement after `walker` is clear of it when `walker->next = NULL` is the
store at the location `&walker->next`. -/
theorem store_next_eq {a : Nat} {s s2 : SymresState} (h : (Trailer.next a).store none s = some s2) :
    ∃ w, s.node a = some w ∧ s2 = s.setNode a { w with next := none } := by
  cases hn : s.node a with
  | none => simp [Trailer.store, hn] at h
  | some n =>
    simp only [Trailer.store, hn, Option.bind_eq_bind, Option.some_bind,
      Option.some.injEq] at h
    exact ⟨n, rfl, h.symm⟩

/-- A chain in terms of the locations `&node->next`. -/
theorem isChain_read_congr {s s' : SymresState} (l : List Nat) (p : Ptr)
    (h : ∀ q ∈ l, (Trailer.next q).read s' = (Trailer.next q).read s) :
    isChain s'.sem p l = isChain s.sem p l :=
  isChain_congr l p h

theorem chain_frame_spec {P : List Nat} {T0 : Trailer} {s s1 : SymresState}
    (h : chain_frame P T0 s s1 = true) :
    T0.read s1 = T0.read s ∧ (∀ q ∈ P, (Trailer.next q).read s1 = (Trailer.next q).read s) ∧
      (∀ q ∈ P, (s1.node q).map AstNode.kind = (s.node q).map AstNode.kind) ∧
      s1.curr_function = s.curr_function ∧ s1.curr_scope = s.curr_scope := by
  simp only [chain_frame, Bool.and_eq_true, List.all_cons, List.all_eq_true, List.mem_map,
    beq_iff_eq, forall_exists_index, and_imp, forall_apply_eq_imp_iff₂] at h
  obtain ⟨⟨⟨h1, h2⟩, h3⟩, h4, h5⟩ := h
  exact ⟨h1, h2, h3, h4, h5⟩

theorem is_local_congr {s s1 : SymresState} {a : Nat}
    (h : (s1.node a).map AstNode.kind = (s.node a).map AstNode.kind) :
    is_local s1 a = is_local s a := by
  unfold is_local
  rw [h]

/-- A chain visits no statement twice. -/
theorem isChain_unique {s : SemState} :
    ∀ (l1 l2 : List Nat) (p : Ptr), isChain s p l1 = true → isChain s p l2 = true → l1 = l2 := by
  intro l1
  induction l1 with
  | nil =>
    intro l2 p h1 h2
    have := isChain_nil h1
    subst this
    cases l2 with
    | nil => rfl
    | cons b r => simp [isChain] at h2
  | cons a rest ih =>
    intro l2 p h1 h2
    obtain ⟨hp, n, hn, hrest⟩ := isChain_cons h1
    subst hp
    cases l2 with
    | nil => simp [isChain] at h2
    | cons b r =>
      obtain ⟨hp2, n2, hn2, hrest2⟩ := isChain_cons h2
      simp only [Option.some.injEq] at hp2
      subst hp2
      rw [hn] at hn2
      simp only [Option.some.injEq] at hn2
      subst hn2
      rw [ih r _ hrest hrest2]

theorem isChain_suffix {s : SemState} :
    ∀ (l : List Nat) (p : Ptr), isChain s p l = true → ∀ a ∈ l,
      ∃ l', isChain s (some a) l' = true ∧ l'.length ≤ l.length := by
  intro l
  induction l with
  | nil => intro p _ a ha; simp at ha
  | cons b rest ih =>
    intro p h a ha
    obtain ⟨hp, n, hn, hrest⟩ := isChain_cons h
    subst hp
    rcases List.mem_cons.mp ha with rfl | ha
    · exact ⟨_, h, le_refl _⟩
    · obtain ⟨l', h1, h2⟩ := ih _ hrest a ha
      exact ⟨l', h1, by simp only [List.length_cons]; omega⟩

theorem isChain_nodup {s : SemState} :
    ∀ (l : List Nat) (p : Ptr), isChain s p l = true → l.Nodup := by
  intro l
  induction l with
  | nil => intro _ _; exact List.nodup_nil
  | cons a rest ih =>
    intro p h
    obtain ⟨hp, n, hn, hrest⟩ := isChain_cons h
    subst hp
    refine List.nodup_cons.2 ⟨?_, ih _ hrest⟩
    intro ha
    obtain ⟨l', h1, h2⟩ := isChain_suffix rest _ hrest a ha
    have := isChain_unique _ _ _ h1 h
    subst this
    simp only [List.length_cons] at h2
    omega

theorem symres_statement_local (E : SymEnv) (k a : Nat) (s : SymresState) (n : AstNode)
    (hn : s.node a = some n) (hk : n.kind = AstKind.Local) :
    symres_statement E (k + 1) a s =
      (symres_local E (symres_type E k) a s).map (fun s1 => (1, s1)) := by
  show symres_statement_step E (symres_type E k) (symres_expression E k)
    (symres_statement E k) k a s = _
  simp [symres_statement_step, hn, hk]

theorem symres_statement_flag (E : SymEnv) (k a : Nat) (s : SymresState) (n : AstNode)
    (r : Nat × SymresState) (hn : s.node a = some n) (hk : n.kind ≠ AstKind.Local)
    (h : symres_statement E (k + 1) a s = some r) : r.1 = 0 := by
  have h' : symres_statement_step E (symres_type E k) (symres_expression E k)
    (symres_statement E k) k a s = some r := h
  simp only [symres_statement_step, hn, Option.bind_eq_bind, Option.some_bind] at h'
  split at h' <;>
    first
    | (exact absurd (by assumption) hk)
    | (simp only [Option.map_eq_some'] at h'
       obtain ⟨_, _, rfl⟩ := h'
       rfl)
    | (simp only [Option.some.injEq] at h'
       subst h'
       rfl)

/-- What the part of `symres_local` after the type does to the links, the kinds and
the local list. -/
theorem local_step_frame (E : SymEnv) (s1 : SymresState) (a func : Nat) (n1 f : AstNode)
    (r : Ptr) (sc : Option Nat) (tok : OnyxToken) (nd : Ptr)
    (hn1 : s1.node a = some n1) (hcf : s1.curr_function = some func)
    (hf : (s1.setNode a { n1 with type_node := r }).node func = some f) :
    (∀ t : Trailer, t.read (symbol_introduce E sc tok nd
        ((s1.setNode a { n1 with type_node := r }).setNode func
          { f with locals := f.locals ++ [some a] })) = t.read s1) ∧
    (∀ q, ((symbol_introduce E sc tok nd
        ((s1.setNode a { n1 with type_node := r }).setNode func
          { f with locals := f.locals ++ [some a] })).node q).map AstNode.kind =
        (s1.node q).map AstNode.kind) ∧
    function_locals (symbol_introduce E sc tok nd
        ((s1.setNode a { n1 with type_node := r }).setNode func
          { f with locals := f.locals ++ [some a] })) = function_locals s1 ++ [some a] := by
  refine ⟨?_, ?_, ?_⟩
  · intro t
    have e1 : t.read (symbol_introduce E sc tok nd
        ((s1.setNode a { n1 with type_node := r }).setNode func
          { f with locals := f.locals ++ [some a] })) =
        t.read ((s1.setNode a { n1 with type_node := r }).setNode func
          { f with locals := f.locals ++ [some a] }) := by
      cases t <;> rfl
    rw [e1, read_setNode_keep { f with locals := f.locals ++ [some a] } hf rfl rfl rfl,
      read_setNode_keep { n1 with type_node := r } hn1 rfl rfl rfl]
  · intro q
    have e1 : (symbol_introduce E sc tok nd
        ((s1.setNode a { n1 with type_node := r }).setNode func
          { f with locals := f.locals ++ [some a] })).node q =
        ((s1.setNode a { n1 with type_node := r }).setNode func
          { f with locals := f.locals ++ [some a] }).node q := rfl
    rw [e1, map_setNode_keep AstNode.kind { f with locals := f.locals ++ [some a] } hf rfl,
      map_setNode_keep AstNode.kind { n1 with type_node := r } hn1 rfl]
  · have hl : (s1.node func).map AstNode.locals = some f.locals := by
      rw [← map_setNode_keep AstNode.locals { n1 with type_node := r } hn1 rfl func, hf]
      rfl
    have e1 : function_locals (symbol_introduce E sc tok nd
        ((s1.setNode a { n1 with type_node := r }).setNode func
          { f with locals := f.locals ++ [some a] })) =
        (((((s1.setNode a { n1 with type_node := r }).setNode func
          { f with locals := f.locals ++ [some a] }).node func).map AstNode.locals).getD []) := by
      unfold function_locals
      show (((symbol_introduce E sc tok nd _).deref s1.curr_function).map AstNode.locals).getD []
        = _
      rw [hcf]
      rfl
    have e2 : function_locals s1 = ((s1.node func).map AstNode.locals).getD [] := by
      unfold function_locals
      rw [hcf]
      rfl
    rw [e1, e2, symres_node_setNode_self { f with locals := f.locals ++ [some a] } hf, hl]
    rfl

theorem load_of_read {t : Trailer} {s s1 : SymresState} (h : t.read s1 = t.read s) :
    t.load s1 = t.load s := by
  unfold Trailer.load
  rw [h]

theorem node_of_kind {s s1 : SymresState} {a : Nat} {n : AstNode} (hn : s.node a = some n)
    (h : (s1.node a).map AstNode.kind = (s.node a).map AstNode.kind) :
    ∃ w, s1.node a = some w ∧ w.kind = n.kind := by
  rw [hn] at h
  cases hx : s1.node a with
  | none => simp [hx] at h
  | some w =>
    rw [hx] at h
    simp only [Option.map_some', Option.some.injEq] at h
    exact ⟨w, rfl, h⟩

theorem isChain_of_node {s : SymresState} {a : Nat} {w : AstNode} {l : List Nat}
    (hw : s.node a = some w) (h : isChain s.sem ((Trailer.next a).load s) l = true) :
    isChain s.sem (some a) (a :: l) = true := by
  have hl : (Trailer.next a).load s = w.next := by
    simp [Trailer.load, Trailer.read, hw]
  rw [hl] at h
  have hw' : s.sem.node a = some w := hw
  simp only [isChain, beq_self_eq_true, Bool.true_and, hw']
  exact h

/-- The keep step of the walk. -/
theorem statement_chain_keep (E : SymEnv) (k : Nat) (fuel a : Nat) (t : Trailer)
    (s s1 s' : SymresState) (w : AstNode)
    (hR : symres_statement E (k + 1) a s = some (0, s1)) (hw : s1.node a = some w)
    (h : symres_statement_chain (symres_statement E (k + 1)) fuel w.next (Trailer.next a) s1 =
      some s') :
    symres_statement_chain (symres_statement E (k + 1)) (fuel + 1) (some a) t s = some s' := by
  simp [symres_statement_chain, hR, hw, h]

/-- The removal step of the walk. -/
theorem statement_chain_remove (E : SymEnv) (k : Nat) (fuel a : Nat) (t : Trailer)
    (s s4 s5 s6 s' : SymresState) (w w2 : AstNode)
    (hR : symres_statement E (k + 1) a s = some (1, s4)) (hw : s4.node a = some w)
    (hs5 : t.store w.next s4 = some s5) (hw2 : s5.node a = some w2)
    (hs6 : s6 = s5.setNode a { w2 with next := none })
    (h : symres_statement_chain (symres_statement E (k + 1)) fuel w2.next t s6 = some s') :
    symres_statement_chain (symres_statement E (k + 1)) (fuel + 1) (some a) t s = some s' := by
  subst hs6
  simp [symres_statement_chain, hR, hw, hs5, hw2, h]

/-- The part of `symres_local` after the type. -/
theorem symres_local_eq (E : SymEnv) (T : TypeResolver) (a func : Nat) (s s1 : SymresState)
    (n n1 f n3 : AstNode) (ty : Ptr) (hn : s.node a = some n)
    (hT : T n.type_node s = some (ty, s1)) (hn1 : s1.node a = some n1)
    (hcf : s1.curr_function = some func)
    (hf : (s1.setNode a { n1 with type_node := ty }).node func = some f)
    (hn3 : ((s1.setNode a { n1 with type_node := ty }).setNode func
      { f with locals := f.locals ++ [some a] }).node a = some n3) :
    symres_local E T a s = some (symbol_introduce E s1.curr_scope n3.token (some a)
      ((s1.setNode a { n1 with type_node := ty }).setNode func
        { f with locals := f.locals ++ [some a] })) := by
  have hcf2 : (s1.setNode a { n1 with type_node := ty }).curr_function = some func := hcf
  simp only [symres_local, hn, Option.bind_eq_bind, Option.some_bind, hT, hn1, hcf2, hf, hn3]
  rfl

/-- The walk of `symres_statement_chain` is the walk of the specification whenever that
has a result, and then the chain at the location of the trailer holds the statements
that are no local declarations, the declarations have their links cleared and are on
the local list and among the introduced symbols, in order. -/
theorem statement_chain_spec_sound (E : SymEnv) (k : Nat) (P : List Nat) (T0 : Trailer)
    (hT0 : ∀ x, T0 = Trailer.next x → x ∉ P) :
    ∀ (rest : List Nat) (fuel : Nat) (t : Trailer) (s : SymresState)
      (q : List (Option Nat × Nat) × SymresState),
      (∀ a ∈ rest, a ∈ P) → rest.Nodup →
      (t = T0 ∨ ∃ k0, t = Trailer.next k0 ∧ k0 ∈ P ∧ k0 ∉ rest) →
      isChain s.sem (t.load s) rest = true → rest.length < fuel →
      statement_chain_spec E (symres_type E k) (symres_statement E (k + 1)) P T0 rest t s =
        some q →
      symres_statement_chain (symres_statement E (k + 1)) fuel (t.load s) t s = some q.2 ∧
      isChain q.2.sem (t.load q.2) (rest.filter (fun a => !is_local s a)) = true ∧
      (∀ a ∈ rest, is_local s a = true → (Trailer.next a).read q.2 = some none) ∧
      (∀ x ∈ P, x ∉ rest → t ≠ Trailer.next x →
        (Trailer.next x).read q.2 = (Trailer.next x).read s) ∧
      (t ≠ T0 → T0.read q.2 = T0.read s) ∧
      (∀ x ∈ P, (q.2.node x).map AstNode.kind = (s.node x).map AstNode.kind) ∧
      q.2.curr_function = s.curr_function ∧ q.2.curr_scope = s.curr_scope ∧
      (∃ exts, function_locals q.2 = function_locals s ++ exts ∧
        ((rest.filter (is_local s)).map some).Sublist exts) ∧
      q.1 = (rest.filter (is_local s)).map (fun a => (s.curr_scope, a)) := by
  intro rest
  induction rest with
  | nil =>
    intro fuel t s q _ _ _ hch hfuel h
    simp only [statement_chain_spec, Option.some.injEq] at h
    subst h
    have hp := isChain_nil hch
    cases fuel with
    | zero => simp at hfuel
    | succ f =>
      refine ⟨by rw [hp]; simp [symres_statement_chain], hch, ?_, fun _ _ _ _ => rfl,
        fun _ => rfl, fun _ _ => rfl, rfl, rfl, ⟨[], by simp, by simp⟩, rfl⟩
      intro a ha
      cases ha
  | cons a rest ih =>
    intro fuel t s q hP hnd hT hch hfuel h
    obtain ⟨hload, n, hn, hrest⟩ := isChain_cons hch
    have hn' : s.node a = some n := hn
    have haP : a ∈ P := hP a (List.mem_cons_self _ _)
    have hrP : ∀ x ∈ rest, x ∈ P := fun x hx => hP x (List.mem_cons_of_mem _ hx)
    obtain ⟨ha_rest, hnd'⟩ := List.nodup_cons.1 hnd
    have hT0ne : ∀ x ∈ P, T0 ≠ Trailer.next x := fun x hx hc => hT0 x hc hx
    have hne : ∀ x ∈ a :: rest, t ≠ Trailer.next x := by
      intro x hx hc
      rcases hT with hT | ⟨k0, hk0, _, hk0r⟩
      · exact hT0ne x (hP x hx) (hT ▸ hc)
      · rw [hk0] at hc
        injection hc with hc
        subst hc
        exact hk0r hx
    have hT' : t = T0 ∨ ∃ k0, t = Trailer.next k0 ∧ k0 ∈ P ∧ k0 ∉ rest := by
      rcases hT with hT | ⟨k0, hk0, hk0P, hk0r⟩
      · exact Or.inl hT
      · exact Or.inr ⟨k0, hk0, hk0P, fun hx => hk0r (List.mem_cons_of_mem _ hx)⟩
    have hnext_s : (Trailer.next a).read s = some n.next := by
      show (s.node a).map AstNode.next = _
      rw [hn']
      rfl
    cases fuel with
    | zero => simp at hfuel
    | succ fuel =>
      have hfuel' : rest.length < fuel := by
        simp only [List.length_cons] at hfuel
        omega
      simp only [statement_chain_spec, hn'] at h
      by_cases hk : n.kind = AstKind.Local
      · rw [if_pos hk] at h
        have hlocal_a : is_local s a = true := by simp [is_local, hn', hk]
        split at h
        · cases h
        · rename_i r hTy
          obtain ⟨ty, s1⟩ := r
          split at h
          · rename_i hc
            simp only [Bool.and_eq_true, beq_iff_eq] at hc
            obtain ⟨hframe, hlocs⟩ := hc
            obtain ⟨fT0, fnext, fkind, fcf, fcs⟩ := chain_frame_spec hframe
            split at h
            · cases h
            · rename_i n1 hn1
              cases hcf : s1.curr_function with
              | none =>
                simp only [hcf] at h
                cases h
              | some func =>
                simp only [hcf, Option.getD_some] at h
                split at h
                · cases h
                · rename_i f hf
                  have hf' : (s1.setNode a { n1 with type_node := ty }).node func = some f := hf
                  split at h
                  · cases h
                  · rename_i n3 hn3
                    split at h
                    · cases h
                    · rename_i s5 hs5
                      split at h
                      · cases h
                      · rename_i s6 hs6
                        split at h
                        · cases h
                        · rename_i q' hq'
                          simp only [Option.some.injEq] at h
                          subst h
                          have hframe4 := local_step_frame E s1 a func n1 f ty s1.curr_scope n3.token
                            (some a) hn1 hcf hf'
                          have hlocal := symres_local_eq E (symres_type E k) a func s s1 n n1 f n3
                            ty hn' hTy hn1 hcf hf' hn3
                          obtain ⟨s4, hs4⟩ : ∃ s4, s4 = symbol_introduce E s1.curr_scope n3.token
                              (some a) ((s1.setNode a { n1 with type_node := ty }).setNode func
                                { f with locals := f.locals ++ [some a] }) := ⟨_, rfl⟩
                          have hs5' : t.store n3.next s4 = some s5 := by
                            rw [hs4]
                            exact hs5
                          have hn4 : s4.node a = some n3 := by
                            rw [hs4]
                            exact hn3
                          have hcf4 : s4.curr_function = s1.curr_function := by
                            rw [hs4]
                            rfl
                          have hcs4 : s4.curr_scope = s1.curr_scope := by
                            rw [hs4]
                            rfl
                          rw [← hs4] at hframe4 hlocal
                          obtain ⟨g_read, g_kind, g_locals⟩ := hframe4
                          have hRloc : symres_statement E (k + 1) a s = some (1, s4) := by
                            rw [symres_statement_local E k a s n hn' hk, hlocal]
                            rfl
                          have hn3next : n3.next = n.next := by
                            have h2 : (Trailer.next a).read s4 = some n3.next := by
                              show (s4.node a).map AstNode.next = _
                              rw [hn4]
                              rfl
                            rw [g_read, fnext a haP, hnext_s] at h2
                            exact (Option.some.inj h2).symm
                          obtain ⟨w2, hw2, hs6eq⟩ := store_next_eq hs6
                          have hta : t ≠ Trailer.next a := hne a (List.mem_cons_self _ _)
                          have hw2next : w2.next = n.next := by
                            have h2 : (Trailer.next a).read s5 = some w2.next := by
                              show (s5.node a).map AstNode.next = _
                              rw [hw2]
                              rfl
                            rw [read_store hs5' (Trailer.next a), if_neg (Ne.symm hta), g_read,
                              fnext a haP, hnext_s] at h2
                            exact (Option.some.inj h2).symm
                          have hread6 : t.read s6 = some n.next := by
                            rw [read_store hs6 t, if_neg hta, read_store hs5' t, if_pos rfl,
                              hn3next]
                          have hload6 : t.load s6 = n.next := by
                            simp [Trailer.load, hread6]
                          have hstep_next : ∀ x ∈ P, x ≠ a → t ≠ Trailer.next x →
                              (Trailer.next x).read s6 = (Trailer.next x).read s := by
                            intro x hxP hxa hxt
                            rw [read_store hs6 (Trailer.next x), if_neg (by simpa using hxa),
                              read_store hs5' (Trailer.next x), if_neg (Ne.symm hxt), g_read,
                              fnext x hxP]
                          have hstep_T0 : t ≠ T0 → T0.read s6 = T0.read s := by
                            intro htT
                            rw [read_store hs6 T0, if_neg (hT0ne a haP), read_store hs5' T0,
                              if_neg (Ne.symm htT), g_read, fT0]
                          have hstep_kind : ∀ x ∈ P,
                              (s6.node x).map AstNode.kind = (s.node x).map AstNode.kind := by
                            intro x hx
                            rw [kind_store hs6, kind_store hs5', g_kind, fkind x hx]
                          have hstep_cf : s6.curr_function = s.curr_function :=
                            (curr_store hs6).1.trans ((curr_store hs5').1.trans (hcf4.trans fcf))
                          have hstep_cs : s6.curr_scope = s.curr_scope :=
                            (curr_store hs6).2.trans ((curr_store hs5').2.trans (hcs4.trans fcs))
                          have hstep_locals : function_locals s6 = function_locals s ++ [some a] := by
                            rw [locals_store hs6, locals_store hs5', g_locals, hlocs]
                          have hrne : ∀ x ∈ rest, x ≠ a := fun x hx hc => ha_rest (hc ▸ hx)
                          have hch6 : isChain s6.sem (t.load s6) rest = true := by
                            rw [hload6, isChain_read_congr rest n.next (fun x hx =>
                              hstep_next x (hrP x hx) (hrne x hx)
                                (hne x (List.mem_cons_of_mem _ hx)))]
                            exact hrest
                          obtain ⟨c1, c2, c3, c4, c5, c6, c7, c8, ⟨exts, c9, c9'⟩, c10⟩ :=
                            ih fuel t s6 q' hrP hnd' hT' hch6 hfuel' hq'
                          have hfilter1 : rest.filter (fun x => !is_local s6 x) =
                              rest.filter (fun x => !is_local s x) :=
                            List.filter_congr (fun x hx => by
                              rw [is_local_congr (hstep_kind x (hrP x hx))])
                          have hfilter2 : rest.filter (is_local s6) = rest.filter (is_local s) :=
                            List.filter_congr (fun x hx => is_local_congr (hstep_kind x (hrP x hx)))
                          refine ⟨?_, ?_, ?_, ?_, ?_, ?_, c7.trans hstep_cf, c8.trans hstep_cs,
                            ?_, ?_⟩
                          · rw [hload]
                            rw [hload6, ← hw2next] at c1
                            exact statement_chain_remove E k fuel a t s s4 s5 s6 q'.2 n3 w2 hRloc
                              hn4 hs5' hw2 hs6eq c1
                          · rw [List.filter_cons_of_neg (by simp [hlocal_a]), ← hfilter1]
                            exact c2
                          · intro x hx hl
                            rcases List.mem_cons.1 hx with rfl | hx
                            · refine (c4 x haP ha_rest hta).trans ?_
                              rw [read_store hs6 (Trailer.next x), if_pos rfl]
                            · exact c3 x hx (by
                                rw [is_local_congr (hstep_kind x (hrP x hx))]
                                exact hl)
                          · intro x hxP hx hxt
                            exact (c4 x hxP (fun hm => hx (List.mem_cons_of_mem _ hm)) hxt).trans
                              (hstep_next x hxP (fun hc => hx (hc ▸ List.mem_cons_self _ _)) hxt)
                          · intro htT
                            exact (c5 htT).trans (hstep_T0 htT)
                          · intro x hx
                            exact (c6 x hx).trans (hstep_kind x hx)
                          · refine ⟨some a :: exts, ?_, ?_⟩
                            · show function_locals q'.2 = _
                              rw [c9, hstep_locals, List.append_assoc]
                              rfl
                            · rw [List.filter_cons_of_pos hlocal_a, List.map_cons, ← hfilter2]
                              exact List.Sublist.cons₂ _ c9'
                          · show (s1.curr_scope, a) :: q'.1 = _
                            rw [c10, List.filter_cons_of_pos hlocal_a, List.map_cons, hfilter2,
                              hstep_cs, fcs]
          · cases h
      · rw [if_neg hk] at h
        have hlocal_a : is_local s a = false := by simp [is_local, hn', hk]
        split at h
        · cases h
        · rename_i r hR
          obtain ⟨r1, s1⟩ := r
          split at h
          · rename_i hc
            simp only [Bool.and_eq_true, decide_eq_true_eq] at hc
            obtain ⟨⟨hr0, hframe⟩, hpre⟩ := hc
            subst hr0
            obtain ⟨fT0, fnext, fkind, fcf, fcs⟩ := chain_frame_spec hframe
            obtain ⟨w, hw, _⟩ := node_of_kind hn' (fkind a haP)
            have hwnext : w.next = n.next := by
              have := fnext a haP
              rw [hnext_s] at this
              have h2 : (Trailer.next a).read s1 = some w.next := by
                show (s1.node a).map AstNode.next = _
                rw [hw]
                rfl
              rw [h2] at this
              exact Option.some.inj this
            have hload1 : (Trailer.next a).load s1 = n.next := by
              simp [Trailer.load, Trailer.read, hw, hwnext]
            have hch1 : isChain s1.sem ((Trailer.next a).load s1) rest = true := by
              rw [hload1, isChain_read_congr rest n.next (fun x hx => fnext x (hrP x hx))]
              exact hrest
            obtain ⟨c1, c2, c3, c4, c5, c6, c7, c8, ⟨exts, c9, c9'⟩, c10⟩ :=
              ih fuel (Trailer.next a) s1 q hrP hnd' (Or.inr ⟨a, rfl, haP, ha_rest⟩) hch1
                hfuel' h
            have hfilter1 : rest.filter (fun x => !is_local s1 x) =
                rest.filter (fun x => !is_local s x) :=
              List.filter_congr (fun x hx => by rw [is_local_congr (fkind x (hrP x hx))])
            have hfilter2 : rest.filter (is_local s1) = rest.filter (is_local s) :=
              List.filter_congr (fun x hx => is_local_congr (fkind x (hrP x hx)))
            have htread : t.read q.2 = t.read s := by
              rcases hT with hT | ⟨k0, hk0, hk0P, hk0r⟩
              · subst hT
                exact (c5 (fun hc => hT0ne a haP hc.symm)).trans fT0
              · subst hk0
                refine (c4 k0 hk0P (fun hx => hk0r (List.mem_cons_of_mem _ hx)) ?_).trans
                  (fnext k0 hk0P)
                intro hc
                injection hc with hc
                subst hc
                exact hk0r (List.mem_cons_self _ _)
            obtain ⟨w', hw', _⟩ := node_of_kind hw (c6 a haP)
            refine ⟨?_, ?_, ?_, ?_, ?_, ?_, c7.trans fcf, c8.trans fcs, ?_, ?_⟩
            · rw [hload]
              rw [hload1, ← hwnext] at c1
              exact statement_chain_keep E k fuel a t s s1 q.2 w hR hw c1
            · rw [load_of_read htread, hload, List.filter_cons_of_pos (by simp [hlocal_a]),
                ← hfilter1]
              exact isChain_of_node hw' c2
            · intro x hx hl
              rcases List.mem_cons.1 hx with rfl | hx
              · rw [hlocal_a] at hl
                cases hl
              · exact c3 x hx (by rw [is_local_congr (fkind x (hrP x hx))]; exact hl)
            · intro x hxP hx _
              refine (c4 x hxP (fun hm => hx (List.mem_cons_of_mem _ hm)) ?_).trans (fnext x hxP)
              intro hc
              injection hc with hc
              subst hc
              exact hx (List.mem_cons_self _ _)
            · intro _
              exact (c5 (fun hc => hT0ne a haP hc.symm)).trans fT0
            · intro x hx
              exact (c6 x hx).trans (fkind x hx)
            · obtain ⟨e1, he1⟩ := List.isPrefixOf_iff_prefix.1 hpre
              refine ⟨e1 ++ exts, by rw [c9, ← he1, List.append_assoc], ?_⟩
              rw [List.filter_cons_of_neg (by simp [hlocal_a]), ← hfilter2]
              exact List.sublist_append_of_sublist_right c9'
            · rw [c10, List.filter_cons_of_neg (by simp [hlocal_a]), hfilter2, fcs]
          · cases h

/-- C39: for a statement chain `l` that starts at the pointer `p` held by the location
`trailer`, when the walk the specification describes has a result (the resolvers return,
and resolving a statement leaves the links and kinds of the statements of the chain, the
head location, the current function and the current scope as they are and takes nothing
from the local list), `symres_statement_chain` returns with fuel for the chain, and in
its store the chain at the head location consists of exactly the statements of `l` that
are no local declarations, in their order; every local declaration of `l` has its `next`
link cleared; the declarations introduced by `symbol_introduce` are the local
declarations of `l`, in order, each into the current scope; and the local list of the
current function is what it was followed by entries among which the local declarations
of `l` occur in their order. -/
theorem symres_statement_chain_removes_locals (E : SymEnv) (k fuel : Nat) (l : List Nat)
    (p : Ptr) (trailer : Trailer) (s : SymresState)
    (q : List (Option Nat × Nat) × SymresState)
    (hhead : trailer.load s = p) (hch : isChain s.sem p l = true)
    (htr : ∀ x, trailer = Trailer.next x → x ∉ l) (hfuel : l.length < fuel)
    (hspec : statement_chain_spec E (symres_type E k) (symres_statement E (k + 1)) l trailer
      l trailer s = some q) :
    symres_statement_chain (symres_statement E (k + 1)) fuel p trailer s = some q.2 ∧
    isChain q.2.sem (trailer.load q.2) (l.filter (fun a => !is_local s a)) = true ∧
    (∀ a ∈ l, is_local s a = true → (q.2.node a).map AstNode.next = some none) ∧
    q.1 = (l.filter (is_local s)).map (fun a => (s.curr_scope, a)) ∧
    q.2.curr_function = s.curr_function ∧
    ∃ exts, function_locals q.2 = function_locals s ++ exts ∧
      ((l.filter (is_local s)).map some).Sublist exts := by
  subst hhead
  obtain ⟨c1, c2, c3, _, _, _, c7, _, c9, c10⟩ :=
    statement_chain_spec_sound E k l trailer htr l fuel trailer s q (fun _ h => h)
      (isChain_nodup l _ hch) (Or.inl rfl) hch hfuel hspec
  exact ⟨c1, c2, c3, c10, c7, c9⟩

set_option maxRecDepth 8192 in
theorem symres_statement_chain_removes_locals_witness :
    symres_statement_chain (symres_statement sampleSymEnv 2) 5 (some 2) (Trailer.body 1)
      localChainState = some localChainResolved.2 ∧
    isChain localChainResolved.2.sem ((Trailer.body 1).load localChainResolved.2)
      ([2, 3, 4, 5].filter (fun a => !is_local localChainState a)) = true ∧
    (∀ a ∈ [2, 3, 4, 5], is_local localChainState a = true →
      (localChainResolved.2.node a).map AstNode.next = some none) ∧
    localChainResolved.1 = ([2, 3, 4, 5].filter (is_local localChainState)).map
      (fun a => (localChainState.curr_scope, a)) ∧
    localChainResolved.2.curr_function = localChainState.curr_function ∧
    ∃ exts, function_locals localChainResolved.2 = function_locals localChainState ++ exts ∧
      (([2, 3, 4, 5].filter (is_local localChainState)).map some).Sublist exts :=
  symres_statement_chain_removes_locals sampleSymEnv 1 5 [2, 3, 4, 5] (some 2) (Trailer.body 1)
    localChainState localChainResolved (by rfl) (by rfl) (by simp) (by decide) (by rfl)

/-- The sample chain after the walk: the body of the block is the `break`, which is the
last statement; the local list of the function holds `x`, `y` and `z`. -/
theorem localChainResolved_eval :
    (Trailer.body 1).load localChainResolved.2 = some 3 ∧
    [2, 3, 4, 5].filter (fun a => !is_local localChainState a) = [3] ∧
    (localChainResolved.2.node 3).map AstNode.next = some none ∧
    function_locals localChainResolved.2 = [some 2, some 4, some 5] ∧
    localChainResolved.1 = [(some 0, 2), (some 0, 4), (some 0, 5)] := by
  decide

end Onyx
